import Mathlib

/-!
MLFQ scheduler of the xv6 kernel (project1/xv6-public/proc.c)

A shallow embedding of the queue table, the lock slot and the process
registry of `proc.c`, followed by theorems about them.

Conventions of the embedding.

* C `int` values are `Int`; no value in this development comes near the
  32-bit range, so no wrap-around is modelled.
* `struct proc *` is `Ptr = Option Nat`: `none` is the null pointer and
  `some i` is `&ptable.proc[i]`.
* Arrays are lists.  Reading or writing outside an array, and dereferencing a
  null pointer, is undefined behaviour in C; the embedding reports it as a
  `Fault` instead of inventing a value.
* A C loop is a structurally recursive function that carries the loop
  variable and re-tests the loop condition every round.  Its last argument is
  a bound on the number of rounds; exhausting the bound while the condition
  still holds is reported as `Fault.outOfFuel`.
* Spinlocks (`acquire`/`release`), console output and the virtual-memory and
  file-system collaborators do not change the data modelled here and are left
  out; where an external call can fail (`kalloc`, `copyuvm`) its success is an
  explicit Boolean argument.
-/

namespace Xv6

/-! ## Data model -/

/-- Compile-time constants that `proc.c` takes from `param.h` and `proc.h`,
which are not among the sources: the number of process slots (also the length
of every `procsQueue` array), the number of priority values, the credential of
the scheduler lock and the time quantum of a queue level. -/
structure Param where
  NPROC : Nat
  MAXPRIORITY : Int
  SLPASSWORD : Int
  TIME_QUANTUM : Int → Int

/-- Modelled from the spec: the enumeration of queue levels in `proc.h` is not
among the sources.  The queue table has the three levels the spec names; the
code admits at the top with `MLFQenqueue(p, 0)`, boosts the levels
`MIDDLE .. MAXQLEVEL - 1` and treats `MAXQLEVEL - 1` as the lowest one. -/
def MAXQLEVEL : Int := 3

/-- Modelled from the spec: topmost queue level (see `MAXQLEVEL`). -/
def TOP : Int := 0

/-- Modelled from the spec: middle queue level (see `MAXQLEVEL`). -/
def MIDDLE : Int := 1

/-- Modelled from the spec: lowest queue level (see `MAXQLEVEL`). -/
def BOTTOM : Int := 2

/-- The `enum procstate` of xv6. -/
inductive procstate where
  | UNUSED
  | EMBRYO
  | SLEEPING
  | RUNNABLE
  | RUNNING
  | ZOMBIE
deriving DecidableEq, Repr

/-- The two values stored in `proc.isLock`. -/
inductive lockstate where
  | UNLOCKED
  | LOCKED
deriving DecidableEq, Repr

/-- A `struct proc *`: null, or the address of a slot of `ptable.proc`. -/
abbrev Ptr := Option Nat

/-- A wait channel (`void *chan`): null, the address of a process slot, the
address of `ticks`, or any other kernel address. -/
inductive Chan where
  | null
  | slot (i : Nat)
  | ticksAddr
  | other (a : Nat)
deriving DecidableEq, Repr

/-- The wait channel a process pointer denotes when it is passed as `void *`. -/
def Chan.ofPtr : Ptr → Chan
  | none => Chan.null
  | some i => Chan.slot i

/-- The scheduling-relevant fields of `struct proc`. -/
structure proc where
  state : procstate
  pid : Int
  parent : Ptr
  chan : Chan
  killed : Int
  qLevel : Int
  priority : Int
  execTime : Int
  arrivedTime : Int
  isLock : lockstate
deriving DecidableEq, Repr

/-- One queue level (`struct mlfQueue`): the array `procsQueue` and the
occupancy counter `rear`. -/
structure mlfQueue where
  procsQueue : List Ptr
  rear : Int
deriving DecidableEq, Repr

/-- The result triple that `findFromQueueByPid` writes (`struct qLocation`). -/
structure qLocation where
  qLevel : Int
  qIndex : Int
  qRear : Int
deriving DecidableEq, Repr

/-- Where the per-CPU scheduler is suspended while a process runs: nowhere
(it is at the top of its `for (;;)` loop), in the `swtch` of the lock branch,
or in the `swtch` of the MLFQ branch with the loop variable `qLevel`. -/
inductive SchedCtx where
  | loopTop
  | inLock
  | inMlfq (qLevel : Int)
deriving DecidableEq, Repr

/-- The kernel state `proc.c` works on: `ptable.proc`, `qtable.mlfQueue`,
`ltable.proc`, `ticks`, `nextpid`, `initproc`, and for the one CPU modelled
its `c->proc` together with the point where its scheduler is suspended. -/
structure Kernel where
  ptable : List proc
  qtable : List mlfQueue
  ltable : Ptr
  ticks : Int
  nextpid : Int
  initproc : Ptr
  cproc : Ptr
  sctx : SchedCtx
deriving DecidableEq, Repr

/-- What can go wrong while running the C code: a null pointer is
dereferenced, a `procsQueue` array is indexed outside its bounds, a non-null
pointer that is not the address of a process slot is dereferenced, the kernel
panics, or the round bound of a loop is exhausted. -/
inductive Fault where
  | nullDeref
  | outOfBounds
  | badPointer
  | halt
  | outOfFuel
deriving DecidableEq, Repr

/-- Result of running a piece of C code: a value, or the fault it ran into. -/
inductive Outcome (α : Type) where
  | ok (a : α)
  | fault (f : Fault)
deriving DecidableEq, Repr

/-- Sequencing of fallible code. -/
def Outcome.bind {α β : Type} : Outcome α → (α → Outcome β) → Outcome β
  | Outcome.ok a, f => f a
  | Outcome.fault e, _ => Outcome.fault e

instance : Monad Outcome where
  pure := Outcome.ok
  bind := Outcome.bind

/-- Read `a[i]` of an array of process pointers. -/
def rdQ (a : List Ptr) (i : Int) : Outcome Ptr :=
  if 0 ≤ i then
    match a[i.toNat]? with
    | some e => Outcome.ok e
    | none => Outcome.fault Fault.outOfBounds
  else Outcome.fault Fault.outOfBounds

/-- Write `a[i] = v` in an array of process pointers. -/
def wrQ (a : List Ptr) (i : Int) (v : Ptr) : Outcome (List Ptr) :=
  if 0 ≤ i ∧ i.toNat < a.length then Outcome.ok (a.set i.toNat v)
  else Outcome.fault Fault.outOfBounds

/-- The process a pointer points to (`*p`). -/
def Kernel.deref (s : Kernel) (p : Ptr) : Outcome proc :=
  match p with
  | none => Outcome.fault Fault.nullDeref
  | some i =>
    match s.ptable[i]? with
    | some x => Outcome.ok x
    | none => Outcome.fault Fault.badPointer

/-- Overwrite the process slot `i`. -/
def Kernel.store (s : Kernel) (i : Nat) (x : proc) : Kernel :=
  { s with ptable := s.ptable.set i x }

/-- The queue level `qtable.mlfQueue[l]`; every use in `proc.c` has
`0 ≤ l < MAXQLEVEL`. -/
def Kernel.level (s : Kernel) (l : Int) : mlfQueue :=
  s.qtable.getD l.toNat ⟨[], 0⟩

/-- Overwrite the queue level `l`. -/
def Kernel.setLevel (s : Kernel) (l : Int) (q : mlfQueue) : Kernel :=
  { s with qtable := s.qtable.set l.toNat q }

/-- The entries of a level that its counter covers: `procsQueue[0 .. rear-1]`. -/
def mlfQueue.entries (q : mlfQueue) : List Ptr :=
  q.procsQueue.take q.rear.toNat

/-- Layout of a state: `NPROC` process slots, `MAXQLEVEL` levels, and
`procsQueue` arrays of `NPROC` elements. -/
def Kernel.Layout (c : Param) (s : Kernel) : Prop :=
  s.ptable.length = c.NPROC ∧ s.qtable.length = 3 ∧
    ∀ q ∈ s.qtable, q.procsQueue.length = c.NPROC

instance (c : Param) (s : Kernel) : Decidable (s.Layout c) := by
  unfold Kernel.Layout; infer_instance

/-! ## Queue table (`proc.c` lines 153-368) -/

/-- `MLFQenqueue`: append `p` at the tail of level `qLevel`.  A null `p`
passes the `p != 0 && p->state != RUNNABLE` test and is then dereferenced by
`p->qLevel = qLevel`. -/
def MLFQenqueue (c : Param) (s : Kernel) (p : Ptr) (qLevel : Int) : Outcome (Int × Kernel) :=
  if qLevel < 0 ∨ qLevel ≥ MAXQLEVEL then Outcome.ok (-3, s)
  else if (s.level qLevel).rear ≥ c.NPROC then Outcome.ok (-2, s)
  else
    match p with
    | none => Outcome.fault Fault.nullDeref
    | some i => do
      let x ← s.deref (some i)
      if x.state ≠ procstate.RUNNABLE then Outcome.ok (-1, s)
      else do
        let s1 := s.store i { x with qLevel := qLevel }
        let q := s1.level qLevel
        let a ← wrQ q.procsQueue q.rear (some i)
        Outcome.ok (0, s1.setLevel qLevel ⟨a, q.rear + 1⟩)

/-- The loop `for (int i = rear - 1; i > 0; i--) procsQueue[i + 1] = procsQueue[i];`
of `MLFQfrontEnqueue`, entered with the loop variable `i`. -/
def shiftBack (a : List Ptr) (i : Int) : Nat → Outcome (List Ptr)
  | 0 => if i > 0 then Outcome.fault Fault.outOfFuel else Outcome.ok a
  | n + 1 =>
    if i > 0 then do
      let e ← rdQ a i
      let a1 ← wrQ a (i + 1) e
      shiftBack a1 (i - 1) n
    else Outcome.ok a

/-- `MLFQfrontEnqueue`: insert `p` at index 0 of level `qLevel`. -/
def MLFQfrontEnqueue (c : Param) (s : Kernel) (p : Ptr) (qLevel : Int) : Outcome (Int × Kernel) :=
  if qLevel < 0 ∨ qLevel ≥ MAXQLEVEL then Outcome.ok (-3, s)
  else if (s.level qLevel).rear ≥ c.NPROC then Outcome.ok (-2, s)
  else
    match p with
    | none => do
      let q := s.level qLevel
      let _ ← shiftBack q.procsQueue (q.rear - 1) (q.rear - 1).toNat
      Outcome.fault Fault.nullDeref
    | some i => do
      let x ← s.deref (some i)
      if x.state ≠ procstate.RUNNABLE then Outcome.ok (-1, s)
      else do
        let q := s.level qLevel
        let a1 ← shiftBack q.procsQueue (q.rear - 1) (q.rear - 1).toNat
        let s1 := s.store i { x with qLevel := qLevel }
        let a2 ← wrQ a1 0 (some i)
        Outcome.ok (0, s1.setLevel qLevel ⟨a2, q.rear + 1⟩)

/-- The loop `for (i = ...; i < rear - 1; i++) procsQueue[i] = procsQueue[i + 1];`
that `MLFQdequeue` and `MLFQdeleteByPid` use to close a gap, entered with the
loop variable `i`. -/
def shiftFront (a : List Ptr) (rear : Int) (i : Int) : Nat → Outcome (List Ptr)
  | 0 => if i < rear - 1 then Outcome.fault Fault.outOfFuel else Outcome.ok a
  | n + 1 =>
    if i < rear - 1 then do
      let e ← rdQ a (i + 1)
      let a1 ← wrQ a i e
      shiftFront a1 rear (i + 1) n
    else Outcome.ok a

/-- The inner loop of the priority scan,
`for (int i = 0; i < rear; i++) if (procsQueue[i]->priority == iterPrior &&
procsQueue[i]->arrivedTime < minArrivedTime) { dequeueIndex = i; break; }`,
entered with the loop variable `i`; the result is the value of `dequeueIndex`
after the loop. -/
def scanBand (s : Kernel) (iterPrior minArrivedTime dequeueIndex : Int) (i : Int) :
    Nat → Outcome Int
  | 0 => if i < (s.level BOTTOM).rear then Outcome.fault Fault.outOfFuel
         else Outcome.ok dequeueIndex
  | n + 1 =>
    if i < (s.level BOTTOM).rear then do
      let e ← rdQ (s.level BOTTOM).procsQueue i
      let x ← s.deref e
      if x.priority = iterPrior ∧ x.arrivedTime < minArrivedTime then Outcome.ok i
      else scanBand s iterPrior minArrivedTime dequeueIndex (i + 1) n
    else Outcome.ok dequeueIndex

/-- The outer loop of the priority scan,
`for (iterPrior = 0; iterPrior < MAXPRIORITY && dequeueIndex == -1; iterPrior++)`,
entered with the loop variable `iterPrior`; the result is the final
`dequeueIndex`. -/
def scanPrior (c : Param) (s : Kernel) (iterPrior dequeueIndex : Int) : Nat → Outcome Int
  | 0 => if iterPrior < c.MAXPRIORITY ∧ dequeueIndex = -1 then Outcome.fault Fault.outOfFuel
         else Outcome.ok dequeueIndex
  | n + 1 =>
    if iterPrior < c.MAXPRIORITY ∧ dequeueIndex = -1 then do
      let h ← rdQ (s.level BOTTOM).procsQueue 0
      let hx ← s.deref h
      let minArrivedTime := hx.arrivedTime
      let d1 ← scanBand s iterPrior minArrivedTime dequeueIndex 0 (s.level BOTTOM).rear.toNat
      let h2 ← rdQ (s.level BOTTOM).procsQueue 0
      let hx2 ← s.deref h2
      let d2 := if minArrivedTime = hx2.arrivedTime then 0 else d1
      scanPrior c s (iterPrior + 1) d2 n
    else Outcome.ok dequeueIndex

/-- `MLFQfirstProc`: the process `MLFQdequeue` would return, without removing it. -/
def MLFQfirstProc (c : Param) (s : Kernel) (qLevel : Int) : Outcome Ptr :=
  if qLevel < 0 ∨ qLevel ≥ MAXQLEVEL then Outcome.ok none
  else if (s.level qLevel).rear = 0 then Outcome.ok none
  else if qLevel < MAXQLEVEL - 1 then rdQ (s.level qLevel).procsQueue 0
  else do
    let dequeueIndex ← scanPrior c s 0 (-1) c.MAXPRIORITY.toNat
    rdQ (s.level BOTTOM).procsQueue dequeueIndex

/-- `MLFQdequeue`: remove and return the head of a non-lowest level, or the
entry the priority scan chooses at the lowest level. -/
def MLFQdequeue (c : Param) (s : Kernel) (qLevel : Int) : Outcome (Ptr × Kernel) :=
  if qLevel < 0 ∨ qLevel ≥ MAXQLEVEL then Outcome.ok (none, s)
  else if (s.level qLevel).rear = 0 then Outcome.ok (none, s)
  else if qLevel < MAXQLEVEL - 1 then do
    let q := s.level qLevel
    let p ← rdQ q.procsQueue 0
    let a1 ← shiftFront q.procsQueue q.rear 0 (q.rear - 1).toNat
    let a2 ← wrQ a1 (q.rear - 1) none
    Outcome.ok (p, s.setLevel qLevel ⟨a2, q.rear - 1⟩)
  else do
    let q := s.level BOTTOM
    let dequeueIndex ← scanPrior c s 0 (-1) c.MAXPRIORITY.toNat
    let p ← rdQ q.procsQueue dequeueIndex
    let a1 ← shiftFront q.procsQueue q.rear dequeueIndex (q.rear - 1 - dequeueIndex).toNat
    let a2 ← wrQ a1 (q.rear - 1) none
    Outcome.ok (p, s.setLevel BOTTOM ⟨a2, q.rear - 1⟩)

/-- The inner loop of `findFromQueueByPid` over the entries of one level,
entered with the loop variable `qIndex`; the result is the index found. -/
def findInLevel (s : Kernel) (pid qLevel : Int) (qIndex : Int) : Nat → Outcome (Option Int)
  | 0 => if qIndex < (s.level qLevel).rear then Outcome.fault Fault.outOfFuel
         else Outcome.ok none
  | n + 1 =>
    if qIndex < (s.level qLevel).rear then do
      let e ← rdQ (s.level qLevel).procsQueue qIndex
      let x ← s.deref e
      if pid = x.pid then Outcome.ok (some qIndex)
      else findInLevel s pid qLevel (qIndex + 1) n
    else Outcome.ok none

/-- The outer loop of `findFromQueueByPid` over the levels, entered with the
loop variable `qLevel`; the result is the location found. -/
def findLevels (s : Kernel) (pid : Int) (qLevel : Int) : Nat → Outcome (Option qLocation)
  | 0 => if qLevel < MAXQLEVEL then Outcome.fault Fault.outOfFuel else Outcome.ok none
  | n + 1 =>
    if qLevel < MAXQLEVEL then do
      let r ← findInLevel s pid qLevel 0 (s.level qLevel).rear.toNat
      match r with
      | some qIndex => Outcome.ok (some ⟨qLevel, qIndex, (s.level qLevel).rear⟩)
      | none => findLevels s pid (qLevel + 1) n
    else Outcome.ok none

/-- `findFromQueueByPid`: the first queue entry with the given pid, in
(level, index) order.  Returns the status and the contents of `*qLoc`. -/
def findFromQueueByPid (s : Kernel) (pid : Int) (qLoc : qLocation) : Outcome (Int × qLocation) := do
  let r ← findLevels s pid 0 MAXQLEVEL.toNat
  match r with
  | some l => Outcome.ok (0, l)
  | none => Outcome.ok (-1, qLoc)

/-- `MLFQdeleteByPid`: remove the entry `findFromQueueByPid` finds. -/
def MLFQdeleteByPid (s : Kernel) (pid : Int) : Outcome (Int × Kernel) := do
  let (r, qLoc) ← findFromQueueByPid s pid ⟨0, 0, 0⟩
  if r = -1 then Outcome.ok (-1, s)
  else do
    let q := s.level qLoc.qLevel
    let a1 ← shiftFront q.procsQueue qLoc.qRear qLoc.qIndex (qLoc.qRear - 1 - qLoc.qIndex).toNat
    let a2 ← wrQ a1 (q.rear - 1) none
    Outcome.ok (0, s.setLevel qLoc.qLevel ⟨a2, q.rear - 1⟩)

/-- `increaseExecTime`: one more tick consumed by `p`. -/
def increaseExecTime (s : Kernel) (p : Ptr) : Outcome Kernel :=
  match p with
  | none => Outcome.fault Fault.nullDeref
  | some i => do
    let x ← s.deref (some i)
    Outcome.ok (s.store i { x with execTime := x.execTime + 1 })

/-! ## Process registry and lifecycle (`proc.c` lines 94-142, 379-594, 805-940) -/

/-- The scan `for (p = ptable.proc; p < &ptable.proc[NPROC]; p++) if (p->state == UNUSED) goto found;`
of `allocproc`, entered at slot `i`. -/
def allocScan (c : Param) (s : Kernel) (i : Nat) : Nat → Outcome Ptr
  | 0 => if i < c.NPROC then Outcome.fault Fault.outOfFuel else Outcome.ok none
  | n + 1 =>
    if i < c.NPROC then do
      let x ← s.deref (some i)
      if x.state = procstate.UNUSED then Outcome.ok (some i)
      else allocScan c s (i + 1) n
    else Outcome.ok none

/-- `allocproc`: claim the first UNUSED slot.  `kallocOk` tells whether the
kernel stack could be allocated. -/
def allocproc (c : Param) (s : Kernel) (kallocOk : Bool) : Outcome (Ptr × Kernel) := do
  let r ← allocScan c s 0 c.NPROC
  match r with
  | none => Outcome.ok (none, s)
  | some i => do
    let x ← s.deref (some i)
    let pid := s.nextpid
    let s1 := { s.store i { x with state := procstate.EMBRYO, pid := pid, arrivedTime := pid,
                                   priority := c.MAXPRIORITY - 1, execTime := 0,
                                   isLock := lockstate.UNLOCKED } with nextpid := s.nextpid + 1 }
    if kallocOk then Outcome.ok (some i, s1)
    else do
      let y ← s1.deref (some i)
      Outcome.ok (none, s1.store i { y with state := procstate.UNUSED })

/-- `userinit`: create the first process and admit it at the top level. -/
def userinit (c : Param) (s : Kernel) (kallocOk : Bool) : Outcome Kernel := do
  let (p, s1) ← allocproc c s kallocOk
  match p with
  | none => Outcome.fault Fault.nullDeref
  | some i => do
    let s2 := { s1 with initproc := some i }
    let x ← s2.deref (some i)
    let s3 := s2.store i { x with state := procstate.RUNNABLE }
    let (_, s4) ← MLFQenqueue c s3 (some i) TOP
    Outcome.ok s4

/-- `fork`: create a child of the running process and admit it at the top
level.  `copyuvmOk` tells whether the address space could be copied. -/
def fork (c : Param) (s : Kernel) (kallocOk copyuvmOk : Bool) : Outcome (Int × Kernel) := do
  let curproc := s.cproc
  let (np, s1) ← allocproc c s kallocOk
  match np with
  | none => Outcome.ok (-1, s1)
  | some i => do
    let _ ← s1.deref curproc
    let x ← s1.deref (some i)
    if copyuvmOk then do
      let pid := x.pid
      let s2 := s1.store i { x with parent := curproc, state := procstate.RUNNABLE,
                                    arrivedTime := pid, execTime := 0, qLevel := TOP,
                                    priority := c.MAXPRIORITY - 1, isLock := lockstate.UNLOCKED }
      let (_, s3) ← MLFQenqueue c s2 (some i) TOP
      Outcome.ok (pid, s3)
    else Outcome.ok (-1, s1.store i { x with state := procstate.UNUSED })

/-- The loop of `wakeup1` over the process slots, entered at slot `i`. -/
def wakeup1Loop (c : Param) (chan : Chan) (s : Kernel) (i : Nat) : Nat → Outcome Kernel
  | 0 => if i < c.NPROC then Outcome.fault Fault.outOfFuel else Outcome.ok s
  | n + 1 =>
    if i < c.NPROC then do
      let x ← s.deref (some i)
      if x.state = procstate.SLEEPING ∧ x.chan = chan then do
        let s1 := s.store i { x with state := procstate.RUNNABLE, execTime := 0,
                                     priority := c.MAXPRIORITY - 1 }
        let (_, s2) ← MLFQenqueue c s1 (some i) 0
        wakeup1Loop c chan s2 (i + 1) n
      else wakeup1Loop c chan s (i + 1) n
    else Outcome.ok s

/-- `wakeup1`: wake every process sleeping on `chan`. -/
def wakeup1 (c : Param) (s : Kernel) (chan : Chan) : Outcome Kernel :=
  wakeup1Loop c chan s 0 c.NPROC

/-- `wakeup`: `wakeup1` under the process-table lock. -/
def wakeup (c : Param) (s : Kernel) (chan : Chan) : Outcome Kernel :=
  wakeup1 c s chan

/-- The loop of `kill` over the process slots, entered at slot `i`. -/
def killLoop (c : Param) (pid : Int) (s : Kernel) (i : Nat) : Nat → Outcome (Int × Kernel)
  | 0 => if i < c.NPROC then Outcome.fault Fault.outOfFuel else Outcome.ok (-1, s)
  | n + 1 =>
    if i < c.NPROC then do
      let x ← s.deref (some i)
      if x.pid = pid then
        Outcome.ok (0, s.store i { x with killed := 1, execTime := 0, priority := c.MAXPRIORITY - 1,
                                          state := if x.state = procstate.SLEEPING
                                                   then procstate.RUNNABLE else x.state })
      else killLoop c pid s (i + 1) n
    else Outcome.ok (-1, s)

/-- `kill`: flag the first slot that carries `pid`. -/
def kill (c : Param) (s : Kernel) (pid : Int) : Outcome (Int × Kernel) :=
  killLoop c pid s 0 c.NPROC

/-! ## Exclusive scheduling lock and priority boosting (`proc.c` lines 1008-1146) -/

/-- `schedulerLockDone`: empty the lock slot and, unless `isExit`, re-admit the
released process with `MLFQfrontEnqueue(lockproc, TOP)`, whose result the code
ignores.  The test `state != RUNNING || state != RUNNABLE` is transcribed as
written. -/
def schedulerLockDone (c : Param) (s : Kernel) (isExit : Int) : Outcome Kernel :=
  let lockproc := s.ltable
  let s1 := { s with ltable := none }
  match lockproc with
  | none => Outcome.ok s1
  | some i => do
    let x ← s1.deref (some i)
    let curState :=
      if x.state ≠ procstate.RUNNING ∨ x.state ≠ procstate.RUNNABLE then x.state
      else procstate.RUNNABLE
    let s2 := s1.store i { x with execTime := 0, priority := c.MAXPRIORITY - 1,
                                  isLock := lockstate.UNLOCKED, state := curState }
    if isExit = 0 then do
      let (_, s3) ← MLFQfrontEnqueue c s2 (some i) TOP
      Outcome.ok s3
    else Outcome.ok s2

/-- `schedulerUnlock`: release the lock slot, or kill the caller on a wrong
password. -/
def schedulerUnlock (c : Param) (s : Kernel) (password : Int) : Outcome Kernel :=
  if password ≠ c.SLPASSWORD then do
    let p ← s.deref s.cproc
    let (_, s1) ← kill c s p.pid
    Outcome.ok s1
  else if s.ltable = none then Outcome.ok s
  else schedulerLockDone c s 0

/-- The loop of `schedulerLock` that looks for the caller's pid in the process
table, entered at slot `i`; the result is the flag `found`. -/
def pidScan (c : Param) (s : Kernel) (pid : Int) (i : Nat) : Nat → Outcome Int
  | 0 => if i < c.NPROC then Outcome.fault Fault.outOfFuel else Outcome.ok 0
  | n + 1 =>
    if i < c.NPROC then do
      let x ← s.deref (some i)
      if pid = x.pid then Outcome.ok 1
      else pidScan c s pid (i + 1) n
    else Outcome.ok 0

/-- `schedulerLock` up to its call of `sched()`: the state it leaves, and
whether it goes on to enter the scheduler. -/
def schedulerLock (c : Param) (s : Kernel) (password : Int) : Outcome (Kernel × Bool) := do
  let curproc := s.cproc
  let x ← s.deref curproc
  if password ≠ c.SLPASSWORD then do
    let (_, s1) ← kill c s x.pid
    Outcome.ok (s1, false)
  else do
    let pid := x.pid
    let found ← pidScan c s pid 0 c.NPROC
    if found = 0 then Outcome.ok (s, false)
    else if s.ltable ≠ none then Outcome.ok (s, false)
    else
      match curproc with
      | none => Outcome.fault Fault.nullDeref
      | some i => do
        let (_, s1) ← MLFQdeleteByPid s pid
        let y ← s1.deref (some i)
        let s2 := s1.store i { y with isLock := lockstate.LOCKED, state := procstate.RUNNABLE }
        Outcome.ok ({ s2 with ltable := some i, ticks := 0 }, true)

/-- `sys_schedulerLock` of `sysproc.c`, with the argument `argint` fetches:
the returned value, the state, and whether the scheduler is entered. -/
def sys_schedulerLock (c : Param) (s : Kernel) (password : Int) : Outcome (Int × Kernel × Bool) :=
  if password ≠ c.SLPASSWORD then do
    let p ← s.deref s.cproc
    let (_, s1) ← kill c s p.pid
    Outcome.ok (-1, s1, false)
  else do
    let (s1, b) ← schedulerLock c s password
    Outcome.ok (0, s1, b)

/-- The first loop of `priorityBoosting`, over the entries of the top level,
entered with the loop variable `iter`. -/
def boostTop (c : Param) (TopRear : Int) (s : Kernel) (iter : Int) : Nat → Outcome Kernel
  | 0 => if iter < TopRear then Outcome.fault Fault.outOfFuel else Outcome.ok s
  | n + 1 =>
    if iter < TopRear then do
      let p ← rdQ (s.level TOP).procsQueue iter
      match p with
      | none => boostTop c TopRear s (iter + 1) n
      | some i => do
        let x ← s.deref (some i)
        boostTop c TopRear (s.store i { x with execTime := 0, priority := c.MAXPRIORITY - 1 })
          (iter + 1) n
    else Outcome.ok s

/-- The loop `while (p != 0) { ...; MLFQenqueue(p, TOP); p = MLFQdequeue(qLevel); }`
of `priorityBoosting`, entered with the pointer `p`. -/
def boostDrain (c : Param) (qLevel : Int) (s : Kernel) (p : Ptr) : Nat → Outcome Kernel
  | 0 =>
    match p with
    | none => Outcome.ok s
    | some _ => Outcome.fault Fault.outOfFuel
  | n + 1 =>
    match p with
    | none => Outcome.ok s
    | some i => do
      let x ← s.deref (some i)
      let s1 := s.store i { x with execTime := 0, priority := c.MAXPRIORITY - 1 }
      let (_, s2) ← MLFQenqueue c s1 (some i) TOP
      let (p1, s3) ← MLFQdequeue c s2 qLevel
      boostDrain c qLevel s3 p1 n

/-- The loop `for (qLevel = MIDDLE; qLevel < MAXQLEVEL; qLevel++)` of
`priorityBoosting`, entered with the loop variable `qLevel`.  The inner
`while` removes one entry per round, so the occupancy of the level bounds its
rounds. -/
def boostLevels (c : Param) (s : Kernel) (qLevel : Int) : Nat → Outcome Kernel
  | 0 => if qLevel < MAXQLEVEL then Outcome.fault Fault.outOfFuel else Outcome.ok s
  | n + 1 =>
    if qLevel < MAXQLEVEL then do
      let (p, s1) ← MLFQdequeue c s qLevel
      let s2 ← boostDrain c qLevel s1 p (s.level qLevel).rear.toNat
      boostLevels c s2 (qLevel + 1) n
    else Outcome.ok s

/-- `priorityBoosting`: reset the top level, move the lower levels to the top
and reset the global tick counter. -/
def priorityBoosting (c : Param) (s : Kernel) : Outcome Kernel := do
  let TopRear := (s.level TOP).rear
  let s1 ← boostTop c TopRear s 0 TopRear.toNat
  let s2 ← boostLevels c s1 MIDDLE (MAXQLEVEL - MIDDLE).toNat
  Outcome.ok { s2 with ticks := 0 }

/-! ## Scheduler (`proc.c` lines 596-821) -/

/-- `isValidProcess`. -/
def isValidProcess (s : Kernel) (p : Ptr) : Outcome Int :=
  match p with
  | none => Outcome.ok 0
  | some i => do
    let x ← s.deref (some i)
    if x.state = procstate.RUNNABLE then Outcome.ok 1 else Outcome.ok 0

/-- The loop `while (targetProc != 0)` of `schedulerChooseProcess`, entered
with the pointer `targetProc`. -/
def chooseLoop (c : Param) (qLevel : Int) (s : Kernel) (targetProc : Ptr) :
    Nat → Outcome (Ptr × Kernel)
  | 0 =>
    match targetProc with
    | none => Outcome.ok (none, s)
    | some _ => Outcome.fault Fault.outOfFuel
  | n + 1 =>
    match targetProc with
    | none => Outcome.ok (none, s)
    | some i => do
      let t ← s.deref (some i)
      if t.state ≠ procstate.RUNNABLE ∨ t.killed = 1 then do
        let s1 := s.store i { t with execTime := 0, priority := c.MAXPRIORITY - 1 }
        let (_, s2) ← MLFQdequeue c s1 qLevel
        let t2 ← MLFQfirstProc c s2 qLevel
        chooseLoop c qLevel s2 t2 n
      else if t.execTime ≥ c.TIME_QUANTUM qLevel then do
        let (d, s1) ← MLFQdequeue c s qLevel
        match d with
        | none => Outcome.fault Fault.nullDeref
        | some j => do
          let y ← s1.deref (some j)
          let s2 := s1.store j { y with execTime := 0 }
          if qLevel < BOTTOM then do
            let (_, s3) ← MLFQenqueue c s2 (some j) (qLevel + 1)
            let t2 ← MLFQfirstProc c s3 qLevel
            chooseLoop c qLevel s3 t2 n
          else do
            let z ← s2.deref (some j)
            let s3 := if z.priority > 0 then s2.store j { z with priority := z.priority - 1 } else s2
            let (_, s4) ← MLFQenqueue c s3 (some j) qLevel
            let t2 ← MLFQfirstProc c s4 qLevel
            chooseLoop c qLevel s4 t2 n
      else Outcome.ok (some i, s)

/-- `schedulerChooseProcess`: purge and demote at the head of level `qLevel`
until a dispatchable process, or nothing, is at its head.  `fuel` bounds the
rounds of the `while` loop. -/
def schedulerChooseProcess (c : Param) (fuel : Nat) (s : Kernel) (qLevel : Int) :
    Outcome (Ptr × Kernel) := do
  let targetProc ← MLFQfirstProc c s qLevel
  chooseLoop c qLevel s targetProc fuel

/-- The loop `for (int prev = 0; prev <= qLevel; prev++)` of `scheduler`,
entered with the loop variable `prev`; the result is `targetProc`, the value
of `qLevel` after the loop, and the state. -/
def prevLoop (c : Param) (fuel : Nat) (s : Kernel) (qLevel prev : Int) (targetProc : Ptr) :
    Nat → Outcome (Ptr × Int × Kernel)
  | 0 => if prev ≤ qLevel then Outcome.fault Fault.outOfFuel
         else Outcome.ok (targetProc, qLevel, s)
  | n + 1 =>
    if prev ≤ qLevel then do
      let (t, s1) ← schedulerChooseProcess c fuel s prev
      let v ← isValidProcess s1 t
      if v ≠ 0 then Outcome.ok (t, prev, s1)
      else prevLoop c fuel s1 qLevel (prev + 1) t n
    else Outcome.ok (targetProc, qLevel, s)

/-- The loop `for (int qLevel = 0; qLevel < MAXQLEVEL; qLevel++)` of the MLFQ
branch of `scheduler`, entered with the loop variable `qLevel`, run up to its
next `swtch` (a process is dispatched: `c->proc` is set and the scheduler is
suspended inside the loop) or to its end (the scheduler is back at the top of
`for (;;)`). -/
def mlfqLoop (c : Param) (fuel : Nat) (s : Kernel) (qLevel : Int) : Nat → Outcome Kernel
  | 0 => if qLevel < MAXQLEVEL then Outcome.fault Fault.outOfFuel
         else Outcome.ok { s with sctx := SchedCtx.loopTop }
  | n + 1 =>
    if qLevel < MAXQLEVEL then do
      let (targetProc, qLevel1, s1) ← prevLoop c fuel s qLevel 0 none (qLevel + 1).toNat
      let v ← isValidProcess s1 targetProc
      if v = 0 then mlfqLoop c fuel s1 (qLevel1 + 1) n
      else
        match targetProc with
        | none => Outcome.fault Fault.nullDeref
        | some i => do
          let t ← s1.deref (some i)
          if t.execTime ≥ c.TIME_QUANTUM qLevel1 then mlfqLoop c fuel s1 (qLevel1 + 1) n
          else
            Outcome.ok { s1.store i { t with state := procstate.RUNNING } with
                         cproc := some i, sctx := SchedCtx.inMlfq qLevel1 }
    else Outcome.ok { s with sctx := SchedCtx.loopTop }

/-- One iteration of the `for (;;)` loop of `scheduler`, run from its top up
to its `swtch` or to its end. -/
def scheduler (c : Param) (fuel : Nat) (s : Kernel) : Outcome Kernel :=
  match s.ltable with
  | some i => do
    let t ← s.deref (some i)
    if t.state ≠ procstate.RUNNABLE ∨ t.killed = 1 then schedulerLockDone c s 0
    else
      Outcome.ok { s.store i { t with state := procstate.RUNNING } with
                   cproc := some i, sctx := SchedCtx.inLock }
  | none => mlfqLoop c fuel s 0 fuel

/-- `sched`: the running process switches to the scheduler, which resumes
after the `swtch` it was suspended in, clears `c->proc` and runs on to its
next `swtch` or to the top of its loop. -/
def sched (c : Param) (fuel : Nat) (s : Kernel) : Outcome Kernel := do
  let p ← s.deref s.cproc
  if p.state = procstate.RUNNING then Outcome.fault Fault.halt
  else
    match s.sctx with
    | SchedCtx.loopTop => Outcome.fault Fault.halt
    | SchedCtx.inLock => Outcome.ok { s with cproc := none, sctx := SchedCtx.loopTop }
    | SchedCtx.inMlfq qLevel => mlfqLoop c fuel { s with cproc := none } (qLevel + 1) fuel

/-- `yield` up to its call of `sched()`. -/
def yield (c : Param) (s : Kernel) : Outcome Kernel :=
  match s.cproc with
  | none => Outcome.fault Fault.nullDeref
  | some i => do
    let x ← s.deref (some i)
    let s1 := s.store i { x with state := procstate.RUNNABLE }
    if x.isLock = lockstate.UNLOCKED then do
      let (_, s2) ← MLFQdequeue c s1 x.qLevel
      let y ← s2.deref (some i)
      let (_, s3) ← MLFQenqueue c s2 (some i) y.qLevel
      Outcome.ok s3
    else Outcome.ok s1

/-- `sleep` up to its call of `sched()`.  From line 864 on `sleep` holds
`ptable.lock`: it has acquired it, or `lk` is `ptable.lock` and the caller
holds it.  For a caller with `isLock == LOCKED` the code calls
`schedulerLockDone(1)`.  With an empty lock slot that call returns at
`if (lockproc == 0)`; otherwise it goes on to `acquire(&ptable.lock)`
(line 1111) on the lock this CPU holds, and the kernel stops there
(`panic("acquire")` in the spin lock code of xv6), before the process is reset
and before `sched()`. -/
def sleep (c : Param) (s : Kernel) (chan : Chan) : Outcome Kernel :=
  match s.cproc with
  | none => Outcome.fault Fault.halt
  | some i => do
    let x ← s.deref (some i)
    let s1 := s.store i { x with chan := chan, state := procstate.SLEEPING }
    if x.isLock = lockstate.LOCKED then
      match s1.ltable with
      | none => schedulerLockDone c s1 1
      | some _ => Outcome.fault Fault.halt
    else Outcome.ok s1

/-- The part of `sleep` after `sched()` returns: `p->chan = 0`. -/
def sleepReturn (s : Kernel) : Outcome Kernel :=
  match s.cproc with
  | none => Outcome.fault Fault.nullDeref
  | some i => do
    let x ← s.deref (some i)
    Outcome.ok (s.store i { x with chan := Chan.null })

/-- The loop of `exit` that passes the children of `curproc` to `initproc`,
entered at slot `i`. -/
def reparentLoop (c : Param) (curproc : Ptr) (s : Kernel) (i : Nat) : Nat → Outcome Kernel
  | 0 => if i < c.NPROC then Outcome.fault Fault.outOfFuel else Outcome.ok s
  | n + 1 =>
    if i < c.NPROC then do
      let x ← s.deref (some i)
      if x.parent = curproc then do
        let s1 := s.store i { x with parent := s.initproc }
        if x.state = procstate.ZOMBIE then do
          let s2 ← wakeup1 c s1 (Chan.ofPtr s.initproc)
          reparentLoop c curproc s2 (i + 1) n
        else reparentLoop c curproc s1 (i + 1) n
      else reparentLoop c curproc s (i + 1) n
    else Outcome.ok s

/-- `exit` up to its call of `sched()`. -/
def exit (c : Param) (s : Kernel) : Outcome Kernel :=
  if s.cproc = s.initproc then Outcome.fault Fault.halt
  else
    match s.cproc with
    | none => Outcome.fault Fault.nullDeref
    | some i => do
      let x ← s.deref (some i)
      let s1 ← if x.isLock = lockstate.LOCKED then schedulerLockDone c s 1 else Outcome.ok s
      let x1 ← s1.deref (some i)
      let (_, s2) ← MLFQdeleteByPid s1 x1.pid
      let x2 ← s2.deref (some i)
      let s3 ← wakeup1 c s2 (Chan.ofPtr x2.parent)
      let s4 ← reparentLoop c (some i) s3 0 c.NPROC
      let x4 ← s4.deref (some i)
      Outcome.ok (s4.store i { x4 with state := procstate.ZOMBIE })

/-- How one pass of the `for (;;)` loop of `wait` ends: it returns a value,
or it calls `sleep(curproc, &ptable.lock)`. -/
inductive WaitResult where
  | returned (v : Int)
  | sleeps
deriving DecidableEq, Repr

/-- The scan of `wait` over the process slots, entered at slot `i` with the
flag `havekids`; the result is the pid of the child reclaimed, if any, and
the flag. -/
def waitScan (c : Param) (curproc : Ptr) (s : Kernel) (havekids : Int) (i : Nat) :
    Nat → Outcome (Option Int × Int × Kernel)
  | 0 => if i < c.NPROC then Outcome.fault Fault.outOfFuel else Outcome.ok (none, havekids, s)
  | n + 1 =>
    if i < c.NPROC then do
      let x ← s.deref (some i)
      if x.parent ≠ curproc then waitScan c curproc s havekids (i + 1) n
      else if x.state = procstate.ZOMBIE then
        Outcome.ok (some x.pid, 1,
          s.store i { x with pid := 0, parent := none, killed := 0, state := procstate.UNUSED })
      else waitScan c curproc s 1 (i + 1) n
    else Outcome.ok (none, havekids, s)

/-- One pass of the `for (;;)` loop of `wait`; when it ends in `sleep` the
state is the one published before `sched()`. -/
def wait (c : Param) (s : Kernel) : Outcome (WaitResult × Kernel) := do
  let curproc := s.cproc
  let (r, havekids, s1) ← waitScan c curproc s 0 0 c.NPROC
  match r with
  | some pid => Outcome.ok (WaitResult.returned pid, s1)
  | none => do
    let x ← s1.deref curproc
    if havekids = 0 ∨ x.killed ≠ 0 then Outcome.ok (WaitResult.returned (-1), s1)
    else do
      let s2 ← sleep c s1 (Chan.ofPtr curproc)
      Outcome.ok (WaitResult.sleeps, s2)

/-! ## Reachable states -/

/-- The zero-initialised kernel memory before `userinit`, with `nextpid = 1`. -/
def boot (c : Param) : Kernel :=
  { ptable := List.replicate c.NPROC
      ⟨procstate.UNUSED, 0, none, Chan.null, 0, 0, 0, 0, 0, lockstate.UNLOCKED⟩
    qtable := List.replicate 3 ⟨List.replicate c.NPROC none, 0⟩
    ltable := none
    ticks := 0
    nextpid := 1
    initproc := none
    cproc := none
    sctx := SchedCtx.loopTop }

/-- Whether the running process has `isLock == LOCKED`. -/
def Kernel.curLocked (s : Kernel) : Bool :=
  match s.deref s.cproc with
  | Outcome.ok x => decide (x.isLock = lockstate.LOCKED)
  | Outcome.fault _ => false

/-- One atomic transition of the kernel on one CPU.  A transition that ends in
`sched()` includes the scheduler running on to its next dispatch, because the
process-table lock is held from the operation through that part of the
scheduler.  Operations of the running process need `c->proc` to be set; the
timer tick (`increaseExecTime` for the running process, which the trap handler
calls before `yield`), `wakeup` and `priorityBoosting` are reached from
interrupt handlers, whenever the lock is free.  `sleep` is included for callers that do
not hold the scheduler lock (for the others `sleep` calls `schedulerLockDone`
while it holds the process-table lock and does not reach `sched()`). -/
inductive Step (c : Param) : Kernel → Kernel → Prop where
  | pass (s t : Kernel) (fuel : Nat) :
      s.cproc = none → s.sctx = SchedCtx.loopTop → scheduler c fuel s = Outcome.ok t → Step c s t
  | tick (s t : Kernel) :
      increaseExecTime s s.cproc = Outcome.ok t → Step c s t
  | yield (s s1 t : Kernel) (fuel : Nat) :
      yield c s = Outcome.ok s1 → sched c fuel s1 = Outcome.ok t → Step c s t
  | fork (s t : Kernel) (kallocOk copyuvmOk : Bool) (r : Int) :
      s.cproc ≠ none → fork c s kallocOk copyuvmOk = Outcome.ok (r, t) → Step c s t
  | sleep (s s1 t : Kernel) (chan : Chan) (fuel : Nat) :
      s.curLocked = false →
      sleep c s chan = Outcome.ok s1 → sched c fuel s1 = Outcome.ok t → Step c s t
  | sleepReturn (s t : Kernel) :
      sleepReturn s = Outcome.ok t → Step c s t
  | wakeup (s t : Kernel) (chan : Chan) :
      wakeup c s chan = Outcome.ok t → Step c s t
  | kill (s t : Kernel) (pid r : Int) :
      s.cproc ≠ none → kill c s pid = Outcome.ok (r, t) → Step c s t
  | exit (s s1 t : Kernel) (fuel : Nat) :
      exit c s = Outcome.ok s1 → sched c fuel s1 = Outcome.ok t → Step c s t
  | waitReturn (s t : Kernel) (v : Int) :
      s.cproc ≠ none → wait c s = Outcome.ok (WaitResult.returned v, t) → Step c s t
  | waitSleep (s s1 t : Kernel) (fuel : Nat) :
      s.curLocked = false →
      wait c s = Outcome.ok (WaitResult.sleeps, s1) → sched c fuel s1 = Outcome.ok t → Step c s t
  | lockReturn (s t : Kernel) (password : Int) :
      schedulerLock c s password = Outcome.ok (t, false) → Step c s t
  | lockSched (s s1 t : Kernel) (password : Int) (fuel : Nat) :
      schedulerLock c s password = Outcome.ok (s1, true) → sched c fuel s1 = Outcome.ok t →
      Step c s t
  | unlock (s t : Kernel) (password : Int) :
      s.cproc ≠ none → schedulerUnlock c s password = Outcome.ok t → Step c s t
  | boost (s t : Kernel) :
      priorityBoosting c s = Outcome.ok t → Step c s t

/-- The states the kernel can be in: the state `userinit` leaves, and every
state one transition away from a reachable one. -/
inductive Reachable (c : Param) : Kernel → Prop where
  | init (s : Kernel) : userinit c (boot c) true = Outcome.ok s → Reachable c s
  | step (s t : Kernel) : Reachable c s → Step c s t → Reachable c t

/-- Every reference to a process held by the queue table and the lock slot:
the entries of the three levels, then the slot, null pointers dropped. -/
def Kernel.refs (s : Kernel) : List Nat :=
  ((s.level TOP).entries ++ (s.level MIDDLE).entries ++ (s.level BOTTOM).entries ++
    [s.ltable]).reduceOption

/-- No process is referenced twice by the queue table and the lock slot. -/
def Kernel.Unique (s : Kernel) : Prop := s.refs.Nodup

instance (s : Kernel) : Decidable s.Unique := by
  unfold Kernel.Unique; infer_instance

/-! ## Priority system call (`proc.c` lines 984-1006, `sysproc.c` lines 105-113) -/

/-- The inner loop of `setPriority` over the entries of one level, entered
with the loop variable `i`; the result is the flag `found` and the state. -/
def setPriorityLevel (s : Kernel) (pid priority qLevel : Int) (i : Int) :
    Nat → Outcome (Int × Kernel)
  | 0 => if i < (s.level qLevel).rear then Outcome.fault Fault.outOfFuel
         else Outcome.ok (0, s)
  | n + 1 =>
    if i < (s.level qLevel).rear then do
      let e ← rdQ (s.level qLevel).procsQueue i
      match e with
      | none => Outcome.fault Fault.nullDeref
      | some j => do
        let x ← s.deref (some j)
        if x.pid = pid then Outcome.ok (1, s.store j { x with priority := priority })
        else setPriorityLevel s pid priority qLevel (i + 1) n
    else Outcome.ok (0, s)

/-- The outer loop `for (qLevel = 0; qLevel < MAXQLEVEL && !found; qLevel++)`
of `setPriority`, entered with the loop variable `qLevel` and the flag
`found`. -/
def setPriorityLevels (s : Kernel) (pid priority : Int) (qLevel found : Int) :
    Nat → Outcome Kernel
  | 0 => if qLevel < MAXQLEVEL ∧ found = 0 then Outcome.fault Fault.outOfFuel
         else Outcome.ok s
  | n + 1 =>
    if qLevel < MAXQLEVEL ∧ found = 0 then do
      let (f, s1) ← setPriorityLevel s pid priority qLevel 0 (s.level qLevel).rear.toNat
      setPriorityLevels s1 pid priority (qLevel + 1) f n
    else Outcome.ok s

/-- `setPriority`: set the priority of the first queue entry with the pid,
after the range test `priority < 0 || priority > MAXPRIORITY`. -/
def setPriority (c : Param) (s : Kernel) (pid priority : Int) : Outcome Kernel :=
  if priority < 0 ∨ priority > c.MAXPRIORITY then Outcome.ok s
  else setPriorityLevels s pid priority 0 0 MAXQLEVEL.toNat

/-- `sys_setPriority` of `sysproc.c` for arguments that `argint` fetches (it
then returns 0 both times, and the code compares these returned values, not
the priority, with 0 and with `MAXPRIORITY`). -/
def sys_setPriority (c : Param) (s : Kernel) (pid priority : Int) : Outcome (Int × Kernel) :=
  if (0 : Int) < 0 ∨ (0 : Int) > c.MAXPRIORITY then Outcome.ok (-1, s)
  else do
    let s1 ← setPriority c s pid priority
    Outcome.ok (0, s1)

/-! ## Spin locks taken by the operations -/

/-- The spin locks that `proc.c` and `sysproc.c` acquire. -/
inductive Lock where
  | tickslock
  | ptable
  | ltable
  | qtable
deriving DecidableEq, Repr

/-- A call of `acquire` or of `release`. -/
inductive LockOp where
  | acquire (l : Lock)
  | release (l : Lock)
deriving DecidableEq, Repr

/-- The lock operations of `MLFQfrontEnqueue(p, qLevel)`: none when one of the
three guards returns, else `acquire(&qtable.lock)` and
`release(&qtable.lock)`. -/
def MLFQfrontEnqueueLocks (c : Param) (s : Kernel) (p : Ptr) (qLevel : Int) :
    Outcome (List LockOp) :=
  if qLevel < 0 ∨ qLevel ≥ MAXQLEVEL then Outcome.ok []
  else if (s.level qLevel).rear ≥ c.NPROC then Outcome.ok []
  else
    match p with
    | none => Outcome.fault Fault.nullDeref
    | some i => do
      let x ← s.deref (some i)
      if x.state ≠ procstate.RUNNABLE then Outcome.ok []
      else Outcome.ok [LockOp.acquire Lock.qtable, LockOp.release Lock.qtable]

/-- The lock operations of `schedulerLockDone(isExit)`, in program order:
`ltable.lock` around the write of the slot, then, when the slot was not empty,
`ptable.lock` around the reset of the process and the call of
`MLFQfrontEnqueue`. -/
def schedulerLockDoneLocks (c : Param) (s : Kernel) (isExit : Int) : Outcome (List LockOp) :=
  let lockproc := s.ltable
  let s1 := { s with ltable := none }
  match lockproc with
  | none => Outcome.ok [LockOp.acquire Lock.ltable, LockOp.release Lock.ltable]
  | some i => do
    let x ← s1.deref (some i)
    let curState :=
      if x.state ≠ procstate.RUNNING ∨ x.state ≠ procstate.RUNNABLE then x.state
      else procstate.RUNNABLE
    let s2 := s1.store i { x with execTime := 0, priority := c.MAXPRIORITY - 1,
                                  isLock := lockstate.UNLOCKED, state := curState }
    let inner ← if isExit = 0 then MLFQfrontEnqueueLocks c s2 (some i) TOP else Outcome.ok []
    Outcome.ok ([LockOp.acquire Lock.ltable, LockOp.release Lock.ltable,
                 LockOp.acquire Lock.ptable] ++ inner ++ [LockOp.release Lock.ptable])

/-- The lock operations of `sleep(chan, lk)` up to its call of `sched()`:
`acquire(&ptable.lock); release(lk)` when `lk` is not `ptable.lock`, then
those of `schedulerLockDone(1)` for a caller with `isLock == LOCKED`. -/
def sleepLocks (c : Param) (s : Kernel) (chan : Chan) (lk : Lock) : Outcome (List LockOp) :=
  match s.cproc with
  | none => Outcome.fault Fault.halt
  | some i => do
    let x ← s.deref (some i)
    let s1 := s.store i { x with chan := chan, state := procstate.SLEEPING }
    let entry :=
      if lk ≠ Lock.ptable then [LockOp.acquire Lock.ptable, LockOp.release lk] else []
    if x.isLock = lockstate.LOCKED then do
      let inner ← schedulerLockDoneLocks c s1 1
      Outcome.ok (entry ++ inner)
    else Outcome.ok entry

/-- The lock operations of `sys_sleep` for a caller that is not killed and has
ticks to wait, up to the `sched()` of its first `sleep(&ticks, &tickslock)`. -/
def sys_sleepLocks (c : Param) (s : Kernel) : Outcome (List LockOp) := do
  let ops ← sleepLocks c s Chan.ticksAddr Lock.tickslock
  Outcome.ok (LockOp.acquire Lock.tickslock :: ops)

/-- The lock operations of one pass of the `for (;;)` loop of `wait`, the
`acquire(&ptable.lock)` before the loop included; when the pass ends in
`sleep(curproc, &ptable.lock)`, up to the `sched()` of that call. -/
def waitLocks (c : Param) (s : Kernel) : Outcome (List LockOp) := do
  let curproc := s.cproc
  let (r, havekids, s1) ← waitScan c curproc s 0 0 c.NPROC
  match r with
  | some _ => Outcome.ok [LockOp.acquire Lock.ptable, LockOp.release Lock.ptable]
  | none => do
    let x ← s1.deref curproc
    if havekids = 0 ∨ x.killed ≠ 0 then
      Outcome.ok [LockOp.acquire Lock.ptable, LockOp.release Lock.ptable]
    else do
      let ops ← sleepLocks c s1 (Chan.ofPtr curproc) Lock.ptable
      Outcome.ok (LockOp.acquire Lock.ptable :: ops)

/-- The first lock that a sequence of lock operations acquires while it is
held, for a caller that enters holding the locks `held`; `none` when no lock
is acquired twice. -/
def firstReacquire : List Lock → List LockOp → Option Lock
  | _, [] => none
  | held, LockOp.acquire l :: ops =>
    if l ∈ held then some l else firstReacquire (l :: held) ops
  | held, LockOp.release l :: ops => firstReacquire (held.erase l) ops

/-- The pairs (held lock, acquired lock) of the nested acquisitions in a
sequence of lock operations, for a caller that enters holding `held`. -/
def nestings : List Lock → List LockOp → List (Lock × Lock)
  | _, [] => []
  | held, LockOp.acquire l :: ops => held.map (fun h => (h, l)) ++ nestings (l :: held) ops
  | held, LockOp.release l :: ops => nestings (held.erase l) ops

/-! ## Head dequeue, the comparison side for the lowest level -/

/-- The branch of `MLFQfirstProc` for the levels above the lowest, applied to
the level `qLevel` whatever it is: the entry at index 0. -/
def headFirstProc (s : Kernel) (qLevel : Int) : Outcome Ptr :=
  if qLevel < 0 ∨ qLevel ≥ MAXQLEVEL then Outcome.ok none
  else if (s.level qLevel).rear = 0 then Outcome.ok none
  else rdQ (s.level qLevel).procsQueue 0

/-- The branch of `MLFQdequeue` for the levels above the lowest (first in,
first out), applied to the level `qLevel` whatever it is: remove and return
the entry at index 0. -/
def headDequeue (s : Kernel) (qLevel : Int) : Outcome (Ptr × Kernel) :=
  if qLevel < 0 ∨ qLevel ≥ MAXQLEVEL then Outcome.ok (none, s)
  else if (s.level qLevel).rear = 0 then Outcome.ok (none, s)
  else do
    let q := s.level qLevel
    let p ← rdQ q.procsQueue 0
    let a1 ← shiftFront q.procsQueue q.rear 0 (q.rear - 1).toNat
    let a2 ← wrQ a1 (q.rear - 1) none
    Outcome.ok (p, s.setLevel qLevel ⟨a2, q.rear - 1⟩)


/-! ## Auxiliary definitions for the statements -/

/-- The array after an entry at index `k` of a level with `R` entries is
removed: the entries behind it move one place down and the last one becomes
null. -/
def closeGap (a : List Ptr) (k R : Nat) : List Ptr :=
  a.take k ++ ((a.drop (k + 1)).take (R - 1 - k) ++ (none :: a.drop R))

/-- `MLFQenqueue(p, L)` for every `p` of a list in turn: the values returned
and the final state. -/
def enqueueAll (c : Param) (L : Int) : Kernel → List Ptr → Outcome (List Int × Kernel)
  | s, [] => Outcome.ok ([], s)
  | s, p :: ps => do
    let (r, s1) ← MLFQenqueue c s p L
    let (rs, s2) ← enqueueAll c L s1 ps
    Outcome.ok (r :: rs, s2)

/-- `MLFQdequeue(L)` called `n` times in turn: the pointers returned and the
final state. -/
def dequeueAll (c : Param) (L : Int) : Kernel → Nat → Outcome (List Ptr × Kernel)
  | s, 0 => Outcome.ok ([], s)
  | s, n + 1 => do
    let (p, s1) ← MLFQdequeue c s L
    let (ps, s2) ← dequeueAll c L s1 n
    Outcome.ok (p :: ps, s2)

/-- Whether a queue entry is a pointer to a slot of the process table (and not
null). -/
def Kernel.validPtr (s : Kernel) (e : Ptr) : Bool :=
  match e with
  | some i => decide (i < s.ptable.length)
  | none => false

/-- The process in slot `i` has `execTime = 0` and `priority = MAXPRIORITY - 1`. -/
def Kernel.ResetAt (c : Param) (s : Kernel) (i : Nat) : Prop :=
  ∃ y, s.ptable[i]? = some y ∧ y.execTime = 0 ∧ y.priority = c.MAXPRIORITY - 1

/-- From `s` to `t` the process table keeps its size, every process keeps its
state, and a process that was reset stays reset. -/
def Kernel.Keeps (c : Param) (s t : Kernel) : Prop :=
  t.ptable.length = s.ptable.length ∧
  ∀ (j : Nat) (y : proc), s.ptable[j]? = some y →
    ∃ z : proc, t.ptable[j]? = some z ∧ z.state = y.state ∧
      (y.execTime = 0 ∧ y.priority = c.MAXPRIORITY - 1 →
        z.execTime = 0 ∧ z.priority = c.MAXPRIORITY - 1)


/-! ## Predicates used in the statements about locking, exit, wakeup, pids and capacity -/

/-- Whether a queue entry points to a process that carries the given pid. -/
def Kernel.hasPid (s : Kernel) (pid : Int) (e : Ptr) : Bool :=
  match e with
  | some j =>
    match s.ptable[j]? with
    | some x => decide (x.pid = pid)
    | none => false
  | none => false

/-- A level is in order: its counter is within `0 .. NPROC` and the entries it
covers point to process slots. -/
def Kernel.levelOk (c : Param) (s : Kernel) (L : Int) : Prop :=
  0 ≤ (s.level L).rear ∧ (s.level L).rear ≤ c.NPROC ∧
    ∀ e ∈ (s.level L).entries, s.validPtr e = true

instance (c : Param) (s : Kernel) (L : Int) : Decidable (s.levelOk c L) := by
  unfold Kernel.levelOk; infer_instance

/-- The queue table is in order: every level is. -/
def Kernel.QueueOk (c : Param) (s : Kernel) : Prop :=
  s.levelOk c TOP ∧ s.levelOk c MIDDLE ∧ s.levelOk c BOTTOM

instance (c : Param) (s : Kernel) : Decidable (s.QueueOk c) := by
  unfold Kernel.QueueOk; infer_instance


/-- Whether the process in slot `i` is SLEEPING on the channel. -/
def Kernel.sleepsOn (s : Kernel) (chan : Chan) (i : Nat) : Bool :=
  match s.ptable[i]? with
  | some x => decide (x.state = procstate.SLEEPING ∧ x.chan = chan)
  | none => false

/-- The slots among `k, k+1, ..., k+n-1` whose process is SLEEPING on the
channel, in slot order. -/
def Kernel.sleepers (s : Kernel) (chan : Chan) (k n : Nat) : List Nat :=
  (List.range' k n).filter (s.sleepsOn chan)

/-- What `wakeup1` may change from `u` to `t`: a SLEEPING process may become
RUNNABLE and slots of processes that were SLEEPING may be appended to the top
level; pids, parents, the other levels, the lock slot, `initproc` and
`c->proc` stay. -/
def Kernel.Wakes (u t : Kernel) : Prop :=
  t.level MIDDLE = u.level MIDDLE ∧ t.level BOTTOM = u.level BOTTOM ∧
  t.ltable = u.ltable ∧ t.initproc = u.initproc ∧ t.cproc = u.cproc ∧
  t.ptable.length = u.ptable.length ∧
  (∀ (j : Nat) (x : proc), u.ptable[j]? = some x → ∃ y, t.ptable[j]? = some y ∧
    y.parent = x.parent ∧ y.pid = x.pid ∧
    (y.state = x.state ∨ (x.state = procstate.SLEEPING ∧ y.state = procstate.RUNNABLE))) ∧
  (∀ e ∈ (t.level TOP).entries, e ∈ (u.level TOP).entries ∨
    ∃ (j : Nat) (x : proc), e = some j ∧ u.ptable[j]? = some x ∧ x.state = procstate.SLEEPING)

/-- What the reparenting loop of `exit` may change from `u` to `t`: as
`Kernel.Wakes`, and a child of `cur` may have become a child of `initproc`. -/
def Kernel.Reparents (cur : Ptr) (u t : Kernel) : Prop :=
  t.level MIDDLE = u.level MIDDLE ∧ t.level BOTTOM = u.level BOTTOM ∧
  t.ltable = u.ltable ∧ t.initproc = u.initproc ∧ t.cproc = u.cproc ∧
  t.ptable.length = u.ptable.length ∧
  (∀ (j : Nat) (x : proc), u.ptable[j]? = some x → ∃ y, t.ptable[j]? = some y ∧
    (y.parent = x.parent ∨ (x.parent = cur ∧ y.parent = u.initproc)) ∧ y.pid = x.pid ∧
    (y.state = x.state ∨ (x.state = procstate.SLEEPING ∧ y.state = procstate.RUNNABLE))) ∧
  (∀ e ∈ (t.level TOP).entries, e ∈ (u.level TOP).entries ∨
    ∃ (j : Nat) (x : proc), e = some j ∧ u.ptable[j]? = some x ∧ x.state = procstate.SLEEPING)

/-- The identifier invariant of the process table: `nextpid` is positive,
every slot that is not UNUSED has a positive pid below `nextpid`, and two
distinct slots that are not UNUSED have different pids. -/
def Kernel.PidInv (s : Kernel) : Prop :=
  0 < s.nextpid ∧
  (∀ (i : Nat) (x : proc), s.ptable[i]? = some x → x.state ≠ procstate.UNUSED →
    0 < x.pid ∧ x.pid < s.nextpid) ∧
  (∀ (i j : Nat) (x y : proc), s.ptable[i]? = some x → s.ptable[j]? = some y →
    x.state ≠ procstate.UNUSED → y.state ≠ procstate.UNUSED → i ≠ j → x.pid ≠ y.pid)

/-- From `s` to `t` the counter `nextpid` and the size of the process table
stay, and every slot keeps its pid and keeps being UNUSED or not. -/
def Kernel.SamePids (s t : Kernel) : Prop :=
  t.nextpid = s.nextpid ∧ t.ptable.length = s.ptable.length ∧
  ∀ (j : Nat) (x : proc), s.ptable[j]? = some x → ∃ y, t.ptable[j]? = some y ∧
    y.pid = x.pid ∧ (y.state = procstate.UNUSED ↔ x.state = procstate.UNUSED)

/-- From `s` to `t` the counter `nextpid` and the size of the process table
stay, and every slot that is not UNUSED in `t` was not UNUSED in `s` and has
kept its pid. -/
def Kernel.PidsKept (s t : Kernel) : Prop :=
  t.nextpid = s.nextpid ∧ t.ptable.length = s.ptable.length ∧
  ∀ (j : Nat) (x : proc), s.ptable[j]? = some x → ∃ y, t.ptable[j]? = some y ∧
    (y.state ≠ procstate.UNUSED → y.pid = x.pid ∧ x.state ≠ procstate.UNUSED)

/-- The running process `c->proc` is a process: its slot is not UNUSED. -/
def Kernel.curLive (s : Kernel) : Prop :=
  ∃ (i : Nat) (x : proc), s.cproc = some i ∧ s.ptable[i]? = some x ∧
    x.state ≠ procstate.UNUSED

/-- The states reached from a process table whose slots are all UNUSED, with
`nextpid = 1`, by calls of `allocproc`, `fork`, `exit` and `wait` that return,
in any order and by any process: between two calls the CPU may switch to
another process, and `exit` and `wait` are called by a process (a slot that is
not UNUSED). -/
inductive RegReach (c : Param) : Kernel → Prop where
  | start (s : Kernel) : (∀ x ∈ s.ptable, x.state = procstate.UNUSED) → s.nextpid = 1 →
      RegReach c s
  | allocproc (s : Kernel) (kallocOk : Bool) (p : Ptr) (t : Kernel) : RegReach c s →
      allocproc c s kallocOk = Outcome.ok (p, t) → RegReach c t
  | fork (s : Kernel) (kallocOk copyuvmOk : Bool) (r : Int) (t : Kernel) : RegReach c s →
      fork c s kallocOk copyuvmOk = Outcome.ok (r, t) → RegReach c t
  | exit (s t : Kernel) : RegReach c s → s.curLive → exit c s = Outcome.ok t → RegReach c t
  | wait (s : Kernel) (r : WaitResult) (t : Kernel) : RegReach c s → s.curLive →
      wait c s = Outcome.ok (r, t) → RegReach c t
  | switch (s : Kernel) (p : Ptr) (ctx : SchedCtx) : RegReach c s →
      RegReach c { s with cproc := p, sctx := ctx }

/-- The code ran without leaving an array and without exhausting a round
bound: it returned a value, or it dereferenced a null or invalid process
pointer. -/
def Outcome.inBounds {α : Type} : Outcome α → Prop
  | Outcome.ok _ => True
  | Outcome.fault f => f = Fault.nullDeref ∨ f = Fault.badPointer

/-- Every level's counter `rear` is between 0 and `NPROC`. -/
def Kernel.RearOk (c : Param) (s : Kernel) : Prop :=
  (0 ≤ (s.level TOP).rear ∧ (s.level TOP).rear ≤ c.NPROC) ∧
  (0 ≤ (s.level MIDDLE).rear ∧ (s.level MIDDLE).rear ≤ c.NPROC) ∧
  (0 ≤ (s.level BOTTOM).rear ∧ (s.level BOTTOM).rear ≤ c.NPROC)

instance (c : Param) (s : Kernel) : Decidable (s.RearOk c) := by
  unfold Kernel.RearOk; infer_instance

/-- Whether `schedulerChooseProcess(L)` would not dispatch the process an
entry points to: the entry is null or invalid, or the process is not RUNNABLE,
is killed, or has used up the quantum of the level. -/
def Kernel.stale (c : Param) (s : Kernel) (L : Int) (e : Ptr) : Bool :=
  match e with
  | none => true
  | some j =>
    match s.ptable[j]? with
    | none => true
    | some x => decide (x.state ≠ procstate.RUNNABLE ∨ x.killed = 1 ∨
        x.execTime ≥ c.TIME_QUANTUM L)

/-- The number of entries of level `L` that `schedulerChooseProcess(L)` would
not dispatch. -/
def Kernel.staleCount (c : Param) (s : Kernel) (L : Int) : Nat :=
  (s.level L).entries.countP (s.stale c L)

/-- The transitions used in recorded runs of the system; each is one
constructor of `Step` with its side conditions tested. -/
inductive Action where
  | pass (fuel : Nat)
  | tick
  | yields (fuel : Nat)
  | forks
  | kills (pid : Int)
  | locks (password : Int) (fuel : Nat)
  | unlocks (password : Int)
  | boost
deriving DecidableEq, Repr

/-- The state after one recorded transition; `halt` when a side condition of
the transition does not hold. -/
def Action.run (c : Param) (s : Kernel) : Action → Outcome Kernel
  | Action.pass fuel =>
    if s.cproc = none ∧ s.sctx = SchedCtx.loopTop then scheduler c fuel s
    else Outcome.fault Fault.halt
  | Action.tick => increaseExecTime s s.cproc
  | Action.yields fuel => do
    let s1 ← yield c s
    sched c fuel s1
  | Action.forks =>
    if s.cproc ≠ none then do
      let (_, t) ← fork c s true true
      Outcome.ok t
    else Outcome.fault Fault.halt
  | Action.kills pid =>
    if s.cproc ≠ none then do
      let (_, t) ← kill c s pid
      Outcome.ok t
    else Outcome.fault Fault.halt
  | Action.locks password fuel => do
    let (s1, switched) ← schedulerLock c s password
    if switched then sched c fuel s1 else Outcome.fault Fault.halt
  | Action.unlocks password =>
    if s.cproc ≠ none then schedulerUnlock c s password else Outcome.fault Fault.halt
  | Action.boost => priorityBoosting c s

/-- The state after a recorded run, transition by transition. -/
def runTrace (c : Param) : List Action → Kernel → Outcome Kernel
  | [], s => Outcome.ok s
  | a :: as, s => do
    let t ← a.run c s
    runTrace c as t


/-! ## Sample constants and states -/

/-- Sample constants: the 64 process slots of stock xv6, four priority values,
the quanta 4, 6 and 8 ticks of the three levels, and an arbitrary password. -/
def demoParam : Param := ⟨64, 4, 2023, fun l => 2 * l + 4⟩

/-- A zeroed, UNUSED process slot. -/
def freeSlot : proc :=
  ⟨procstate.UNUSED, 0, none, Chan.null, 0, 0, 0, 0, 0, lockstate.UNLOCKED⟩

/-- A process in the given state with the given pid, level, priority,
execTime and arrivedTime; not killed, no parent, not locked. -/
def mkProc (st : procstate) (pid qLevel priority execTime arrivedTime : Int) : proc :=
  ⟨st, pid, none, Chan.null, 0, qLevel, priority, execTime, arrivedTime, lockstate.UNLOCKED⟩

/-- A queue level that holds the given entries; the rest of the array is null. -/
def levelOf (c : Param) (es : List Ptr) : mlfQueue :=
  ⟨es ++ List.replicate (c.NPROC - es.length) none, es.length⟩

/-- A kernel state with the given first process slots (the others are free),
the given entries at the top, middle and lowest level, an empty lock slot and
a scheduler at the top of its loop. -/
def stateOf (c : Param) (ps : List proc) (top mid bot : List Ptr) : Kernel :=
  { ptable := ps ++ List.replicate (c.NPROC - ps.length) freeSlot
    qtable := [levelOf c top, levelOf c mid, levelOf c bot]
    ltable := none
    ticks := 0
    nextpid := 1
    initproc := none
    cproc := none
    sctx := SchedCtx.loopTop }

/-- Three RUNNABLE processes and an empty queue table. -/
def threeRunnable : Kernel :=
  stateOf demoParam
    [mkProc procstate.RUNNABLE 1 0 3 0 1, mkProc procstate.RUNNABLE 2 0 3 0 2,
     mkProc procstate.RUNNABLE 3 0 3 0 3] [] [] []

/-- Two RUNNABLE processes of equal priority at the lowest level; the one
stored second arrived first. -/
def bottomPair : Kernel :=
  stateOf demoParam
    [mkProc procstate.RUNNABLE 1 2 3 0 5, mkProc procstate.RUNNABLE 2 2 3 0 1]
    [] [] [some 0, some 1]

/-- Two RUNNABLE processes, the first of them alone at the level `L`. -/
def oneQueued (L : Int) : Kernel :=
  stateOf demoParam
    [mkProc procstate.RUNNABLE 1 L 3 0 1, mkProc procstate.RUNNABLE 2 0 3 0 2]
    (if L = 0 then [some 0] else []) (if L = 1 then [some 0] else [])
    (if L = 2 then [some 0] else [])

/-- Four RUNNABLE processes, the first three of them in the top level. -/
def threeQueued : Kernel :=
  stateOf demoParam
    [mkProc procstate.RUNNABLE 1 0 3 0 1, mkProc procstate.RUNNABLE 2 0 3 0 2,
     mkProc procstate.RUNNABLE 3 0 3 0 3, mkProc procstate.RUNNABLE 4 0 3 0 4]
    [some 0, some 1, some 2] [] []

/-- A state of the running system (`initproc` is slot 0): the given process
slots and level entries, lock slot, `c->proc`, scheduler context and `nextpid`. -/
def running (ps : List proc) (top mid bot : List Ptr) (lock cur : Ptr) (ctx : SchedCtx)
    (nextpid : Int) : Kernel :=
  { stateOf demoParam ps top mid bot with
    ltable := lock, cproc := cur, sctx := ctx, nextpid := nextpid, initproc := some 0 }

/-- The first process (pid 1, slot 0) in the given state, level and execTime. -/
def initP (st : procstate) (qLevel execTime : Int) : proc :=
  mkProc st 1 qLevel 3 execTime 1

/-- The child (pid 2, slot 1) of the first process, in the given state. -/
def childP (st : procstate) : proc :=
  { mkProc st 2 0 3 0 2 with parent := some 0 }

/-- The state `userinit` leaves: the first process RUNNABLE in the top level. -/
def afterInit : Kernel :=
  running [initP procstate.RUNNABLE 0 0] [some 0] [] [] none none SchedCtx.loopTop 2

/-- The first process is running from the top level and has consumed
`execTime` ticks. -/
def initRuns (execTime : Int) : Kernel :=
  running [initP procstate.RUNNING 0 execTime] [some 0] [] [] none (some 0) (SchedCtx.inMlfq 0) 2

/-- The first process has been demoted to the middle level and runs from there. -/
def initDemoted : Kernel :=
  running [initP procstate.RUNNING 1 0] [] [some 0] [] none (some 0) (SchedCtx.inMlfq 1) 2

/-- The first process, running from the middle level, has forked a child. -/
def childForked : Kernel :=
  running [initP procstate.RUNNING 1 0, childP procstate.RUNNABLE] [some 1] [some 0] []
    none (some 0) (SchedCtx.inMlfq 1) 3

/-- The first process sleeps on `ticks`, still at the head of the middle
level; the child runs from the top level. -/
def initSleeps : Kernel :=
  running [{ initP procstate.SLEEPING 1 0 with chan := Chan.ticksAddr },
           childP procstate.RUNNING] [some 1] [some 0] [] none (some 1) (SchedCtx.inMlfq 0) 3

/-- The first process has been woken: it is in the top level and in the middle
level. -/
def initTwice : Kernel :=
  running [{ initP procstate.RUNNABLE 0 0 with chan := Chan.ticksAddr },
           childP procstate.RUNNING] [some 1, some 0] [some 0] [] none (some 1)
    (SchedCtx.inMlfq 0) 3

/-- The lock slot holds process 0, which is RUNNING and is the caller; the
queue table is empty. -/
def lockHeld : Kernel :=
  running [{ initP procstate.RUNNING 0 2 with isLock := lockstate.LOCKED, priority := 1 }]
    [] [] [] (some 0) (some 0) SchedCtx.inLock 2

/-- The state `lockHeld` after the release: the slot is empty and process 0 is
reset, still RUNNING, and in no queue level. -/
def lockReleased : Kernel :=
  running [initP procstate.RUNNING 0 0] [] [] [] none (some 0) SchedCtx.inLock 2

/-- Process 1 (pid 2) sleeps and is in no queue level; process 0 runs. -/
def sleeperOut : Kernel :=
  running [initP procstate.RUNNING 0 0,
           { childP procstate.SLEEPING with chan := Chan.ticksAddr, execTime := 2, priority := 1 }]
    [some 0] [] [] none (some 0) (SchedCtx.inMlfq 0) 3

/-- The state `sleeperOut` after `kill(2)`. -/
def sleeperKilled : Kernel :=
  running [initP procstate.RUNNING 0 0,
           { childP procstate.RUNNABLE with chan := Chan.ticksAddr, killed := 1 }]
    [some 0] [] [] none (some 0) (SchedCtx.inMlfq 0) 3

/-- Process 1 sleeps at the head of the middle level; process 0 runs from the
top level. -/
def sleeperMiddle : Kernel :=
  running [initP procstate.RUNNING 0 0,
           { childP procstate.SLEEPING with chan := Chan.ticksAddr, qLevel := 1 }]
    [some 0] [some 1] [] none (some 0) (SchedCtx.inMlfq 0) 3

/-- The state `sleeperMiddle` after `priorityBoosting`: process 1 is reset and
in no queue level. -/
def sleeperDropped : Kernel :=
  running [initP procstate.RUNNING 0 0,
           { childP procstate.SLEEPING with chan := Chan.ticksAddr, qLevel := 1 }]
    [some 0] [] [] none (some 0) (SchedCtx.inMlfq 0) 3

/-- The first process holds the scheduler lock (it is in the lock slot and in
no queue level) and is in the given state with the given killed flag; its two
children, slots 1 and 2, wait in the top level. -/
def lockerWithChildren (st : procstate) (killed : Int) (cur : Ptr) (ctx : SchedCtx) : Kernel :=
  running [{ initP st 0 0 with isLock := lockstate.LOCKED, killed := killed },
           childP procstate.RUNNABLE,
           { mkProc procstate.RUNNABLE 3 0 3 0 3 with parent := some 0 }]
    [some 1, some 2] [] [] (some 0) cur ctx 4

/-- The state after the scheduler has force-released the lock of the killed
first process: the top level holds slot 0 and twice slot 2. -/
def childTwice : Kernel :=
  running [{ initP procstate.RUNNABLE 0 0 with killed := 1 },
           childP procstate.RUNNABLE,
           { mkProc procstate.RUNNABLE 3 0 3 0 3 with parent := some 0 }]
    [some 0, some 2, some 2] [] [] none none SchedCtx.loopTop 4

/-- Process 0 runs from the top level, the RUNNABLE process 1 and the SLEEPING
process 3 are in the middle level, the RUNNABLE process 2 is in the lowest
level; none of them is reset. -/
def boostSample : Kernel :=
  running [initP procstate.RUNNING 0 2,
           { childP procstate.RUNNABLE with qLevel := 1, execTime := 3 },
           { mkProc procstate.RUNNABLE 3 2 1 5 3 with parent := some 0 },
           { mkProc procstate.SLEEPING 4 1 2 1 4 with parent := some 0, chan := Chan.ticksAddr }]
    [some 0] [some 1, some 3] [some 2] none (some 0) (SchedCtx.inMlfq 0) 5

/-- Process 0 runs from the top level; process 1 (pid 2) waits in the lowest
level with the given priority. -/
def bottomWaiter (priority : Int) : Kernel :=
  running [initP procstate.RUNNING 0 0,
           { childP procstate.RUNNABLE with qLevel := 2, priority := priority }]
    [some 0] [] [some 1] none (some 0) (SchedCtx.inMlfq 0) 3


/-- All 64 process slots are in use and the top level is at capacity: slots
0 to 62 are RUNNABLE and queued at the top level, slot 0 a second time, and
slot 63 (pid 64) is SLEEPING on `ticks` with its entry in the middle level. -/
def topFull : Kernel :=
  running ((List.range 63).map (fun k => mkProc procstate.RUNNABLE (k + 1) 0 3 0 (k + 1))
            ++ [{ mkProc procstate.SLEEPING 64 1 3 2 64 with chan := Chan.ticksAddr }])
    ((List.range 63).map some ++ [some 0]) [some 63] [] none none SchedCtx.loopTop 65

/-- The state `topFull` after `wakeup` on `ticks`: slot 63 is RUNNABLE and
reset, its `qLevel` is still 1, and the queue table is as before. -/
def topFullWoken : Kernel :=
  running ((List.range 63).map (fun k => mkProc procstate.RUNNABLE (k + 1) 0 3 0 (k + 1))
            ++ [{ mkProc procstate.RUNNABLE 64 1 3 0 64 with chan := Chan.ticksAddr }])
    ((List.range 63).map some ++ [some 0]) [some 63] [] none none SchedCtx.loopTop 65

/-- The state after the first `allocproc` from `boot`: slot 0 is EMBRYO with
pid 1 and `nextpid = 2`. -/
def embryoOnly : Kernel :=
  { stateOf demoParam [mkProc procstate.EMBRYO 1 0 3 0 1] [] [] [] with nextpid := 2 }

/-- The state after the process in slot 0 of `embryoOnly` has forked: slot 1
holds its child (pid 2), RUNNABLE and queued at the top level. -/
def embryoForked : Kernel :=
  { stateOf demoParam
      [mkProc procstate.EMBRYO 1 0 3 0 1,
       { mkProc procstate.RUNNABLE 2 0 3 0 2 with parent := some 0 }] [some 1] [] [] with
    nextpid := 3, cproc := some 0 }

/-- The child (slot 1, pid 2) of the first process is a ZOMBIE; the first
process runs. -/
def zombieChild : Kernel :=
  running [initP procstate.RUNNING 0 0, childP procstate.ZOMBIE] [some 0] [] [] none (some 0)
    (SchedCtx.inMlfq 0) 3

/-- The first process sleeps in `wait` (on its own address) at the head of the
middle level; its child (slot 1) runs from the top level and has a RUNNABLE
child of its own (slot 2, pid 3) behind it in the top level. -/
def exitSample : Kernel :=
  running [{ initP procstate.SLEEPING 1 0 with chan := Chan.slot 0 },
           childP procstate.RUNNING,
           { mkProc procstate.RUNNABLE 3 0 3 0 3 with parent := some 1 }]
    [some 1, some 2] [some 0] [] none (some 1) (SchedCtx.inMlfq 0) 4

/-- A timer tick: `increaseExecTime` for the running process, then `yield`. -/
def timerTick : List Action := [Action.tick, Action.yields 4]

/-- A timer tick of the running process followed by a voluntary `yield` of
the process dispatched next. -/
def tickThenYield : List Action := [Action.tick, Action.yields 4, Action.yields 4]

/-- The run that starves a process of the top level.  Process 0 is dispatched
and forks process 1; the two take timer ticks in turn, four each, and are
demoted to the middle level; there process 0 yields whenever it is dispatched,
so process 1 takes six timer ticks; process 0 then takes the scheduler lock,
and the scheduler demotes process 1 to the lowest level and dispatches it;
process 1 kills process 0, forks process 2 and takes a timer tick; the
scheduler, back at the top of its loop, releases the lock by force and, in its
next pass, purges the killed process 0 and dispatches process 1 from the
lowest level; process 1 forks process 3 and takes a timer tick. -/
def starveTrace : List Action :=
  [Action.pass 4, Action.forks] ++
  timerTick ++ timerTick ++ timerTick ++ timerTick ++
  timerTick ++ timerTick ++ timerTick ++ timerTick ++
  [Action.yields 4] ++
  tickThenYield ++ tickThenYield ++ tickThenYield ++
  tickThenYield ++ tickThenYield ++ tickThenYield ++
  [Action.locks 2023 4, Action.kills 1, Action.forks] ++ timerTick ++
  [Action.pass 4, Action.pass 4, Action.forks] ++ timerTick

/-- The state after `starveTrace`: the top level has a null entry at index 0
and the RUNNABLE process 3 (pid 4) behind it; the RUNNABLE process 1 is alone
in the lowest level; process 0 is killed and process 2 is RUNNABLE, both in no
level; the lock slot is empty and the scheduler is at the top of its loop. -/
def nullHead : Kernel :=
  running [{ initP procstate.RUNNABLE 0 0 with killed := 1 },
           { childP procstate.RUNNABLE with qLevel := 2, execTime := 2 },
           { mkProc procstate.RUNNABLE 3 0 3 0 3 with parent := some 1 },
           { mkProc procstate.RUNNABLE 4 0 3 0 4 with parent := some 1 }]
    [none, some 3] [] [some 1] none none SchedCtx.loopTop 5

/-- The state `nullHead` after a pass of the scheduler: process 1 runs from
the lowest level. -/
def nullHeadRuns : Kernel :=
  running [{ initP procstate.RUNNABLE 0 0 with killed := 1 },
           { childP procstate.RUNNING with qLevel := 2, execTime := 2 },
           { mkProc procstate.RUNNABLE 3 0 3 0 3 with parent := some 1 },
           { mkProc procstate.RUNNABLE 4 0 3 0 4 with parent := some 1 }]
    [none, some 3] [] [some 1] none (some 1) (SchedCtx.inMlfq 2) 5

/-- The lock holder, process 0, runs in lock mode and has forked process 1,
which waits in the top level. -/
def lockForked : Kernel :=
  running [{ initP procstate.RUNNING 0 0 with isLock := lockstate.LOCKED },
           childP procstate.RUNNABLE]
    [some 1] [] [] (some 0) (some 0) SchedCtx.inLock 3

/-- The state `lockForked` after `schedulerUnlock` with the right password:
process 0 is RUNNING and unlocked, with `qLevel = 0`, and in no level. -/
def unlockedRuns : Kernel :=
  running [initP procstate.RUNNING 0 0, childP procstate.RUNNABLE]
    [some 1] [] [] none (some 0) SchedCtx.inLock 3

/-- The state `unlockedRuns` after `yield` (up to `sched()`): process 0 is in
the top level, process 1 in no level. -/
def yieldDropped : Kernel :=
  running [initP procstate.RUNNABLE 0 0, childP procstate.RUNNABLE]
    [some 0] [] [] none (some 0) SchedCtx.inLock 3

/-- The RUNNABLE first process is alone in the middle level; the lock slot is
empty and the scheduler is at the top of its loop. -/
def initWaits : Kernel :=
  running [initP procstate.RUNNABLE 1 0] [] [some 0] [] none none SchedCtx.loopTop 2

/-- Process 0 runs from the top level; the lowest level holds process 1,
SLEEPING on `ticks`, then process 2, RUNNABLE with the quantum of the lowest
level (8 ticks) used up, then process 3, RUNNABLE with `execTime = 1`. -/
def staleBottom : Kernel :=
  running [initP procstate.RUNNING 0 0,
           { childP procstate.SLEEPING with qLevel := 2, chan := Chan.ticksAddr },
           { mkProc procstate.RUNNABLE 3 2 2 8 3 with parent := some 0 },
           { mkProc procstate.RUNNABLE 4 2 3 1 4 with parent := some 0 }]
    [some 0] [] [some 1, some 2, some 3] none (some 0) (SchedCtx.inMlfq 0) 5

/-- The state `staleBottom` after `schedulerChooseProcess(BOTTOM)`: process 1
is purged and reset, process 2 is demoted in place (`execTime = 0`, priority
one lower) and stands behind process 3. -/
def staleBottomChosen : Kernel :=
  running [initP procstate.RUNNING 0 0,
           { childP procstate.SLEEPING with qLevel := 2, chan := Chan.ticksAddr },
           { mkProc procstate.RUNNABLE 3 2 1 0 3 with parent := some 0 },
           { mkProc procstate.RUNNABLE 4 2 3 1 4 with parent := some 0 }]
    [some 0] [] [some 3, some 2] none (some 0) (SchedCtx.inMlfq 0) 5

/-- The state `initDemoted` after `priorityBoosting`: the running process 0 is
in no level and keeps `qLevel = 1`. -/
def boostedOut : Kernel :=
  running [initP procstate.RUNNING 1 0] [] [] [] none (some 0) (SchedCtx.inMlfq 1) 2

/-- The state `boostedOut` after `yield` (up to `sched()`): process 0 is back
in the middle level. -/
def boostedBack : Kernel :=
  running [initP procstate.RUNNABLE 1 0] [] [some 0] [] none (some 0) (SchedCtx.inMlfq 1) 2

/-- Process 0 runs from the top level and has forked process 1. -/
def forkedTop : Kernel :=
  running [initP procstate.RUNNING 0 0, childP procstate.RUNNABLE]
    [some 0, some 1] [] [] none (some 0) (SchedCtx.inMlfq 0) 3

/-- The state `forkedTop` after `schedulerLock` with the right password, up to
`sched()`: process 0 is in the lock slot and in no level. -/
def lockTaken : Kernel :=
  running [{ initP procstate.RUNNABLE 0 0 with isLock := lockstate.LOCKED },
           childP procstate.RUNNABLE]
    [some 1] [] [] (some 0) (some 0) (SchedCtx.inMlfq 0) 3

/-- The state `lockTaken` after `sched()`: the scheduler has dispatched
process 1 from the top level; the lock slot holds process 0. -/
def lockedOut : Kernel :=
  running [{ initP procstate.RUNNABLE 0 0 with isLock := lockstate.LOCKED },
           childP procstate.RUNNING]
    [some 1] [] [] (some 0) (some 1) (SchedCtx.inMlfq 0) 3

/-- The lock holder, process 0, runs in lock mode; the queue table is empty. -/
def lockRuns : Kernel :=
  running [{ initP procstate.RUNNING 0 0 with isLock := lockstate.LOCKED }]
    [] [] [] (some 0) (some 0) SchedCtx.inLock 2


/-! ## Basic facts about the embedding -/

@[simp] theorem Outcome.ok_bind {α β : Type} (a : α) (f : α → Outcome β) :
    (Outcome.ok a >>= f) = f a := rfl

@[simp] theorem Outcome.fault_bind {α β : Type} (e : Fault) (f : α → Outcome β) :
    ((Outcome.fault e : Outcome α) >>= f) = Outcome.fault e := rfl

@[simp] theorem Outcome.pure_eq {α : Type} (a : α) : (pure a : Outcome α) = Outcome.ok a := rfl

theorem rdQ_ok (a : List Ptr) (k : Nat) (e : Ptr) (h : a[k]? = some e) :
    rdQ a (k : Int) = Outcome.ok e := by
  simp [rdQ, h]

theorem wrQ_ok (a : List Ptr) (k : Nat) (v : Ptr) (h : k < a.length) :
    wrQ a (k : Int) v = Outcome.ok (a.set k v) := by
  simp [wrQ, h]

theorem deref_ok (s : Kernel) (i : Nat) (x : proc) (h : s.ptable[i]? = some x) :
    s.deref (some i) = Outcome.ok x := by
  simp [Kernel.deref, h]

theorem deref_store_same (s : Kernel) (i : Nat) (x : proc) (h : i < s.ptable.length) :
    (s.store i x).deref (some i) = Outcome.ok x := by
  simp [Kernel.deref, Kernel.store, h]

theorem level_store (s : Kernel) (i : Nat) (x : proc) (l : Int) :
    (s.store i x).level l = s.level l := rfl

theorem level_setLevel_same (s : Kernel) (l : Int) (q : mlfQueue)
    (h : l.toNat < s.qtable.length) : (s.setLevel l q).level l = q := by
  simp [Kernel.level, Kernel.setLevel, List.getD, h]

theorem level_setLevel_ne (s : Kernel) (l m : Int) (q : mlfQueue)
    (h : l.toNat ≠ m.toNat) : (s.setLevel l q).level m = s.level m := by
  simp [Kernel.level, Kernel.setLevel, List.getD, List.getElem?_set_ne h]

theorem Kernel.Layout.layout_store {c : Param} {s : Kernel} (h : s.Layout c) (i : Nat) (x : proc) :
    (s.store i x).Layout c := by
  obtain ⟨h1, h2, h3⟩ := h
  exact ⟨by simp [Kernel.store, h1], h2, h3⟩

theorem Kernel.Layout.layout_setLevel {c : Param} {s : Kernel} (h : s.Layout c) (l : Int) (q : mlfQueue)
    (hq : q.procsQueue.length = c.NPROC) : (s.setLevel l q).Layout c := by
  obtain ⟨h1, h2, h3⟩ := h
  refine ⟨h1, by simp [Kernel.setLevel, h2], ?_⟩
  intro q1 hq1
  simp only [Kernel.setLevel] at hq1
  rcases List.mem_or_eq_of_mem_set hq1 with h4 | h4
  · exact h3 q1 h4
  · rw [h4]; exact hq

theorem Kernel.Layout.level_length {c : Param} {s : Kernel} (h : s.Layout c) (l : Int)
    (hl : l.toNat < 3) : (s.level l).procsQueue.length = c.NPROC := by
  obtain ⟨_, h2, h3⟩ := h
  have hlt : l.toNat < s.qtable.length := by omega
  have : s.level l = s.qtable[l.toNat] := by
    simp [Kernel.level, List.getD, List.getElem?_eq_getElem hlt]
  rw [this]
  exact h3 _ (List.getElem_mem _)

/-- The loop that closes a gap copies every element of `k+1 .. R-1` one place
down and changes nothing else. -/
theorem shiftFront_spec (R : Nat) : ∀ (n k : Nat) (a : List Ptr),
    n = R - 1 - k → R ≤ a.length →
    ∃ r, shiftFront a (R : Int) (k : Int) n = Outcome.ok r ∧ r.length = a.length ∧
      ∀ j : Nat, r[j]? = if k ≤ j ∧ j + 1 < R then a[j + 1]? else a[j]? := by
  intro n
  induction n with
  | zero =>
    intro k a hn hR
    refine ⟨a, ?_, rfl, ?_⟩
    · have : ¬ ((k : Int) < (R : Int) - 1) := by omega
      simp [shiftFront, this]
    · intro j
      have : ¬ (k ≤ j ∧ j + 1 < R) := by omega
      simp [this]
  | succ n ih =>
    intro k a hn hR
    have hlt : (k : Int) < (R : Int) - 1 := by omega
    have hk1 : k + 1 < a.length := by omega
    have hrd : rdQ a ((k : Int) + 1) = Outcome.ok a[k + 1] := by
      have := rdQ_ok a (k + 1) a[k + 1] (List.getElem?_eq_getElem hk1)
      simpa using this
    have hwr : wrQ a (k : Int) a[k + 1] = Outcome.ok (a.set k a[k + 1]) :=
      wrQ_ok a k _ (by omega)
    obtain ⟨r, hr, hlen, hpt⟩ := ih (k + 1) (a.set k a[k + 1]) (by omega) (by simpa using hR)
    refine ⟨r, ?_, by simpa using hlen, ?_⟩
    · have hcast : ((k : Int) + 1) = ((k + 1 : Nat) : Int) := by push_cast; rfl
      simp only [shiftFront, hlt, if_true, hrd, Outcome.ok_bind, hwr]
      rw [hcast]; exact hr
    · intro j
      rw [hpt j]
      by_cases h1 : k + 1 ≤ j ∧ j + 1 < R
      · have h2 : k ≤ j ∧ j + 1 < R := ⟨by omega, h1.2⟩
        rw [if_pos h1, if_pos h2, List.getElem?_set_ne (by omega)]
      · rw [if_neg h1]
        by_cases h3 : k = j
        · subst h3
          by_cases h4 : k + 1 < R
          · rw [if_pos ⟨le_refl _, h4⟩, List.getElem?_set_self (by omega),
              List.getElem?_eq_getElem hk1]
          · omega
        · have h2 : ¬ (k ≤ j ∧ j + 1 < R) := by omega
          rw [if_neg h2, List.getElem?_set_ne h3]

theorem closeGap_length (a : List Ptr) (k R : Nat) (hk : k < R) (hR : R ≤ a.length) :
    (closeGap a k R).length = a.length := by
  simp [closeGap]; omega

theorem closeGap_getElem? (a : List Ptr) (k R : Nat) (hk : k < R) (hR : R ≤ a.length) (j : Nat) :
    (closeGap a k R)[j]? =
      if j + 1 = R then some none else if k ≤ j ∧ j + 1 < R then a[j + 1]? else a[j]? := by
  unfold closeGap
  by_cases h1 : j < k
  · rw [List.getElem?_append_left (by simp; omega)]
    have : ¬ (j + 1 = R) := by omega
    have h2 : ¬ (k ≤ j ∧ j + 1 < R) := by omega
    simp [this, h2, List.getElem?_take, h1]
  · rw [List.getElem?_append_right (by simp; omega)]
    have hlen : (a.take k).length = k := by simp; omega
    rw [hlen]
    by_cases h2 : j + 1 < R
    · rw [List.getElem?_append_left (by simp; omega)]
      have : ¬ (j + 1 = R) := by omega
      have h3 : k ≤ j ∧ j + 1 < R := ⟨by omega, h2⟩
      simp only [this, h3, if_false, if_true]
      rw [List.getElem?_take_of_lt (by omega), List.getElem?_drop]
      congr 1; omega
    · rw [List.getElem?_append_right (by simp; omega)]
      have hlen2 : ((a.drop (k + 1)).take (R - 1 - k)).length = R - 1 - k := by simp; omega
      rw [hlen2]
      by_cases h4 : j + 1 = R
      · have : j - k - (R - 1 - k) = 0 := by omega
        simp [h4, this]
      · have h5 : ¬ (k ≤ j ∧ j + 1 < R) := by omega
        have : j - k - (R - 1 - k) = (j - R) + 1 := by omega
        simp only [h4, h5, if_false, this, List.getElem?_cons_succ, List.getElem?_drop]
        congr 1; omega

/-- Closing the gap at `k` and clearing the last entry, as `MLFQdequeue` and
`MLFQdeleteByPid` do, yields `closeGap`. -/
theorem shiftFront_wrQ (a : List Ptr) (k R : Nat) (hk : k < R) (hR : R ≤ a.length) :
    (shiftFront a (R : Int) (k : Int) (R - 1 - k) >>= fun a1 => wrQ a1 ((R : Int) - 1) none)
      = Outcome.ok (closeGap a k R) := by
  obtain ⟨r, hr, hlen, hpt⟩ := shiftFront_spec R (R - 1 - k) k a rfl hR
  have hcast : ((R : Int) - 1) = ((R - 1 : Nat) : Int) := by omega
  rw [hr, Outcome.ok_bind, hcast, wrQ_ok r (R - 1) none (by omega)]
  congr 1
  apply List.ext_getElem?
  intro j
  rw [closeGap_getElem? a k R hk hR j, List.getElem?_set]
  by_cases h1 : R - 1 = j
  · have : j + 1 = R := by omega
    simp [h1, this]; omega
  · have : ¬ (j + 1 = R) := by omega
    rw [if_neg h1, if_neg this, hpt j]

theorem closeGap_take (a : List Ptr) (k R : Nat) (hk : k < R) (hR : R ≤ a.length) :
    (closeGap a k R).take (R - 1) = (a.take R).eraseIdx k := by
  apply List.ext_getElem?
  intro j
  rw [List.getElem?_take, closeGap_getElem? a k R hk hR j, List.getElem?_eraseIdx]
  by_cases h1 : j < R - 1
  · have h2 : ¬ (j + 1 = R) := by omega
    rw [if_pos h1, if_neg h2]
    by_cases h3 : j < k
    · have h4 : ¬ (k ≤ j ∧ j + 1 < R) := by omega
      rw [if_neg h4, if_pos h3, List.getElem?_take_of_lt (by omega)]
    · have h4 : k ≤ j ∧ j + 1 < R := ⟨by omega, by omega⟩
      rw [if_pos h4, if_neg h3, List.getElem?_take_of_lt (by omega)]
  · rw [if_neg h1]
    by_cases h3 : j < k
    · omega
    · rw [if_neg h3, List.getElem?_take]
      have : ¬ (j + 1 < R) := by omega
      simp [this]

theorem level_toNat_lt {L : Int} (h0 : 0 ≤ L) (h3 : L < 3) : L.toNat < 3 := by omega

/-- A successful `MLFQenqueue` in closed form. -/
theorem MLFQenqueue_ok (c : Param) (s : Kernel) (i : Nat) (L : Int) (x : proc) (R : Nat)
    (hlay : s.Layout c) (h0 : 0 ≤ L) (h3 : L < 3) (hR : (s.level L).rear = R)
    (hlt : R < c.NPROC) (hx : s.ptable[i]? = some x) (hrun : x.state = procstate.RUNNABLE) :
    MLFQenqueue c s (some i) L = Outcome.ok (0,
      (s.store i { x with qLevel := L }).setLevel L
        ⟨(s.level L).procsQueue.set R (some i), (R : Int) + 1⟩) := by
  have hlen := hlay.level_length L (level_toNat_lt h0 h3)
  have h1 : ¬ (L < 0 ∨ L ≥ MAXQLEVEL) := by simp [MAXQLEVEL]; omega
  have h2 : ¬ ((R : Int) ≥ (c.NPROC : Int)) := by omega
  have hw := wrQ_ok (s.level L).procsQueue R (some i) (by omega)
  simp only [MLFQenqueue, h1, h2, if_false, deref_ok s i x hx, Outcome.ok_bind, hrun,
    ne_eq, not_true_eq_false, level_store, hR, hw]

theorem take_set_succ (a : List Ptr) (R : Nat) (v : Ptr) (h : R < a.length) :
    (a.set R v).take (R + 1) = a.take R ++ [v] := by
  apply List.ext_getElem?
  intro j
  rw [List.getElem?_take, List.getElem?_set]
  by_cases h1 : j < R
  · rw [if_pos (by omega), if_neg (by omega), List.getElem?_append_left (by simp; omega),
      List.getElem?_take_of_lt h1]
  · rw [List.getElem?_append_right (by simp; omega)]
    have hl : (a.take R).length = R := by simp; omega
    rw [hl]
    by_cases h2 : j = R
    · subst h2; simp [h]
    · rw [if_neg (by omega)]
      have : j - R = (j - R - 1) + 1 := by omega
      rw [this]; simp

theorem enqueueAll_spec (c : Param) (L : Int) (h0 : 0 ≤ L) (h3 : L < 3) :
    ∀ (ps : List Nat) (s : Kernel) (R : Nat), s.Layout c → (s.level L).rear = R →
      R + ps.length ≤ c.NPROC →
      (∀ i ∈ ps, ∃ x, s.ptable[i]? = some x ∧ x.state = procstate.RUNNABLE) →
      ∃ s1, enqueueAll c L s (ps.map some) = Outcome.ok (List.replicate ps.length 0, s1) ∧
        s1.Layout c ∧ (s1.level L).rear = ((R + ps.length : Nat) : Int) ∧
        (s1.level L).entries = (s.level L).entries ++ ps.map some := by
  intro ps
  induction ps with
  | nil =>
    intro s R hlay hR _ _
    exact ⟨s, rfl, hlay, by simpa using hR, by simp⟩
  | cons i ps ih =>
    intro s R hlay hR hcap hrun
    obtain ⟨x, hx, hxr⟩ := hrun i (List.mem_cons_self _ _)
    have hlen := hlay.level_length L (level_toNat_lt h0 h3)
    have hq3 : L.toNat < s.qtable.length := by
      have := hlay.2.1; have := level_toNat_lt h0 h3; omega
    have hRlt : R < c.NPROC := by simp at hcap; omega
    have hen := MLFQenqueue_ok c s i L x R hlay h0 h3 hR hRlt hx hxr
    set s' := (s.store i { x with qLevel := L }).setLevel L
        ⟨(s.level L).procsQueue.set R (some i), (R : Int) + 1⟩ with hs'
    have hlay' : s'.Layout c :=
      (hlay.layout_store i _).layout_setLevel L _ (by simp [hlen])
    have hlev' : s'.level L = ⟨(s.level L).procsQueue.set R (some i), (R : Int) + 1⟩ :=
      level_setLevel_same _ L _ (by simpa [Kernel.store] using hq3)
    have hR' : (s'.level L).rear = ((R + 1 : Nat) : Int) := by rw [hlev']; simp
    have hrun' : ∀ j ∈ ps, ∃ y, s'.ptable[j]? = some y ∧ y.state = procstate.RUNNABLE := by
      intro j hj
      obtain ⟨y, hy, hyr⟩ := hrun j (List.mem_cons_of_mem _ hj)
      by_cases hji : i = j
      · subst hji
        refine ⟨{ x with qLevel := L }, ?_, hxr⟩
        have hil : i < s.ptable.length := by
          by_contra hc
          rw [List.getElem?_eq_none (by omega)] at hx
          exact absurd hx (by simp)
        simp [hs', Kernel.setLevel, Kernel.store, hil]
      · exact ⟨y, by simpa [hs', Kernel.setLevel, Kernel.store, List.getElem?_set_ne hji] using hy,
          hyr⟩
    obtain ⟨s1, hs1, hl1, hr1, he1⟩ := ih s' (R + 1) hlay' hR' (by simp at hcap ⊢; omega) hrun'
    refine ⟨s1, ?_, hl1, ?_, ?_⟩
    · simp only [List.map_cons, enqueueAll, hen, Outcome.ok_bind, hs1, List.length_cons,
        List.replicate_succ]
    · rw [hr1]; simp; omega
    · rw [he1, hlev']
      have : (⟨(s.level L).procsQueue.set R (some i), (R : Int) + 1⟩ : mlfQueue).entries
          = (s.level L).entries ++ [some i] := by
        simp only [mlfQueue.entries, hR]
        have : ((R : Int) + 1).toNat = R + 1 := by omega
        rw [this, Int.toNat_ofNat]
        exact take_set_succ _ R _ (by omega)
      rw [this]; simp

/-- `MLFQdequeue` at a non-lowest level with `R > 0` entries, in closed form:
it returns `procsQueue[0]` and closes the gap at index 0. -/
theorem MLFQdequeue_head (c : Param) (s : Kernel) (L : Int) (R : Nat)
    (hlay : s.Layout c) (h0 : 0 ≤ L) (h2 : L < 2) (hR : (s.level L).rear = R)
    (hpos : 0 < R) (hle : R ≤ c.NPROC) :
    ∃ e, (s.level L).procsQueue[0]? = some e ∧
      MLFQdequeue c s L = Outcome.ok (e,
        s.setLevel L ⟨closeGap (s.level L).procsQueue 0 R, (R : Int) - 1⟩) := by
  have hlen := hlay.level_length L (level_toNat_lt h0 (by omega))
  have hl0 : 0 < (s.level L).procsQueue.length := by omega
  refine ⟨(s.level L).procsQueue[0], List.getElem?_eq_getElem hl0, ?_⟩
  have h1 : ¬ (L < 0 ∨ L ≥ MAXQLEVEL) := by simp [MAXQLEVEL]; omega
  have h4 : ¬ ((R : Int) = 0) := by omega
  have h5 : L < MAXQLEVEL - 1 := by simp [MAXQLEVEL]; omega
  have hrd := rdQ_ok (s.level L).procsQueue 0 _ (List.getElem?_eq_getElem hl0)
  have hsw := shiftFront_wrQ (s.level L).procsQueue 0 R hpos (by omega)
  have hfu : ((R : Int) - 1).toNat = R - 1 - 0 := by omega
  simp only [Nat.cast_zero] at hrd hsw
  simp only [MLFQdequeue, h1, hR, h4, h5, if_false, if_true, hrd, Outcome.ok_bind, hfu]
  cases hsf : shiftFront (s.level L).procsQueue (R : Int) 0 (R - 1 - 0) with
  | ok a1 =>
    rw [hsf, Outcome.ok_bind] at hsw
    simp only [Outcome.ok_bind, hsw]
  | fault f =>
    rw [hsf] at hsw
    exact absurd hsw (by simp)

theorem dequeueAll_spec (c : Param) (L : Int) (h0 : 0 ≤ L) (h2 : L < 2) :
    ∀ (n : Nat) (s : Kernel), s.Layout c → (s.level L).rear = n → n ≤ c.NPROC →
      ∃ s2, dequeueAll c L s n = Outcome.ok ((s.level L).entries, s2) ∧
        (s2.level L).rear = 0 := by
  intro n
  induction n with
  | zero =>
    intro s _ hR _
    refine ⟨s, ?_, by simpa using hR⟩
    simp [dequeueAll, mlfQueue.entries, hR]
  | succ n ih =>
    intro s hlay hR hle
    obtain ⟨e, he, hdq⟩ := MLFQdequeue_head c s L (n + 1) hlay h0 h2 hR (by omega) hle
    have hlen := hlay.level_length L (level_toNat_lt h0 (by omega))
    have hq3 : L.toNat < s.qtable.length := by
      have := hlay.2.1; omega
    set s' := s.setLevel L ⟨closeGap (s.level L).procsQueue 0 (n + 1), ((n + 1 : Nat) : Int) - 1⟩
      with hs'
    have hcl := closeGap_length (s.level L).procsQueue 0 (n + 1) (by omega) (by omega)
    have hlay' : s'.Layout c := hlay.layout_setLevel L _ (by simp [hcl, hlen])
    have hlev' : s'.level L
        = ⟨closeGap (s.level L).procsQueue 0 (n + 1), ((n + 1 : Nat) : Int) - 1⟩ :=
      level_setLevel_same _ L _ hq3
    have hR' : (s'.level L).rear = (n : Int) := by rw [hlev']; simp
    obtain ⟨s2, hs2, hr2⟩ := ih s' hlay' hR' (by omega)
    refine ⟨s2, ?_, hr2⟩
    have hent : (s.level L).entries = e :: (s'.level L).entries := by
      rw [hlev']
      simp only [mlfQueue.entries, hR]
      have h1 : (((n + 1 : Nat) : Int)).toNat = n + 1 := by omega
      have h3 : (((n + 1 : Nat) : Int) - 1).toNat = n + 1 - 1 := by omega
      rw [h1, h3, closeGap_take _ 0 (n + 1) (by omega) (by omega)]
      cases hq : (s.level L).procsQueue with
      | nil => rw [hq] at he; simp at he
      | cons b bs =>
        rw [hq] at he
        simp at he
        simp [he]
    simp only [dequeueAll, hdq, Outcome.ok_bind, hs2, hent]

/-! ## The priority scan of the lowest level -/

theorem validPtr_iff (s : Kernel) (e : Ptr) :
    s.validPtr e = true ↔ ∃ i x, e = some i ∧ s.ptable[i]? = some x := by
  cases e with
  | none => simp [Kernel.validPtr]
  | some i =>
    simp only [Kernel.validPtr, decide_eq_true_eq, Option.some.injEq, exists_and_left,
      exists_eq_left']
    constructor
    · intro h; exact ⟨_, List.getElem?_eq_getElem h⟩
    · rintro ⟨x, hx⟩
      by_contra hc
      rw [List.getElem?_eq_none (by omega)] at hx
      exact absurd hx (by simp)

theorem entries_getElem? (q : mlfQueue) (R j : Nat) (hR : q.rear = R) (hj : j < R) :
    q.entries[j]? = q.procsQueue[j]? := by
  simp [mlfQueue.entries, hR, List.getElem?_take, hj]

/-- Every covered array element of a level whose entries are valid is a
pointer to a process. -/
theorem valid_at (s : Kernel) (L : Int) (R : Nat) (hR : (s.level L).rear = R)
    (hlen : R ≤ (s.level L).procsQueue.length)
    (hv : ∀ e ∈ (s.level L).entries, s.validPtr e = true) (j : Nat) (hj : j < R) :
    ∃ i x, (s.level L).procsQueue[j]? = some (some i) ∧ s.ptable[i]? = some x := by
  have hjl : j < (s.level L).procsQueue.length := by omega
  have hmem : (s.level L).procsQueue[j] ∈ (s.level L).entries := by
    rw [List.mem_iff_getElem?]
    exact ⟨j, by rw [entries_getElem? _ R j hR hj, List.getElem?_eq_getElem hjl]⟩
  obtain ⟨i, x, hi, hx⟩ := (validPtr_iff s _).1 (hv _ hmem)
  exact ⟨i, x, by rw [List.getElem?_eq_getElem hjl, hi], hx⟩

/-- The inner loop of the priority scan does not fault on valid entries. -/
theorem scanBand_ok (s : Kernel) (R : Nat) (hR : (s.level BOTTOM).rear = R)
    (hv : ∀ j, j < R → ∃ i x, (s.level BOTTOM).procsQueue[j]? = some (some i) ∧
      s.ptable[i]? = some x)
    (iterPrior minArrivedTime dequeueIndex : Int) :
    ∀ (n k : Nat), n = R - k →
      ∃ d, scanBand s iterPrior minArrivedTime dequeueIndex (k : Int) n = Outcome.ok d := by
  intro n
  induction n with
  | zero =>
    intro k hn
    have : ¬ ((k : Int) < (R : Int)) := by omega
    exact ⟨dequeueIndex, by simp [scanBand, hR, this]⟩
  | succ n ih =>
    intro k hn
    have hlt : (k : Int) < (R : Int) := by omega
    obtain ⟨i, x, hi, hx⟩ := hv k (by omega)
    obtain ⟨d, hd⟩ := ih (k + 1) (by omega)
    have hcast : ((k : Int) + 1) = ((k + 1 : Nat) : Int) := by push_cast; rfl
    by_cases hc : x.priority = iterPrior ∧ x.arrivedTime < minArrivedTime
    · exact ⟨k, by
        simp only [scanBand, hR, hlt, if_true, rdQ_ok _ k _ hi, Outcome.ok_bind,
          deref_ok s i x hx, hc, and_self]⟩
    · exact ⟨d, by
        simp only [scanBand, hR, hlt, if_true, rdQ_ok _ k _ hi, Outcome.ok_bind,
          deref_ok s i x hx, hc, if_false, hcast, hd]⟩

theorem scanPrior_done (c : Param) (s : Kernel) (iterPrior : Int) (n : Nat) :
    scanPrior c s iterPrior 0 n = Outcome.ok 0 := by
  cases n <;> simp [scanPrior]

/-- On a non-empty lowest level with valid entries the priority scan chooses
index 0. -/
theorem scanPrior_zero (c : Param) (s : Kernel) (R : Nat) (hR : (s.level BOTTOM).rear = R)
    (hpos : 0 < R) (hprio : 0 < c.MAXPRIORITY)
    (hv : ∀ j, j < R → ∃ i x, (s.level BOTTOM).procsQueue[j]? = some (some i) ∧
      s.ptable[i]? = some x) :
    scanPrior c s 0 (-1) c.MAXPRIORITY.toNat = Outcome.ok 0 := by
  obtain ⟨m, hm⟩ : ∃ m, c.MAXPRIORITY.toNat = m + 1 := ⟨c.MAXPRIORITY.toNat - 1, by omega⟩
  obtain ⟨i, x, hi, hx⟩ := hv 0 hpos
  obtain ⟨d, hd⟩ := scanBand_ok s R hR hv 0 x.arrivedTime (-1) R 0 (by omega)
  have h0 := rdQ_ok _ 0 _ hi
  simp only [Nat.cast_zero] at h0 hd
  rw [hm]
  simp only [scanPrior, hprio, true_and, if_true, h0, Outcome.ok_bind, deref_ok s i x hx, hR,
    Int.toNat_ofNat, hd, zero_add, scanPrior_done]

/-- `MLFQdequeue` at any level with `R > 0` valid entries, in closed form: it
returns `procsQueue[0]` and closes the gap at index 0 (at the lowest level
because the priority scan chooses index 0). -/
theorem MLFQdequeue_front (c : Param) (s : Kernel) (L : Int) (R : Nat)
    (hlay : s.Layout c) (h0 : 0 ≤ L) (h3 : L < 3) (hR : (s.level L).rear = R)
    (hpos : 0 < R) (hle : R ≤ c.NPROC) (hprio : 0 < c.MAXPRIORITY)
    (hv : ∀ e ∈ (s.level L).entries, s.validPtr e = true) :
    ∃ e, (s.level L).procsQueue[0]? = some e ∧
      MLFQdequeue c s L = Outcome.ok (e,
        s.setLevel L ⟨closeGap (s.level L).procsQueue 0 R, (R : Int) - 1⟩) := by
  by_cases h2 : L < 2
  · exact MLFQdequeue_head c s L R hlay h0 h2 hR hpos hle
  · have hL : L = BOTTOM := by simp only [BOTTOM]; omega
    subst hL
    have hlen := hlay.level_length BOTTOM (by decide)
    have hl0 : 0 < (s.level BOTTOM).procsQueue.length := by omega
    refine ⟨(s.level BOTTOM).procsQueue[0], List.getElem?_eq_getElem hl0, ?_⟩
    have hva := valid_at s BOTTOM R hR (by omega) hv
    have hsc := scanPrior_zero c s R hR hpos hprio hva
    have h1 : ¬ (BOTTOM < 0 ∨ BOTTOM ≥ MAXQLEVEL) := by decide
    have h4 : ¬ ((R : Int) = 0) := by omega
    have h5 : ¬ (BOTTOM < MAXQLEVEL - 1) := by decide
    have hrd := rdQ_ok (s.level BOTTOM).procsQueue 0 _ (List.getElem?_eq_getElem hl0)
    have hsw := shiftFront_wrQ (s.level BOTTOM).procsQueue 0 R hpos (by omega)
    have hfu : ((R : Int) - 1 - 0).toNat = R - 1 - 0 := by omega
    simp only [Nat.cast_zero] at hrd hsw
    simp only [MLFQdequeue, h1, hR, h4, h5, if_false, hsc, hrd, Outcome.ok_bind, hfu]
    cases hsf : shiftFront (s.level BOTTOM).procsQueue (R : Int) 0 (R - 1 - 0) with
    | ok a1 =>
      rw [hsf, Outcome.ok_bind] at hsw
      simp only [Outcome.ok_bind, hsw]
    | fault f =>
      rw [hsf] at hsw
      exact absurd hsw (by simp)

/-- The entries of a non-empty level are its head followed by the entries left
after the head is removed. -/
theorem entries_cons (a : List Ptr) (n : Nat) (e : Ptr) (he : a[0]? = some e)
    (hle : n + 1 ≤ a.length) : a.take (n + 1) = e :: (closeGap a 0 (n + 1)).take n := by
  have := closeGap_take a 0 (n + 1) (by omega) hle
  simp only [Nat.add_sub_cancel] at this
  rw [this]
  cases a with
  | nil => simp at he
  | cons b bs =>
    simp at he
    simp [he]

/-! ## Priority boosting -/

theorem Kernel.Keeps.refl (c : Param) (s : Kernel) : s.Keeps c s :=
  ⟨rfl, fun _ y hy => ⟨y, hy, rfl, fun h => h⟩⟩

theorem Kernel.Keeps.trans {c : Param} {s t u : Kernel} (h1 : s.Keeps c t) (h2 : t.Keeps c u) :
    s.Keeps c u := by
  refine ⟨h2.1.trans h1.1, ?_⟩
  intro j y hy
  obtain ⟨z, hz, hzs, hzr⟩ := h1.2 j y hy
  obtain ⟨w, hw, hws, hwr⟩ := h2.2 j z hz
  exact ⟨w, hw, hws.trans hzs, fun h => hwr (hzr h)⟩

theorem Kernel.Keeps.keeps_store (c : Param) (s : Kernel) (i : Nat) (x z : proc)
    (hx : s.ptable[i]? = some x) (hst : z.state = x.state)
    (hre : x.execTime = 0 ∧ x.priority = c.MAXPRIORITY - 1 →
      z.execTime = 0 ∧ z.priority = c.MAXPRIORITY - 1) :
    s.Keeps c (s.store i z) := by
  have hil : i < s.ptable.length := by
    by_contra hc
    rw [List.getElem?_eq_none (by omega)] at hx
    exact absurd hx (by simp)
  refine ⟨by simp [Kernel.store], ?_⟩
  intro j y hy
  by_cases hji : i = j
  · subst hji
    rw [hx] at hy
    cases hy
    exact ⟨z, by simp [Kernel.store, hil], hst, hre⟩
  · exact ⟨y, by simpa [Kernel.store, List.getElem?_set_ne hji] using hy, rfl, fun h => h⟩

theorem Kernel.Keeps.keeps_setLevel (c : Param) (s : Kernel) (L : Int) (q : mlfQueue) :
    s.Keeps c (s.setLevel L q) :=
  ⟨rfl, fun _ y hy => ⟨y, hy, rfl, fun h => h⟩⟩

theorem Kernel.ResetAt.keeps {c : Param} {s t : Kernel} {i : Nat} (h : s.ResetAt c i)
    (hk : s.Keeps c t) : t.ResetAt c i := by
  obtain ⟨y, hy, h0, h1⟩ := h
  obtain ⟨z, hz, _, hzr⟩ := hk.2 i y hy
  exact ⟨z, hz, (hzr ⟨h0, h1⟩).1, (hzr ⟨h0, h1⟩).2⟩

theorem level_congr (s t : Kernel) (h : t.qtable = s.qtable) (L : Int) : t.level L = s.level L := by
  simp [Kernel.level, h]

/-- The first loop of `priorityBoosting` resets every process the top level
refers to and changes nothing but process fields. -/
theorem boostTop_spec (c : Param) (s0 : Kernel) (T : Nat)
    (hTle : T ≤ (s0.level TOP).procsQueue.length)
    (hv : ∀ j e, j < T → (s0.level TOP).procsQueue[j]? = some e →
      e = none ∨ s0.validPtr e = true) :
    ∀ (n k : Nat) (s : Kernel), n = T - k → s.qtable = s0.qtable → s0.Keeps c s →
      (∀ j i, j < k → (s0.level TOP).procsQueue[j]? = some (some i) → s.ResetAt c i) →
      ∃ t, boostTop c (T : Int) s (k : Int) n = Outcome.ok t ∧ t.qtable = s0.qtable ∧
        t.ltable = s.ltable ∧ s0.Keeps c t ∧
        ∀ j i, j < T → (s0.level TOP).procsQueue[j]? = some (some i) → t.ResetAt c i := by
  intro n
  induction n with
  | zero =>
    intro k s hn hq hk hdone
    have : ¬ ((k : Int) < (T : Int)) := by omega
    exact ⟨s, by simp [boostTop, this], hq, rfl, hk, fun j i hj => hdone j i (by omega)⟩
  | succ n ih =>
    intro k s hn hq hk hdone
    have hlt : (k : Int) < (T : Int) := by omega
    have hkl : k < (s0.level TOP).procsQueue.length := by omega
    have hcast : ((k : Int) + 1) = ((k + 1 : Nat) : Int) := by push_cast; rfl
    have hrd : rdQ (s.level TOP).procsQueue (k : Int) = Outcome.ok (s0.level TOP).procsQueue[k] := by
      rw [level_congr s0 s hq]
      exact rdQ_ok _ k _ (List.getElem?_eq_getElem hkl)
    cases he : (s0.level TOP).procsQueue[k] with
    | none =>
      obtain ⟨t, ht, htq, htl, htk, htr⟩ := ih (k + 1) s (by omega) hq hk (by
        intro j i hj hji
        by_cases hjk : j = k
        · subst hjk
          rw [List.getElem?_eq_getElem hkl, he] at hji
          exact absurd hji (by simp)
        · exact hdone j i (by omega) hji)
      refine ⟨t, ?_, htq, htl, htk, htr⟩
      simp only [boostTop, hlt, if_true, hrd, he, Outcome.ok_bind, hcast, ht]
    | some i =>
      have hvi : s0.validPtr (some i) = true := by
        rcases hv k (some i) (by omega) (by rw [List.getElem?_eq_getElem hkl, he]) with h | h
        · exact absurd h (by simp)
        · exact h
      obtain ⟨i', x0, hi', hx0⟩ := (validPtr_iff s0 _).1 hvi
      cases hi'
      obtain ⟨x, hx, _, _⟩ := hk.2 i x0 hx0
      have hil : i < s.ptable.length := by
        by_contra hc
        rw [List.getElem?_eq_none (by omega)] at hx
        exact absurd hx (by simp)
      obtain ⟨y, hy⟩ : ∃ y : proc, y =
          { x with execTime := 0, priority := c.MAXPRIORITY - 1 } := ⟨_, rfl⟩
      have hks : s.Keeps c (s.store i y) :=
        Kernel.Keeps.keeps_store c s i x y hx (by rw [hy]) (fun _ => by rw [hy]; exact ⟨rfl, rfl⟩)
      obtain ⟨t, ht, htq, htl, htk, htr⟩ := ih (k + 1) (s.store i y) (by omega) hq
        (hk.trans hks) (by
          intro j i2 hj hji
          by_cases hjk : j = k
          · subst hjk
            rw [List.getElem?_eq_getElem hkl, he] at hji
            cases hji
            exact ⟨y, by simp [Kernel.store, hil], by rw [hy], by rw [hy]⟩
          · exact (hdone j i2 (by omega) hji).keeps hks)
      refine ⟨t, ?_, htq, htl, htk, htr⟩
      simp only [boostTop, hlt, if_true, hrd, he, Outcome.ok_bind, deref_ok s i x hx, hcast]
      rw [← hy]; exact ht

theorem getElem?_lt_of_some {α : Type} (l : List α) (i : Nat) (x : α) (h : l[i]? = some x) :
    i < l.length := by
  by_contra hc
  rw [List.getElem?_eq_none (by omega)] at h
  exact absurd h (by simp)

/-- One round of the `while` loop of `priorityBoosting` up to its
`MLFQenqueue(p, TOP)`: the process is reset and, when it is RUNNABLE, appended
to the top level. -/
theorem drain_step (c : Param) (s1 : Kernel) (i : Nat) (x : proc) (T : Nat)
    (hlay : s1.Layout c) (hx : s1.ptable[i]? = some x) (hT : (s1.level TOP).rear = T)
    (hlt : T < c.NPROC) (hinv : ∀ j, some j ∈ (s1.level TOP).entries → s1.ResetAt c j) :
    ∃ r s3, MLFQenqueue c (s1.store i { x with execTime := 0, priority := c.MAXPRIORITY - 1 })
        (some i) TOP = Outcome.ok (r, s3) ∧
      s3.Layout c ∧
      (∀ L, 0 ≤ L → L < 3 → L ≠ TOP → s3.level L = s1.level L) ∧
      (∃ T3 : Nat, (s3.level TOP).rear = T3 ∧ T ≤ T3 ∧ T3 ≤ T + 1) ∧
      (∀ e ∈ (s1.level TOP).entries, e ∈ (s3.level TOP).entries) ∧
      (x.state = procstate.RUNNABLE → some i ∈ (s3.level TOP).entries) ∧
      (∀ j, some j ∈ (s3.level TOP).entries → s3.ResetAt c j) ∧
      s1.Keeps c s3 ∧ s3.ltable = s1.ltable := by
  obtain ⟨y, hy⟩ : ∃ y : proc, y =
      { x with execTime := 0, priority := c.MAXPRIORITY - 1 } := ⟨_, rfl⟩
  rw [← hy]
  have hil := getElem?_lt_of_some _ _ _ hx
  have hlay2 : (s1.store i y).Layout c := hlay.layout_store i y
  have hy2 : (s1.store i y).ptable[i]? = some y := by simp [Kernel.store, hil]
  have hk12 : s1.Keeps c (s1.store i y) :=
    Kernel.Keeps.keeps_store c s1 i x y hx (by rw [hy]) (fun _ => by rw [hy]; exact ⟨rfl, rfl⟩)
  have hyr : (s1.store i y).ResetAt c i := ⟨y, hy2, by rw [hy], by rw [hy]⟩
  by_cases hst : x.state = procstate.RUNNABLE
  · have hyst : y.state = procstate.RUNNABLE := by rw [hy]; exact hst
    have hen := MLFQenqueue_ok c (s1.store i y) i TOP y T hlay2 (by decide) (by decide)
      (by rw [level_store]; exact hT) hlt hy2 hyst
    obtain ⟨z, hz⟩ : ∃ z : proc, z = { y with qLevel := TOP } := ⟨_, rfl⟩
    rw [← hz, level_store] at hen
    have hlen := hlay.level_length TOP (by decide)
    have hq3 : TOP.toNat < ((s1.store i y).store i z).qtable.length := by
      have := hlay.2.1
      simp only [Kernel.store, TOP]
      omega
    have hlev := level_setLevel_same ((s1.store i y).store i z) TOP
      ⟨(s1.level TOP).procsQueue.set T (some i), (T : Int) + 1⟩ hq3
    have hent : (⟨(s1.level TOP).procsQueue.set T (some i), (T : Int) + 1⟩ : mlfQueue).entries
        = (s1.level TOP).entries ++ [some i] := by
      simp only [mlfQueue.entries, hT]
      have : ((T : Int) + 1).toNat = T + 1 := by omega
      rw [this, Int.toNat_ofNat]
      exact take_set_succ _ T _ (by omega)
    have hk23 : (s1.store i y).Keeps c ((s1.store i y).store i z) :=
      Kernel.Keeps.keeps_store c _ i y z hy2 (by rw [hz]) (fun h => by rw [hz]; exact h)
    have hk13 : s1.Keeps c (((s1.store i y).store i z).setLevel TOP
        ⟨(s1.level TOP).procsQueue.set T (some i), (T : Int) + 1⟩) :=
      (hk12.trans hk23).trans (Kernel.Keeps.keeps_setLevel c _ _ _)
    refine ⟨0, _, hen, ?_, ?_, ?_, ?_, ?_, ?_, hk13, rfl⟩
    · exact ((hlay2.layout_store i z).layout_setLevel TOP _ (by simp [hlen]))
    · intro L hL0 hL3 hLT
      rw [level_setLevel_ne _ TOP L _ (by simp only [TOP] at hLT ⊢; omega), level_store,
        level_store]
    · exact ⟨T + 1, by rw [hlev]; simp, by omega, by omega⟩
    · intro e he
      rw [hlev, hent]
      exact List.mem_append_left _ he
    · intro _
      rw [hlev, hent]
      simp
    · intro j hj
      rw [hlev, hent] at hj
      rcases List.mem_append.1 hj with h | h
      · exact (hinv j h).keeps hk13
      · simp at h
        subst h
        exact (hyr.keeps hk23).keeps (Kernel.Keeps.keeps_setLevel c _ _ _)
  · have hyst : y.state ≠ procstate.RUNNABLE := by rw [hy]; exact hst
    have h2 : ¬ (((s1.store i y).level TOP).rear ≥ (c.NPROC : Int)) := by
      rw [level_store, hT]; omega
    have hen : MLFQenqueue c (s1.store i y) (some i) TOP = Outcome.ok (-1, s1.store i y) := by
      have h1 : ¬ (TOP < 0 ∨ TOP ≥ MAXQLEVEL) := by decide
      simp only [MLFQenqueue, h1, h2, if_false, deref_ok _ i y hy2, Outcome.ok_bind, hyst,
        ne_eq, not_false_eq_true, if_true]
    refine ⟨-1, _, hen, hlay2, fun L _ _ _ => level_store _ _ _ _,
      ⟨T, by rw [level_store]; exact hT, le_refl _, by omega⟩, ?_, fun h => absurd h hst, ?_,
      hk12, rfl⟩
    · intro e he
      rw [level_store]; exact he
    · intro j hj
      rw [level_store] at hj
      exact (hinv j hj).keeps hk12

/-- Draining a lower level `q`: the first `MLFQdequeue(q)` and the `while` loop
of `priorityBoosting` empty the level, reset every process taken from it and
append the RUNNABLE ones to the top level. -/
theorem boostDrain_spec (c : Param) (q : Int) (hq1 : 1 ≤ q) (hq3 : q < 3)
    (hprio : 0 < c.MAXPRIORITY) :
    ∀ (R : Nat) (s : Kernel) (T : Nat), s.Layout c → (s.level q).rear = R →
      (s.level TOP).rear = T → T + R ≤ c.NPROC →
      (∀ e ∈ (s.level q).entries, s.validPtr e = true) →
      (∀ j, some j ∈ (s.level TOP).entries → s.ResetAt c j) →
      ∃ p s1 t, MLFQdequeue c s q = Outcome.ok (p, s1) ∧
        boostDrain c q s1 p R = Outcome.ok t ∧
        t.Layout c ∧ (t.level q).rear = 0 ∧
        (∀ r, 0 ≤ r → r < 3 → r ≠ q → r ≠ TOP → t.level r = s.level r) ∧
        (∃ T2 : Nat, (t.level TOP).rear = T2 ∧ T2 ≤ T + R) ∧
        (∀ e ∈ (s.level TOP).entries, e ∈ (t.level TOP).entries) ∧
        (∀ i x, some i ∈ (s.level q).entries → s.ptable[i]? = some x →
          x.state = procstate.RUNNABLE → some i ∈ (t.level TOP).entries) ∧
        (∀ j, some j ∈ (t.level TOP).entries → t.ResetAt c j) ∧
        s.Keeps c t ∧ t.ltable = s.ltable := by
  have hqT : q ≠ TOP := by simp only [TOP]; omega
  intro R
  induction R with
  | zero =>
    intro s T hlay hR hT _ _ hinv
    have h1 : ¬ (q < 0 ∨ q ≥ MAXQLEVEL) := by simp only [MAXQLEVEL]; omega
    refine ⟨none, s, s, ?_, by simp [boostDrain], hlay, by simpa using hR,
      fun _ _ _ _ _ => rfl, ⟨T, hT, by omega⟩, fun _ h => h, ?_, hinv,
      Kernel.Keeps.refl c s, rfl⟩
    · simp only [MLFQdequeue, h1, if_false, hR, Nat.cast_zero, if_true]
    · intro i x hi
      simp [mlfQueue.entries, hR] at hi
  | succ n ih =>
    intro s T hlay hR hT hcap hv hinv
    have h0 : 0 ≤ q := by omega
    have hlenq := hlay.level_length q (level_toNat_lt h0 hq3)
    obtain ⟨e, he, hdq⟩ := MLFQdequeue_front c s q (n + 1) hlay h0 hq3 hR (by omega) (by omega)
      hprio hv
    have hents : (s.level q).entries
        = e :: (closeGap (s.level q).procsQueue 0 (n + 1)).take n := by
      simp only [mlfQueue.entries, hR, Int.toNat_ofNat]
      exact entries_cons _ n e he (by omega)
    obtain ⟨i, x, hei, hx⟩ := (validPtr_iff s e).1 (hv e (by rw [hents]; simp))
    subst hei
    obtain ⟨s1, hs1⟩ : ∃ s1 : Kernel, s1 =
        s.setLevel q ⟨closeGap (s.level q).procsQueue 0 (n + 1), ((n + 1 : Nat) : Int) - 1⟩ :=
      ⟨_, rfl⟩
    rw [← hs1] at hdq
    have hqlen : q.toNat < s.qtable.length := by
      have := hlay.2.1; have := level_toNat_lt h0 hq3; omega
    have hcl := closeGap_length (s.level q).procsQueue 0 (n + 1) (by omega) (by omega)
    have hlay1 : s1.Layout c := by
      rw [hs1]; exact hlay.layout_setLevel q _ (by simp [hcl, hlenq])
    have hlevq1 : s1.level q
        = ⟨closeGap (s.level q).procsQueue 0 (n + 1), ((n + 1 : Nat) : Int) - 1⟩ := by
      rw [hs1]; exact level_setLevel_same _ q _ hqlen
    have hlevo1 : ∀ r, 0 ≤ r → r < 3 → r ≠ q → s1.level r = s.level r := by
      intro r hr0 hr3 hrq
      rw [hs1]; exact level_setLevel_ne _ q r _ (by omega)
    have hx1 : s1.ptable[i]? = some x := by rw [hs1]; exact hx
    have hk01 : s.Keeps c s1 := by rw [hs1]; exact Kernel.Keeps.keeps_setLevel c _ _ _
    have hT1 : (s1.level TOP).rear = T := by
      rw [hlevo1 TOP (by decide) (by decide) (Ne.symm hqT)]; exact hT
    have hinv1 : ∀ j, some j ∈ (s1.level TOP).entries → s1.ResetAt c j := by
      intro j hj
      rw [hlevo1 TOP (by decide) (by decide) (Ne.symm hqT)] at hj
      exact (hinv j hj).keeps hk01
    obtain ⟨r, s3, hen, hlay3, hlevo3, ⟨T3, hT3, hT3a, hT3b⟩, hmem3, hrun3, hinv3, hk13, hl3⟩ :=
      drain_step c s1 i x T hlay1 hx1 hT1 (by omega) hinv1
    have hlevq3 : s3.level q
        = ⟨closeGap (s.level q).procsQueue 0 (n + 1), ((n + 1 : Nat) : Int) - 1⟩ := by
      rw [hlevo3 q h0 hq3 hqT]; exact hlevq1
    have hR3 : (s3.level q).rear = (n : Int) := by rw [hlevq3]; simp
    have hent3 : (s3.level q).entries = (closeGap (s.level q).procsQueue 0 (n + 1)).take n := by
      rw [hlevq3]
      simp only [mlfQueue.entries]
      congr 1
      omega
    have hk03 : s.Keeps c s3 := hk01.trans hk13
    have hv3 : ∀ e ∈ (s3.level q).entries, s3.validPtr e = true := by
      intro e2 he2
      have hmem : e2 ∈ (s.level q).entries := by
        rw [hents]; exact List.mem_cons_of_mem _ (by rw [← hent3]; exact he2)
      obtain ⟨j, y, hj, hy⟩ := (validPtr_iff s e2).1 (hv e2 hmem)
      obtain ⟨z, hz, _, _⟩ := hk03.2 j y hy
      exact (validPtr_iff s3 e2).2 ⟨j, z, hj, hz⟩
    obtain ⟨p, s4, t, hdq3, hdr3, hlayt, hrt, hlevot, ⟨T4, hT4, hT4b⟩, hmemt, hrunt, hinvt,
        hk3t, hlt⟩ := ih s3 T3 hlay3 hR3 hT3 (by omega) hv3 hinv3
    refine ⟨some i, s1, t, hdq, ?_, hlayt, hrt, ?_, ⟨T4, hT4, by omega⟩, ?_, ?_, hinvt,
      hk03.trans hk3t, by rw [hlt, hl3, hs1]; rfl⟩
    · simp only [boostDrain, deref_ok s1 i x hx1, Outcome.ok_bind, hen, hdq3, hdr3]
    · intro r2 hr0 hr3 hrq hrT
      rw [hlevot r2 hr0 hr3 hrq hrT, hlevo3 r2 hr0 hr3 hrT, hlevo1 r2 hr0 hr3 hrq]
    · intro e2 he2
      apply hmemt
      apply hmem3
      rw [hlevo1 TOP (by decide) (by decide) (Ne.symm hqT)]
      exact he2
    · intro j y hj hy hyst
      rw [hents] at hj
      rcases List.mem_cons.1 hj with h | h
      · cases h
        rw [hx] at hy
        cases hy
        exact hmemt _ (hrun3 hyst)
      · obtain ⟨z, hz, hzs, _⟩ := hk03.2 j y hy
        exact hrunt j z (by rw [hent3]; exact h) hz (by rw [hzs]; exact hyst)

theorem Kernel.Layout.of_keeps {c : Param} {s t : Kernel} (h : s.Layout c)
    (hq : t.qtable = s.qtable) (hk : s.Keeps c t) : t.Layout c :=
  ⟨by rw [hk.1]; exact h.1, by rw [hq]; exact h.2.1, by rw [hq]; exact h.2.2⟩

theorem validPtr_keeps {c : Param} {s t : Kernel} (hk : s.Keeps c t) (e : Ptr) :
    t.validPtr e = s.validPtr e := by
  cases e with
  | none => rfl
  | some i => simp [Kernel.validPtr, hk.1]

/-! ## The claims -/

/-- C1 (FIFO law): at an empty non-lowest level of a kernel state, enqueueing
any `N ≤ NPROC` RUNNABLE processes with `N` calls of `MLFQenqueue` (each of
which returns 0) and then calling `MLFQdequeue` `N` times returns the same
processes in the same order and leaves the level with `rear = 0`. -/
theorem C1_fifo_order (c : Param) (s : Kernel) (L : Int) (ps : List Nat)
    (hlay : s.Layout c) (hL : L = TOP ∨ L = MIDDLE) (hempty : (s.level L).rear = 0)
    (hN : ps.length ≤ c.NPROC)
    (hrun : ∀ i ∈ ps, ∃ x, s.ptable[i]? = some x ∧ x.state = procstate.RUNNABLE) :
    ∃ s1 s2, enqueueAll c L s (ps.map some) = Outcome.ok (List.replicate ps.length 0, s1) ∧
      dequeueAll c L s1 ps.length = Outcome.ok (ps.map some, s2) ∧
      (s2.level L).rear = 0 := by
  have h0 : 0 ≤ L := by rcases hL with h | h <;> simp [h, TOP, MIDDLE]
  have h2 : L < 2 := by rcases hL with h | h <;> simp [h, TOP, MIDDLE]
  obtain ⟨s1, hs1, hl1, hr1, he1⟩ :=
    enqueueAll_spec c L h0 (by omega) ps s 0 hlay (by simpa using hempty) (by omega) hrun
  obtain ⟨s2, hs2, hr2⟩ :=
    dequeueAll_spec c L h0 h2 ps.length s1 hl1 (by simpa using hr1) hN
  refine ⟨s1, s2, hs1, ?_, hr2⟩
  rw [hs2, he1]
  simp [mlfQueue.entries, hempty]

/-- An instance of the FIFO law: three processes through the empty top level. -/
theorem C1_fifo_order_witness :
    threeRunnable.Layout demoParam ∧ (threeRunnable.level TOP).rear = 0 ∧
    ∃ s1 s2, enqueueAll demoParam TOP threeRunnable [some 2, some 0, some 1]
        = Outcome.ok ([0, 0, 0], s1) ∧
      dequeueAll demoParam TOP s1 3 = Outcome.ok ([some 2, some 0, some 1], s2) ∧
      (s2.level TOP).rear = 0 :=
  ⟨by decide, by decide,
    C1_fifo_order demoParam threeRunnable TOP [2, 0, 1] (by decide) (Or.inl rfl) (by decide)
      (by decide) (by decide)⟩

/-- C2: at the lowest level holding two RUNNABLE processes of the same
priority, `MLFQdequeue(BOTTOM)` returns the one stored at index 0 although the
one at index 1 has the smaller arrivedTime. -/
theorem C2_bottom_dequeue_takes_index_zero :
    (bottomPair.level BOTTOM).entries = [some 0, some 1] ∧
    (bottomPair.ptable[0]?).map proc.priority = (bottomPair.ptable[1]?).map proc.priority ∧
    (bottomPair.ptable[1]?).map proc.arrivedTime = some 1 ∧
    (bottomPair.ptable[0]?).map proc.arrivedTime = some 5 ∧
    MLFQdequeue demoParam bottomPair BOTTOM
      = Outcome.ok (some 0, bottomPair.setLevel BOTTOM (levelOf demoParam [some 1])) := by
  decide

/-- C3: `MLFQfrontEnqueue` of process 1 into a top level that holds exactly
process 0 returns 0 and leaves the level with `rear = 2` holding process 1 and
a null pointer: process 0 is lost.  Into a top level holding processes 0, 1, 2
it leaves 3, 1, 1, 2: process 0 is lost and process 1 is there twice. -/
theorem C3_frontEnqueue_drops_head :
    ((oneQueued 0).level TOP).entries = [some 0] ∧
    (∃ t, MLFQfrontEnqueue demoParam (oneQueued 0) (some 1) TOP = Outcome.ok (0, t) ∧
      (t.level TOP).rear = 2 ∧ (t.level TOP).entries = [some 1, none]) ∧
    (threeQueued.level TOP).entries = [some 0, some 1, some 2] ∧
    (∃ t, MLFQfrontEnqueue demoParam threeQueued (some 3) TOP = Outcome.ok (0, t) ∧
      (t.level TOP).rear = 4 ∧ (t.level TOP).entries = [some 3, some 1, some 1, some 2]) :=
  ⟨by decide,
   ⟨(oneQueued 0).setLevel TOP ⟨(levelOf demoParam [some 1]).procsQueue, 2⟩,
     by decide, by decide, by decide⟩,
   by decide,
   ⟨threeQueued.setLevel TOP (levelOf demoParam [some 3, some 1, some 1, some 2]),
     by decide, by decide, by decide⟩⟩

/-- C4: `MLFQfrontEnqueue` of the RUNNABLE process 1 into a lowest level that
holds exactly process 0 returns 0 and leaves the entries process 1, null; the
`MLFQdequeue(BOTTOM)` that follows does not return process 1: its priority
scan dereferences the null entry at index 1. -/
theorem C4_frontEnqueue_then_dequeue_bottom :
    ((oneQueued 2).level BOTTOM).entries = [some 0] ∧
    ∃ t, MLFQfrontEnqueue demoParam (oneQueued 2) (some 1) BOTTOM = Outcome.ok (0, t) ∧
      (t.level BOTTOM).entries = [some 1, none] ∧
      MLFQdequeue demoParam t BOTTOM = Outcome.fault Fault.nullDeref :=
  ⟨by decide,
   ((oneQueued 2).store 1 (mkProc procstate.RUNNABLE 2 2 3 0 2)).setLevel BOTTOM
     ⟨(levelOf demoParam [some 1]).procsQueue, 2⟩,
   by decide, by decide, by decide⟩

/-- C5: the state in which the first process is referenced by the top level
and by the middle level is reachable.  The process is dispatched and runs for
four timer ticks, each one `increaseExecTime` followed by `yield`; at the
fourth `yield` the scheduler demotes it to the middle level and dispatches it
from there.  It forks a child and sleeps; the scheduler finds the child in the
top level first, so the sleeper stays at the head of the middle level.  The
`wakeup` then admits it at the top level as well. -/
theorem C5_woken_sleeper_is_queued_twice :
    Reachable demoParam initTwice ∧
    some 0 ∈ (initTwice.level TOP).entries ∧ some 0 ∈ (initTwice.level MIDDLE).entries ∧
    ¬ initTwice.Unique := by
  have r0 : Reachable demoParam afterInit := Reachable.init _ (by decide)
  have r1 : Reachable demoParam (initRuns 0) :=
    Reachable.step _ _ r0 (Step.pass _ _ 4 (by decide) (by decide) (by decide))
  have tickYield : ∀ e : Int, e = 0 ∨ e = 1 ∨ e = 2 →
      Reachable demoParam (initRuns e) → Reachable demoParam (initRuns (e + 1)) := by
    intro e he r
    have rt : Reachable demoParam (initRuns (e + 1)) :=
      Reachable.step _ _ r (Step.tick _ _ (by rcases he with h | h | h <;> subst h <;> decide))
    exact Reachable.step _ _ rt
      (Step.yield _ (running [initP procstate.RUNNABLE 0 (e + 1)] [some 0] [] [] none (some 0)
        (SchedCtx.inMlfq 0) 2) _ 4
        (by rcases he with h | h | h <;> subst h <;> decide)
        (by rcases he with h | h | h <;> subst h <;> decide))
  have r2 : Reachable demoParam (initRuns 1) := tickYield 0 (by decide) r1
  have r3 : Reachable demoParam (initRuns 2) := tickYield 1 (by decide) r2
  have r4 : Reachable demoParam (initRuns 3) := tickYield 2 (by decide) r3
  have r5 : Reachable demoParam (initRuns 4) :=
    Reachable.step _ _ r4 (Step.tick _ _ (by decide))
  have r6 : Reachable demoParam initDemoted :=
    Reachable.step _ _ r5
      (Step.yield _ (running [initP procstate.RUNNABLE 0 4] [some 0] [] [] none (some 0)
        (SchedCtx.inMlfq 0) 2) _ 4 (by decide) (by decide))
  have r7 : Reachable demoParam childForked :=
    Reachable.step _ _ r6 (Step.fork _ _ true true 2 (by decide) (by decide))
  have r8 : Reachable demoParam initSleeps :=
    Reachable.step _ _ r7
      (Step.sleep _ (running [{ initP procstate.SLEEPING 1 0 with chan := Chan.ticksAddr },
           childP procstate.RUNNABLE] [some 1] [some 0] [] none (some 0) (SchedCtx.inMlfq 1) 3)
        _ Chan.ticksAddr 4 (by decide) (by decide) (by decide))
  have r9 : Reachable demoParam initTwice :=
    Reachable.step _ _ r8 (Step.wakeup _ _ Chan.ticksAddr (by decide))
  exact ⟨r9, by decide, by decide, by decide⟩

/-- A second way to a duplicated reference, through lock, fork, kill, yield and
the scheduler only: the first process takes the scheduler lock, forks two
children, is flagged killed and yields; the scheduler then force-releases the
lock, and `MLFQfrontEnqueue` overwrites the head of the top level and copies
its second entry. -/
theorem forced_release_queues_child_twice :
    Reachable demoParam childTwice ∧ (childTwice.level TOP).entries = [some 0, some 2, some 2] ∧
    ¬ childTwice.Unique := by
  have r0 : Reachable demoParam afterInit := Reachable.init _ (by decide)
  have r1 : Reachable demoParam (initRuns 0) :=
    Reachable.step _ _ r0 (Step.pass _ _ 4 (by decide) (by decide) (by decide))
  have r2 : Reachable demoParam
      (running [{ initP procstate.RUNNABLE 0 0 with isLock := lockstate.LOCKED }] [] [] []
        (some 0) none SchedCtx.loopTop 2) :=
    Reachable.step _ _ r1
      (Step.lockSched _ (running [{ initP procstate.RUNNABLE 0 0 with isLock := lockstate.LOCKED }]
        [] [] [] (some 0) (some 0) (SchedCtx.inMlfq 0) 2) _ demoParam.SLPASSWORD 4
        (by decide) (by decide))
  have r3 : Reachable demoParam
      (running [{ initP procstate.RUNNING 0 0 with isLock := lockstate.LOCKED }] [] [] []
        (some 0) (some 0) SchedCtx.inLock 2) :=
    Reachable.step _ _ r2 (Step.pass _ _ 4 (by decide) (by decide) (by decide))
  have r4 : Reachable demoParam
      (running [{ initP procstate.RUNNING 0 0 with isLock := lockstate.LOCKED },
                childP procstate.RUNNABLE] [some 1] [] [] (some 0) (some 0) SchedCtx.inLock 3) :=
    Reachable.step _ _ r3 (Step.fork _ _ true true 2 (by decide) (by decide))
  have r5 : Reachable demoParam
      (lockerWithChildren procstate.RUNNING 0 (some 0) SchedCtx.inLock) :=
    Reachable.step _ _ r4 (Step.fork _ _ true true 3 (by decide) (by decide))
  have r6 : Reachable demoParam
      (lockerWithChildren procstate.RUNNING 1 (some 0) SchedCtx.inLock) :=
    Reachable.step _ _ r5 (Step.kill _ _ 1 0 (by decide) (by decide))
  have r7 : Reachable demoParam
      (lockerWithChildren procstate.RUNNABLE 1 none SchedCtx.loopTop) :=
    Reachable.step _ _ r6
      (Step.yield _ (lockerWithChildren procstate.RUNNABLE 1 (some 0) SchedCtx.inLock) _ 4
        (by decide) (by decide))
  have r8 : Reachable demoParam childTwice :=
    Reachable.step _ _ r7 (Step.pass _ _ 4 (by decide) (by decide) (by decide))
  exact ⟨r8, by decide, by decide⟩

/-- C6: when the lock slot holds the RUNNING caller, `schedulerUnlock` with the
right password empties the slot and resets the process, but the process stays
RUNNING, `MLFQfrontEnqueue` refuses it, and the top level stays empty. -/
theorem C6_unlock_by_running_holder :
    lockHeld.ltable = some 0 ∧ lockHeld.cproc = some 0 ∧
    schedulerUnlock demoParam lockHeld demoParam.SLPASSWORD = Outcome.ok lockReleased ∧
    schedulerLockDone demoParam lockHeld 0 = Outcome.ok lockReleased ∧
    lockReleased.ltable = none ∧ (lockReleased.level TOP).rear = 0 ∧
    (lockReleased.level TOP).procsQueue[0]? = some none ∧
    MLFQfrontEnqueue demoParam lockReleased (some 0) TOP = Outcome.ok (-1, lockReleased) := by
  decide

/-- What `priorityBoosting` does for the RUNNABLE processes: when the three occupancy counters
are non-negative and add up to at most `NPROC`, the entries of the middle and
lowest level point to processes and those of the top level are null or point to
processes, `priorityBoosting` returns, leaves the middle and the lowest level
empty, has every process that was in one of them and is RUNNABLE in the top
level, leaves every process the top level refers to with `execTime = 0` and
`priority = MAXPRIORITY - 1`, and sets the tick counter to 0. -/
theorem boosting_moves_runnable (c : Param) (s : Kernel) (hlay : s.Layout c)
    (hprio : 0 < c.MAXPRIORITY)
    (hT0 : 0 ≤ (s.level TOP).rear) (hM0 : 0 ≤ (s.level MIDDLE).rear)
    (hB0 : 0 ≤ (s.level BOTTOM).rear)
    (hcap : (s.level TOP).rear + (s.level MIDDLE).rear + (s.level BOTTOM).rear ≤ c.NPROC)
    (hvT : ∀ e ∈ (s.level TOP).entries, e = none ∨ s.validPtr e = true)
    (hvM : ∀ e ∈ (s.level MIDDLE).entries, s.validPtr e = true)
    (hvB : ∀ e ∈ (s.level BOTTOM).entries, s.validPtr e = true) :
    ∃ t, priorityBoosting c s = Outcome.ok t ∧
      (t.level MIDDLE).rear = 0 ∧ (t.level BOTTOM).rear = 0 ∧
      (∀ i x, some i ∈ (s.level MIDDLE).entries ∨ some i ∈ (s.level BOTTOM).entries →
        s.ptable[i]? = some x → x.state = procstate.RUNNABLE →
        some i ∈ (t.level TOP).entries) ∧
      (∀ i, some i ∈ (t.level TOP).entries →
        ∃ y, t.ptable[i]? = some y ∧ y.execTime = 0 ∧ y.priority = c.MAXPRIORITY - 1) ∧
      t.ticks = 0 := by
  obtain ⟨T, hT⟩ := Int.eq_ofNat_of_zero_le hT0
  obtain ⟨M, hM⟩ := Int.eq_ofNat_of_zero_le hM0
  obtain ⟨B, hB⟩ := Int.eq_ofNat_of_zero_le hB0
  rw [hT, hM, hB] at hcap
  have hlenT := hlay.level_length TOP (by decide)
  -- the loop over the top level
  obtain ⟨t1, hbt, hq1, _, hk1, hres1⟩ :=
    boostTop_spec c s T (by omega)
      (by
        intro j e hj hje
        apply hvT
        rw [List.mem_iff_getElem?]
        exact ⟨j, by rw [entries_getElem? _ T j hT hj]; exact hje⟩)
      T 0 s (by omega) rfl (Kernel.Keeps.refl c s) (by intro j i hj; omega)
  have hlay1 : t1.Layout c := hlay.of_keeps hq1 hk1
  have hlev1 : ∀ L, t1.level L = s.level L := level_congr s t1 hq1
  have hinv1 : ∀ j, some j ∈ (t1.level TOP).entries → t1.ResetAt c j := by
    intro j hj
    rw [hlev1, List.mem_iff_getElem?] at hj
    obtain ⟨k, hk⟩ := hj
    have hkT : k < T := by
      have := getElem?_lt_of_some _ _ _ hk
      simp [mlfQueue.entries, hT] at this
      omega
    rw [entries_getElem? _ T k hT hkT] at hk
    exact hres1 k j hkT hk
  -- the middle level
  obtain ⟨p1, sa, tb, hdq1, hdr1, hlayb, hrb, hlevob, ⟨T2, hT2, hT2b⟩, hmemb, hrunb, hinvb,
      hkb, _⟩ :=
    boostDrain_spec c MIDDLE (by decide) (by decide) hprio M t1 T hlay1
      (by rw [hlev1]; exact hM) (by rw [hlev1]; exact hT) (by omega)
      (by intro e he; rw [validPtr_keeps hk1]; exact hvM e (by rw [← hlev1]; exact he)) hinv1
  -- the lowest level
  have hlevB : tb.level BOTTOM = s.level BOTTOM := by
    rw [hlevob BOTTOM (by decide) (by decide) (by decide) (by decide), hlev1]
  obtain ⟨p2, sc, td, hdq2, hdr2, hlayd, hrd, hlevod, _, hmemd, hrund, hinvd, hkd, _⟩ :=
    boostDrain_spec c BOTTOM (by decide) (by decide) hprio B tb T2 hlayb
      (by rw [hlevB]; exact hB) hT2 (by omega)
      (by
        intro e he
        rw [validPtr_keeps hkb, validPtr_keeps hk1]
        exact hvB e (by rw [← hlevB]; exact he)) hinvb
  refine ⟨{ td with ticks := 0 }, ?_, ?_, ?_, ?_, ?_, rfl⟩
  · have hfu : (MAXQLEVEL - MIDDLE).toNat = 2 := by decide
    have hc1 : MIDDLE < MAXQLEVEL := by decide
    have hc2 : BOTTOM < MAXQLEVEL := by decide
    have hc3 : ¬ (BOTTOM + 1 < MAXQLEVEL) := by decide
    have hb2 : MIDDLE + 1 = BOTTOM := by decide
    have hbt' : boostTop c (T : Int) s 0 T = Outcome.ok t1 := by simpa using hbt
    have hrM : (t1.level MIDDLE).rear.toNat = M := by rw [hlev1, hM]; simp
    have hrB : (tb.level BOTTOM).rear.toNat = B := by rw [hlevB, hB]; simp
    simp only [priorityBoosting, hT, Int.toNat_ofNat, hbt', Outcome.ok_bind, hfu, boostLevels,
      hc1, if_true, hdq1, hrM, hdr1, hc2, hc3, if_false, hb2, hdq2, hrB, hdr2]
  · show (td.level MIDDLE).rear = 0
    rw [hlevod MIDDLE (by decide) (by decide) (by decide) (by decide)]
    exact hrb
  · exact hrd
  · intro i x hi hx hst
    show some i ∈ (td.level TOP).entries
    obtain ⟨z, hz, hzs, _⟩ := hk1.2 i x hx
    rcases hi with h | h
    · exact hmemd _ (hrunb i z (by rw [hlev1]; exact h) hz (by rw [hzs]; exact hst))
    · obtain ⟨w, hw, hws, _⟩ := hkb.2 i z hz
      exact hrund i w (by rw [hlevB]; exact h) hw (by rw [hws, hzs]; exact hst)
  · intro i hi
    exact hinvd i hi

/-- A SLEEPING process at the head of the middle
level is removed from it by `priorityBoosting` and is not in the top level
afterwards. -/
theorem boosting_drops_sleeper :
    some 1 ∈ (sleeperMiddle.level MIDDLE).entries ∧
    priorityBoosting demoParam sleeperMiddle = Outcome.ok sleeperDropped ∧
    (sleeperDropped.level MIDDLE).rear = 0 ∧
    some 1 ∉ (sleeperDropped.level TOP).entries := by
  decide

/-- An instance of the boosting law: one running process in the top level,
a RUNNABLE and a SLEEPING one in the middle level, a RUNNABLE one in the
lowest level. -/
theorem boosting_moves_runnable_example :
    boostSample.Layout demoParam ∧
    (boostSample.level TOP).rear + (boostSample.level MIDDLE).rear
      + (boostSample.level BOTTOM).rear ≤ demoParam.NPROC ∧
    (boostSample.level MIDDLE).entries = [some 1, some 3] ∧
    (boostSample.level BOTTOM).entries = [some 2] ∧
    ∃ t, priorityBoosting demoParam boostSample = Outcome.ok t ∧
      (t.level MIDDLE).rear = 0 ∧ (t.level BOTTOM).rear = 0 ∧
      (∀ i x, some i ∈ (boostSample.level MIDDLE).entries ∨
          some i ∈ (boostSample.level BOTTOM).entries →
        boostSample.ptable[i]? = some x → x.state = procstate.RUNNABLE →
        some i ∈ (t.level TOP).entries) ∧
      (∀ i, some i ∈ (t.level TOP).entries →
        ∃ y, t.ptable[i]? = some y ∧ y.execTime = 0 ∧
          y.priority = demoParam.MAXPRIORITY - 1) ∧
      t.ticks = 0 :=
  ⟨by decide, by decide, by decide, by decide,
    boosting_moves_runnable demoParam boostSample (by decide) (by decide) (by decide)
      (by decide) (by decide) (by decide) (by decide) (by decide) (by decide)⟩

/-- C8: `kill` of a SLEEPING process that is in no queue level returns 0 and
makes it RUNNABLE, killed and reset, but admits it to no queue level: the
queue table is unchanged and the top level does not hold it. -/
theorem C8_kill_sleeper_not_admitted :
    (sleeperOut.ptable[1]?).map proc.state = some procstate.SLEEPING ∧
    kill demoParam sleeperOut 2 = Outcome.ok (0, sleeperKilled) ∧
    (sleeperKilled.ptable[1]?).map proc.state = some procstate.RUNNABLE ∧
    sleeperKilled.qtable = sleeperOut.qtable ∧
    some 1 ∉ (sleeperKilled.level TOP).entries ∧ sleeperKilled.refs = [0] := by
  decide

/-- The result of `kill` on the slot it flags. -/
theorem killLoop_spec (c : Param) (s : Kernel) (pid : Int) (i : Nat) (x : proc)
    (hlen : s.ptable.length = c.NPROC) (hx : s.ptable[i]? = some x) (hpid : x.pid = pid)
    (hfirst : ∀ j y, j < i → s.ptable[j]? = some y → y.pid ≠ pid) :
    ∀ (n k : Nat), n = c.NPROC - k → k ≤ i →
      killLoop c pid s k n = Outcome.ok (0,
        s.store i { x with killed := 1, execTime := 0, priority := c.MAXPRIORITY - 1,
                           state := if x.state = procstate.SLEEPING then procstate.RUNNABLE
                                    else x.state }) := by
  have hi : i < c.NPROC := by
    by_contra hc
    rw [List.getElem?_eq_none (by omega)] at hx
    exact absurd hx (by simp)
  intro n
  induction n with
  | zero => intro k hn hk; omega
  | succ n ih =>
    intro k hn hk
    have hkl : k < c.NPROC := by omega
    by_cases hki : k = i
    · subst hki
      simp only [killLoop, hkl, if_true, deref_ok s k x hx, Outcome.ok_bind, hpid]
    · have hk2 : k < s.ptable.length := by omega
      have hy := List.getElem?_eq_getElem hk2
      have hne := hfirst k _ (by omega) hy
      simp only [killLoop, hkl, if_true, deref_ok s k _ hy, Outcome.ok_bind, hne, if_false]
      exact ih (k + 1) (by omega) (by omega)

/-- C9 (enqueue result codes and atomicity): `MLFQenqueue(p, L)` returns -3
for an invalid level, otherwise -2 for a level whose counter has reached
`NPROC`, otherwise -1 for a process that is not RUNNABLE, each time leaving
the whole state unchanged; otherwise it returns 0, stores `p` at the old index
`rear`, increments `rear`, sets `p->qLevel = L`, and changes no other array
element, no other level and no other process. -/
theorem C9_enqueue_codes (c : Param) (s : Kernel) (L : Int) (hlay : s.Layout c) :
    (∀ p, L < 0 ∨ L ≥ MAXQLEVEL → MLFQenqueue c s p L = Outcome.ok (-3, s)) ∧
    (∀ p, 0 ≤ L → L < MAXQLEVEL → (s.level L).rear ≥ c.NPROC →
      MLFQenqueue c s p L = Outcome.ok (-2, s)) ∧
    (∀ i x, s.ptable[i]? = some x → 0 ≤ L → L < MAXQLEVEL → (s.level L).rear < c.NPROC →
      x.state ≠ procstate.RUNNABLE → MLFQenqueue c s (some i) L = Outcome.ok (-1, s)) ∧
    (∀ i x, s.ptable[i]? = some x → 0 ≤ L → L < MAXQLEVEL → (s.level L).rear < c.NPROC →
      0 ≤ (s.level L).rear → x.state = procstate.RUNNABLE →
      ∃ t, MLFQenqueue c s (some i) L = Outcome.ok (0, t) ∧
        (t.level L).procsQueue[(s.level L).rear.toNat]? = some (some i) ∧
        (t.level L).rear = (s.level L).rear + 1 ∧
        t.ptable[i]? = some { x with qLevel := L } ∧
        (∀ j, j ≠ i → t.ptable[j]? = s.ptable[j]?) ∧
        (∀ k, k ≠ (s.level L).rear.toNat →
          (t.level L).procsQueue[k]? = (s.level L).procsQueue[k]?) ∧
        (∀ M, 0 ≤ M → M < MAXQLEVEL → M ≠ L → t.level M = s.level M) ∧
        t.ltable = s.ltable) := by
  refine ⟨?_, ?_, ?_, ?_⟩
  · intro p h
    simp [MLFQenqueue, h]
  · intro p h0 h3 hr
    have h1 : ¬ (L < 0 ∨ L ≥ MAXQLEVEL) := by omega
    simp [MLFQenqueue, h1, hr]
  · intro i x hx h0 h3 hr hst
    have h1 : ¬ (L < 0 ∨ L ≥ MAXQLEVEL) := by omega
    have h2 : ¬ ((s.level L).rear ≥ (c.NPROC : Int)) := by omega
    simp [MLFQenqueue, h1, h2, deref_ok s i x hx, hst]
  · intro i x hx h0 h3 hr hr0 hst
    have h3' : L < 3 := by simpa [MAXQLEVEL] using h3
    obtain ⟨R, hR⟩ := Int.eq_ofNat_of_zero_le hr0
    have hRlt : R < c.NPROC := by omega
    have hlen := hlay.level_length L (level_toNat_lt h0 h3')
    have hq3 : L.toNat < s.qtable.length := by
      have := hlay.2.1; have := level_toNat_lt h0 h3'; omega
    have hil : i < s.ptable.length := by
      by_contra hc
      rw [List.getElem?_eq_none (by omega)] at hx
      exact absurd hx (by simp)
    refine ⟨_, MLFQenqueue_ok c s i L x R hlay h0 h3' hR hRlt hx hst, ?_, ?_, ?_, ?_, ?_, ?_, ?_⟩
    · rw [level_setLevel_same _ L _ (by simpa [Kernel.store] using hq3), hR]
      show ((s.level L).procsQueue.set R (some i))[((R : Nat) : Int).toNat]? = some (some i)
      rw [Int.toNat_ofNat, List.getElem?_set_self (by omega)]
    · rw [level_setLevel_same _ L _ (by simpa [Kernel.store] using hq3), hR]
    · simp [Kernel.setLevel, Kernel.store, hil]
    · intro j hj
      simp [Kernel.setLevel, Kernel.store, List.getElem?_set_ne (Ne.symm hj)]
    · intro k hk
      rw [level_setLevel_same _ L _ (by simpa [Kernel.store] using hq3)]
      rw [hR] at hk
      simp only [Int.toNat_ofNat] at hk
      simp [List.getElem?_set_ne (Ne.symm hk)]
    · intro M hM0 hM3 hML
      have hM3' : M < 3 := by simpa [MAXQLEVEL] using hM3
      rw [level_setLevel_ne _ L M _ (by omega), level_store]
    · rfl

/-- An instance of the enqueue contract: a RUNNABLE process appended to the
empty middle level. -/
theorem C9_enqueue_codes_witness :
    threeRunnable.Layout demoParam ∧
    ∃ t, MLFQenqueue demoParam threeRunnable (some 1) MIDDLE = Outcome.ok (0, t) ∧
      (t.level MIDDLE).procsQueue[0]? = some (some 1) ∧ (t.level MIDDLE).rear = 1 :=
  ⟨by decide, by
    obtain ⟨t, h1, h2, h3, _⟩ :=
      (C9_enqueue_codes demoParam threeRunnable MIDDLE (by decide)).2.2.2 1
        (mkProc procstate.RUNNABLE 2 0 3 0 2) (by decide) (by decide) (by decide) (by decide)
        (by decide) (by decide)
    exact ⟨t, h1, h2, h3⟩⟩

/-- C10 (wrong credential on lock): for a caller whose pid no earlier slot
carries and a password different from `SLPASSWORD`, `schedulerLock` sets the
caller's killed flag (through `kill`, which also resets execTime and priority)
and returns without entering the scheduler; the lock slot, the caller's
`isLock` and the queue table are unchanged, so an empty slot stays empty; and
`sys_schedulerLock` returns -1 with the same state. -/
theorem C10_wrong_password_on_lock (c : Param) (s : Kernel) (i : Nat) (x : proc) (password : Int)
    (hlay : s.Layout c) (hcur : s.cproc = some i) (hx : s.ptable[i]? = some x)
    (hfirst : ∀ j y, j < i → s.ptable[j]? = some y → y.pid ≠ x.pid)
    (hpw : password ≠ c.SLPASSWORD) :
    ∃ t y, schedulerLock c s password = Outcome.ok (t, false) ∧
      sys_schedulerLock c s password = Outcome.ok (-1, t, false) ∧
      t.ptable[i]? = some y ∧ y.killed = 1 ∧ y.isLock = x.isLock ∧
      t.ltable = s.ltable ∧ (s.ltable = none → t.ltable = none) ∧ t.qtable = s.qtable := by
  have hk := killLoop_spec c s x.pid i x hlay.1 hx rfl hfirst c.NPROC 0 (by omega) (by omega)
  have hil : i < s.ptable.length := by
    by_contra hc
    rw [List.getElem?_eq_none (by omega)] at hx
    exact absurd hx (by simp)
  obtain ⟨y, hy⟩ : ∃ y : proc, y =
      { x with killed := 1, execTime := 0, priority := c.MAXPRIORITY - 1,
               state := if x.state = procstate.SLEEPING then procstate.RUNNABLE
                        else x.state } := ⟨_, rfl⟩
  rw [← hy] at hk
  refine ⟨s.store i y, y, ?_, ?_, ?_, by rw [hy], by rw [hy], rfl, fun h => h, rfl⟩
  · simp only [schedulerLock, hcur, deref_ok s i x hx, Outcome.ok_bind, hpw, ne_eq,
      not_false_eq_true, if_true, kill, hk]
  · simp only [sys_schedulerLock, hcur, deref_ok s i x hx, Outcome.ok_bind, hpw, ne_eq,
      not_false_eq_true, if_true, kill, hk]
  · simp [Kernel.store, hil]

/-- An instance of the wrong-credential case: the running first process calls
with password 7. -/
theorem C10_wrong_password_on_lock_witness :
    (initRuns 0).Layout demoParam ∧ (initRuns 0).cproc = some 0 ∧ (initRuns 0).ltable = none ∧
    ∃ t y, schedulerLock demoParam (initRuns 0) 7 = Outcome.ok (t, false) ∧
      sys_schedulerLock demoParam (initRuns 0) 7 = Outcome.ok (-1, t, false) ∧
      t.ptable[0]? = some y ∧ y.killed = 1 ∧ y.isLock = lockstate.UNLOCKED ∧
      t.ltable = none ∧ ((initRuns 0).ltable = none → t.ltable = none) ∧
      t.qtable = (initRuns 0).qtable :=
  ⟨by decide, by decide, by decide,
    C10_wrong_password_on_lock demoParam (initRuns 0) 0 (initP procstate.RUNNING 0 0) 7
      (by decide) (by decide) (by decide) (by intro j y hj; omega) (by decide)⟩

/-! ## Further lemmas on lists and queue levels -/

theorem getElem?_of_length_eq {α : Type} (a b : List α) (j : Nat) (y : α)
    (hlen : b.length = a.length) (hy : b[j]? = some y) : ∃ x, a[j]? = some x := by
  have hlt := getElem?_lt_of_some _ _ _ hy
  exact ⟨_, List.getElem?_eq_getElem (show j < a.length by omega)⟩


/-! ## Search and deletion by pid -/

theorem hasPid_true_iff (s : Kernel) (pid : Int) (e : Ptr) :
    s.hasPid pid e = true ↔ ∃ i x, e = some i ∧ s.ptable[i]? = some x ∧ x.pid = pid := by
  cases e with
  | none => simp [Kernel.hasPid]
  | some j =>
    cases hx : s.ptable[j]? with
    | none => simp [Kernel.hasPid, hx]
    | some x => simp [Kernel.hasPid, hx]

/-- The inner loop of `findFromQueueByPid` finds no index when no entry from
`k` on carries the pid. -/
theorem findInLevel_none (s : Kernel) (pid L : Int) (R : Nat) (hR : (s.level L).rear = R)
    (hv : ∀ j, j < R → ∃ i x, (s.level L).procsQueue[j]? = some (some i) ∧
      s.ptable[i]? = some x) :
    ∀ (n k : Nat), n = R - k →
      (∀ j e, k ≤ j → j < R → (s.level L).procsQueue[j]? = some e → s.hasPid pid e = false) →
      findInLevel s pid L (k : Int) n = Outcome.ok none := by
  intro n
  induction n with
  | zero =>
    intro k hn _
    have : ¬ ((k : Int) < (R : Int)) := by omega
    simp [findInLevel, hR, this]
  | succ n ih =>
    intro k hn hno
    have hlt : (k : Int) < (R : Int) := by omega
    obtain ⟨i, x, hi, hx⟩ := hv k (by omega)
    have hne : ¬ (pid = x.pid) := by
      have h := hno k (some i) (le_refl _) (by omega) hi
      simp only [Kernel.hasPid, hx, decide_eq_false_iff_not] at h
      exact fun h2 => h h2.symm
    have hcast : ((k : Int) + 1) = ((k + 1 : Nat) : Int) := by push_cast; rfl
    simp only [findInLevel, hR, hlt, if_true, rdQ_ok _ k _ hi, Outcome.ok_bind,
      deref_ok s i x hx, hne, if_false, hcast]
    exact ih (k + 1) (by omega) (fun j e hj hjR => hno j e (by omega) hjR)

/-- The inner loop of `findFromQueueByPid` finds the first index from `k` on
whose entry carries the pid. -/
theorem findInLevel_some (s : Kernel) (pid L : Int) (R m : Nat) (hR : (s.level L).rear = R)
    (hm : m < R)
    (hv : ∀ j, j < R → ∃ i x, (s.level L).procsQueue[j]? = some (some i) ∧
      s.ptable[i]? = some x)
    (hat : ∃ e, (s.level L).procsQueue[m]? = some e ∧ s.hasPid pid e = true)
    (hbefore : ∀ j e, j < m → (s.level L).procsQueue[j]? = some e → s.hasPid pid e = false) :
    ∀ (n k : Nat), n = R - k → k ≤ m →
      findInLevel s pid L (k : Int) n = Outcome.ok (some (m : Int)) := by
  intro n
  induction n with
  | zero => intro k hn hk; omega
  | succ n ih =>
    intro k hn hk
    have hlt : (k : Int) < (R : Int) := by omega
    obtain ⟨i, x, hi, hx⟩ := hv k (by omega)
    have hcast : ((k : Int) + 1) = ((k + 1 : Nat) : Int) := by push_cast; rfl
    by_cases hkm : k = m
    · subst hkm
      obtain ⟨e, he, hp⟩ := hat
      rw [hi] at he
      cases he
      have hpid : pid = x.pid := by
        simp only [Kernel.hasPid, hx, decide_eq_true_eq] at hp
        exact hp.symm
      simp only [findInLevel, hR, hlt, if_true, rdQ_ok _ k _ hi, Outcome.ok_bind,
        deref_ok s i x hx, hpid]
    · have hne : ¬ (pid = x.pid) := by
        have h := hbefore k (some i) (by omega) hi
        simp only [Kernel.hasPid, hx, decide_eq_false_iff_not] at h
        exact fun h2 => h h2.symm
      simp only [findInLevel, hR, hlt, if_true, rdQ_ok _ k _ hi, Outcome.ok_bind,
        deref_ok s i x hx, hne, if_false, hcast]
      exact ih (k + 1) (by omega) (by omega)


theorem level_cases {L : Int} (h0 : 0 ≤ L) (h3 : L < 3) : L = TOP ∨ L = MIDDLE ∨ L = BOTTOM := by
  simp only [TOP, MIDDLE, BOTTOM]; omega

theorem QueueOk_at {c : Param} {s : Kernel} (h : s.QueueOk c) {L : Int} (h0 : 0 ≤ L)
    (h3 : L < 3) : s.levelOk c L := by
  rcases level_cases h0 h3 with h1 | h1 | h1 <;> subst h1
  · exact h.1
  · exact h.2.1
  · exact h.2.2

theorem mem_entries_of_getElem (q : mlfQueue) (R j : Nat) (e : Ptr) (hR : q.rear = R)
    (hj : j < R) (h : q.procsQueue[j]? = some e) : e ∈ q.entries := by
  rw [List.mem_iff_getElem?]
  exact ⟨j, by rw [entries_getElem? q R j hR hj]; exact h⟩

/-- What `levelOk` gives for the array of a level. -/
theorem levelOk_valid_at {c : Param} {s : Kernel} {L : Int} (hlay : s.Layout c)
    (h0 : 0 ≤ L) (h3 : L < 3) (h : s.levelOk c L) :
    ∃ R : Nat, (s.level L).rear = R ∧ R ≤ c.NPROC ∧
      (s.level L).procsQueue.length = c.NPROC ∧
      ∀ j, j < R → ∃ i x, (s.level L).procsQueue[j]? = some (some i) ∧
        s.ptable[i]? = some x := by
  obtain ⟨hr0, hr1, hv⟩ := h
  obtain ⟨R, hR⟩ := Int.eq_ofNat_of_zero_le hr0
  have hlen := hlay.level_length L (level_toNat_lt h0 h3)
  exact ⟨R, hR, by omega, hlen, valid_at s L R hR (by omega) hv⟩

/-- The outer loop of `findFromQueueByPid` finds nothing when no entry of the
levels from `q` on carries the pid. -/
theorem findLevels_none (c : Param) (s : Kernel) (pid : Int) (hlay : s.Layout c)
    (hq : s.QueueOk c) :
    ∀ (n q : Nat), n = 3 - q →
      (∀ M : Int, (q : Int) ≤ M → M < 3 → ∀ e ∈ (s.level M).entries, s.hasPid pid e = false) →
      findLevels s pid (q : Int) n = Outcome.ok none := by
  intro n
  induction n with
  | zero =>
    intro q hn _
    have : ¬ ((q : Int) < MAXQLEVEL) := by simp only [MAXQLEVEL]; omega
    simp [findLevels, this]
  | succ n ih =>
    intro q hn hno
    have hlt : (q : Int) < MAXQLEVEL := by simp only [MAXQLEVEL]; omega
    have hq0 : (0 : Int) ≤ (q : Int) := by omega
    have hq3 : (q : Int) < 3 := by omega
    obtain ⟨R, hR, _, _, hva⟩ := levelOk_valid_at hlay hq0 hq3 (QueueOk_at hq hq0 hq3)
    have hfi := findInLevel_none s pid (q : Int) R hR hva R 0 (by omega)
      (fun j e _ hj he => hno (q : Int) (le_refl _) hq3 e
        (mem_entries_of_getElem _ R j e hR hj he))
    have hcast : ((q : Int) + 1) = ((q + 1 : Nat) : Int) := by push_cast; rfl
    simp only [Nat.cast_zero] at hfi
    simp only [findLevels, hlt, if_true, hR, Int.toNat_ofNat, hfi, Outcome.ok_bind, hcast]
    exact ih (q + 1) (by omega) (fun M hM hM3 => hno M (by omega) hM3)

/-- The outer loop of `findFromQueueByPid` finds the first entry that carries
the pid, in (level, index) order. -/
theorem findLevels_some (c : Param) (s : Kernel) (pid : Int) (hlay : s.Layout c)
    (hq : s.QueueOk c) (L : Nat) (hL3 : L < 3) (R m : Nat)
    (hR : (s.level (L : Int)).rear = R) (hm : m < R)
    (hat : ∃ e, (s.level (L : Int)).procsQueue[m]? = some e ∧ s.hasPid pid e = true)
    (hbefore : ∀ j e, j < m → (s.level (L : Int)).procsQueue[j]? = some e →
      s.hasPid pid e = false) :
    ∀ (n q : Nat), n = 3 - q → q ≤ L →
      (∀ M : Int, (q : Int) ≤ M → M < (L : Int) →
        ∀ e ∈ (s.level M).entries, s.hasPid pid e = false) →
      findLevels s pid (q : Int) n = Outcome.ok (some ⟨(L : Int), (m : Int), (R : Int)⟩) := by
  intro n
  induction n with
  | zero => intro q hn hqL; omega
  | succ n ih =>
    intro q hn hqL hno
    have hlt : (q : Int) < MAXQLEVEL := by simp only [MAXQLEVEL]; omega
    have hq0 : (0 : Int) ≤ (q : Int) := by omega
    have hq3 : (q : Int) < 3 := by omega
    have hcast : ((q : Int) + 1) = ((q + 1 : Nat) : Int) := by push_cast; rfl
    by_cases hqe : q = L
    · subst hqe
      obtain ⟨R2, hR2, _, _, hva⟩ := levelOk_valid_at hlay hq0 hq3 (QueueOk_at hq hq0 hq3)
      have hRR : R2 = R := by rw [hR] at hR2; omega
      subst hRR
      have hfi := findInLevel_some s pid (q : Int) R2 m hR hm hva hat hbefore R2 0
        (by omega) (by omega)
      simp only [Nat.cast_zero] at hfi
      simp only [findLevels, hlt, if_true, hR, Int.toNat_ofNat, hfi, Outcome.ok_bind]
    · obtain ⟨R2, hR2, _, _, hva⟩ := levelOk_valid_at hlay hq0 hq3 (QueueOk_at hq hq0 hq3)
      have hfi := findInLevel_none s pid (q : Int) R2 hR2 hva R2 0 (by omega)
        (fun j e _ hj he => hno (q : Int) (le_refl _) (by omega) e
          (mem_entries_of_getElem _ R2 j e hR2 hj he))
      simp only [Nat.cast_zero] at hfi
      simp only [findLevels, hlt, if_true, hR2, Int.toNat_ofNat, hfi, Outcome.ok_bind, hcast]
      exact ih (q + 1) (by omega) (by omega) (fun M hM hML => hno M (by omega) hML)


theorem findFromQueueByPid_none (c : Param) (s : Kernel) (pid : Int) (hlay : s.Layout c)
    (hq : s.QueueOk c)
    (hno : ∀ M : Int, 0 ≤ M → M < 3 → ∀ e ∈ (s.level M).entries, s.hasPid pid e = false)
    (qLoc : qLocation) :
    findFromQueueByPid s pid qLoc = Outcome.ok (-1, qLoc) := by
  have h := findLevels_none c s pid hlay hq 3 0 (by omega) (fun M hM hM3 => hno M (by simpa using hM) hM3)
  have h3 : MAXQLEVEL.toNat = 3 := by decide
  simp only [Nat.cast_zero] at h
  simp only [findFromQueueByPid, h3, h, Outcome.ok_bind]

/-- `MLFQdeleteByPid` in closed form when an entry carries the pid: the first
such entry, at index `m` of level `L`, is removed by closing the gap. -/
theorem MLFQdeleteByPid_some (c : Param) (s : Kernel) (pid : Int) (hlay : s.Layout c)
    (hq : s.QueueOk c) (L : Int) (h0 : 0 ≤ L) (h3 : L < 3) (R m : Nat)
    (hR : (s.level L).rear = R) (hm : m < R)
    (hat : ∃ e, (s.level L).procsQueue[m]? = some e ∧ s.hasPid pid e = true)
    (hbefore : ∀ j e, j < m → (s.level L).procsQueue[j]? = some e → s.hasPid pid e = false)
    (hno : ∀ M : Int, 0 ≤ M → M < L → ∀ e ∈ (s.level M).entries, s.hasPid pid e = false) :
    MLFQdeleteByPid s pid = Outcome.ok (0,
      s.setLevel L ⟨closeGap (s.level L).procsQueue m R, (R : Int) - 1⟩) := by
  obtain ⟨Ln, hLn⟩ := Int.eq_ofNat_of_zero_le h0
  subst hLn
  obtain ⟨R2, hR2, hRle, hlen, _⟩ := levelOk_valid_at hlay h0 h3 (QueueOk_at hq h0 h3)
  have hRR : R2 = R := by rw [hR] at hR2; omega
  subst hRR
  have h := findLevels_some c s pid hlay hq Ln (by omega) R2 m hR hm hat hbefore 3 0
    (by omega) (by omega) (fun M hM hML => hno M (by simpa using hM) hML)
  have hm3 : MAXQLEVEL.toNat = 3 := by decide
  have hsw := shiftFront_wrQ (s.level (Ln : Int)).procsQueue m R2 hm (by omega)
  have hfu : ((R2 : Int) - 1 - (m : Int)).toNat = R2 - 1 - m := by omega
  simp only [Nat.cast_zero] at h
  simp only [MLFQdeleteByPid, findFromQueueByPid, hm3, h, Outcome.ok_bind, hfu, hR]
  have hne : ¬ ((0 : Int) = -1) := by decide
  simp only [hne, if_false]
  cases hsf : shiftFront (s.level (Ln : Int)).procsQueue (R2 : Int) (m : Int) (R2 - 1 - m) with
  | ok a1 =>
    rw [hsf, Outcome.ok_bind] at hsw
    simp only [Outcome.ok_bind, hsw]
  | fault f =>
    rw [hsf] at hsw
    exact absurd hsw (by simp)

theorem MLFQdeleteByPid_none (c : Param) (s : Kernel) (pid : Int) (hlay : s.Layout c)
    (hq : s.QueueOk c)
    (hno : ∀ M : Int, 0 ≤ M → M < 3 → ∀ e ∈ (s.level M).entries, s.hasPid pid e = false) :
    MLFQdeleteByPid s pid = Outcome.ok (-1, s) := by
  simp only [MLFQdeleteByPid, findFromQueueByPid_none c s pid hlay hq hno, Outcome.ok_bind,
    if_true]

/-- The state after an entry is removed from a level that is in order is in
order, with the entries of that level erased at the index. -/
theorem setLevel_closeGap (c : Param) (s : Kernel) (hlay : s.Layout c) (hq : s.QueueOk c)
    (L : Int) (h0 : 0 ≤ L) (h3 : L < 3) (R m : Nat) (hR : (s.level L).rear = R) (hm : m < R) :
    let t := s.setLevel L ⟨closeGap (s.level L).procsQueue m R, (R : Int) - 1⟩
    t.Layout c ∧ t.QueueOk c ∧ (t.level L).entries = (s.level L).entries.eraseIdx m ∧
      (t.level L).rear = (s.level L).rear - 1 ∧
      (∀ M, 0 ≤ M → M < 3 → M ≠ L → t.level M = s.level M) ∧ t.ptable = s.ptable ∧
      t.ltable = s.ltable := by
  intro t
  obtain ⟨R2, hR2, hRle, hlen, _⟩ := levelOk_valid_at hlay h0 h3 (QueueOk_at hq h0 h3)
  have hRR : R2 = R := by rw [hR] at hR2; omega
  subst hRR
  have hqlen : L.toNat < s.qtable.length := by
    have := hlay.2.1; have := level_toNat_lt h0 h3; omega
  have hcl := closeGap_length (s.level L).procsQueue m R2 hm (by omega)
  have hlev : t.level L = ⟨closeGap (s.level L).procsQueue m R2, (R2 : Int) - 1⟩ :=
    level_setLevel_same _ L _ hqlen
  have hoth : ∀ M, 0 ≤ M → M < 3 → M ≠ L → t.level M = s.level M := by
    intro M hM0 hM3 hML
    exact level_setLevel_ne _ L M _ (by omega)
  have hent : (t.level L).entries = (s.level L).entries.eraseIdx m := by
    rw [hlev]
    simp only [mlfQueue.entries, hR]
    have h1 : ((R2 : Int) - 1).toNat = R2 - 1 := by omega
    rw [h1, Int.toNat_ofNat]
    exact closeGap_take _ m R2 hm (by omega)
  have hlay' : t.Layout c := hlay.layout_setLevel L _ (by simp [hcl, hlen])
  have hok : ∀ M, 0 ≤ M → M < 3 → t.levelOk c M := by
    intro M hM0 hM3
    by_cases hML : M = L
    · subst hML
      refine ⟨by rw [hlev]; simp; omega, by rw [hlev]; simp; omega, ?_⟩
      intro e he
      rw [hent] at he
      exact (QueueOk_at hq h0 h3).2.2 e (List.mem_of_mem_eraseIdx he)
    · have := QueueOk_at hq hM0 hM3
      unfold Kernel.levelOk at this ⊢
      rw [hoth M hM0 hM3 hML]
      exact this
  exact ⟨hlay', ⟨hok TOP (by decide) (by decide), hok MIDDLE (by decide) (by decide),
    hok BOTTOM (by decide) (by decide)⟩, hent, by rw [hlev, hR], hoth, rfl, rfl⟩

/-! ## `schedulerLock` -/


theorem pidScan_found (c : Param) (s : Kernel) (i : Nat) (x : proc)
    (hlen : s.ptable.length = c.NPROC) (hx : s.ptable[i]? = some x) :
    ∀ (n k : Nat), n = c.NPROC - k → k ≤ i → pidScan c s x.pid k n = Outcome.ok 1 := by
  have hi : i < c.NPROC := by
    have := getElem?_lt_of_some _ _ _ hx; omega
  intro n
  induction n with
  | zero => intro k hn hk; omega
  | succ n ih =>
    intro k hn hk
    have hkl : k < c.NPROC := by omega
    have hy := List.getElem?_eq_getElem (show k < s.ptable.length by omega)
    by_cases hp : x.pid = s.ptable[k].pid
    · simp only [pidScan, hkl, if_true, deref_ok s k _ hy, Outcome.ok_bind, hp]
    · have hki : k ≠ i := by
        intro h
        subst h
        rw [hy] at hx
        cases hx
        exact hp rfl
      simp only [pidScan, hkl, if_true, deref_ok s k _ hy, Outcome.ok_bind, hp, if_false]
      exact ih (k + 1) (by omega) (by omega)

/-- Successful lock: with an empty lock slot, a queue table in order, the
caller referenced by exactly one queue entry (index `m` of level `L`) and no
other entry carrying the caller's pid, `schedulerLock(SLPASSWORD)` removes that
entry and no other (the remaining entries of `L` keep their order, the other
levels are unchanged, so the caller is in no level), puts the caller into the
lock slot, sets `isLock = LOCKED` and `state = RUNNABLE` and nothing else in
the process table, sets `ticks = 0`, and goes on to `sched()`. -/
theorem successful_lock (c : Param) (s : Kernel) (i : Nat) (x : proc) (L : Int) (m : Nat)
    (hlay : s.Layout c) (hq : s.QueueOk c) (hcur : s.cproc = some i)
    (hx : s.ptable[i]? = some x) (hslot : s.ltable = none) (h0 : 0 ≤ L) (h3 : L < 3)
    (hat : (s.level L).entries[m]? = some (some i))
    (hother : ∀ (M : Int) (j : Nat) (e : Ptr), 0 ≤ M → M < 3 →
      (s.level M).entries[j]? = some e → M ≠ L ∨ j ≠ m → s.hasPid x.pid e = false) :
    ∃ t, schedulerLock c s c.SLPASSWORD = Outcome.ok (t, true) ∧
      (∀ M, 0 ≤ M → M < 3 → some i ∉ (t.level M).entries) ∧
      (t.level L).entries = (s.level L).entries.eraseIdx m ∧
      (∀ M, 0 ≤ M → M < 3 → M ≠ L → t.level M = s.level M) ∧
      t.ltable = some i ∧
      t.ptable[i]? = some { x with isLock := lockstate.LOCKED, state := procstate.RUNNABLE } ∧
      (∀ j, j ≠ i → t.ptable[j]? = s.ptable[j]?) ∧
      t.ticks = 0 := by
  obtain ⟨R, hR, hRle, hlen, _⟩ := levelOk_valid_at hlay h0 h3 (QueueOk_at hq h0 h3)
  have hil := getElem?_lt_of_some _ _ _ hx
  have hm : m < R := by
    have := getElem?_lt_of_some _ _ _ hat
    simp [mlfQueue.entries, hR] at this
    omega
  have hself : s.hasPid x.pid (some i) = true := by simp [Kernel.hasPid, hx]
  have hdel := MLFQdeleteByPid_some c s x.pid hlay hq L h0 h3 R m hR hm
    ⟨some i, by rw [← entries_getElem? _ R m hR hm]; exact hat, hself⟩
    (fun j e hj he => hother L j e h0 h3
      (by rw [entries_getElem? _ R j hR (by omega)]; exact he) (Or.inr (by omega)))
    (fun M hM0 hML e he => by
      rw [List.mem_iff_getElem?] at he
      obtain ⟨j, hj⟩ := he
      exact hother M j e hM0 (by omega) hj (Or.inl (by omega)))
  obtain ⟨_, _, hent, _, hoth, hpt, hlt⟩ := setLevel_closeGap c s hlay hq L h0 h3 R m hR hm
  obtain ⟨s1, hs1⟩ : ∃ s1 : Kernel, s1 =
      s.setLevel L ⟨closeGap (s.level L).procsQueue m R, (R : Int) - 1⟩ := ⟨_, rfl⟩
  rw [← hs1] at hdel hent hoth hpt hlt
  have hx1 : s1.ptable[i]? = some x := by rw [hpt]; exact hx
  obtain ⟨y, hy⟩ : ∃ y : proc, y =
      { x with isLock := lockstate.LOCKED, state := procstate.RUNNABLE } := ⟨_, rfl⟩
  refine ⟨{ s1.store i y with ltable := some i, ticks := 0 }, ?_, ?_, hent, hoth, rfl, ?_, ?_,
    rfl⟩
  · have hps := pidScan_found c s i x hlay.1 hx c.NPROC 0 (by omega) (by omega)
    have h1 : ¬ ((1 : Int) = 0) := by decide
    simp only [schedulerLock, hcur, deref_ok s i x hx, Outcome.ok_bind, ne_eq,
      not_true_eq_false, if_false, hps, h1, hslot, hdel, deref_ok s1 i x hx1]
    rw [← hy]
  · intro M hM0 hM3 hmem
    have hmem' : some i ∈ (s1.level M).entries := hmem
    by_cases hML : M = L
    · subst hML
      rw [hent, List.mem_iff_getElem?] at hmem'
      obtain ⟨j, hj⟩ := hmem'
      rw [List.getElem?_eraseIdx] at hj
      by_cases hjm : j < m
      · rw [if_pos hjm] at hj
        have := hother M j (some i) h0 h3 hj (Or.inr (by omega))
        rw [hself] at this
        exact absurd this (by simp)
      · rw [if_neg hjm] at hj
        have := hother M (j + 1) (some i) h0 h3 hj (Or.inr (by omega))
        rw [hself] at this
        exact absurd this (by simp)
    · rw [hoth M hM0 hM3 hML, List.mem_iff_getElem?] at hmem'
      obtain ⟨j, hj⟩ := hmem'
      have := hother M j (some i) hM0 hM3 hj (Or.inl hML)
      rw [hself] at this
      exact absurd this (by simp)
  · show (s1.ptable.set i y)[i]? = some _
    rw [hpt, List.getElem?_set_self hil, hy]
  · intro j hj
    show (s1.ptable.set i y)[j]? = s.ptable[j]?
    rw [hpt, List.getElem?_set_ne (Ne.symm hj)]

/-- The successful lock at a concrete state: process 0 of `bottomWaiter 3` takes the lock. -/
theorem successful_lock_example :
    (bottomWaiter 3).ltable = none ∧ (bottomWaiter 3).cproc = some 0 ∧
    ∃ t, schedulerLock demoParam (bottomWaiter 3) demoParam.SLPASSWORD = Outcome.ok (t, true) ∧
      (∀ M, 0 ≤ M → M < 3 → some 0 ∉ (t.level M).entries) ∧
      (t.level TOP).entries = ((bottomWaiter 3).level TOP).entries.eraseIdx 0 ∧
      (∀ M, 0 ≤ M → M < 3 → M ≠ TOP → t.level M = (bottomWaiter 3).level M) ∧
      t.ltable = some 0 ∧
      t.ptable[0]? = some { initP procstate.RUNNING 0 0 with
                            isLock := lockstate.LOCKED, state := procstate.RUNNABLE } ∧
      (∀ j, j ≠ 0 → t.ptable[j]? = (bottomWaiter 3).ptable[j]?) ∧
      t.ticks = 0 :=
  ⟨by decide, by decide,
    successful_lock demoParam (bottomWaiter 3) 0 (initP procstate.RUNNING 0 0) TOP 0
      (by decide) (by decide) (by decide) (by decide) (by decide) (by decide) (by decide)
      (by decide)
      (by
        intro M j e hM0 hM3 hj hne
        have hT : ((bottomWaiter 3).level TOP).entries = [some 0] := by decide
        have hM : ((bottomWaiter 3).level MIDDLE).entries = [] := by decide
        have hB : ((bottomWaiter 3).level BOTTOM).entries = [some 1] := by decide
        rcases level_cases hM0 hM3 with h | h | h <;> subst h
        · rw [hT] at hj
          match j, hj, hne with
          | 0, _, hne => simp at hne
          | j + 1, hj, _ => simp at hj
        · rw [hM] at hj
          simp at hj
        · rw [hB] at hj
          match j, hj with
          | 0, hj =>
            simp only [List.getElem?_cons_zero, Option.some.injEq] at hj
            subst hj
            decide
          | j + 1, hj => simp at hj)⟩

/-! ## The lock branch of the scheduler -/

/-- The shift loop of `MLFQfrontEnqueue` stays inside the array. -/
theorem shiftBack_ok : ∀ (n : Nat) (a : List Ptr), n + 1 < a.length →
    ∃ r, shiftBack a (n : Int) n = Outcome.ok r ∧ r.length = a.length := by
  intro n
  induction n with
  | zero =>
    intro a _
    exact ⟨a, by simp [shiftBack], rfl⟩
  | succ n ih =>
    intro a hlen
    have hpos : ((n + 1 : Nat) : Int) > 0 := by omega
    have hrd := rdQ_ok a (n + 1) a[n + 1] (List.getElem?_eq_getElem (by omega))
    have hwr := wrQ_ok a (n + 1 + 1) a[n + 1] (by omega)
    obtain ⟨r, hr, hrl⟩ := ih (a.set (n + 1 + 1) a[n + 1]) (by simp; omega)
    have hc1 : (((n + 1 : Nat) : Int) + 1) = ((n + 1 + 1 : Nat) : Int) := by push_cast; rfl
    have hc2 : (((n + 1 : Nat) : Int) - 1) = (n : Int) := by push_cast; omega
    refine ⟨r, ?_, by simpa using hrl⟩
    simp only [shiftBack, hpos, if_true, hrd, Outcome.ok_bind, hc1, hwr, hc2, hr]

/-- The shift loop of `MLFQfrontEnqueue` as the function calls it, for a
counter below the array length. -/
theorem shiftBack_call (a : List Ptr) (rear : Int) (h : rear < a.length) :
    ∃ r, shiftBack a (rear - 1) (rear - 1).toNat = Outcome.ok r ∧ r.length = a.length := by
  by_cases hr : rear ≤ 1
  · have h0 : (rear - 1).toNat = 0 := by omega
    have h1 : ¬ (rear - 1 > 0) := by omega
    exact ⟨a, by simp [h0, shiftBack, h1], rfl⟩
  · obtain ⟨n, hn⟩ : ∃ n : Nat, rear - 1 = (n : Int) := ⟨(rear - 1).toNat, by omega⟩
    rw [hn, Int.toNat_ofNat]
    exact shiftBack_ok n a (by omega)

/-- `MLFQfrontEnqueue` of a process slot always returns, and changes neither
the lock slot, `c->proc`, the scheduler context nor the state of a process. -/
theorem MLFQfrontEnqueue_returns (c : Param) (s : Kernel) (i : Nat) (x : proc) (L : Int)
    (hlay : s.Layout c) (hx : s.ptable[i]? = some x) :
    ∃ r t, MLFQfrontEnqueue c s (some i) L = Outcome.ok (r, t) ∧ t.ltable = s.ltable ∧
      t.cproc = s.cproc ∧ t.sctx = s.sctx ∧
      ∀ j : Nat, (t.ptable[j]?).map proc.state = (s.ptable[j]?).map proc.state := by
  have hil := getElem?_lt_of_some _ _ _ hx
  by_cases h1 : L < 0 ∨ L ≥ MAXQLEVEL
  · exact ⟨-3, s, by simp [MLFQfrontEnqueue, h1], rfl, rfl, rfl, fun _ => rfl⟩
  by_cases h2 : (s.level L).rear ≥ (c.NPROC : Int)
  · exact ⟨-2, s, by simp [MLFQfrontEnqueue, h1, h2], rfl, rfl, rfl, fun _ => rfl⟩
  by_cases h3 : x.state ≠ procstate.RUNNABLE
  · exact ⟨-1, s, by simp [MLFQfrontEnqueue, h1, h2, deref_ok s i x hx, h3], rfl, rfl, rfl,
      fun _ => rfl⟩
  have hL0 : 0 ≤ L := by omega
  have hL3 : L < 3 := by simp only [MAXQLEVEL] at h1; omega
  have hlen := hlay.level_length L (level_toNat_lt hL0 hL3)
  obtain ⟨a1, ha1, hl1⟩ := shiftBack_call (s.level L).procsQueue (s.level L).rear (by omega)
  have hw := wrQ_ok a1 0 (some i) (by have := hlay.1; omega)
  simp only [Nat.cast_zero] at hw
  obtain ⟨z, hz⟩ : ∃ z : proc, z = { x with qLevel := L } := ⟨_, rfl⟩
  refine ⟨0, (s.store i z).setLevel L ⟨a1.set 0 (some i), (s.level L).rear + 1⟩, ?_, rfl, rfl,
    rfl, ?_⟩
  · simp only [MLFQfrontEnqueue, h1, h2, if_false, deref_ok s i x hx, Outcome.ok_bind, h3,
      ha1, hw]
    rw [← hz]
  · intro j
    simp only [Kernel.setLevel, Kernel.store]
    rw [hz]
    by_cases hji : i = j
    · subst hji
      simp [hil, hx]
    · rw [List.getElem?_set_ne hji]

/-- One iteration of the scheduler loop, from its top, with the lock slot
holding process `i`.  When the process is RUNNABLE and its killed flag is
not 1, the iteration sets exactly that process RUNNING and `c->proc` to it,
whatever its execTime and whatever the queue table holds, and leaves the queue
table and the lock slot as they are.  Otherwise the iteration is
`schedulerLockDone(0)`: the slot is emptied, `c->proc` stays as it was and no
process changes its state, so nothing is dispatched. -/
theorem exclusive_dispatch (c : Param) (s : Kernel) (fuel : Nat) (i : Nat) (x : proc)
    (hlay : s.Layout c) (hslot : s.ltable = some i) (hx : s.ptable[i]? = some x) :
    (x.state = procstate.RUNNABLE → x.killed ≠ 1 →
      scheduler c fuel s = Outcome.ok
        { s.store i { x with state := procstate.RUNNING } with
          cproc := some i, sctx := SchedCtx.inLock }) ∧
    (x.state ≠ procstate.RUNNABLE ∨ x.killed = 1 →
      ∃ t, scheduler c fuel s = Outcome.ok t ∧ schedulerLockDone c s 0 = Outcome.ok t ∧
        t.ltable = none ∧ t.cproc = s.cproc ∧
        ∀ j : Nat, (t.ptable[j]?).map proc.state = (s.ptable[j]?).map proc.state) := by
  have hil := getElem?_lt_of_some _ _ _ hx
  constructor
  · intro hrun hk
    have hc : ¬ (x.state ≠ procstate.RUNNABLE ∨ x.killed = 1) := by
      simp [hrun, hk]
    simp only [scheduler, hslot, deref_ok s i x hx, Outcome.ok_bind, hc, if_false]
  · intro hc
    obtain ⟨y, hy⟩ : ∃ y : proc, y =
        { x with execTime := 0, priority := c.MAXPRIORITY - 1, isLock := lockstate.UNLOCKED,
                 state := if x.state ≠ procstate.RUNNING ∨ x.state ≠ procstate.RUNNABLE
                          then x.state else procstate.RUNNABLE } := ⟨_, rfl⟩
    have hys : y.state = x.state := by
      rw [hy]
      by_cases h : x.state = procstate.RUNNING <;> simp [h]
    obtain ⟨s2, hs2⟩ : ∃ s2 : Kernel, s2 = ({ s with ltable := none } : Kernel).store i y :=
      ⟨_, rfl⟩
    have hlay2 : s2.Layout c := by rw [hs2]; exact Kernel.Layout.layout_store (s := { s with ltable := none }) hlay i y
    have hy2 : s2.ptable[i]? = some y := by
      rw [hs2]; simp [Kernel.store, hil]
    obtain ⟨r, t, hfe, hlt, hcp, _, hst⟩ := MLFQfrontEnqueue_returns c s2 i y TOP hlay2 hy2
    have hdone : schedulerLockDone c s 0 = Outcome.ok t := by
      have hd : ({ s with ltable := none } : Kernel).deref (some i) = Outcome.ok x :=
        deref_ok _ i x hx
      simp only [schedulerLockDone, hslot, hd, Outcome.ok_bind, if_true]
      rw [← hy, ← hs2, hfe]
      rfl
    refine ⟨t, ?_, hdone, by rw [hlt, hs2]; rfl, by rw [hcp, hs2]; rfl, ?_⟩
    · simp only [scheduler, hslot, deref_ok s i x hx, Outcome.ok_bind, hc, if_true]
      exact hdone
    · intro j
      rw [hst j, hs2]
      simp only [Kernel.store]
      by_cases hji : i = j
      · subst hji
        simp [hil, hx, hys]
      · rw [List.getElem?_set_ne hji]

/-- The dispatch at a concrete state: the lock holder of `lockerWithChildren` is
RUNNABLE and not killed, and two other processes wait in the top level. -/
theorem exclusive_dispatch_example :
    (lockerWithChildren procstate.RUNNABLE 0 none SchedCtx.loopTop).ltable = some 0 ∧
    ((lockerWithChildren procstate.RUNNABLE 0 none SchedCtx.loopTop).level TOP).entries
      = [some 1, some 2] ∧
    scheduler demoParam 1 (lockerWithChildren procstate.RUNNABLE 0 none SchedCtx.loopTop)
      = Outcome.ok (lockerWithChildren procstate.RUNNING 0 (some 0) SchedCtx.inLock) :=
  ⟨by decide, by decide,
    ((exclusive_dispatch demoParam
      (lockerWithChildren procstate.RUNNABLE 0 none SchedCtx.loopTop) 1 0
      { initP procstate.RUNNABLE 0 0 with isLock := lockstate.LOCKED, killed := 0 }
      (by decide) (by decide) (by decide)).1 (by decide) (by decide)).trans (by decide)⟩

/-! ## `wait` -/

/-- The scan of `wait` passes over slots that are not children of the caller. -/
theorem waitScan_nokids (c : Param) (cur : Ptr) (s : Kernel) (hlen : s.ptable.length = c.NPROC)
    (havekids : Int) :
    ∀ (n k : Nat), n = c.NPROC - k →
      (∀ m x, k ≤ m → s.ptable[m]? = some x → x.parent ≠ cur) →
      waitScan c cur s havekids k n = Outcome.ok (none, havekids, s) := by
  intro n
  induction n with
  | zero =>
    intro k hn _
    have : ¬ (k < c.NPROC) := by omega
    simp [waitScan, this]
  | succ n ih =>
    intro k hn hno
    have hkl : k < c.NPROC := by omega
    have hy := List.getElem?_eq_getElem (show k < s.ptable.length by omega)
    have hp := hno k _ (le_refl _) hy
    simp only [waitScan, hkl, if_true, deref_ok s k _ hy, Outcome.ok_bind, ne_eq, hp,
      not_false_eq_true]
    exact ih (k + 1) (by omega) (fun m x hm => hno m x (by omega))

/-- The scan of `wait` reclaims the ZOMBIE child in slot `j` when no slot
before it is a child of the caller. -/
theorem waitScan_zombie (c : Param) (cur : Ptr) (s : Kernel) (hlen : s.ptable.length = c.NPROC)
    (j : Nat) (y : proc) (hy : s.ptable[j]? = some y) (hpar : y.parent = cur)
    (hz : y.state = procstate.ZOMBIE)
    (hno : ∀ m x, m < j → s.ptable[m]? = some x → x.parent ≠ cur) (havekids : Int) :
    ∀ (n k : Nat), n = c.NPROC - k → k ≤ j →
      waitScan c cur s havekids k n = Outcome.ok (some y.pid, 1,
        s.store j { y with pid := 0, parent := none, killed := 0,
                           state := procstate.UNUSED }) := by
  have hj : j < c.NPROC := by
    have := getElem?_lt_of_some _ _ _ hy; omega
  intro n
  induction n with
  | zero => intro k hn hk; omega
  | succ n ih =>
    intro k hn hk
    have hkl : k < c.NPROC := by omega
    by_cases hkj : k = j
    · subst hkj
      have hp : ¬ (y.parent ≠ cur) := by simp [hpar]
      simp only [waitScan, hkl, if_true, deref_ok s k y hy, Outcome.ok_bind, hp, if_false, hz]
    · have hx := List.getElem?_eq_getElem (show k < s.ptable.length by omega)
      have hp := hno k _ (by omega) hx
      simp only [waitScan, hkl, if_true, deref_ok s k _ hx, Outcome.ok_bind, ne_eq, hp,
        not_false_eq_true]
      exact ih (k + 1) (by omega) (by omega)

/-- C13 (reclaim): when exactly one process slot, `j`, has the caller as its
parent and the process in it is a ZOMBIE with pid `k`, `wait` returns `k`,
leaves that slot UNUSED with `pid = 0`, `parent = 0` and `killed = 0` and
changes no other slot and nothing else in the kernel state; a second `wait` of
the same caller returns -1 (it does not call `sleep`) and changes nothing. -/
theorem C13_reclaim (c : Param) (s : Kernel) (ci j : Nat) (xc y : proc) (k : Int)
    (hlay : s.Layout c) (hcur : s.cproc = some ci) (hxc : s.ptable[ci]? = some xc)
    (hy : s.ptable[j]? = some y) (hpar : y.parent = some ci)
    (hz : y.state = procstate.ZOMBIE) (hk : y.pid = k)
    (honly : ∀ m x, m ≠ j → s.ptable[m]? = some x → x.parent ≠ some ci) :
    ∃ t, wait c s = Outcome.ok (WaitResult.returned k, t) ∧
      t.ptable[j]? = some { y with pid := 0, parent := none, killed := 0,
                                   state := procstate.UNUSED } ∧
      (∀ m, m ≠ j → t.ptable[m]? = s.ptable[m]?) ∧
      t.qtable = s.qtable ∧ t.ltable = s.ltable ∧ t.nextpid = s.nextpid ∧
      wait c t = Outcome.ok (WaitResult.returned (-1), t) := by
  have hjl := getElem?_lt_of_some _ _ _ hy
  have hcl := getElem?_lt_of_some _ _ _ hxc
  obtain ⟨z, hz2⟩ : ∃ z : proc, z =
      { y with pid := 0, parent := none, killed := 0, state := procstate.UNUSED } := ⟨_, rfl⟩
  have hscan := waitScan_zombie c (some ci) s hlay.1 j y hy hpar hz
    (fun m x hm => honly m x (by omega)) 0 c.NPROC 0 (by omega) (by omega)
  rw [← hz2] at hscan
  have htj : (s.store j z).ptable[j]? = some z := by simp [Kernel.store, hjl]
  have htm : ∀ m, m ≠ j → (s.store j z).ptable[m]? = s.ptable[m]? := by
    intro m hm
    simp [Kernel.store, List.getElem?_set_ne (Ne.symm hm)]
  refine ⟨s.store j z, ?_, by rw [htj, hz2], htm, rfl, rfl, rfl, ?_⟩
  · simp only [wait, hcur, hscan, Outcome.ok_bind, hk]
  · have hlen2 : (s.store j z).ptable.length = c.NPROC := by
      simp [Kernel.store, hlay.1]
    have hno2 : ∀ m x, 0 ≤ m → (s.store j z).ptable[m]? = some x → x.parent ≠ some ci := by
      intro m x _ hx
      by_cases hm : m = j
      · subst hm
        rw [htj] at hx
        cases hx
        rw [hz2]
        simp
      · rw [htm m hm] at hx
        exact honly m x hm hx
    have hscan2 := waitScan_nokids c (some ci) (s.store j z) hlen2 0 c.NPROC 0 (by omega) hno2
    obtain ⟨xc2, hxc2⟩ : ∃ xc2, (s.store j z).ptable[ci]? = some xc2 := by
      by_cases hm : ci = j
      · subst hm; exact ⟨z, htj⟩
      · exact ⟨xc, by rw [htm ci hm]; exact hxc⟩
    have hcur2 : (s.store j z).cproc = some ci := hcur
    simp only [wait, hcur2, hscan2, Outcome.ok_bind, deref_ok _ ci xc2 hxc2, true_or, if_true]

/-- C13 at a concrete state: the first process reclaims its ZOMBIE child
(pid 2). -/
theorem C13_reclaim_witness :
    zombieChild.cproc = some 0 ∧
    ∃ t, wait demoParam zombieChild = Outcome.ok (WaitResult.returned 2, t) ∧
      t.ptable[1]? = some { childP procstate.ZOMBIE with pid := 0, parent := none, killed := 0,
                                                         state := procstate.UNUSED } ∧
      (∀ m, m ≠ 1 → t.ptable[m]? = zombieChild.ptable[m]?) ∧
      t.qtable = zombieChild.qtable ∧ t.ltable = zombieChild.ltable ∧
      t.nextpid = zombieChild.nextpid ∧
      wait demoParam t = Outcome.ok (WaitResult.returned (-1), t) :=
  ⟨by decide,
    C13_reclaim demoParam zombieChild 0 1 (initP procstate.RUNNING 0 0)
      (childP procstate.ZOMBIE) 2 (by decide) (by decide) (by decide) (by decide) (by decide)
      (by decide) (by decide)
      (by
        have hall : ∀ m, m < 64 → m ≠ 1 →
            (zombieChild.ptable[m]?).map (fun x => x.parent) ≠ some (some 0) := by decide
        intro m x hm hx hp
        have hlt : m < 64 := getElem?_lt_of_some _ _ _ hx
        apply hall m hlt hm
        rw [hx]
        simp [hp])⟩

/-! ## Process identifiers -/

theorem deref_eq_ok {s : Kernel} {p : Ptr} {x : proc} (h : s.deref p = Outcome.ok x) :
    ∃ i, p = some i ∧ s.ptable[i]? = some x := by
  cases p with
  | none => simp [Kernel.deref] at h
  | some i =>
    refine ⟨i, rfl, ?_⟩
    cases hx : s.ptable[i]? with
    | none => simp [Kernel.deref, hx] at h
    | some y =>
      simp only [Kernel.deref, hx, Outcome.ok.injEq] at h
      rw [h]

theorem samePids_refl (s : Kernel) : s.SamePids s :=
  ⟨rfl, rfl, fun _ x hx => ⟨x, hx, rfl, Iff.rfl⟩⟩

theorem samePids_trans {s u t : Kernel} (h1 : s.SamePids u) (h2 : u.SamePids t) :
    s.SamePids t := by
  refine ⟨h2.1.trans h1.1, h2.2.1.trans h1.2.1, ?_⟩
  intro j x hx
  obtain ⟨y, hy, hy1, hy2⟩ := h1.2.2 j x hx
  obtain ⟨z, hz, hz1, hz2⟩ := h2.2.2 j y hy
  exact ⟨z, hz, hz1.trans hy1, hz2.trans hy2⟩

theorem samePids_kept {s t : Kernel} (h : s.SamePids t) : s.PidsKept t := by
  refine ⟨h.1, h.2.1, ?_⟩
  intro j x hx
  obtain ⟨y, hy, hy1, hy2⟩ := h.2.2 j x hx
  exact ⟨y, hy, fun hl => ⟨hy1, fun hu => hl (hy2.2 hu)⟩⟩

/-- The identifier invariant passes to a state whose live slots were live,
with the same pids. -/
theorem pidInv_kept {s t : Kernel} (h : s.PidsKept t) (hinv : s.PidInv) : t.PidInv := by
  obtain ⟨hn, hlen, hsl⟩ := h
  obtain ⟨h0, hr, hd⟩ := hinv
  have back : ∀ (j : Nat) (y : proc), t.ptable[j]? = some y → y.state ≠ procstate.UNUSED →
      ∃ x, s.ptable[j]? = some x ∧ y.pid = x.pid ∧ x.state ≠ procstate.UNUSED := by
    intro j y hy hl
    obtain ⟨x, hx⟩ := getElem?_of_length_eq s.ptable t.ptable j y hlen hy
    obtain ⟨y2, hy2, hk⟩ := hsl j x hx
    rw [hy] at hy2
    cases hy2
    exact ⟨x, hx, (hk hl).1, (hk hl).2⟩
  refine ⟨by rw [hn]; exact h0, ?_, ?_⟩
  · intro i y hy hl
    obtain ⟨x, hx, hp, hxl⟩ := back i y hy hl
    rw [hp, hn]
    exact hr i x hx hxl
  · intro i j y1 y2 hy1 hy2 hl1 hl2 hij
    obtain ⟨x1, hx1, hp1, hxl1⟩ := back i y1 hy1 hl1
    obtain ⟨x2, hx2, hp2, hxl2⟩ := back j y2 hy2 hl2
    rw [hp1, hp2]
    exact hd i j x1 x2 hx1 hx2 hxl1 hxl2 hij

/-- Overwriting a slot with a process of the same pid that is UNUSED exactly
when the old one was. -/
theorem samePids_store (s : Kernel) (i : Nat) (x y : proc) (hx : s.ptable[i]? = some x)
    (hp : y.pid = x.pid) (hu : y.state = procstate.UNUSED ↔ x.state = procstate.UNUSED) :
    s.SamePids (s.store i y) := by
  have hil := getElem?_lt_of_some _ _ _ hx
  refine ⟨rfl, by simp [Kernel.store], ?_⟩
  intro j w hw
  by_cases hj : j = i
  · subst hj
    rw [hx] at hw
    cases hw
    exact ⟨y, by simp [Kernel.store, hil], hp, hu⟩
  · exact ⟨w, by simp [Kernel.store, List.getElem?_set_ne (Ne.symm hj), hw], rfl, Iff.rfl⟩

theorem samePids_of_ptable {s t : Kernel} (hp : t.ptable = s.ptable) (hn : t.nextpid = s.nextpid) :
    s.SamePids t :=
  ⟨hn, by rw [hp], fun _ x hx => ⟨x, by rw [hp]; exact hx, rfl, Iff.rfl⟩⟩

/-- `MLFQenqueue`, when it returns, changes no pid and no UNUSED slot. -/
theorem MLFQenqueue_samePids (c : Param) (s : Kernel) (p : Ptr) (L : Int) (r : Int)
    (t : Kernel) (h : MLFQenqueue c s p L = Outcome.ok (r, t)) : s.SamePids t := by
  unfold MLFQenqueue at h
  split at h
  · cases h; exact samePids_refl s
  · split at h
    · cases h; exact samePids_refl s
    · cases p with
      | none => simp at h
      | some i =>
        simp only at h
        cases hd : s.deref (some i) with
        | fault e => rw [hd] at h; simp at h
        | ok x =>
          rw [hd] at h
          simp only [Outcome.ok_bind] at h
          obtain ⟨i2, hi2, hx⟩ := deref_eq_ok hd
          cases hi2
          split at h
          · cases h; exact samePids_refl s
          · cases hw : wrQ ((s.store i { x with qLevel := L }).level L).procsQueue
                ((s.store i { x with qLevel := L }).level L).rear (some i) with
            | fault e => rw [hw] at h; simp at h
            | ok a =>
              rw [hw] at h
              simp only [Outcome.ok_bind, Outcome.ok.injEq, Prod.mk.injEq] at h
              rw [← h.2]
              exact samePids_trans (samePids_store s i x { x with qLevel := L } hx rfl Iff.rfl)
                (samePids_of_ptable rfl rfl)

/-- `MLFQdeleteByPid`, when it returns, leaves the process table alone. -/
theorem MLFQdeleteByPid_ptable (s : Kernel) (pid : Int) (r : Int) (t : Kernel)
    (h : MLFQdeleteByPid s pid = Outcome.ok (r, t)) :
    t.ptable = s.ptable ∧ t.nextpid = s.nextpid := by
  unfold MLFQdeleteByPid at h
  cases hf : findFromQueueByPid s pid ⟨0, 0, 0⟩ with
  | fault e => rw [hf] at h; simp at h
  | ok v =>
    obtain ⟨r1, qLoc⟩ := v
    rw [hf] at h
    simp only [Outcome.ok_bind] at h
    split at h
    · cases h; exact ⟨rfl, rfl⟩
    · cases h1 : shiftFront (s.level qLoc.qLevel).procsQueue qLoc.qRear qLoc.qIndex
          (qLoc.qRear - 1 - qLoc.qIndex).toNat with
      | fault e => rw [h1] at h; simp at h
      | ok a1 =>
        rw [h1] at h
        simp only [Outcome.ok_bind] at h
        cases h2 : wrQ a1 ((s.level qLoc.qLevel).rear - 1) none with
        | fault e => rw [h2] at h; simp at h
        | ok a2 =>
          rw [h2] at h
          simp only [Outcome.ok_bind, Outcome.ok.injEq, Prod.mk.injEq] at h
          rw [← h.2]
          exact ⟨rfl, rfl⟩

/-- `schedulerLockDone(1)`, when it returns, changes no pid and no state. -/
theorem schedulerLockDone_samePids (c : Param) (s t : Kernel)
    (h : schedulerLockDone c s 1 = Outcome.ok t) : s.SamePids t := by
  unfold schedulerLockDone at h
  cases hl : s.ltable with
  | none =>
    rw [hl] at h
    simp only [Outcome.ok.injEq] at h
    rw [← h]
    exact samePids_of_ptable rfl rfl
  | some i =>
    rw [hl] at h
    simp only at h
    cases hd : ({ s with ltable := none } : Kernel).deref (some i) with
    | fault e => rw [hd] at h; simp at h
    | ok x =>
      rw [hd] at h
      obtain ⟨i2, hi2, hx⟩ := deref_eq_ok hd
      cases hi2
      have h1 : ¬ ((1 : Int) = 0) := by decide
      have hc : x.state ≠ procstate.RUNNING ∨ x.state ≠ procstate.RUNNABLE := by
        by_cases h : x.state = procstate.RUNNING
        · right; rw [h]; decide
        · left; exact h
      simp only [Outcome.ok_bind, h1, if_false, hc, if_true, Outcome.ok.injEq] at h
      rw [← h]
      exact samePids_trans (t := ({ s with ltable := none } : Kernel).store i
          { x with execTime := 0, priority := c.MAXPRIORITY - 1,
                   isLock := lockstate.UNLOCKED })
        (samePids_of_ptable (t := { s with ltable := none }) rfl rfl)
        (samePids_store _ i x _ hx rfl Iff.rfl)

/-- The loop of `wakeup1`, when it returns, changes no pid and leaves every
UNUSED slot UNUSED and every other slot not UNUSED. -/
theorem wakeup1Loop_samePids (c : Param) (chan : Chan) :
    ∀ (n k : Nat) (s t : Kernel), wakeup1Loop c chan s k n = Outcome.ok t → s.SamePids t := by
  intro n
  induction n with
  | zero =>
    intro k s t h
    unfold wakeup1Loop at h
    split at h
    · simp at h
    · cases h; exact samePids_refl s
  | succ n ih =>
    intro k s t h
    unfold wakeup1Loop at h
    split at h
    · cases hd : s.deref (some k) with
      | fault e => rw [hd] at h; simp at h
      | ok x =>
        rw [hd] at h
        obtain ⟨i2, hi2, hx⟩ := deref_eq_ok hd
        cases hi2
        simp only [Outcome.ok_bind] at h
        split at h
        · rename_i hs
          obtain ⟨y, hy⟩ : ∃ y : proc, y =
              { x with state := procstate.RUNNABLE, execTime := 0,
                       priority := c.MAXPRIORITY - 1 } := ⟨_, rfl⟩
          rw [← hy] at h
          cases he : MLFQenqueue c (s.store k y) (some k) 0 with
          | fault e => rw [he] at h; simp at h
          | ok v =>
            obtain ⟨r, s2⟩ := v
            rw [he] at h
            simp only [Outcome.ok_bind] at h
            have h1 : s.SamePids (s.store k y) :=
              samePids_store s k x y hx (by rw [hy]) (by rw [hy, hs.1]; simp)
            exact samePids_trans h1
              (samePids_trans (MLFQenqueue_samePids c _ _ _ r s2 he) (ih (k + 1) s2 t h))
        · exact ih (k + 1) s t h
    · cases h; exact samePids_refl s

/-- The reparenting loop of `exit`, when it returns, changes no pid and leaves
every UNUSED slot UNUSED and every other slot not UNUSED. -/
theorem reparentLoop_samePids (c : Param) (cur : Ptr) :
    ∀ (n k : Nat) (s t : Kernel), reparentLoop c cur s k n = Outcome.ok t → s.SamePids t := by
  intro n
  induction n with
  | zero =>
    intro k s t h
    unfold reparentLoop at h
    split at h
    · simp at h
    · cases h; exact samePids_refl s
  | succ n ih =>
    intro k s t h
    unfold reparentLoop at h
    split at h
    · cases hd : s.deref (some k) with
      | fault e => rw [hd] at h; simp at h
      | ok x =>
        rw [hd] at h
        obtain ⟨i2, hi2, hx⟩ := deref_eq_ok hd
        cases hi2
        simp only [Outcome.ok_bind] at h
        split at h
        · obtain ⟨y, hy⟩ : ∃ y : proc, y = { x with parent := s.initproc } := ⟨_, rfl⟩
          rw [← hy] at h
          have h1 : s.SamePids (s.store k y) :=
            samePids_store s k x y hx (by rw [hy]) (by rw [hy])
          split at h
          · cases hw : wakeup1 c (s.store k y) (Chan.ofPtr s.initproc) with
            | fault e => rw [hw] at h; simp at h
            | ok s2 =>
              rw [hw] at h
              simp only [Outcome.ok_bind] at h
              exact samePids_trans h1
                (samePids_trans (wakeup1Loop_samePids c _ _ _ _ _ hw) (ih (k + 1) s2 t h))
          · exact samePids_trans h1 (ih (k + 1) _ t h)
        · exact ih (k + 1) s t h
    · cases h; exact samePids_refl s

/-- `sleep` by a process, when it returns, changes no pid and leaves every
UNUSED slot UNUSED and every other slot not UNUSED. -/
theorem sleep_samePids (c : Param) (s t : Kernel) (chan : Chan) (hlive : s.curLive)
    (h : sleep c s chan = Outcome.ok t) : s.SamePids t := by
  obtain ⟨i, x, hcur, hx, hl⟩ := hlive
  unfold sleep at h
  rw [hcur] at h
  simp only [deref_ok s i x hx, Outcome.ok_bind] at h
  obtain ⟨y, hy⟩ : ∃ y : proc, y = { x with chan := chan, state := procstate.SLEEPING } :=
    ⟨_, rfl⟩
  rw [← hy] at h
  have h1 : s.SamePids (s.store i y) :=
    samePids_store s i x y hx (by rw [hy]) (by rw [hy]; simp [hl])
  split at h
  · split at h
    · exact samePids_trans h1 (schedulerLockDone_samePids c _ t h)
    · simp at h
  · cases h; exact h1

/-- `exit` by a process, when it reaches `sched()`, has changed no pid and has
left every UNUSED slot UNUSED and every other slot not UNUSED. -/
theorem exit_samePids (c : Param) (s t : Kernel) (hlive : s.curLive)
    (h : exit c s = Outcome.ok t) : s.SamePids t := by
  obtain ⟨i, x, hcur, hx, hl⟩ := hlive
  unfold exit at h
  split at h
  · simp at h
  · rw [hcur] at h
    simp only [deref_ok s i x hx, Outcome.ok_bind] at h
    -- the optional release of the lock
    have key : ∀ (s1 : Kernel), s.SamePids s1 →
        (do
          let x1 ← s1.deref (some i)
          let __discr ← MLFQdeleteByPid s1 x1.pid
          let x2 ← __discr.2.deref (some i)
          let s3 ← wakeup1 c __discr.2 (Chan.ofPtr x2.parent)
          let s4 ← reparentLoop c (some i) s3 0 c.NPROC
          let x4 ← s4.deref (some i)
          Outcome.ok (s4.store i { x4 with state := procstate.ZOMBIE })) = Outcome.ok t →
        s.SamePids t := by
      intro s1 hs1 h
      cases hd1 : s1.deref (some i) with
      | fault e => rw [hd1] at h; simp at h
      | ok x1 =>
        rw [hd1] at h
        simp only [Outcome.ok_bind] at h
        cases hdel : MLFQdeleteByPid s1 x1.pid with
        | fault e => rw [hdel] at h; simp at h
        | ok v =>
          obtain ⟨r, s2⟩ := v
          rw [hdel] at h
          simp only [Outcome.ok_bind] at h
          cases hd2 : s2.deref (some i) with
          | fault e => rw [hd2] at h; simp at h
          | ok x2 =>
            rw [hd2] at h
            simp only [Outcome.ok_bind] at h
            cases hw : wakeup1 c s2 (Chan.ofPtr x2.parent) with
            | fault e => rw [hw] at h; simp at h
            | ok s3 =>
              rw [hw] at h
              simp only [Outcome.ok_bind] at h
              cases hr : reparentLoop c (some i) s3 0 c.NPROC with
              | fault e => rw [hr] at h; simp at h
              | ok s4 =>
                rw [hr] at h
                simp only [Outcome.ok_bind] at h
                cases hd4 : s4.deref (some i) with
                | fault e => rw [hd4] at h; simp at h
                | ok x4 =>
                  rw [hd4] at h
                  simp only [Outcome.ok_bind, Outcome.ok.injEq] at h
                  obtain ⟨i4, hi4, hx4⟩ := deref_eq_ok hd4
                  cases hi4
                  have hp := MLFQdeleteByPid_ptable s1 x1.pid r s2 hdel
                  have h04 : s.SamePids s4 :=
                    samePids_trans hs1 (samePids_trans (samePids_of_ptable hp.1 hp.2)
                      (samePids_trans (wakeup1Loop_samePids c _ _ _ _ _ hw)
                        (reparentLoop_samePids c _ _ _ _ _ hr)))
                  obtain ⟨y4, hy4, _, hy4u⟩ := h04.2.2 i x hx
                  rw [hx4] at hy4
                  cases hy4
                  rw [← h]
                  exact samePids_trans h04
                    (samePids_store s4 i x4 { x4 with state := procstate.ZOMBIE } hx4 rfl
                      (by simp; intro hu; exact hl (hy4u.1 hu)))
    split at h
    · cases hld : schedulerLockDone c s 1 with
      | fault e => rw [hld] at h; simp at h
      | ok s1 =>
        rw [hld] at h
        simp only [Outcome.ok_bind] at h
        exact key s1 (schedulerLockDone_samePids c s s1 hld) h
    · exact key s (samePids_refl s) (by rw [deref_ok s i x hx]; exact h)

/-- The slot the scan of `allocproc` finds is UNUSED. -/
theorem allocScan_unused (c : Param) (s : Kernel) :
    ∀ (n k : Nat) (i : Nat), allocScan c s k n = Outcome.ok (some i) →
      ∃ x, s.ptable[i]? = some x ∧ x.state = procstate.UNUSED := by
  intro n
  induction n with
  | zero =>
    intro k i h
    unfold allocScan at h
    split at h
    · simp at h
    · simp at h
  | succ n ih =>
    intro k i h
    unfold allocScan at h
    split at h
    · cases hd : s.deref (some k) with
      | fault e => rw [hd] at h; simp at h
      | ok x =>
        rw [hd] at h
        obtain ⟨i2, hi2, hx⟩ := deref_eq_ok hd
        cases hi2
        simp only [Outcome.ok_bind] at h
        split at h
        · rename_i hu
          simp only [Outcome.ok.injEq, Option.some.injEq] at h
          subst h
          exact ⟨x, hx, hu⟩
        · exact ih (k + 1) i h
    · simp at h

/-- Overwriting a slot with an UNUSED process. -/
theorem pidsKept_store_unused (s : Kernel) (i : Nat) (y : proc)
    (hu : y.state = procstate.UNUSED) : s.PidsKept (s.store i y) := by
  refine ⟨rfl, by simp [Kernel.store], ?_⟩
  intro j w hw
  have hjl := getElem?_lt_of_some _ _ _ hw
  by_cases hj : j = i
  · subst hj
    exact ⟨y, by simp [Kernel.store, hjl], fun hl => absurd hu hl⟩
  · exact ⟨w, by simp [Kernel.store, List.getElem?_set_ne (Ne.symm hj), hw],
      fun hl => ⟨rfl, hl⟩⟩

/-- Giving the pid `nextpid` to a slot and incrementing `nextpid` keeps the
identifier invariant. -/
theorem pidInv_alloc (s : Kernel) (i : Nat) (x y : proc) (hinv : s.PidInv)
    (hx : s.ptable[i]? = some x) (hp : y.pid = s.nextpid) :
    ({ s.store i y with nextpid := s.nextpid + 1 } : Kernel).PidInv := by
  obtain ⟨h0, hr, hd⟩ := hinv
  have hil := getElem?_lt_of_some _ _ _ hx
  have hget : ∀ (j : Nat) (w : proc),
      ({ s.store i y with nextpid := s.nextpid + 1 } : Kernel).ptable[j]? = some w →
      (j = i ∧ w = y) ∨ (j ≠ i ∧ s.ptable[j]? = some w) := by
    intro j w hw
    by_cases hj : j = i
    · subst hj
      left
      have : (s.ptable.set j y)[j]? = some w := hw
      rw [List.getElem?_set_self hil] at this
      cases this
      exact ⟨rfl, rfl⟩
    · right
      have : (s.ptable.set i y)[j]? = some w := hw
      rw [List.getElem?_set_ne (Ne.symm hj)] at this
      exact ⟨hj, this⟩
  refine ⟨?_, ?_, ?_⟩
  · show 0 < s.nextpid + 1
    omega
  · intro j w hw hl
    show 0 < w.pid ∧ w.pid < s.nextpid + 1
    rcases hget j w hw with ⟨_, h⟩ | ⟨_, h⟩
    · rw [h, hp]; omega
    · have := hr j w h hl
      omega
  · intro j1 j2 w1 w2 hw1 hw2 hl1 hl2 hne
    rcases hget j1 w1 hw1 with ⟨e1, h1⟩ | ⟨e1, h1⟩
    · rcases hget j2 w2 hw2 with ⟨e2, h2⟩ | ⟨e2, h2⟩
      · omega
      · have := hr j2 w2 h2 hl2
        rw [h1, hp]
        omega
    · rcases hget j2 w2 hw2 with ⟨e2, h2⟩ | ⟨e2, h2⟩
      · have := hr j1 w1 h1 hl1
        rw [h2, hp]
        omega
      · exact hd j1 j2 w1 w2 h1 h2 hl1 hl2 hne

/-- `allocproc` keeps the identifier invariant; the slot it returns is EMBRYO. -/
theorem allocproc_pidInv (c : Param) (s : Kernel) (b : Bool) (p : Ptr) (t : Kernel)
    (hinv : s.PidInv) (h : allocproc c s b = Outcome.ok (p, t)) :
    t.PidInv ∧ ∀ i, p = some i → ∃ y, t.ptable[i]? = some y ∧ y.state = procstate.EMBRYO := by
  unfold allocproc at h
  cases hs : allocScan c s 0 c.NPROC with
  | fault e => rw [hs] at h; simp at h
  | ok r =>
    rw [hs] at h
    simp only [Outcome.ok_bind] at h
    cases r with
    | none =>
      simp only [Outcome.ok.injEq, Prod.mk.injEq] at h
      rw [← h.2, ← h.1]
      exact ⟨hinv, fun i hi => by cases hi⟩
    | some i =>
      obtain ⟨x, hx, _⟩ := allocScan_unused c s c.NPROC 0 i hs
      have hil := getElem?_lt_of_some _ _ _ hx
      simp only [deref_ok s i x hx, Outcome.ok_bind] at h
      obtain ⟨y, hy⟩ : ∃ y : proc, y =
          { x with state := procstate.EMBRYO, pid := s.nextpid, arrivedTime := s.nextpid,
                   priority := c.MAXPRIORITY - 1, execTime := 0,
                   isLock := lockstate.UNLOCKED } := ⟨_, rfl⟩
      rw [← hy] at h
      have h1 := pidInv_alloc s i x y hinv hx (by rw [hy])
      obtain ⟨s1, hs1⟩ : ∃ s1 : Kernel, s1 = { s.store i y with nextpid := s.nextpid + 1 } :=
        ⟨_, rfl⟩
      rw [← hs1] at h h1
      have hy1 : s1.ptable[i]? = some y := by
        rw [hs1]; show (s.ptable.set i y)[i]? = some y
        exact List.getElem?_set_self hil
      split at h
      · simp only [Outcome.ok.injEq, Prod.mk.injEq] at h
        rw [← h.2, ← h.1]
        refine ⟨h1, ?_⟩
        intro j hj
        cases hj
        exact ⟨y, hy1, by rw [hy]⟩
      · simp only [deref_ok s1 i y hy1, Outcome.ok_bind, Outcome.ok.injEq, Prod.mk.injEq] at h
        rw [← h.2, ← h.1]
        exact ⟨pidInv_kept (pidsKept_store_unused s1 i _ rfl) h1, fun j hj => by cases hj⟩

/-- `fork` keeps the identifier invariant. -/
theorem fork_pidInv (c : Param) (s : Kernel) (b1 b2 : Bool) (r : Int) (t : Kernel)
    (hinv : s.PidInv) (h : fork c s b1 b2 = Outcome.ok (r, t)) : t.PidInv := by
  unfold fork at h
  cases ha : allocproc c s b1 with
  | fault e => rw [ha] at h; simp at h
  | ok v =>
    obtain ⟨np, s1⟩ := v
    rw [ha] at h
    simp only [Outcome.ok_bind] at h
    obtain ⟨h1, hemb⟩ := allocproc_pidInv c s b1 np s1 hinv ha
    cases np with
    | none =>
      simp only [Outcome.ok.injEq, Prod.mk.injEq] at h
      rw [← h.2]
      exact h1
    | some i =>
      obtain ⟨x, hx, hxe⟩ := hemb i rfl
      simp only at h
      cases hc : s1.deref s.cproc with
      | fault e => rw [hc] at h; simp at h
      | ok w =>
        rw [hc] at h
        simp only [Outcome.ok_bind, deref_ok s1 i x hx] at h
        split at h
        · obtain ⟨y, hy⟩ : ∃ y : proc, y =
              { x with parent := s.cproc, state := procstate.RUNNABLE,
                       arrivedTime := x.pid, execTime := 0, qLevel := TOP,
                       priority := c.MAXPRIORITY - 1, isLock := lockstate.UNLOCKED } :=
            ⟨_, rfl⟩
          rw [← hy] at h
          cases he : MLFQenqueue c (s1.store i y) (some i) TOP with
          | fault e => rw [he] at h; simp at h
          | ok v2 =>
            obtain ⟨r2, s3⟩ := v2
            rw [he] at h
            simp only [Outcome.ok_bind, Outcome.ok.injEq, Prod.mk.injEq] at h
            rw [← h.2]
            have h2 : s1.SamePids (s1.store i y) :=
              samePids_store s1 i x y hx (by rw [hy]) (by rw [hy, hxe]; simp)
            exact pidInv_kept (samePids_kept (samePids_trans h2
              (MLFQenqueue_samePids c _ _ _ r2 s3 he))) h1
        · simp only [Outcome.ok.injEq, Prod.mk.injEq] at h
          rw [← h.2]
          exact pidInv_kept (pidsKept_store_unused s1 i _ rfl) h1

/-- The scan of `wait`, when it returns, has reclaimed a slot or has changed
nothing. -/
theorem waitScan_pidsKept (c : Param) (cur : Ptr) :
    ∀ (n k : Nat) (s : Kernel) (hk : Int) (r : Option Int) (hk2 : Int) (t : Kernel),
      waitScan c cur s hk k n = Outcome.ok (r, hk2, t) →
      s.PidsKept t ∧ (r = none → t = s) := by
  intro n
  induction n with
  | zero =>
    intro k s hk r hk2 t h
    unfold waitScan at h
    split at h
    · simp at h
    · simp only [Outcome.ok.injEq, Prod.mk.injEq] at h
      rw [← h.2.2]
      exact ⟨samePids_kept (samePids_refl s), fun _ => rfl⟩
  | succ n ih =>
    intro k s hk r hk2 t h
    unfold waitScan at h
    split at h
    · cases hd : s.deref (some k) with
      | fault e => rw [hd] at h; simp at h
      | ok x =>
        rw [hd] at h
        simp only [Outcome.ok_bind] at h
        split at h
        · exact ih (k + 1) s hk r hk2 t h
        · split at h
          · simp only [Outcome.ok.injEq, Prod.mk.injEq] at h
            rw [← h.2.2, ← h.1]
            exact ⟨pidsKept_store_unused s k _ rfl, fun hn => by cases hn⟩
          · exact ih (k + 1) s 1 r hk2 t h
    · simp only [Outcome.ok.injEq, Prod.mk.injEq] at h
      rw [← h.2.2]
      exact ⟨samePids_kept (samePids_refl s), fun _ => rfl⟩

/-- `wait` by a process keeps the identifier invariant. -/
theorem wait_pidInv (c : Param) (s : Kernel) (r : WaitResult) (t : Kernel) (hinv : s.PidInv)
    (hlive : s.curLive) (h : wait c s = Outcome.ok (r, t)) : t.PidInv := by
  unfold wait at h
  dsimp only at h
  cases hw : waitScan c s.cproc s 0 0 c.NPROC with
  | fault e => rw [hw] at h; simp at h
  | ok v =>
    obtain ⟨r1, hk, s1⟩ := v
    rw [hw] at h
    simp only [Outcome.ok_bind] at h
    obtain ⟨hkept, hsame⟩ := waitScan_pidsKept c s.cproc c.NPROC 0 s 0 r1 hk s1 hw
    cases r1 with
    | some pid =>
      simp only [Outcome.ok.injEq, Prod.mk.injEq] at h
      rw [← h.2]
      exact pidInv_kept hkept hinv
    | none =>
      have hs1 : s1 = s := hsame rfl
      subst hs1
      simp only at h
      cases hd : s1.deref s1.cproc with
      | fault e => rw [hd] at h; simp at h
      | ok x =>
        rw [hd] at h
        simp only [Outcome.ok_bind] at h
        split at h
        · simp only [Outcome.ok.injEq, Prod.mk.injEq] at h
          rw [← h.2]
          exact hinv
        · cases hsl : sleep c s1 (Chan.ofPtr s1.cproc) with
          | fault e => rw [hsl] at h; simp at h
          | ok s2 =>
            rw [hsl] at h
            simp only [Outcome.ok_bind, Outcome.ok.injEq, Prod.mk.injEq] at h
            rw [← h.2]
            exact pidInv_kept (samePids_kept (sleep_samePids c s1 s2 _ hlive hsl)) hinv

/-- C14 (identifier uniqueness): in every state reached from a process table
whose slots are all UNUSED, with `nextpid = 1`, by calls of `allocproc`,
`fork`, `exit` and `wait` (with `nextpid` an unbounded integer), `nextpid` is
positive, every slot that is not UNUSED has a positive pid smaller than
`nextpid`, and two distinct slots that are not UNUSED have different pids. -/
theorem C14_pid_uniqueness (c : Param) (s : Kernel) (h : RegReach c s) :
    0 < s.nextpid ∧
    (∀ (i : Nat) (x : proc), s.ptable[i]? = some x → x.state ≠ procstate.UNUSED →
      0 < x.pid ∧ x.pid < s.nextpid) ∧
    (∀ (i j : Nat) (x y : proc), s.ptable[i]? = some x → s.ptable[j]? = some y →
      x.state ≠ procstate.UNUSED → y.state ≠ procstate.UNUSED → i ≠ j → x.pid ≠ y.pid) := by
  show s.PidInv
  induction h with
  | start s hall hn =>
    refine ⟨by rw [hn]; decide, ?_, ?_⟩
    · intro i x hx hl
      exact absurd (hall x (List.mem_iff_getElem?.2 ⟨i, hx⟩)) hl
    · intro i j x y hx _ hl _ _
      exact absurd (hall x (List.mem_iff_getElem?.2 ⟨i, hx⟩)) hl
  | allocproc s b p t _ hstep ih => exact (allocproc_pidInv c s b p t ih hstep).1
  | fork s b1 b2 r t _ hstep ih => exact fork_pidInv c s b1 b2 r t ih hstep
  | exit s t _ hlive hstep ih =>
    exact pidInv_kept (samePids_kept (exit_samePids c s t hlive hstep)) ih
  | wait s r t _ hlive hstep ih => exact wait_pidInv c s r t ih hlive hstep
  | switch s p ctx _ ih =>
    exact pidInv_kept (samePids_kept (samePids_of_ptable rfl rfl)) ih

/-- C14 at a concrete state: `embryoForked` is reached from `boot` by
`allocproc` and a `fork` of the process allocated. -/
theorem C14_pid_uniqueness_witness :
    RegReach demoParam embryoForked ∧
    (0 < embryoForked.nextpid ∧
    (∀ (i : Nat) (x : proc), embryoForked.ptable[i]? = some x → x.state ≠ procstate.UNUSED →
      0 < x.pid ∧ x.pid < embryoForked.nextpid) ∧
    (∀ (i j : Nat) (x y : proc), embryoForked.ptable[i]? = some x →
      embryoForked.ptable[j]? = some y →
      x.state ≠ procstate.UNUSED → y.state ≠ procstate.UNUSED → i ≠ j → x.pid ≠ y.pid)) :=
  have h : RegReach demoParam embryoForked :=
    RegReach.fork { embryoOnly with cproc := some 0, sctx := SchedCtx.loopTop } true true 2
      embryoForked
      (RegReach.switch embryoOnly (some 0) SchedCtx.loopTop
        (RegReach.allocproc (boot demoParam) true (some 0) embryoOnly
          (RegReach.start (boot demoParam) (by decide) (by decide)) (by decide)))
      (by decide)
  ⟨h, C14_pid_uniqueness demoParam embryoForked h⟩

/-! ## Capacity of the queue levels -/

theorem inBounds_bind {α β : Type} (x : Outcome α) (f : α → Outcome β) (hx : x.inBounds)
    (hf : ∀ a, x = Outcome.ok a → (f a).inBounds) : (x >>= f).inBounds := by
  cases x with
  | ok a => exact hf a rfl
  | fault e => exact hx

theorem deref_inBounds (s : Kernel) (p : Ptr) : (s.deref p).inBounds := by
  cases p with
  | none => exact Or.inl rfl
  | some i =>
    cases hx : s.ptable[i]? with
    | none => simp [Kernel.deref, hx, Outcome.inBounds]
    | some x => simp [Kernel.deref, hx, Outcome.inBounds]

theorem rearOk_at {c : Param} {s : Kernel} (h : s.RearOk c) {L : Int} (h0 : 0 ≤ L)
    (h3 : L < 3) : 0 ≤ (s.level L).rear ∧ (s.level L).rear ≤ c.NPROC := by
  rcases level_cases h0 h3 with h1 | h1 | h1 <;> subst h1
  · exact h.1
  · exact h.2.1
  · exact h.2.2

/-- Replacing one level by one of the same array size with a counter inside
the bounds keeps layout and bounds. -/
theorem rearOk_setLevel {c : Param} {s : Kernel} (hlay : s.Layout c) (h : s.RearOk c)
    (L : Int) (h0 : 0 ≤ L) (h3 : L < 3) (q : mlfQueue) (hlen : q.procsQueue.length = c.NPROC)
    (hq0 : 0 ≤ q.rear) (hq1 : q.rear ≤ c.NPROC) :
    (s.setLevel L q).Layout c ∧ (s.setLevel L q).RearOk c := by
  have hqlen : L.toNat < s.qtable.length := by
    have := hlay.2.1; have := level_toNat_lt h0 h3; omega
  refine ⟨hlay.layout_setLevel L q hlen, ?_⟩
  have key : ∀ M, 0 ≤ M → M < 3 →
      0 ≤ ((s.setLevel L q).level M).rear ∧ ((s.setLevel L q).level M).rear ≤ c.NPROC := by
    intro M hM0 hM3
    by_cases hML : M = L
    · subst hML
      rw [level_setLevel_same s M q hqlen]
      exact ⟨hq0, hq1⟩
    · rw [level_setLevel_ne s L M q (by omega)]
      exact rearOk_at h hM0 hM3
  exact ⟨key TOP (by decide) (by decide), key MIDDLE (by decide) (by decide),
    key BOTTOM (by decide) (by decide)⟩

theorem rearOk_store {c : Param} {s : Kernel} (h : s.RearOk c) (i : Nat) (x : proc) :
    (s.store i x).RearOk c := by
  unfold Kernel.RearOk at h ⊢
  simp only [level_store]
  exact h

/-- `MLFQenqueue` stays inside the arrays and keeps the counters in bounds. -/
theorem MLFQenqueue_bounds (c : Param) (s : Kernel) (hlay : s.Layout c) (hr : s.RearOk c)
    (p : Ptr) (L : Int) :
    (MLFQenqueue c s p L).inBounds ∧
      ∀ r t, MLFQenqueue c s p L = Outcome.ok (r, t) → t.Layout c ∧ t.RearOk c := by
  by_cases h1 : L < 0 ∨ L ≥ MAXQLEVEL
  · simp only [MLFQenqueue, h1, if_true]
    refine ⟨trivial, ?_⟩
    intro r t h
    simp only [Outcome.ok.injEq, Prod.mk.injEq] at h
    rw [← h.2]; exact ⟨hlay, hr⟩
  by_cases h2 : (s.level L).rear ≥ (c.NPROC : Int)
  · simp only [MLFQenqueue, h1, h2, if_true, if_false]
    refine ⟨trivial, ?_⟩
    intro r t h
    simp only [Outcome.ok.injEq, Prod.mk.injEq] at h
    rw [← h.2]; exact ⟨hlay, hr⟩
  have hL0 : 0 ≤ L := by omega
  have hL3 : L < 3 := by simp only [MAXQLEVEL] at h1; omega
  have hb := rearOk_at hr hL0 hL3
  have hlen := hlay.level_length L (level_toNat_lt hL0 hL3)
  cases p with
  | none =>
    simp only [MLFQenqueue, h1, h2, if_false]
    exact ⟨Or.inl rfl, fun r t h => by simp at h⟩
  | some i =>
    cases hx : s.ptable[i]? with
    | none =>
      have hd : s.deref (some i) = Outcome.fault Fault.badPointer := by
        simp [Kernel.deref, hx]
      simp only [MLFQenqueue, h1, h2, if_false, hd, Outcome.fault_bind]
      exact ⟨Or.inr rfl, fun r t h => by simp at h⟩
    | some x =>
      by_cases h3 : x.state ≠ procstate.RUNNABLE
      · simp only [MLFQenqueue, h1, h2, if_false, deref_ok s i x hx, Outcome.ok_bind]
        rw [if_pos h3]
        refine ⟨trivial, ?_⟩
        intro r t h
        simp only [Outcome.ok.injEq, Prod.mk.injEq] at h
        rw [← h.2]; exact ⟨hlay, hr⟩
      · obtain ⟨R, hR⟩ := Int.eq_ofNat_of_zero_le hb.1
        have hrun : x.state = procstate.RUNNABLE := by
          by_contra hcon; exact h3 hcon
        rw [MLFQenqueue_ok c s i L x R hlay hL0 hL3 hR (by omega) hx hrun]
        refine ⟨trivial, ?_⟩
        intro r t h
        simp only [Outcome.ok.injEq, Prod.mk.injEq] at h
        rw [← h.2]
        exact rearOk_setLevel (hlay.layout_store i _) (rearOk_store hr i _) L hL0 hL3 _
          (by simp [hlen]) (by show (0 : Int) ≤ (R : Int) + 1; omega)
          (by show (R : Int) + 1 ≤ c.NPROC; omega)

/-- `MLFQfrontEnqueue` stays inside the arrays and keeps the counters in
bounds. -/
theorem MLFQfrontEnqueue_bounds (c : Param) (s : Kernel) (hlay : s.Layout c)
    (hr : s.RearOk c) (p : Ptr) (L : Int) :
    (MLFQfrontEnqueue c s p L).inBounds ∧
      ∀ r t, MLFQfrontEnqueue c s p L = Outcome.ok (r, t) → t.Layout c ∧ t.RearOk c := by
  by_cases h1 : L < 0 ∨ L ≥ MAXQLEVEL
  · simp only [MLFQfrontEnqueue, h1, if_true]
    refine ⟨trivial, ?_⟩
    intro r t h
    simp only [Outcome.ok.injEq, Prod.mk.injEq] at h
    rw [← h.2]; exact ⟨hlay, hr⟩
  by_cases h2 : (s.level L).rear ≥ (c.NPROC : Int)
  · simp only [MLFQfrontEnqueue, h1, h2, if_true, if_false]
    refine ⟨trivial, ?_⟩
    intro r t h
    simp only [Outcome.ok.injEq, Prod.mk.injEq] at h
    rw [← h.2]; exact ⟨hlay, hr⟩
  have hL0 : 0 ≤ L := by omega
  have hL3 : L < 3 := by simp only [MAXQLEVEL] at h1; omega
  have hb := rearOk_at hr hL0 hL3
  have hlen := hlay.level_length L (level_toNat_lt hL0 hL3)
  obtain ⟨a1, ha1, hl1⟩ := shiftBack_call (s.level L).procsQueue (s.level L).rear (by omega)
  cases p with
  | none =>
    simp only [MLFQfrontEnqueue, h1, h2, if_false, ha1, Outcome.ok_bind]
    exact ⟨Or.inl rfl, fun r t h => by simp at h⟩
  | some i =>
    cases hx : s.ptable[i]? with
    | none =>
      have hd : s.deref (some i) = Outcome.fault Fault.badPointer := by
        simp [Kernel.deref, hx]
      simp only [MLFQfrontEnqueue, h1, h2, if_false, hd, Outcome.fault_bind]
      exact ⟨Or.inr rfl, fun r t h => by simp at h⟩
    | some x =>
      by_cases h3 : x.state ≠ procstate.RUNNABLE
      · simp only [MLFQfrontEnqueue, h1, h2, if_false, deref_ok s i x hx, Outcome.ok_bind]
        rw [if_pos h3]
        refine ⟨trivial, ?_⟩
        intro r t h
        simp only [Outcome.ok.injEq, Prod.mk.injEq] at h
        rw [← h.2]; exact ⟨hlay, hr⟩
      · have hw := wrQ_ok a1 0 (some i) (by omega)
        simp only [Nat.cast_zero] at hw
        simp only [MLFQfrontEnqueue, h1, h2, if_false, deref_ok s i x hx, Outcome.ok_bind]
        rw [if_neg h3]
        simp only [ha1, hw, Outcome.ok_bind]
        refine ⟨trivial, ?_⟩
        intro r t h
        simp only [Outcome.ok.injEq, Prod.mk.injEq] at h
        rw [← h.2]
        exact rearOk_setLevel (hlay.layout_store i _) (rearOk_store hr i _) L hL0 hL3 _
          (by simp [hl1, hlen]) (by show (0 : Int) ≤ (s.level L).rear + 1; omega)
          (by show (s.level L).rear + 1 ≤ c.NPROC; omega)

/-- The inner loop of the priority scan stays inside the array. -/
theorem scanBand_inBounds (s : Kernel) (R : Nat) (hR : (s.level BOTTOM).rear = R)
    (hlen : R ≤ (s.level BOTTOM).procsQueue.length) (iterPrior minArrivedTime dequeueIndex : Int) :
    ∀ (n k : Nat), n = R - k →
      (scanBand s iterPrior minArrivedTime dequeueIndex (k : Int) n).inBounds := by
  intro n
  induction n with
  | zero =>
    intro k hn
    have : ¬ ((k : Int) < (R : Int)) := by omega
    simp only [scanBand, hR, this, if_false]
    trivial
  | succ n ih =>
    intro k hn
    have hlt : (k : Int) < (R : Int) := by omega
    have hrd := rdQ_ok (s.level BOTTOM).procsQueue k _
      (List.getElem?_eq_getElem (show k < (s.level BOTTOM).procsQueue.length by omega))
    have hcast : ((k : Int) + 1) = ((k + 1 : Nat) : Int) := by push_cast; rfl
    simp only [scanBand, hR, hlt, if_true, hrd, Outcome.ok_bind]
    apply inBounds_bind _ _ (deref_inBounds s _)
    intro x _
    split
    · trivial
    · rw [hcast]
      exact ih (k + 1) (by omega)

/-- The priority scan on a non-empty lowest level stays inside the array, and
the index it yields is 0. -/
theorem scanPrior_inBounds (c : Param) (s : Kernel) (R : Nat)
    (hR : (s.level BOTTOM).rear = R) (hpos : 0 < R)
    (hlen : R ≤ (s.level BOTTOM).procsQueue.length) (hprio : 0 < c.MAXPRIORITY) :
    (scanPrior c s 0 (-1) c.MAXPRIORITY.toNat).inBounds ∧
      ∀ d, scanPrior c s 0 (-1) c.MAXPRIORITY.toNat = Outcome.ok d → d = 0 := by
  obtain ⟨m, hm⟩ : ∃ m, c.MAXPRIORITY.toNat = m + 1 := ⟨c.MAXPRIORITY.toNat - 1, by omega⟩
  have hl0 : 0 < (s.level BOTTOM).procsQueue.length := by omega
  have h0 := rdQ_ok (s.level BOTTOM).procsQueue 0 _ (List.getElem?_eq_getElem hl0)
  simp only [Nat.cast_zero] at h0
  rw [hm]
  simp only [scanPrior, hprio, true_and, if_true, h0, Outcome.ok_bind, hR, Int.toNat_ofNat]
  cases hd : s.deref (s.level BOTTOM).procsQueue[0] with
  | fault e =>
    have := deref_inBounds s (s.level BOTTOM).procsQueue[0]
    rw [hd] at this
    simp only [Outcome.fault_bind]
    exact ⟨this, fun d h => by simp at h⟩
  | ok x =>
    simp only [Outcome.ok_bind]
    have hb := scanBand_inBounds s R hR hlen 0 x.arrivedTime (-1) R 0 (by omega)
    simp only [Nat.cast_zero] at hb
    cases hsb : scanBand s 0 x.arrivedTime (-1) 0 R with
    | fault e =>
      rw [hsb] at hb
      simp only [Outcome.fault_bind]
      exact ⟨hb, fun d h => by simp at h⟩
    | ok d1 =>
      simp only [Outcome.ok_bind, if_true, zero_add, scanPrior_done]
      exact ⟨trivial, fun d h => by simp at h; exact h.symm⟩

/-- `MLFQdequeue` stays inside the arrays and keeps the counters in bounds. -/
theorem MLFQdequeue_bounds (c : Param) (s : Kernel) (hlay : s.Layout c) (hr : s.RearOk c)
    (hprio : 0 < c.MAXPRIORITY) (L : Int) :
    (MLFQdequeue c s L).inBounds ∧
      ∀ p t, MLFQdequeue c s L = Outcome.ok (p, t) → t.Layout c ∧ t.RearOk c := by
  by_cases h1 : L < 0 ∨ L ≥ MAXQLEVEL
  · simp only [MLFQdequeue, h1, if_true]
    refine ⟨trivial, ?_⟩
    intro r t h
    simp only [Outcome.ok.injEq, Prod.mk.injEq] at h
    rw [← h.2]; exact ⟨hlay, hr⟩
  by_cases h2 : (s.level L).rear = 0
  · simp only [MLFQdequeue, h1, h2, if_true, if_false]
    refine ⟨trivial, ?_⟩
    intro r t h
    simp only [Outcome.ok.injEq, Prod.mk.injEq] at h
    rw [← h.2]; exact ⟨hlay, hr⟩
  have hL0 : 0 ≤ L := by omega
  have hL3 : L < 3 := by simp only [MAXQLEVEL] at h1; omega
  have hb := rearOk_at hr hL0 hL3
  have hlen := hlay.level_length L (level_toNat_lt hL0 hL3)
  obtain ⟨R, hR⟩ := Int.eq_ofNat_of_zero_le hb.1
  have hpos : 0 < R := by omega
  have hle : R ≤ c.NPROC := by omega
  have hfin : ∀ t, t = s.setLevel L ⟨closeGap (s.level L).procsQueue 0 R, (R : Int) - 1⟩ →
      t.Layout c ∧ t.RearOk c := by
    intro t ht
    rw [ht]
    exact rearOk_setLevel hlay hr L hL0 hL3 _
      (by rw [closeGap_length _ 0 R hpos (by omega)]; exact hlen)
      (by show (0 : Int) ≤ (R : Int) - 1; omega) (by show (R : Int) - 1 ≤ c.NPROC; omega)
  by_cases h3 : L < 2
  · obtain ⟨e, _, he⟩ := MLFQdequeue_head c s L R hlay hL0 h3 hR hpos hle
    rw [he]
    refine ⟨trivial, ?_⟩
    intro p t h
    simp only [Outcome.ok.injEq, Prod.mk.injEq] at h
    exact hfin t h.2.symm
  · have hLB : L = BOTTOM := by simp only [BOTTOM]; omega
    subst hLB
    have hl0 : 0 < (s.level BOTTOM).procsQueue.length := by omega
    have h5 : ¬ (BOTTOM < MAXQLEVEL - 1) := by decide
    have h4 : ¬ ((R : Int) = 0) := by omega
    obtain ⟨hsb, hsz⟩ := scanPrior_inBounds c s R hR hpos (by omega) hprio
    simp only [MLFQdequeue, h1, hR, h4, h5, if_false]
    cases hsp : scanPrior c s 0 (-1) c.MAXPRIORITY.toNat with
    | fault e =>
      rw [hsp] at hsb
      simp only [Outcome.fault_bind]
      exact ⟨hsb, fun p t h => by simp at h⟩
    | ok d =>
      have hd0 := hsz d hsp
      subst hd0
      have hrd := rdQ_ok (s.level BOTTOM).procsQueue 0 _ (List.getElem?_eq_getElem hl0)
      have hsw := shiftFront_wrQ (s.level BOTTOM).procsQueue 0 R hpos (by omega)
      have hfu : ((R : Int) - 1 - 0).toNat = R - 1 - 0 := by omega
      simp only [Nat.cast_zero] at hrd hsw
      simp only [Outcome.ok_bind, hrd, hfu]
      cases hsf : shiftFront (s.level BOTTOM).procsQueue (R : Int) 0 (R - 1 - 0) with
      | fault f =>
        rw [hsf] at hsw
        exact absurd hsw (by simp)
      | ok a1 =>
        rw [hsf, Outcome.ok_bind] at hsw
        simp only [Outcome.ok_bind, hsw]
        refine ⟨trivial, ?_⟩
        intro p t h
        simp only [Outcome.ok.injEq, Prod.mk.injEq] at h
        exact hfin t h.2.symm

/-- The inner loop of `findFromQueueByPid` stays inside the array, and an
index it finds is below the counter. -/
theorem findInLevel_inBounds (s : Kernel) (pid L : Int) (R : Nat)
    (hR : (s.level L).rear = R) (hlen : R ≤ (s.level L).procsQueue.length) :
    ∀ (n k : Nat), n = R - k →
      (findInLevel s pid L (k : Int) n).inBounds ∧
      ∀ r, findInLevel s pid L (k : Int) n = Outcome.ok (some r) →
        ∃ m : Nat, r = (m : Int) ∧ m < R := by
  intro n
  induction n with
  | zero =>
    intro k hn
    have : ¬ ((k : Int) < (R : Int)) := by omega
    simp only [findInLevel, hR, this, if_false]
    exact ⟨trivial, fun r h => by simp at h⟩
  | succ n ih =>
    intro k hn
    have hlt : (k : Int) < (R : Int) := by omega
    have hrd := rdQ_ok (s.level L).procsQueue k _
      (List.getElem?_eq_getElem (show k < (s.level L).procsQueue.length by omega))
    have hcast : ((k : Int) + 1) = ((k + 1 : Nat) : Int) := by push_cast; rfl
    simp only [findInLevel, hR, hlt, if_true, hrd, Outcome.ok_bind]
    cases hd : s.deref (s.level L).procsQueue[k] with
    | fault e =>
      have := deref_inBounds s (s.level L).procsQueue[k]
      rw [hd] at this
      simp only [Outcome.fault_bind]
      exact ⟨this, fun r h => by simp at h⟩
    | ok x =>
      simp only [Outcome.ok_bind]
      split
      · refine ⟨trivial, ?_⟩
        intro r h
        simp only [Outcome.ok.injEq, Option.some.injEq] at h
        exact ⟨k, h.symm, by omega⟩
      · rw [hcast]
        exact ih (k + 1) (by omega)

/-- The outer loop of `findFromQueueByPid` stays inside the arrays, and a
location it finds is an index below the counter of a level. -/
theorem findLevels_inBounds (c : Param) (s : Kernel) (pid : Int) (hlay : s.Layout c)
    (hr : s.RearOk c) :
    ∀ (n q : Nat), n = 3 - q →
      (findLevels s pid (q : Int) n).inBounds ∧
      ∀ l, findLevels s pid (q : Int) n = Outcome.ok (some l) →
        ∃ (L m R : Nat), l = ⟨(L : Int), (m : Int), (R : Int)⟩ ∧ L < 3 ∧
          (s.level (L : Int)).rear = R ∧ m < R := by
  intro n
  induction n with
  | zero =>
    intro q hn
    have : ¬ ((q : Int) < MAXQLEVEL) := by simp only [MAXQLEVEL]; omega
    simp only [findLevels, this, if_false]
    exact ⟨trivial, fun l h => by simp at h⟩
  | succ n ih =>
    intro q hn
    have hlt : (q : Int) < MAXQLEVEL := by simp only [MAXQLEVEL]; omega
    have hq0 : (0 : Int) ≤ (q : Int) := by omega
    have hq3 : (q : Int) < 3 := by omega
    have hb := rearOk_at hr hq0 hq3
    have hlen := hlay.level_length (q : Int) (level_toNat_lt hq0 hq3)
    obtain ⟨R, hR⟩ := Int.eq_ofNat_of_zero_le hb.1
    obtain ⟨hfb, hfi⟩ := findInLevel_inBounds s pid (q : Int) R hR (by omega) R 0 (by omega)
    have hcast : ((q : Int) + 1) = ((q + 1 : Nat) : Int) := by push_cast; rfl
    simp only [Nat.cast_zero] at hfb hfi
    simp only [findLevels, hlt, if_true, hR, Int.toNat_ofNat]
    cases hf : findInLevel s pid (q : Int) 0 R with
    | fault e =>
      rw [hf] at hfb
      simp only [Outcome.fault_bind]
      exact ⟨hfb, fun l h => by simp at h⟩
    | ok r =>
      simp only [Outcome.ok_bind]
      cases r with
      | some idx =>
        obtain ⟨m, hm, hmR⟩ := hfi idx hf
        refine ⟨trivial, ?_⟩
        intro l h
        simp only [Outcome.ok.injEq, Option.some.injEq] at h
        exact ⟨q, m, R, by rw [← h, hm], by omega, hR, hmR⟩
      | none =>
        simp only
        rw [hcast]
        exact ih (q + 1) (by omega)

/-- `MLFQdeleteByPid` stays inside the arrays and keeps the counters in
bounds. -/
theorem MLFQdeleteByPid_bounds (c : Param) (s : Kernel) (hlay : s.Layout c)
    (hr : s.RearOk c) (pid : Int) :
    (MLFQdeleteByPid s pid).inBounds ∧
      ∀ r t, MLFQdeleteByPid s pid = Outcome.ok (r, t) → t.Layout c ∧ t.RearOk c := by
  obtain ⟨hfb, hfl⟩ := findLevels_inBounds c s pid hlay hr 3 0 (by omega)
  have h3 : MAXQLEVEL.toNat = 3 := by decide
  simp only [Nat.cast_zero] at hfb hfl
  simp only [MLFQdeleteByPid, findFromQueueByPid, h3]
  cases hf : findLevels s pid 0 3 with
  | fault e =>
    rw [hf] at hfb
    simp only [Outcome.fault_bind]
    exact ⟨hfb, fun r t h => by simp at h⟩
  | ok r =>
    cases r with
    | none =>
      simp only [Outcome.ok_bind, if_true]
      refine ⟨trivial, ?_⟩
      intro r t h
      simp only [Outcome.ok.injEq, Prod.mk.injEq] at h
      rw [← h.2]; exact ⟨hlay, hr⟩
    | some l =>
      obtain ⟨L, m, R, hl, hL3, hR, hm⟩ := hfl l hf
      subst hl
      have hL0 : (0 : Int) ≤ (L : Int) := by omega
      have hb := rearOk_at hr hL0 (by omega : (L : Int) < 3)
      have hlen := hlay.level_length (L : Int) (level_toNat_lt hL0 (by omega))
      have hsw := shiftFront_wrQ (s.level (L : Int)).procsQueue m R hm (by omega)
      have hfu : ((R : Int) - 1 - (m : Int)).toNat = R - 1 - m := by omega
      have hne : ¬ ((0 : Int) = -1) := by decide
      simp only [Outcome.ok_bind, hne, if_false, hfu, hR]
      cases hsf : shiftFront (s.level (L : Int)).procsQueue (R : Int) (m : Int) (R - 1 - m) with
      | fault f =>
        rw [hsf] at hsw
        exact absurd hsw (by simp)
      | ok a1 =>
        rw [hsf, Outcome.ok_bind] at hsw
        simp only [Outcome.ok_bind, hsw]
        refine ⟨trivial, ?_⟩
        intro r t h
        simp only [Outcome.ok.injEq, Prod.mk.injEq] at h
        rw [← h.2]
        exact rearOk_setLevel hlay hr (L : Int) hL0 (by omega) _
          (by rw [closeGap_length _ m R hm (by omega)]; exact hlen)
          (by show (0 : Int) ≤ (R : Int) - 1; omega) (by show (R : Int) - 1 ≤ c.NPROC; omega)

/-- C15 (capacity invariant): in a state whose arrays have their declared
sizes, whose `MAXPRIORITY` is positive and in which every level has
`0 ≤ rear ≤ NPROC`, each of `MLFQenqueue`, `MLFQfrontEnqueue`, `MLFQdequeue`
and `MLFQdeleteByPid`, with any arguments, runs without an access outside a
`procsQueue` array (it returns, or it stops at the dereference of a null or
invalid process pointer), and when it returns, with whatever result, every
level still has `0 ≤ rear ≤ NPROC`; `MLFQdequeue` on an invalid or empty level
returns null and the unchanged state. -/
theorem C15_capacity (c : Param) (s : Kernel) (hlay : s.Layout c) (hr : s.RearOk c)
    (hprio : 0 < c.MAXPRIORITY) :
    (∀ (p : Ptr) (L : Int), (MLFQenqueue c s p L).inBounds ∧
      ∀ r t, MLFQenqueue c s p L = Outcome.ok (r, t) → t.Layout c ∧ t.RearOk c) ∧
    (∀ (p : Ptr) (L : Int), (MLFQfrontEnqueue c s p L).inBounds ∧
      ∀ r t, MLFQfrontEnqueue c s p L = Outcome.ok (r, t) → t.Layout c ∧ t.RearOk c) ∧
    (∀ (L : Int), (MLFQdequeue c s L).inBounds ∧
      ∀ p t, MLFQdequeue c s L = Outcome.ok (p, t) → t.Layout c ∧ t.RearOk c) ∧
    (∀ (pid : Int), (MLFQdeleteByPid s pid).inBounds ∧
      ∀ r t, MLFQdeleteByPid s pid = Outcome.ok (r, t) → t.Layout c ∧ t.RearOk c) ∧
    (∀ (L : Int), L < 0 ∨ L ≥ MAXQLEVEL ∨ (s.level L).rear = 0 →
      MLFQdequeue c s L = Outcome.ok (none, s)) := by
  refine ⟨MLFQenqueue_bounds c s hlay hr, MLFQfrontEnqueue_bounds c s hlay hr,
    MLFQdequeue_bounds c s hlay hr hprio, MLFQdeleteByPid_bounds c s hlay hr, ?_⟩
  intro L hL
  by_cases h1 : L < 0 ∨ L ≥ MAXQLEVEL
  · simp only [MLFQdequeue, h1, if_true]
  · have h2 : (s.level L).rear = 0 := by
      rcases hL with h | h | h
      · exact absurd (Or.inl h) h1
      · exact absurd (Or.inr h) h1
      · exact h
    simp only [MLFQdequeue, h1, h2, if_true, if_false]

/-- C15 at a concrete state: the four operations on `threeQueued`. -/
theorem C15_capacity_witness :
    threeQueued.RearOk demoParam ∧
    (∀ (p : Ptr) (L : Int), (MLFQenqueue demoParam threeQueued p L).inBounds ∧
      ∀ r t, MLFQenqueue demoParam threeQueued p L = Outcome.ok (r, t) →
        t.Layout demoParam ∧ t.RearOk demoParam) ∧
    (∀ (p : Ptr) (L : Int), (MLFQfrontEnqueue demoParam threeQueued p L).inBounds ∧
      ∀ r t, MLFQfrontEnqueue demoParam threeQueued p L = Outcome.ok (r, t) →
        t.Layout demoParam ∧ t.RearOk demoParam) ∧
    (∀ (L : Int), (MLFQdequeue demoParam threeQueued L).inBounds ∧
      ∀ p t, MLFQdequeue demoParam threeQueued L = Outcome.ok (p, t) →
        t.Layout demoParam ∧ t.RearOk demoParam) ∧
    (∀ (pid : Int), (MLFQdeleteByPid threeQueued pid).inBounds ∧
      ∀ r t, MLFQdeleteByPid threeQueued pid = Outcome.ok (r, t) →
        t.Layout demoParam ∧ t.RearOk demoParam) ∧
    (∀ (L : Int), L < 0 ∨ L ≥ MAXQLEVEL ∨ (threeQueued.level L).rear = 0 →
      MLFQdequeue demoParam threeQueued L = Outcome.ok (none, threeQueued)) :=
  ⟨by decide, C15_capacity demoParam threeQueued (by decide) (by decide) (by decide)⟩

/-! ## `MLFQdeleteByPid` -/

/-- C16 (delete by pid): on a queue table in order (counters within
`0 .. NPROC`, entries pointing to processes), `MLFQdeleteByPid(pid)` returns -1
and changes nothing when no entry carries the pid; otherwise, with the first
such entry in (level, index) order at index `m` of level `L`, it returns 0,
erases exactly that entry from the entries of `L` (the others keep their
order), decrements the counter of `L`, and leaves the other levels and the
process table unchanged; and when no other entry carries the pid,
`findFromQueueByPid(pid)` returns -1 afterwards. -/
theorem C16_delete_by_pid (c : Param) (s : Kernel) (pid : Int) (hlay : s.Layout c)
    (hq : s.QueueOk c) :
    ((∀ M : Int, 0 ≤ M → M < 3 → ∀ e ∈ (s.level M).entries, s.hasPid pid e = false) →
      MLFQdeleteByPid s pid = Outcome.ok (-1, s)) ∧
    (∀ (L : Int) (m : Nat), 0 ≤ L → L < 3 →
      (∀ M : Int, 0 ≤ M → M < L → ∀ e ∈ (s.level M).entries, s.hasPid pid e = false) →
      (∃ e, (s.level L).entries[m]? = some e ∧ s.hasPid pid e = true) →
      (∀ j e, j < m → (s.level L).entries[j]? = some e → s.hasPid pid e = false) →
      ∃ t, MLFQdeleteByPid s pid = Outcome.ok (0, t) ∧
        (t.level L).entries = (s.level L).entries.eraseIdx m ∧
        (t.level L).rear = (s.level L).rear - 1 ∧
        (∀ M, 0 ≤ M → M < 3 → M ≠ L → t.level M = s.level M) ∧
        t.ptable = s.ptable ∧
        ((∀ M : Int, L < M → M < 3 → ∀ e ∈ (s.level M).entries, s.hasPid pid e = false) →
          (∀ j e, m < j → (s.level L).entries[j]? = some e → s.hasPid pid e = false) →
          ∀ qLoc, findFromQueueByPid t pid qLoc = Outcome.ok (-1, qLoc))) := by
  refine ⟨MLFQdeleteByPid_none c s pid hlay hq, ?_⟩
  intro L m h0 h3 hno hat hbefore
  obtain ⟨R, hR, hRle, hlen, _⟩ := levelOk_valid_at hlay h0 h3 (QueueOk_at hq h0 h3)
  have hm : m < R := by
    obtain ⟨e, he, _⟩ := hat
    have := getElem?_lt_of_some _ _ _ he
    simp [mlfQueue.entries, hR] at this
    omega
  have hdel := MLFQdeleteByPid_some c s pid hlay hq L h0 h3 R m hR hm
    (by
      obtain ⟨e, he, hp⟩ := hat
      exact ⟨e, by rw [← entries_getElem? _ R m hR hm]; exact he, hp⟩)
    (fun j e hj he => hbefore j e hj (by rw [entries_getElem? _ R j hR (by omega)]; exact he))
    hno
  obtain ⟨hlay', hq', hent, hrear, hoth, hpt, _⟩ :=
    setLevel_closeGap c s hlay hq L h0 h3 R m hR hm
  refine ⟨_, hdel, hent, hrear, hoth, hpt, ?_⟩
  intro hafter hbehind qLoc
  apply findFromQueueByPid_none c _ pid hlay' hq'
  intro M hM0 hM3 e he
  have hsame : ∀ e2 : Ptr, (s.setLevel L
      ⟨closeGap (s.level L).procsQueue m R, (R : Int) - 1⟩).hasPid pid e2 = s.hasPid pid e2 :=
    fun _ => rfl
  rw [hsame]
  by_cases hML : M = L
  · subst hML
    rw [hent, List.mem_iff_getElem?] at he
    obtain ⟨j, hj⟩ := he
    rw [List.getElem?_eraseIdx] at hj
    by_cases hjm : j < m
    · rw [if_pos hjm] at hj
      exact hbefore j e hjm hj
    · rw [if_neg hjm] at hj
      exact hbehind (j + 1) e (by omega) hj
  · rw [hoth M hM0 hM3 hML] at he
    rcases lt_or_gt_of_ne hML with h | h
    · exact hno M hM0 h e he
    · exact hafter M h hM3 e he

/-- C16 at a concrete state: deleting pid 2, the second of the three entries
of the top level of `threeQueued`, and deleting the absent pid 9. -/
theorem C16_delete_by_pid_witness :
    MLFQdeleteByPid threeQueued 9 = Outcome.ok (-1, threeQueued) ∧
    ∃ t, MLFQdeleteByPid threeQueued 2 = Outcome.ok (0, t) ∧
      (t.level TOP).entries = [some 0, some 2] ∧ (t.level TOP).rear = 2 ∧
      t.level MIDDLE = threeQueued.level MIDDLE ∧ t.level BOTTOM = threeQueued.level BOTTOM ∧
      t.ptable = threeQueued.ptable ∧
      ∀ qLoc, findFromQueueByPid t 2 qLoc = Outcome.ok (-1, qLoc) := by
  have hT : (threeQueued.level TOP).entries = [some 0, some 1, some 2] := by decide
  have hM : (threeQueued.level MIDDLE).entries = [] := by decide
  have hB : (threeQueued.level BOTTOM).entries = [] := by decide
  have h := C16_delete_by_pid demoParam threeQueued 2 (by decide) (by decide)
  have h9 := (C16_delete_by_pid demoParam threeQueued 9 (by decide) (by decide)).1
  refine ⟨h9 ?_, ?_⟩
  · intro M hM0 hM3 e he
    rcases level_cases hM0 hM3 with h | h | h <;> subst h
    · rw [hT] at he
      simp only [List.mem_cons, List.mem_singleton, List.not_mem_nil, or_false] at he
      rcases he with rfl | rfl | rfl <;> decide
    · rw [hM] at he; simp at he
    · rw [hB] at he; simp at he
  · obtain ⟨t, h1, h2, h3, h4, h5, h6⟩ := h.2 TOP 1 (by decide) (by decide)
      (by intro M hM0 hML; simp only [TOP] at hML; omega)
      ⟨some 1, by decide, by decide⟩
      (by
        intro j e hj he
        rw [hT] at he
        match j, hj, he with
        | 0, _, he =>
          simp only [List.getElem?_cons_zero, Option.some.injEq] at he
          subst he
          decide)
    refine ⟨t, h1, by rw [h2, hT]; rfl, by rw [h3]; decide,
      h4 MIDDLE (by decide) (by decide) (by decide),
      h4 BOTTOM (by decide) (by decide) (by decide), h5, ?_⟩
    apply h6
    · intro M hLM hM3 e he
      have hM0 : 0 ≤ M := by simp only [TOP] at hLM; omega
      rcases level_cases hM0 hM3 with h | h | h <;> subst h
      · simp at hLM
      · rw [hM] at he; simp at he
      · rw [hB] at he; simp at he
    · intro j e hj he
      rw [hT] at he
      match j, hj, he with
      | 2, _, he =>
        simp only [List.getElem?_cons_succ, List.getElem?_cons_zero, Option.some.injEq] at he
        subst he
        decide
      | j + 3, _, he => simp at he

/-! ## `wakeup` -/

theorem sleepsOn_congr (s t : Kernel) (chan : Chan) (i : Nat)
    (h : t.ptable[i]? = s.ptable[i]?) : t.sleepsOn chan i = s.sleepsOn chan i := by
  simp [Kernel.sleepsOn, h]

theorem sleepers_congr (s t : Kernel) (chan : Chan) (k n : Nat)
    (h : ∀ j, k ≤ j → t.ptable[j]? = s.ptable[j]?) :
    t.sleepers chan k n = s.sleepers chan k n := by
  unfold Kernel.sleepers
  apply List.filter_congr
  intro j hj
  rw [List.mem_range'_1] at hj
  exact sleepsOn_congr s t chan j (h j hj.1)

/-- The loop of `wakeup1` from slot `k` on, when the top level has room for
every sleeper it meets: each sleeper on the channel is made RUNNABLE, reset,
given `qLevel = TOP` and appended to the top level, in slot order; nothing else
changes. -/
theorem wakeup1Loop_spec (c : Param) (chan : Chan) :
    ∀ (n k : Nat) (u : Kernel) (T : Nat), n = c.NPROC - k → u.Layout c →
      (u.level TOP).rear = T → T + (u.sleepers chan k n).length ≤ c.NPROC →
      ∃ t, wakeup1Loop c chan u k n = Outcome.ok t ∧
        (∀ i x, u.ptable[i]? = some x →
          (i < k ∨ u.sleepsOn chan i = false → t.ptable[i]? = some x) ∧
          (k ≤ i → u.sleepsOn chan i = true →
            t.ptable[i]? = some { x with state := procstate.RUNNABLE, execTime := 0,
                                         priority := c.MAXPRIORITY - 1, qLevel := TOP })) ∧
        (t.level TOP).entries = (u.level TOP).entries ++ (u.sleepers chan k n).map some ∧
        (∀ M, 0 ≤ M → M < 3 → M ≠ TOP → t.level M = u.level M) ∧
        t.ltable = u.ltable ∧ t.ticks = u.ticks ∧ t.nextpid = u.nextpid ∧
        t.initproc = u.initproc ∧ t.cproc = u.cproc ∧ t.sctx = u.sctx := by
  intro n
  induction n with
  | zero =>
    intro k u T hn _ _ _
    have : ¬ (k < c.NPROC) := by omega
    refine ⟨u, by simp [wakeup1Loop, this], ?_, by simp [Kernel.sleepers],
      fun _ _ _ _ => rfl, rfl, rfl, rfl, rfl, rfl, rfl⟩
    intro i x hx
    refine ⟨fun _ => hx, ?_⟩
    intro hki hs
    have := getElem?_lt_of_some _ _ _ hx
    have := ‹u.Layout c›.1
    omega
  | succ n ih =>
    intro k u T hn hlay hT hcap
    have hkl : k < c.NPROC := by omega
    have hkl2 : k < u.ptable.length := by have := hlay.1; omega
    obtain ⟨x0, hy⟩ : ∃ x0, u.ptable[k]? = some x0 := ⟨_, List.getElem?_eq_getElem hkl2⟩
    have hsl : u.sleepers chan k (n + 1)
        = if u.sleepsOn chan k = true then k :: u.sleepers chan (k + 1) n
          else u.sleepers chan (k + 1) n := by
      simp only [Kernel.sleepers, List.range'_succ, List.filter_cons]
    by_cases hs : u.sleepsOn chan k = true
    · have hs' : x0.state = procstate.SLEEPING ∧ x0.chan = chan := by
        simpa [Kernel.sleepsOn, hy] using hs
      rw [hsl, if_pos hs] at hcap
      simp only [List.length_cons] at hcap
      obtain ⟨y, hyd⟩ : ∃ y : proc, y =
          { x0 with state := procstate.RUNNABLE, execTime := 0,
                             priority := c.MAXPRIORITY - 1 } := ⟨_, rfl⟩
      have hlay1 : (u.store k y).Layout c := hlay.layout_store k y
      have hy1 : (u.store k y).ptable[k]? = some y := by simp [Kernel.store, hkl2]
      have hen := MLFQenqueue_ok c (u.store k y) k TOP y T hlay1 (by decide) (by decide)
        (by rw [level_store]; exact hT) (by omega) hy1 (by rw [hyd])
      rw [level_store] at hen
      obtain ⟨z, hz⟩ : ∃ z : proc, z = { y with qLevel := TOP } := ⟨_, rfl⟩
      rw [← hz] at hen
      obtain ⟨u2, hu2⟩ : ∃ u2 : Kernel, u2 = ((u.store k y).store k z).setLevel TOP
          ⟨(u.level TOP).procsQueue.set T (some k), (T : Int) + 1⟩ := ⟨_, rfl⟩
      rw [← hu2] at hen
      have hlenT := hlay.level_length TOP (by decide)
      have hlay2 : u2.Layout c := by
        rw [hu2]
        exact (hlay1.layout_store k z).layout_setLevel TOP _ (by simp [hlenT])
      have hq3 : TOP.toNat < ((u.store k y).store k z).qtable.length := by
        have := hlay.2.1
        simp only [Kernel.store, TOP]
        omega
      have hlev2 : u2.level TOP = ⟨(u.level TOP).procsQueue.set T (some k), (T : Int) + 1⟩ := by
        rw [hu2]; exact level_setLevel_same _ TOP _ hq3
      have hoth2 : ∀ M, 0 ≤ M → M < 3 → M ≠ TOP → u2.level M = u.level M := by
        intro M hM0 hM3 hMT
        rw [hu2, level_setLevel_ne _ TOP M _ (by simp only [TOP] at hMT ⊢; omega), level_store,
          level_store]
      have hp2k : u2.ptable[k]? = some z := by
        rw [hu2]; simp [Kernel.setLevel, Kernel.store, hkl2]
      have hp2 : ∀ j, j ≠ k → u2.ptable[j]? = u.ptable[j]? := by
        intro j hj
        rw [hu2]
        simp [Kernel.setLevel, Kernel.store, List.getElem?_set_ne (Ne.symm hj)]
      have hsl2 : u2.sleepers chan (k + 1) n = u.sleepers chan (k + 1) n :=
        sleepers_congr u u2 chan (k + 1) n (fun j hj => hp2 j (by omega))
      obtain ⟨t, ht, hpt, hent, hoth, h1, h2, h3, h4, h5, h6⟩ :=
        ih (k + 1) u2 (T + 1) (by omega) hlay2 (by rw [hlev2]; simp)
          (by rw [hsl2]; omega)
      refine ⟨t, ?_, ?_, ?_, ?_, by rw [h1, hu2]; rfl, by rw [h2, hu2]; rfl,
        by rw [h3, hu2]; rfl, by rw [h4, hu2]; rfl, by rw [h5, hu2]; rfl, by rw [h6, hu2]; rfl⟩
      · simp only [wakeup1Loop, hkl, if_true, deref_ok u k _ hy, Outcome.ok_bind]
        rw [if_pos hs', ← hyd]
        have hen0 : MLFQenqueue c (u.store k y) (some k) 0 = Outcome.ok (0, u2) := hen
        rw [hen0]
        exact ht
      · intro i x hx
        by_cases hik : i = k
        · subst hik
          rw [hy] at hx
          cases hx
          refine ⟨fun h => ?_, fun _ _ => ?_⟩
          · rcases h with h | h
            · omega
            · rw [hs] at h; exact absurd h (by simp)
          · rw [(hpt i z hp2k).1 (Or.inl (by omega)), hz, hyd]
        · have hx2 : u2.ptable[i]? = some x := by rw [hp2 i hik]; exact hx
          have hso : u2.sleepsOn chan i = u.sleepsOn chan i :=
            sleepsOn_congr u u2 chan i (hp2 i hik)
          refine ⟨fun h => ?_, fun hki hsi => ?_⟩
          · apply (hpt i x hx2).1
            rcases h with h | h
            · left; omega
            · right; rw [hso]; exact h
          · exact (hpt i x hx2).2 (by omega) (by rw [hso]; exact hsi)
      · rw [hent, hlev2, hsl, if_pos hs, hsl2]
        have he : (⟨(u.level TOP).procsQueue.set T (some k), (T : Int) + 1⟩ : mlfQueue).entries
            = (u.level TOP).entries ++ [some k] := by
          simp only [mlfQueue.entries, hT]
          have : ((T : Int) + 1).toNat = T + 1 := by omega
          rw [this, Int.toNat_ofNat]
          exact take_set_succ _ T _ (by omega)
        rw [he]
        simp
      · intro M hM0 hM3 hMT
        rw [hoth M hM0 hM3 hMT, hoth2 M hM0 hM3 hMT]
    · have hs' : ¬ (x0.state = procstate.SLEEPING ∧ x0.chan = chan) := by
        simpa [Kernel.sleepsOn, hy] using hs
      rw [hsl, if_neg hs] at hcap
      obtain ⟨t, ht, hpt, hent, hoth, h1, h2, h3, h4, h5, h6⟩ :=
        ih (k + 1) u T (by omega) hlay hT hcap
      refine ⟨t, ?_, ?_, by rw [hent, hsl, if_neg hs], hoth, h1, h2, h3, h4, h5, h6⟩
      · simp only [wakeup1Loop, hkl, if_true, deref_ok u k _ hy, Outcome.ok_bind]
        rw [if_neg hs']
        exact ht
      · intro i x hx
        refine ⟨fun h => ?_, fun hki hsi => ?_⟩
        · apply (hpt i x hx).1
          rcases h with h | h
          · left; omega
          · right; exact h
        · have hik : i ≠ k := by
            intro h; subst h; exact hs hsi
          exact (hpt i x hx).2 (by omega) hsi

/-- C17 (as amended): for every state whose top level has room for the
processes SLEEPING on the key, `wakeup(key)` returns; every process that was
SLEEPING on the key is RUNNABLE with `execTime = 0`, `priority =
MAXPRIORITY - 1` and `qLevel = TOP` and is in the top level, whose entries are
the old ones followed by the woken slots in slot order; every other process
slot, the other levels and the lock slot are unchanged. -/
theorem C17_wakeup_with_room (c : Param) (s : Kernel) (key : Chan) (hlay : s.Layout c)
    (h0 : 0 ≤ (s.level TOP).rear)
    (hcap : (s.level TOP).rear + (s.sleepers key 0 c.NPROC).length ≤ c.NPROC) :
    ∃ t, wakeup c s key = Outcome.ok t ∧
      (∀ i x, s.ptable[i]? = some x →
        (x.state = procstate.SLEEPING ∧ x.chan = key →
          t.ptable[i]? = some { x with state := procstate.RUNNABLE, execTime := 0,
                                       priority := c.MAXPRIORITY - 1, qLevel := TOP } ∧
          some i ∈ (t.level TOP).entries) ∧
        (¬ (x.state = procstate.SLEEPING ∧ x.chan = key) → t.ptable[i]? = some x)) ∧
      (t.level TOP).entries = (s.level TOP).entries ++ (s.sleepers key 0 c.NPROC).map some ∧
      t.level MIDDLE = s.level MIDDLE ∧ t.level BOTTOM = s.level BOTTOM ∧
      t.ltable = s.ltable := by
  obtain ⟨T, hT⟩ := Int.eq_ofNat_of_zero_le h0
  rw [hT] at hcap
  obtain ⟨t, ht, hpt, hent, hoth, h1, -⟩ :=
    wakeup1Loop_spec c key c.NPROC 0 s T (by omega) hlay hT (by omega)
  refine ⟨t, ht, ?_, hent, hoth MIDDLE (by decide) (by decide) (by decide),
    hoth BOTTOM (by decide) (by decide) (by decide), h1⟩
  intro i x hx
  have hso : s.sleepsOn key i = decide (x.state = procstate.SLEEPING ∧ x.chan = key) := by
    simp [Kernel.sleepsOn, hx]
  refine ⟨fun h => ⟨(hpt i x hx).2 (by omega) (by rw [hso]; exact decide_eq_true h), ?_⟩,
    fun h => (hpt i x hx).1 (Or.inr (by rw [hso]; exact decide_eq_false h))⟩
  rw [hent]
  apply List.mem_append_right
  apply List.mem_map_of_mem
  unfold Kernel.sleepers
  rw [List.mem_filter, List.mem_range'_1]
  have := getElem?_lt_of_some _ _ _ hx
  have := hlay.1
  exact ⟨⟨by omega, by omega⟩, by rw [hso]; exact decide_eq_true h⟩

set_option maxRecDepth 100000 in
/-- C17 (the claim as stated fails): with the top level at capacity, `wakeup`
on `ticks` makes the sleeper in slot 63 RUNNABLE and resets it, but its
`qLevel` stays MIDDLE and it is not in the top level, which is unchanged. -/
theorem C17_wakeup_full_top :
    wakeup demoParam topFull Chan.ticksAddr = Outcome.ok topFullWoken ∧
      (topFull.ptable[63]?).map (fun x => (x.state, x.chan))
        = some (procstate.SLEEPING, Chan.ticksAddr) ∧
      (topFullWoken.ptable[63]?).map (fun x => (x.state, x.execTime, x.priority, x.qLevel))
        = some (procstate.RUNNABLE, 0, 3, MIDDLE) ∧
      some 63 ∉ (topFullWoken.level TOP).entries ∧
      topFullWoken.level TOP = topFull.level TOP ∧ (topFull.level TOP).rear = 64 := by
  decide

/-- C17 at a concrete state: `wakeup` on `ticks` in `sleeperMiddle`. -/
theorem C17_wakeup_with_room_witness :
    ∃ t, wakeup demoParam sleeperMiddle Chan.ticksAddr = Outcome.ok t ∧
      (∀ i x, sleeperMiddle.ptable[i]? = some x →
        (x.state = procstate.SLEEPING ∧ x.chan = Chan.ticksAddr →
          t.ptable[i]? = some { x with state := procstate.RUNNABLE, execTime := 0,
                                       priority := demoParam.MAXPRIORITY - 1, qLevel := TOP } ∧
          some i ∈ (t.level TOP).entries) ∧
        (¬ (x.state = procstate.SLEEPING ∧ x.chan = Chan.ticksAddr) → t.ptable[i]? = some x)) ∧
      (t.level TOP).entries = (sleeperMiddle.level TOP).entries
        ++ (sleeperMiddle.sleepers Chan.ticksAddr 0 demoParam.NPROC).map some ∧
      t.level MIDDLE = sleeperMiddle.level MIDDLE ∧ t.level BOTTOM = sleeperMiddle.level BOTTOM ∧
      t.ltable = sleeperMiddle.ltable :=
  C17_wakeup_with_room demoParam sleeperMiddle Chan.ticksAddr (by decide) (by decide) (by decide)

/-! ## `exit` -/

theorem wakes_refl (u : Kernel) : u.Wakes u :=
  ⟨rfl, rfl, rfl, rfl, rfl, rfl, fun _ x hx => ⟨x, hx, rfl, rfl, Or.inl rfl⟩,
    fun _ he => Or.inl he⟩

theorem wakes_trans {u v t : Kernel} (h1 : u.Wakes v) (h2 : v.Wakes t) : u.Wakes t := by
  obtain ⟨a1, a2, a3, a4, a5, a6, a7, a8⟩ := h1
  obtain ⟨b1, b2, b3, b4, b5, b6, b7, b8⟩ := h2
  refine ⟨b1.trans a1, b2.trans a2, b3.trans a3, b4.trans a4, b5.trans a5, b6.trans a6, ?_, ?_⟩
  · intro j x hx
    obtain ⟨y, hy, hy1, hy2, hy3⟩ := a7 j x hx
    obtain ⟨z, hz, hz1, hz2, hz3⟩ := b7 j y hy
    refine ⟨z, hz, hz1.trans hy1, hz2.trans hy2, ?_⟩
    rcases hy3 with hy3 | ⟨hy3, hy4⟩
    · rcases hz3 with hz3 | ⟨hz3, hz4⟩
      · left; rw [hz3, hy3]
      · right; exact ⟨by rw [← hy3]; exact hz3, hz4⟩
    · rcases hz3 with hz3 | ⟨hz3, hz4⟩
      · right; exact ⟨hy3, by rw [hz3]; exact hy4⟩
      · right; exact ⟨hy3, hz4⟩
  · intro e he
    rcases b8 e he with h | ⟨j, y, hj, hy, hys⟩
    · exact a8 e h
    · right
      obtain ⟨x, hx⟩ := getElem?_of_length_eq u.ptable v.ptable j y a6 hy
      obtain ⟨y2, hy2, _, _, hst⟩ := a7 j x hx
      rw [hy] at hy2
      cases hy2
      refine ⟨j, x, hj, hx, ?_⟩
      rcases hst with hst | ⟨hst, _⟩
      · rw [← hst]; exact hys
      · exact hst

theorem wakes_reparents (cur : Ptr) {u t : Kernel} (h : u.Wakes t) : u.Reparents cur t := by
  obtain ⟨a1, a2, a3, a4, a5, a6, a7, a8⟩ := h
  refine ⟨a1, a2, a3, a4, a5, a6, ?_, a8⟩
  intro j x hx
  obtain ⟨y, hy, hy1, hy2, hy3⟩ := a7 j x hx
  exact ⟨y, hy, Or.inl hy1, hy2, hy3⟩

theorem reparents_trans (cur : Ptr) {u v t : Kernel} (h1 : u.Reparents cur v)
    (h2 : v.Reparents cur t) : u.Reparents cur t := by
  obtain ⟨a1, a2, a3, a4, a5, a6, a7, a8⟩ := h1
  obtain ⟨b1, b2, b3, b4, b5, b6, b7, b8⟩ := h2
  refine ⟨b1.trans a1, b2.trans a2, b3.trans a3, b4.trans a4, b5.trans a5, b6.trans a6, ?_, ?_⟩
  · intro j x hx
    obtain ⟨y, hy, hy1, hy2, hy3⟩ := a7 j x hx
    obtain ⟨z, hz, hz1, hz2, hz3⟩ := b7 j y hy
    refine ⟨z, hz, ?_, hz2.trans hy2, ?_⟩
    · rcases hy1 with hy1 | ⟨hy1, hy1b⟩
      · rcases hz1 with hz1 | ⟨hz1, hz1b⟩
        · left; rw [hz1, hy1]
        · right; exact ⟨by rw [← hy1]; exact hz1, by rw [hz1b, a4]⟩
      · rcases hz1 with hz1 | ⟨hz1, hz1b⟩
        · right; exact ⟨hy1, by rw [hz1]; exact hy1b⟩
        · right; exact ⟨hy1, by rw [hz1b, a4]⟩
    · rcases hy3 with hy3 | ⟨hy3, hy4⟩
      · rcases hz3 with hz3 | ⟨hz3, hz4⟩
        · left; rw [hz3, hy3]
        · right; exact ⟨by rw [← hy3]; exact hz3, hz4⟩
      · rcases hz3 with hz3 | ⟨hz3, hz4⟩
        · right; exact ⟨hy3, by rw [hz3]; exact hy4⟩
        · right; exact ⟨hy3, hz4⟩
  · intro e he
    rcases b8 e he with h | ⟨j, y, hj, hy, hys⟩
    · exact a8 e h
    · right
      obtain ⟨x, hx⟩ := getElem?_of_length_eq u.ptable v.ptable j y a6 hy
      obtain ⟨y2, hy2, _, _, hst⟩ := a7 j x hx
      rw [hy] at hy2
      cases hy2
      refine ⟨j, x, hj, hx, ?_⟩
      rcases hst with hst | ⟨hst, _⟩
      · rw [← hst]; exact hys
      · exact hst

/-- One round of the loop of `wakeup1` at a sleeper: the process is made
RUNNABLE and reset, and `MLFQenqueue` returns, whether the top level has room
or not. -/
theorem wake_step (c : Param) (u : Kernel) (k : Nat) (x y : proc) (hlay : u.Layout c)
    (h0 : 0 ≤ (u.level TOP).rear) (hx : u.ptable[k]? = some x)
    (hs : x.state = procstate.SLEEPING)
    (hy : y = { x with state := procstate.RUNNABLE, execTime := 0,
                       priority := c.MAXPRIORITY - 1 }) :
    ∃ r u2, MLFQenqueue c (u.store k y) (some k) 0 = Outcome.ok (r, u2) ∧ u2.Layout c ∧
      0 ≤ (u2.level TOP).rear ∧ u.Wakes u2 ∧
      (∀ j, j ≠ k → u2.ptable[j]? = u.ptable[j]?) ∧
      ∃ z, u2.ptable[k]? = some z ∧ z.state = procstate.RUNNABLE := by
  have hkl2 := getElem?_lt_of_some _ _ _ hx
  have hlay1 : (u.store k y).Layout c := hlay.layout_store k y
  have hy1 : (u.store k y).ptable[k]? = some y := by simp [Kernel.store, hkl2]
  have hyst : y.state = procstate.RUNNABLE := by rw [hy]
  have hp1 : ∀ (j : Nat) (w : proc), u.ptable[j]? = some w → ∀ (v : proc),
      v.parent = x.parent → v.pid = x.pid → v.state = procstate.RUNNABLE →
      ∃ y2, (u.ptable.set k v)[j]? = some y2 ∧ y2.parent = w.parent ∧ y2.pid = w.pid ∧
        (y2.state = w.state ∨ (w.state = procstate.SLEEPING ∧ y2.state = procstate.RUNNABLE)) := by
    intro j w hw v hv1 hv2 hv3
    by_cases hjk : j = k
    · subst hjk
      rw [hx] at hw
      cases hw
      exact ⟨v, List.getElem?_set_self hkl2, hv1, hv2, Or.inr ⟨hs, hv3⟩⟩
    · exact ⟨w, by rw [List.getElem?_set_ne (Ne.symm hjk)]; exact hw, rfl, rfl, Or.inl rfl⟩
  by_cases hfull : (u.level TOP).rear ≥ c.NPROC
  · refine ⟨-2, u.store k y, ?_, hlay1, by rw [level_store]; exact h0, ?_, ?_, y, hy1, hyst⟩
    · have h3 : ¬ ((0 : Int) < 0 ∨ (0 : Int) ≥ MAXQLEVEL) := by decide
      have hfull0 : ((u.store k y).level 0).rear ≥ c.NPROC := by rw [level_store]; exact hfull
      simp only [MLFQenqueue, h3, if_false, hfull0, if_true]
    · refine ⟨by rw [level_store], by rw [level_store], rfl, rfl, rfl, by simp [Kernel.store],
        ?_, ?_⟩
      · intro j w hw
        exact hp1 j w hw y (by rw [hy]) (by rw [hy]) hyst
      · intro e he
        left
        rw [level_store] at he
        exact he
    · intro j hj
      simp [Kernel.store, List.getElem?_set_ne (Ne.symm hj)]
  · obtain ⟨T, hT⟩ := Int.eq_ofNat_of_zero_le h0
    have hen := MLFQenqueue_ok c (u.store k y) k TOP y T hlay1 (by decide) (by decide)
      (by rw [level_store]; exact hT) (by omega) hy1 hyst
    rw [level_store] at hen
    obtain ⟨z, hz⟩ : ∃ z : proc, z = { y with qLevel := TOP } := ⟨_, rfl⟩
    rw [← hz] at hen
    obtain ⟨u2, hu2⟩ : ∃ u2 : Kernel, u2 = ((u.store k y).store k z).setLevel TOP
        ⟨(u.level TOP).procsQueue.set T (some k), (T : Int) + 1⟩ := ⟨_, rfl⟩
    rw [← hu2] at hen
    have hlenT := hlay.level_length TOP (by decide)
    have hlay2 : u2.Layout c := by
      rw [hu2]
      exact (hlay1.layout_store k z).layout_setLevel TOP _ (by simp [hlenT])
    have hq3 : TOP.toNat < ((u.store k y).store k z).qtable.length := by
      have := hlay.2.1
      simp only [Kernel.store, TOP]
      omega
    have hlev2 : u2.level TOP = ⟨(u.level TOP).procsQueue.set T (some k), (T : Int) + 1⟩ := by
      rw [hu2]; exact level_setLevel_same _ TOP _ hq3
    have hoth2 : ∀ M, M ≠ TOP → 0 ≤ M → u2.level M = u.level M := by
      intro M hMT hM0
      rw [hu2, level_setLevel_ne _ TOP M _ (by simp only [TOP] at hMT ⊢; omega), level_store,
        level_store]
    have hp2k : u2.ptable[k]? = some z := by
      rw [hu2]; simp [Kernel.setLevel, Kernel.store, hkl2]
    have hpt2 : u2.ptable = u.ptable.set k z := by
      rw [hu2]; simp [Kernel.setLevel, Kernel.store]
    have hzst : z.state = procstate.RUNNABLE := by rw [hz]; exact hyst
    refine ⟨0, u2, hen, hlay2, by rw [hlev2]; show (0 : Int) ≤ (T : Int) + 1; omega, ?_, ?_,
      z, hp2k, hzst⟩
    · refine ⟨hoth2 MIDDLE (by decide) (by decide), hoth2 BOTTOM (by decide) (by decide),
        by rw [hu2]; rfl, by rw [hu2]; rfl, by rw [hu2]; rfl, by rw [hpt2]; simp, ?_, ?_⟩
      · intro j w hw
        rw [hpt2]
        exact hp1 j w hw z (by rw [hz, hy]) (by rw [hz, hy]) hzst
      · intro e he
        have hent : (u2.level TOP).entries = (u.level TOP).entries ++ [some k] := by
          rw [hlev2]
          simp only [mlfQueue.entries, hT]
          have : ((T : Int) + 1).toNat = T + 1 := by omega
          rw [this, Int.toNat_ofNat]
          exact take_set_succ _ T _ (by omega)
        rw [hent, List.mem_append] at he
        rcases he with he | he
        · exact Or.inl he
        · right
          rw [List.mem_singleton] at he
          exact ⟨k, x, he, hx, hs⟩
    · intro j hj
      rw [hpt2, List.getElem?_set_ne (Ne.symm hj)]

/-- The loop of `wakeup1` returns whatever the occupancy of the top level is;
every sleeper on the channel from slot `k` on is RUNNABLE afterwards. -/
theorem wakeup1Loop_frame (c : Param) (chan : Chan) :
    ∀ (n k : Nat) (u : Kernel), n = c.NPROC - k → u.Layout c → 0 ≤ (u.level TOP).rear →
      ∃ t, wakeup1Loop c chan u k n = Outcome.ok t ∧ t.Layout c ∧ 0 ≤ (t.level TOP).rear ∧
        u.Wakes t ∧
        ∀ (j : Nat) (x : proc), k ≤ j → u.ptable[j]? = some x →
          x.state = procstate.SLEEPING → x.chan = chan →
          ∃ y, t.ptable[j]? = some y ∧ y.state = procstate.RUNNABLE := by
  intro n
  induction n with
  | zero =>
    intro k u hn hlay h0
    have : ¬ (k < c.NPROC) := by omega
    refine ⟨u, by simp [wakeup1Loop, this], hlay, h0, wakes_refl u, ?_⟩
    intro j x hkj hx _ _
    have := getElem?_lt_of_some _ _ _ hx
    have := hlay.1
    omega
  | succ n ih =>
    intro k u hn hlay h0
    have hkl : k < c.NPROC := by omega
    have hkl2 : k < u.ptable.length := by have := hlay.1; omega
    obtain ⟨x0, hy⟩ : ∃ x0, u.ptable[k]? = some x0 := ⟨_, List.getElem?_eq_getElem hkl2⟩
    by_cases hs : x0.state = procstate.SLEEPING ∧ x0.chan = chan
    · obtain ⟨y, hyd⟩ : ∃ y : proc, y =
          { x0 with state := procstate.RUNNABLE, execTime := 0,
                    priority := c.MAXPRIORITY - 1 } := ⟨_, rfl⟩
      obtain ⟨r, u2, hen, hlay2, h02, hw2, hp2, z, hz, hzs⟩ :=
        wake_step c u k x0 y hlay h0 hy hs.1 hyd
      obtain ⟨t, ht, hlayt, h0t, hwt, hrun⟩ := ih (k + 1) u2 (by omega) hlay2 h02
      refine ⟨t, ?_, hlayt, h0t, wakes_trans hw2 hwt, ?_⟩
      · simp only [wakeup1Loop, hkl, if_true, deref_ok u k _ hy, Outcome.ok_bind]
        rw [if_pos hs, ← hyd, hen]
        exact ht
      · intro j x hkj hx hxs hxc
        by_cases hjk : j = k
        · subst hjk
          obtain ⟨w, hw, _, _, hws⟩ := hwt.2.2.2.2.2.2.1 j z hz
          refine ⟨w, hw, ?_⟩
          rcases hws with hws | ⟨hws, _⟩
          · rw [hws]; exact hzs
          · rw [hzs] at hws; cases hws
        · exact hrun j x (by omega) (by rw [hp2 j hjk]; exact hx) hxs hxc
    · obtain ⟨t, ht, hlayt, h0t, hwt, hrun⟩ := ih (k + 1) u (by omega) hlay h0
      refine ⟨t, ?_, hlayt, h0t, hwt, ?_⟩
      · simp only [wakeup1Loop, hkl, if_true, deref_ok u k _ hy, Outcome.ok_bind]
        rw [if_neg hs]
        exact ht
      · intro j x hkj hx hxs hxc
        have hjk : j ≠ k := by
          intro h
          subst h
          rw [hy] at hx
          cases hx
          exact hs ⟨hxs, hxc⟩
        exact hrun j x (by omega) hx hxs hxc

theorem reparents_refl (cur : Ptr) (u : Kernel) : u.Reparents cur u :=
  wakes_reparents cur (wakes_refl u)

/-- Passing one child of `cur` to `initproc`. -/
theorem reparent_step (cur : Ptr) (u : Kernel) (k : Nat) (x : proc)
    (hx : u.ptable[k]? = some x) (hp : x.parent = cur) :
    u.Reparents cur (u.store k { x with parent := u.initproc }) := by
  have hkl := getElem?_lt_of_some _ _ _ hx
  obtain ⟨y, hy⟩ : ∃ y : proc, y = { x with parent := u.initproc } := ⟨_, rfl⟩
  rw [← hy]
  refine ⟨by rw [level_store], by rw [level_store], rfl, rfl, rfl, by simp [Kernel.store], ?_,
    fun e he => Or.inl (by rw [level_store] at he; exact he)⟩
  intro j w hw
  by_cases hjk : j = k
  · subst hjk
    rw [hx] at hw
    cases hw
    exact ⟨y, by simp [Kernel.store, hkl], Or.inr ⟨hp, by rw [hy]⟩, by rw [hy], Or.inl (by rw [hy])⟩
  · exact ⟨w, by simp [Kernel.store, List.getElem?_set_ne (Ne.symm hjk), hw], Or.inl rfl, rfl,
      Or.inl rfl⟩

/-- The reparenting loop of `exit` returns; every child of `cur` from slot `k`
on is a child of `initproc` afterwards. -/
theorem reparentLoop_frame (c : Param) (cur : Ptr) :
    ∀ (n k : Nat) (u : Kernel), n = c.NPROC - k → u.Layout c → 0 ≤ (u.level TOP).rear →
      ∃ t, reparentLoop c cur u k n = Outcome.ok t ∧ t.Layout c ∧ 0 ≤ (t.level TOP).rear ∧
        u.Reparents cur t ∧
        ∀ (j : Nat) (x : proc), k ≤ j → u.ptable[j]? = some x → x.parent = cur →
          ∃ y, t.ptable[j]? = some y ∧ y.parent = u.initproc := by
  intro n
  induction n with
  | zero =>
    intro k u hn hlay h0
    have : ¬ (k < c.NPROC) := by omega
    refine ⟨u, by simp [reparentLoop, this], hlay, h0, reparents_refl cur u, ?_⟩
    intro j x hkj hx _
    have := getElem?_lt_of_some _ _ _ hx
    have := hlay.1
    omega
  | succ n ih =>
    intro k u hn hlay h0
    have hkl : k < c.NPROC := by omega
    have hkl2 : k < u.ptable.length := by have := hlay.1; omega
    obtain ⟨x0, hy⟩ : ∃ x0, u.ptable[k]? = some x0 := ⟨_, List.getElem?_eq_getElem hkl2⟩
    by_cases hp : x0.parent = cur
    · obtain ⟨y, hyd⟩ : ∃ y : proc, y = { x0 with parent := u.initproc } := ⟨_, rfl⟩
      have hr1 : u.Reparents cur (u.store k y) := by
        rw [hyd]; exact reparent_step cur u k x0 hy hp
      have hlay1 : (u.store k y).Layout c := hlay.layout_store k y
      have h01 : 0 ≤ ((u.store k y).level TOP).rear := by rw [level_store]; exact h0
      have hy1 : (u.store k y).ptable[k]? = some y := by simp [Kernel.store, hkl2]
      have hyp : y.parent = u.initproc := by rw [hyd]
      -- the state after the optional `wakeup1(initproc)`
      have hmid : ∃ u2, (if x0.state = procstate.ZOMBIE then
            wakeup1 c (u.store k y) (Chan.ofPtr u.initproc) else Outcome.ok (u.store k y))
            = Outcome.ok u2 ∧ u2.Layout c ∧ 0 ≤ (u2.level TOP).rear ∧ (u.store k y).Wakes u2 := by
        by_cases hz : x0.state = procstate.ZOMBIE
        · obtain ⟨u2, hu2, hl2, h02, hw2, -⟩ :=
            wakeup1Loop_frame c (Chan.ofPtr u.initproc) c.NPROC 0 (u.store k y) (by omega)
              hlay1 h01
          exact ⟨u2, by rw [if_pos hz]; exact hu2, hl2, h02, hw2⟩
        · exact ⟨_, by rw [if_neg hz], hlay1, h01, wakes_refl _⟩
      obtain ⟨u2, hu2, hl2, h02, hw2⟩ := hmid
      obtain ⟨t, ht, hlayt, h0t, hrt, hch⟩ := ih (k + 1) u2 (by omega) hl2 h02
      have hinit2 : u2.initproc = u.initproc := hw2.2.2.2.1
      refine ⟨t, ?_, hlayt, h0t,
        reparents_trans cur hr1 (reparents_trans cur (wakes_reparents cur hw2) hrt), ?_⟩
      · simp only [reparentLoop, hkl, if_true, deref_ok u k _ hy, Outcome.ok_bind]
        rw [if_pos hp, ← hyd]
        by_cases hz : x0.state = procstate.ZOMBIE
        · rw [if_pos hz] at hu2 ⊢
          rw [hu2]
          exact ht
        · rw [if_neg hz] at hu2 ⊢
          cases hu2
          exact ht
      · intro j x hkj hx hxp
        by_cases hjk : j = k
        · subst hjk
          obtain ⟨y2, hy2, hy2p, _, _⟩ := hw2.2.2.2.2.2.2.1 j y hy1
          obtain ⟨w, hw, hwp, _, _⟩ := hrt.2.2.2.2.2.2.1 j y2 hy2
          refine ⟨w, hw, ?_⟩
          rcases hwp with hwp | ⟨_, hwp⟩
          · rw [hwp, hy2p, hyp]
          · rw [hwp, hinit2]
        · have hx1 : (u.store k y).ptable[j]? = some x := by
            simp [Kernel.store, List.getElem?_set_ne (Ne.symm hjk), hx]
          obtain ⟨y2, hy2, hy2p, _, _⟩ := hw2.2.2.2.2.2.2.1 j x hx1
          obtain ⟨w, hw, hwp⟩ := hch j y2 (by omega) hy2 (by rw [hy2p]; exact hxp)
          exact ⟨w, hw, by rw [hwp, hinit2]⟩
    · obtain ⟨t, ht, hlayt, h0t, hrt, hch⟩ := ih (k + 1) u (by omega) hlay h0
      refine ⟨t, ?_, hlayt, h0t, hrt, ?_⟩
      · simp only [reparentLoop, hkl, if_true, deref_ok u k _ hy, Outcome.ok_bind]
        rw [if_neg hp]
        exact ht
      · intro j x hkj hx hxp
        have hjk : j ≠ k := by
          intro h
          subst h
          rw [hy] at hx
          cases hx
          exact hp hxp
        exact hch j x (by omega) hx hxp

theorem queueOk_congr {c : Param} {s t : Kernel} (hq : t.qtable = s.qtable)
    (hl : t.ptable.length = s.ptable.length) (h : s.QueueOk c) : t.QueueOk c := by
  have hv : ∀ e, t.validPtr e = s.validPtr e := by
    intro e
    cases e with
    | none => rfl
    | some i => simp [Kernel.validPtr, hl]
  unfold Kernel.QueueOk Kernel.levelOk at h ⊢
  simp only [level_congr s t hq, hv]
  exact h

theorem hasPid_congr {s t : Kernel} (pid : Int)
    (h : ∀ j : Nat, (t.ptable[j]?).map (fun x => x.pid) = (s.ptable[j]?).map (fun x => x.pid))
    (e : Ptr) : t.hasPid pid e = s.hasPid pid e := by
  cases e with
  | none => rfl
  | some j =>
    have hj := h j
    cases hs : s.ptable[j]? with
    | none =>
      rw [hs] at hj
      cases ht : t.ptable[j]? with
      | none => simp [Kernel.hasPid, hs, ht]
      | some y => rw [ht] at hj; simp at hj
    | some x =>
      rw [hs] at hj
      cases ht : t.ptable[j]? with
      | none => rw [ht] at hj; simp at hj
      | some y =>
        rw [ht] at hj
        have hj2 : y.pid = x.pid := by simpa using hj
        simp [Kernel.hasPid, hs, ht, hj2]

/-- `MLFQdeleteByPid` with the pid of a process that the queue table refers to
at most once, no other entry carrying the pid: afterwards no level refers to
the process. -/
theorem delete_caller (c : Param) (s : Kernel) (i : Nat) (x : proc) (hlay : s.Layout c)
    (hq : s.QueueOk c) (hx : s.ptable[i]? = some x)
    (hcase : (∀ (M : Int), 0 ≤ M → M < 3 → ∀ e ∈ (s.level M).entries,
                s.hasPid x.pid e = false) ∨
      ∃ (L : Int) (m : Nat), 0 ≤ L ∧ L < 3 ∧ (s.level L).entries[m]? = some (some i) ∧
        ∀ (M : Int) (j : Nat) (e : Ptr), 0 ≤ M → M < 3 →
          (s.level M).entries[j]? = some e → M ≠ L ∨ j ≠ m → s.hasPid x.pid e = false) :
    ∃ r t, MLFQdeleteByPid s x.pid = Outcome.ok (r, t) ∧ t.Layout c ∧ t.QueueOk c ∧
      t.ptable = s.ptable ∧ t.ltable = s.ltable ∧ t.initproc = s.initproc ∧
      t.cproc = s.cproc ∧ ∀ M, 0 ≤ M → M < 3 → some i ∉ (t.level M).entries := by
  have hself : s.hasPid x.pid (some i) = true := by simp [Kernel.hasPid, hx]
  rcases hcase with hno | ⟨L, m, h0, h3, hat, hother⟩
  · refine ⟨-1, s, MLFQdeleteByPid_none c s x.pid hlay hq hno, hlay, hq, rfl, rfl, rfl, rfl, ?_⟩
    intro M hM0 hM3 hmem
    have := hno M hM0 hM3 _ hmem
    rw [hself] at this
    exact absurd this (by simp)
  · obtain ⟨R, hR, hRle, hlen, _⟩ := levelOk_valid_at hlay h0 h3 (QueueOk_at hq h0 h3)
    have hm : m < R := by
      have := getElem?_lt_of_some _ _ _ hat
      simp [mlfQueue.entries, hR] at this
      omega
    have hdel := MLFQdeleteByPid_some c s x.pid hlay hq L h0 h3 R m hR hm
      ⟨some i, by rw [← entries_getElem? _ R m hR hm]; exact hat, hself⟩
      (fun j e hj he => hother L j e h0 h3
        (by rw [entries_getElem? _ R j hR (by omega)]; exact he) (Or.inr (by omega)))
      (fun M hM0 hML e he => by
        rw [List.mem_iff_getElem?] at he
        obtain ⟨j, hj⟩ := he
        exact hother M j e hM0 (by omega) hj (Or.inl (by omega)))
    obtain ⟨hl1, hq1, hent, _, hoth, hpt, hlt⟩ := setLevel_closeGap c s hlay hq L h0 h3 R m hR hm
    obtain ⟨s1, hs1⟩ : ∃ s1 : Kernel, s1 =
        s.setLevel L ⟨closeGap (s.level L).procsQueue m R, (R : Int) - 1⟩ := ⟨_, rfl⟩
    rw [← hs1] at hdel hent hoth hpt hlt hl1 hq1
    refine ⟨0, s1, hdel, hl1, hq1, hpt, hlt, by rw [hs1]; rfl, by rw [hs1]; rfl, ?_⟩
    intro M hM0 hM3 hmem
    by_cases hML : M = L
    · subst hML
      rw [hent, List.mem_iff_getElem?] at hmem
      obtain ⟨j, hj⟩ := hmem
      rw [List.getElem?_eraseIdx] at hj
      by_cases hjm : j < m
      · rw [if_pos hjm] at hj
        have := hother M j (some i) h0 h3 hj (Or.inr (by omega))
        rw [hself] at this
        exact absurd this (by simp)
      · rw [if_neg hjm] at hj
        have := hother M (j + 1) (some i) h0 h3 hj (Or.inr (by omega))
        rw [hself] at this
        exact absurd this (by simp)
    · rw [hoth M hM0 hM3 hML, List.mem_iff_getElem?] at hmem
      obtain ⟨j, hj⟩ := hmem
      have := hother M j (some i) hM0 hM3 hj (Or.inl hML)
      rw [hself] at this
      exact absurd this (by simp)

/-- `schedulerLockDone(1)` in closed form: the slot is emptied and the process
that was in it is reset and unlocked; its state is not changed (the test
`state != RUNNING || state != RUNNABLE` always holds) and the queue table is
not touched. -/
theorem schedulerLockDone_exit (c : Param) (s : Kernel) (i : Nat) (x : proc)
    (hslot : s.ltable = some i) (hx : s.ptable[i]? = some x) :
    schedulerLockDone c s 1 = Outcome.ok
      (({ s with ltable := none } : Kernel).store i
        { x with execTime := 0, priority := c.MAXPRIORITY - 1,
                 isLock := lockstate.UNLOCKED }) := by
  have hd : ({ s with ltable := none } : Kernel).deref (some i) = Outcome.ok x :=
    deref_ok _ i x hx
  have h1 : ¬ ((1 : Int) = 0) := by decide
  have hc : x.state ≠ procstate.RUNNING ∨ x.state ≠ procstate.RUNNABLE := by
    by_cases h : x.state = procstate.RUNNING
    · right; rw [h]; decide
    · left; exact h
  simp only [schedulerLockDone, hslot, hd, Outcome.ok_bind, h1, if_false, hc, if_true]


/-- The first step of `exit`: the lock is released with `schedulerLockDone(1)`
when the caller has `isLock == LOCKED`.  Only the lock slot and the caller's
`execTime`, `priority` and `isLock` can change. -/
theorem exit_release (c : Param) (s : Kernel) (i : Nat) (x : proc)
    (hx : s.ptable[i]? = some x)
    (hlk : s.ltable = some i ↔ x.isLock = lockstate.LOCKED) :
    ∃ s1 x1, (if x.isLock = lockstate.LOCKED then schedulerLockDone c s 1 else Outcome.ok s)
        = Outcome.ok s1 ∧ s1.qtable = s.qtable ∧ s1.ptable.length = s.ptable.length ∧
      s1.ptable[i]? = some x1 ∧ x1.pid = x.pid ∧ x1.state = x.state ∧ x1.parent = x.parent ∧
      (∀ j, j ≠ i → s1.ptable[j]? = s.ptable[j]?) ∧ s1.ltable ≠ some i ∧
      (x.isLock = lockstate.LOCKED → s1.ltable = none) ∧ s1.initproc = s.initproc ∧
      s1.cproc = s.cproc := by
  have hil := getElem?_lt_of_some _ _ _ hx
  by_cases hl : x.isLock = lockstate.LOCKED
  · obtain ⟨y, hy⟩ : ∃ y : proc, y =
        { x with execTime := 0, priority := c.MAXPRIORITY - 1,
                 isLock := lockstate.UNLOCKED } := ⟨_, rfl⟩
    have hdone := schedulerLockDone_exit c s i x (hlk.2 hl) hx
    rw [← hy] at hdone
    obtain ⟨s1, hs1⟩ : ∃ s1 : Kernel, s1 = ({ s with ltable := none } : Kernel).store i y :=
      ⟨_, rfl⟩
    rw [← hs1] at hdone
    refine ⟨s1, y, by rw [if_pos hl]; exact hdone, by rw [hs1]; rfl,
      by rw [hs1]; simp [Kernel.store], by rw [hs1]; simp [Kernel.store, hil], by rw [hy],
      by rw [hy], by rw [hy], ?_, ?_, fun _ => by rw [hs1]; rfl, by rw [hs1]; rfl,
      by rw [hs1]; rfl⟩
    · intro j hj
      rw [hs1]
      simp [Kernel.store, List.getElem?_set_ne (Ne.symm hj)]
    · rw [hs1]
      show (none : Ptr) ≠ some i
      simp
  · refine ⟨s, x, by rw [if_neg hl], rfl, rfl, hx, rfl, rfl, rfl, fun _ _ => rfl, ?_,
      fun h => absurd h hl, rfl, rfl⟩
    intro h
    exact hl (hlk.1 h)

/-- What `exit` publishes: for a caller `i` other than `initproc` that is not
SLEEPING, in a state whose queue table is in order, whose lock slot holds the caller
exactly when the caller has `isLock == LOCKED`, and whose queue table refers
to the caller at most once (no other entry carrying its pid), `exit` reaches
its call of `sched()`, and in the state it has built by then: the caller is
ZOMBIE; no level refers to the caller; the lock slot does not hold the caller,
and is empty if the caller was LOCKED; every process whose parent was the
caller has parent `initproc`; and every process that was SLEEPING on the
channel of the caller's parent is RUNNABLE. -/
theorem exit_publishes (c : Param) (s : Kernel) (i : Nat) (x : proc)
    (hlay : s.Layout c) (hq : s.QueueOk c) (hcur : s.cproc = some i)
    (hinit : s.initproc ≠ some i) (hx : s.ptable[i]? = some x)
    (hst : x.state ≠ procstate.SLEEPING)
    (hlk : s.ltable = some i ↔ x.isLock = lockstate.LOCKED)
    (hcase : (∀ (M : Int), 0 ≤ M → M < 3 → ∀ e ∈ (s.level M).entries,
                s.hasPid x.pid e = false) ∨
      ∃ (L : Int) (m : Nat), 0 ≤ L ∧ L < 3 ∧ (s.level L).entries[m]? = some (some i) ∧
        ∀ (M : Int) (j : Nat) (e : Ptr), 0 ≤ M → M < 3 →
          (s.level M).entries[j]? = some e → M ≠ L ∨ j ≠ m → s.hasPid x.pid e = false) :
    ∃ t, exit c s = Outcome.ok t ∧
      (∃ z, t.ptable[i]? = some z ∧ z.state = procstate.ZOMBIE) ∧
      (∀ M, 0 ≤ M → M < 3 → some i ∉ (t.level M).entries) ∧
      t.ltable ≠ some i ∧ (x.isLock = lockstate.LOCKED → t.ltable = none) ∧
      (∀ (j : Nat) (y : proc), s.ptable[j]? = some y → y.parent = some i →
        ∃ z, t.ptable[j]? = some z ∧ z.parent = s.initproc) ∧
      (∀ (j : Nat) (y : proc), s.ptable[j]? = some y → y.state = procstate.SLEEPING →
        y.chan = Chan.ofPtr x.parent →
        ∃ z, t.ptable[j]? = some z ∧ z.state = procstate.RUNNABLE) := by
  have hil := getElem?_lt_of_some _ _ _ hx
  -- release of the lock
  obtain ⟨s1, x1, hs1, hq1, hlen1, hx1, hpid1, hst1, hpar1, hoth1, hlt1, hltn1, hin1, hc1⟩ :=
    exit_release c s i x hx hlk
  have hlay1 : s1.Layout c := ⟨by rw [hlen1]; exact hlay.1, by rw [hq1]; exact hlay.2.1,
    by rw [hq1]; exact hlay.2.2⟩
  have hqo1 : s1.QueueOk c := queueOk_congr hq1 hlen1 hq
  have hpids : ∀ j : Nat, (s1.ptable[j]?).map (fun x => x.pid)
      = (s.ptable[j]?).map (fun x => x.pid) := by
    intro j
    by_cases hj : j = i
    · subst hj; rw [hx1, hx]; simp [hpid1]
    · rw [hoth1 j hj]
  have hhp : ∀ e, s1.hasPid x1.pid e = s.hasPid x.pid e := by
    intro e; rw [hpid1]; exact hasPid_congr x.pid hpids e
  have hcase1 : (∀ (M : Int), 0 ≤ M → M < 3 → ∀ e ∈ (s1.level M).entries,
                s1.hasPid x1.pid e = false) ∨
      ∃ (L : Int) (m : Nat), 0 ≤ L ∧ L < 3 ∧ (s1.level L).entries[m]? = some (some i) ∧
        ∀ (M : Int) (j : Nat) (e : Ptr), 0 ≤ M → M < 3 →
          (s1.level M).entries[j]? = some e → M ≠ L ∨ j ≠ m → s1.hasPid x1.pid e = false := by
    simp only [level_congr s s1 hq1, hhp]
    exact hcase
  -- removal from the queue table
  obtain ⟨r, s2, hs2, hlay2, hqo2, hpt2, hlt2, hin2, hc2, hno2⟩ :=
    delete_caller c s1 i x1 hlay1 hqo1 hx1 hcase1
  have hx2 : s2.ptable[i]? = some x1 := by rw [hpt2]; exact hx1
  -- wakeup1(curproc->parent)
  obtain ⟨s3, hs3, hlay3, h03, hw3, hrun3⟩ :=
    wakeup1Loop_frame c (Chan.ofPtr x1.parent) c.NPROC 0 s2 (by omega) hlay2 hqo2.1.1
  -- the reparenting loop
  obtain ⟨s4, hs4, hlay4, h04, hr4, hch4⟩ :=
    reparentLoop_frame c (some i) c.NPROC 0 s3 (by omega) hlay3 h03
  have hr24 : s2.Reparents (some i) s4 :=
    reparents_trans (some i) (wakes_reparents (some i) hw3) hr4
  obtain ⟨x4, hx4, _, _, hx4s⟩ := hr24.2.2.2.2.2.2.1 i x1 hx2
  have hil4 : i < s4.ptable.length := getElem?_lt_of_some _ _ _ hx4
  obtain ⟨z4, hz4⟩ : ∃ z4 : proc, z4 = { x4 with state := procstate.ZOMBIE } := ⟨_, rfl⟩
  have hne : ¬ (some i = s.initproc) := fun h => hinit h.symm
  have hfin : ∀ (j : Nat) (w : proc), s4.ptable[j]? = some w →
      ∃ z, (s4.store i z4).ptable[j]? = some z ∧ z.parent = w.parent ∧ (j ≠ i → z = w) := by
    intro j w hw
    by_cases hj : j = i
    · subst hj
      rw [hx4] at hw
      cases hw
      exact ⟨z4, by simp [Kernel.store, hil4], by rw [hz4], fun h => absurd rfl h⟩
    · exact ⟨w, by simp [Kernel.store, List.getElem?_set_ne (Ne.symm hj), hw], rfl, fun _ => rfl⟩
  refine ⟨s4.store i z4, ?_, ⟨z4, by simp [Kernel.store, hil4], by rw [hz4]⟩, ?_, ?_, ?_, ?_, ?_⟩
  · simp only [exit, hcur, hne, if_false, deref_ok s i x hx, Outcome.ok_bind]
    have hs3b : wakeup1 c s2 (Chan.ofPtr x1.parent) = Outcome.ok s3 := hs3
    by_cases hl : x.isLock = lockstate.LOCKED
    · rw [if_pos hl] at hs1 ⊢
      simp only [hs1, Outcome.ok_bind, deref_ok s1 i x1 hx1, hs2, deref_ok s2 i x1 hx2, hs3b,
        hs4, deref_ok s4 i x4 hx4]
      rw [← hz4]
    · rw [if_neg hl] at hs1 ⊢
      cases hs1
      obtain rfl : x = x1 := by rw [hx] at hx1; cases hx1; rfl
      simp only [Outcome.ok_bind, hs2, deref_ok s2 i x hx2, hs3b, hs4, deref_ok s4 i x4 hx4]
      rw [← hz4]
  · intro M hM0 hM3 hmem
    rw [level_store] at hmem
    rcases level_cases hM0 hM3 with h | h | h
    · subst h
      rcases hr24.2.2.2.2.2.2.2 _ hmem with h | ⟨j, w, hj, hw, hws⟩
      · exact hno2 TOP hM0 hM3 h
      · cases hj
        rw [hx2] at hw
        cases hw
        rw [hst1] at hws
        exact hst hws
    · subst h
      rw [hr24.1] at hmem
      exact hno2 MIDDLE hM0 hM3 hmem
    · subst h
      rw [hr24.2.1] at hmem
      exact hno2 BOTTOM hM0 hM3 hmem
  · show s4.ltable ≠ some i
    rw [hr24.2.2.1, hlt2]
    exact hlt1
  · intro hl
    show s4.ltable = none
    rw [hr24.2.2.1, hlt2]
    exact hltn1 hl
  · intro j y hy hyp
    have hy2 : ∃ y2, s2.ptable[j]? = some y2 ∧ y2.parent = some i := by
      rw [hpt2]
      by_cases hj : j = i
      · subst hj
        rw [hx] at hy
        cases hy
        exact ⟨x1, hx1, by rw [hpar1]; exact hyp⟩
      · exact ⟨y, by rw [hoth1 j hj]; exact hy, hyp⟩
    obtain ⟨y2, hy2, hy2p⟩ := hy2
    obtain ⟨y3, hy3, hy3p, _, _⟩ := hw3.2.2.2.2.2.2.1 j y2 hy2
    obtain ⟨y4, hy4, hy4p⟩ := hch4 j y3 (by omega) hy3 (by rw [hy3p]; exact hy2p)
    obtain ⟨z, hz, hzp, _⟩ := hfin j y4 hy4
    refine ⟨z, hz, ?_⟩
    rw [hzp, hy4p, hw3.2.2.2.1, hin2, hin1]
  · intro j y hy hys hyc
    have hj : j ≠ i := by
      intro h
      subst h
      rw [hx] at hy
      cases hy
      exact hst hys
    have hy2 : s2.ptable[j]? = some y := by rw [hpt2, hoth1 j hj]; exact hy
    obtain ⟨y3, hy3, hy3s⟩ := hrun3 j y (by omega) hy2 hys (by rw [hpar1]; exact hyc)
    obtain ⟨y4, hy4, _, _, hy4s⟩ := hr4.2.2.2.2.2.2.1 j y3 hy3
    obtain ⟨z, hz, _, hzeq⟩ := hfin j y4 hy4
    refine ⟨z, hz, ?_⟩
    rw [hzeq hj]
    rcases hy4s with h | ⟨_, h⟩
    · rw [h]; exact hy3s
    · exact h

/-- The exit at a concrete state: the child (slot 1) of `exitSample` exits while
its parent sleeps in `wait` and its own child waits in the top level. -/
theorem exit_publishes_example :
    exitSample.cproc = some 1 ∧ exitSample.initproc = some 0 ∧
    ∃ t, exit demoParam exitSample = Outcome.ok t ∧
      (∃ z, t.ptable[1]? = some z ∧ z.state = procstate.ZOMBIE) ∧
      (∀ M, 0 ≤ M → M < 3 → some 1 ∉ (t.level M).entries) ∧
      t.ltable ≠ some 1 ∧
      ((childP procstate.RUNNING).isLock = lockstate.LOCKED → t.ltable = none) ∧
      (∀ (j : Nat) (y : proc), exitSample.ptable[j]? = some y → y.parent = some 1 →
        ∃ z, t.ptable[j]? = some z ∧ z.parent = exitSample.initproc) ∧
      (∀ (j : Nat) (y : proc), exitSample.ptable[j]? = some y →
        y.state = procstate.SLEEPING → y.chan = Chan.ofPtr (childP procstate.RUNNING).parent →
        ∃ z, t.ptable[j]? = some z ∧ z.state = procstate.RUNNABLE) :=
  ⟨by decide, by decide,
    exit_publishes demoParam exitSample 1 (childP procstate.RUNNING) (by decide) (by decide)
      (by decide) (by decide) (by decide) (by decide) (by decide)
      (Or.inr ⟨TOP, 0, by decide, by decide, by decide, by
        intro M j e hM0 hM3 hj hne
        have hT : (exitSample.level TOP).entries = [some 1, some 2] := by decide
        have hM : (exitSample.level MIDDLE).entries = [some 0] := by decide
        have hB : (exitSample.level BOTTOM).entries = [] := by decide
        rcases level_cases hM0 hM3 with h | h | h <;> subst h
        · rw [hT] at hj
          match j, hj, hne with
          | 0, _, hne => simp at hne
          | 1, hj, _ =>
            simp only [List.getElem?_cons_succ, List.getElem?_cons_zero,
              Option.some.injEq] at hj
            subst hj
            decide
          | j + 2, hj, _ => simp at hj
        · rw [hM] at hj
          match j, hj with
          | 0, hj =>
            simp only [List.getElem?_cons_zero, Option.some.injEq] at hj
            subst hj
            decide
          | j + 1, hj => simp at hj
        · rw [hB] at hj
          simp at hj⟩)⟩


/-! ## `setPriority` -/

/-- C20: `setPriority(2, MAXPRIORITY)` passes the range test
`priority > MAXPRIORITY` and gives the queued process with pid 2 the priority
`MAXPRIORITY` (here 4), which is outside `0 .. MAXPRIORITY - 1`; so does the
system call, which returns 0. -/
theorem C20_setPriority_accepts_MAXPRIORITY :
    demoParam.MAXPRIORITY = 4 ∧
    ((bottomWaiter 3).ptable[1]?).map proc.pid = some 2 ∧
    setPriority demoParam (bottomWaiter 3) 2 4 = Outcome.ok (bottomWaiter 4) ∧
    sys_setPriority demoParam (bottomWaiter 3) 2 4 = Outcome.ok (0, bottomWaiter 4) ∧
    ((bottomWaiter 4).ptable[1]?).map proc.priority = some 4 ∧
    setPriority demoParam (bottomWaiter 3) 2 5 = Outcome.ok (bottomWaiter 3) ∧
    setPriority demoParam (bottomWaiter 3) 2 (-1) = Outcome.ok (bottomWaiter 3) := by
  decide

/-! ## Selection by `schedulerChooseProcess` -/

/-- The priority scan, when it returns, yields index 0. -/
theorem scanPrior_eq_zero (c : Param) (s : Kernel) (hprio : 0 < c.MAXPRIORITY) (d : Int)
    (h : scanPrior c s 0 (-1) c.MAXPRIORITY.toNat = Outcome.ok d) :
    d = 0 ∧ ∃ e i x, (s.level BOTTOM).procsQueue[0]? = some e ∧ e = some i ∧
      s.ptable[i]? = some x := by
  obtain ⟨m, hm⟩ : ∃ m, c.MAXPRIORITY.toNat = m + 1 := ⟨c.MAXPRIORITY.toNat - 1, by omega⟩
  rw [hm] at h
  simp only [scanPrior, hprio, true_and, if_true] at h
  cases hrd : rdQ (s.level BOTTOM).procsQueue 0 with
  | fault e => rw [hrd] at h; simp at h
  | ok e =>
    rw [hrd] at h
    simp only [Outcome.ok_bind] at h
    cases hd : s.deref e with
    | fault f => rw [hd] at h; simp at h
    | ok x =>
      rw [hd] at h
      simp only [Outcome.ok_bind] at h
      cases hsb : scanBand s 0 x.arrivedTime (-1) 0 (s.level BOTTOM).rear.toNat with
      | fault f => rw [hsb] at h; simp at h
      | ok d1 =>
        rw [hsb] at h
        simp only [Outcome.ok_bind, if_true, zero_add, scanPrior_done, Outcome.ok.injEq] at h
        obtain ⟨i, hi, hx⟩ := deref_eq_ok hd
        refine ⟨h.symm, e, i, x, ?_, hi, hx⟩
        unfold rdQ at hrd
        simp only [le_refl, if_true, Int.toNat_zero] at hrd
        cases hq : (s.level BOTTOM).procsQueue[0]? with
        | none => rw [hq] at hrd; simp at hrd
        | some e2 =>
          rw [hq] at hrd
          simp only [Outcome.ok.injEq] at hrd
          rw [hrd]

/-- What a result of `MLFQfirstProc` at a valid level says about the level: a
process returned is at index 0 of a level with a counter other than 0, and
null is returned for a counter 0 or, above the lowest level, for a null entry
at index 0. -/
theorem MLFQfirstProc_result (c : Param) (s : Kernel) (L : Int) (h0 : 0 ≤ L)
    (h3 : L < MAXQLEVEL) (hprio : 0 < c.MAXPRIORITY) (p : Ptr)
    (h : MLFQfirstProc c s L = Outcome.ok p) :
    (p = none → (s.level L).rear = 0 ∨
      (L < BOTTOM ∧ (s.level L).procsQueue[0]? = some none)) ∧
    (∀ i, p = some i → (s.level L).rear ≠ 0 ∧ (s.level L).procsQueue[0]? = some (some i)) := by
  have h1 : ¬ (L < 0 ∨ L ≥ MAXQLEVEL) := by omega
  unfold MLFQfirstProc at h
  rw [if_neg h1] at h
  by_cases h2 : (s.level L).rear = 0
  · rw [if_pos h2] at h
    simp only [Outcome.ok.injEq] at h
    subst h
    exact ⟨fun _ => Or.inl h2, fun i hi => by cases hi⟩
  · rw [if_neg h2] at h
    have hhead : ∀ (a : List Ptr) (e : Ptr), rdQ a 0 = Outcome.ok e → a[0]? = some e := by
      intro a e hrd
      unfold rdQ at hrd
      simp only [le_refl, if_true, Int.toNat_zero] at hrd
      cases hq : a[0]? with
      | none => rw [hq] at hrd; simp at hrd
      | some e2 =>
        rw [hq] at hrd
        simp only [Outcome.ok.injEq] at hrd
        rw [hrd]
    by_cases h4 : L < MAXQLEVEL - 1
    · rw [if_pos h4] at h
      have hq := hhead _ _ h
      have hLB : L < BOTTOM := by simp only [MAXQLEVEL, BOTTOM] at h4 ⊢; omega
      refine ⟨fun hp => Or.inr ⟨hLB, by rw [hq, hp]⟩, fun i hi => ⟨h2, by rw [hq, hi]⟩⟩
    · rw [if_neg h4] at h
      have hLB : L = BOTTOM := by simp only [MAXQLEVEL, BOTTOM] at h4 h3 ⊢; omega
      subst hLB
      cases hsp : scanPrior c s 0 (-1) c.MAXPRIORITY.toNat with
      | fault f => rw [hsp] at h; simp at h
      | ok d =>
        rw [hsp] at h
        simp only [Outcome.ok_bind] at h
        obtain ⟨hd0, e, i, x, hq, he, _⟩ := scanPrior_eq_zero c s hprio d hsp
        subst hd0
        have hq2 := hhead _ _ h
        rw [hq] at hq2
        simp only [Option.some.injEq] at hq2
        subst hq2
        refine ⟨fun hp => ?_, fun j hj => ⟨h2, by rw [hq, hj]⟩⟩
        rw [hp] at he
        cases he

/-- The loop of `schedulerChooseProcess`, entered with the pointer that
`MLFQfirstProc` yields, returns with the pointer that `MLFQfirstProc` yields in
the final state; a process returned is RUNNABLE, not killed and below the
quantum of the level. -/
theorem chooseLoop_post (c : Param) (L : Int) :
    ∀ (n : Nat) (s : Kernel) (tp p : Ptr) (t : Kernel),
      MLFQfirstProc c s L = Outcome.ok tp →
      chooseLoop c L s tp n = Outcome.ok (p, t) →
      MLFQfirstProc c t L = Outcome.ok p ∧
      ∀ i, p = some i → ∃ x, t.ptable[i]? = some x ∧ x.state = procstate.RUNNABLE ∧
        x.killed ≠ 1 ∧ x.execTime < c.TIME_QUANTUM L := by
  intro n
  induction n with
  | zero =>
    intro s tp p t hf h
    cases tp with
    | none =>
      simp only [chooseLoop, Outcome.ok.injEq, Prod.mk.injEq] at h
      rw [← h.1, ← h.2]
      exact ⟨hf, fun i hi => by cases hi⟩
    | some i => simp [chooseLoop] at h
  | succ n ih =>
    intro s tp p t hf h
    cases tp with
    | none =>
      simp only [chooseLoop, Outcome.ok.injEq, Prod.mk.injEq] at h
      rw [← h.1, ← h.2]
      exact ⟨hf, fun i hi => by cases hi⟩
    | some i =>
      unfold chooseLoop at h
      simp only at h
      cases hd : s.deref (some i) with
      | fault f => rw [hd] at h; simp at h
      | ok x =>
        rw [hd] at h
        simp only [Outcome.ok_bind] at h
        obtain ⟨i2, hi2, hx⟩ := deref_eq_ok hd
        cases hi2
        split at h
        · -- purge
          obtain ⟨x1, hx1⟩ : ∃ x1 : proc, x1 =
              { x with execTime := 0, priority := c.MAXPRIORITY - 1 } := ⟨_, rfl⟩
          rw [← hx1] at h
          cases hdq : MLFQdequeue c (s.store i x1) L with
          | fault f => rw [hdq] at h; simp at h
          | ok v =>
            obtain ⟨d, s2⟩ := v
            rw [hdq] at h
            simp only [Outcome.ok_bind] at h
            cases hfp : MLFQfirstProc c s2 L with
            | fault f => rw [hfp] at h; simp at h
            | ok t2 =>
              rw [hfp] at h
              simp only [Outcome.ok_bind] at h
              exact ih s2 t2 p t hfp h
        · rename_i hgood
          split at h
          · -- demotion
            cases hdq : MLFQdequeue c s L with
            | fault f => rw [hdq] at h; simp at h
            | ok v =>
              obtain ⟨d, s1⟩ := v
              rw [hdq] at h
              simp only [Outcome.ok_bind] at h
              cases d with
              | none => simp at h
              | some j =>
                simp only at h
                cases hdj : s1.deref (some j) with
                | fault f => rw [hdj] at h; simp at h
                | ok y =>
                  rw [hdj] at h
                  simp only [Outcome.ok_bind] at h
                  obtain ⟨y1, hy1⟩ : ∃ y1 : proc, y1 = { y with execTime := 0 } := ⟨_, rfl⟩
                  rw [← hy1] at h
                  split at h
                  · cases he : MLFQenqueue c (s1.store j y1) (some j) (L + 1) with
                    | fault f => rw [he] at h; simp at h
                    | ok v2 =>
                      obtain ⟨r, s3⟩ := v2
                      rw [he] at h
                      simp only [Outcome.ok_bind] at h
                      cases hfp : MLFQfirstProc c s3 L with
                      | fault f => rw [hfp] at h; simp at h
                      | ok t2 =>
                        rw [hfp] at h
                        simp only [Outcome.ok_bind] at h
                        exact ih s3 t2 p t hfp h
                  · cases hdz : (s1.store j y1).deref (some j) with
                    | fault f => rw [hdz] at h; simp at h
                    | ok z =>
                      rw [hdz] at h
                      simp only [Outcome.ok_bind] at h
                      obtain ⟨z1, hz1⟩ : ∃ z1 : proc, z1 = { z with priority := z.priority - 1 } :=
                        ⟨_, rfl⟩
                      rw [← hz1] at h
                      cases he : MLFQenqueue c
                          (if z.priority > 0 then (s1.store j y1).store j z1
                           else s1.store j y1) (some j) L with
                      | fault f => rw [he] at h; simp at h
                      | ok v2 =>
                        obtain ⟨r, s4⟩ := v2
                        rw [he] at h
                        simp only [Outcome.ok_bind] at h
                        cases hfp : MLFQfirstProc c s4 L with
                        | fault f => rw [hfp] at h; simp at h
                        | ok t2 =>
                          rw [hfp] at h
                          simp only [Outcome.ok_bind] at h
                          exact ih s4 t2 p t hfp h
          · rename_i hq
            simp only [Outcome.ok.injEq, Prod.mk.injEq] at h
            rw [← h.1, ← h.2]
            refine ⟨hf, ?_⟩
            intro k hk
            cases hk
            refine ⟨x, hx, ?_, ?_, by omega⟩
            · by_contra hc; exact hgood (Or.inl hc)
            · intro hc; exact hgood (Or.inr hc)

/-! ## One round of the loop of `schedulerChooseProcess` on a queue table in order -/

/-- `MLFQfirstProc` on a level in order: null for an empty level, the entry at
index 0 otherwise (at the lowest level because the priority scan chooses
index 0). -/
theorem firstProc_head (c : Param) (s : Kernel) (L : Int) (hlay : s.Layout c)
    (hq : s.QueueOk c) (h0 : 0 ≤ L) (h3 : L < 3) (hprio : 0 < c.MAXPRIORITY) :
    ((s.level L).rear = 0 ∧ MLFQfirstProc c s L = Outcome.ok none) ∨
    (∃ i x, (s.level L).entries[0]? = some (some i) ∧ s.ptable[i]? = some x ∧
      MLFQfirstProc c s L = Outcome.ok (some i)) := by
  obtain ⟨R, hR, hRle, hlen, hva⟩ := levelOk_valid_at hlay h0 h3 (QueueOk_at hq h0 h3)
  have h1 : ¬ (L < 0 ∨ L ≥ MAXQLEVEL) := by simp only [MAXQLEVEL]; omega
  by_cases hR0 : R = 0
  · left
    subst hR0
    have hr : (s.level L).rear = 0 := by rw [hR]; rfl
    exact ⟨hr, by simp only [MLFQfirstProc, h1, if_false, hr, if_true]⟩
  · right
    obtain ⟨i, x, hi, hx⟩ := hva 0 (by omega)
    have h4 : ¬ ((R : Int) = 0) := by omega
    have hrd := rdQ_ok (s.level L).procsQueue 0 _ hi
    simp only [Nat.cast_zero] at hrd
    refine ⟨i, x, by rw [entries_getElem? _ R 0 hR (by omega)]; exact hi, hx, ?_⟩
    by_cases h2 : L < 2
    · have h5 : L < MAXQLEVEL - 1 := by simp only [MAXQLEVEL]; omega
      simp only [MLFQfirstProc, h1, hR, h4, h5, if_false, if_true, hrd]
    · have hL : L = BOTTOM := by simp only [BOTTOM]; omega
      subst hL
      have h5 : ¬ (BOTTOM < MAXQLEVEL - 1) := by decide
      have hsc := scanPrior_zero c s R hR (by omega) hprio hva
      simp only [MLFQfirstProc, h1, hR, h4, h5, if_false, hsc, Outcome.ok_bind, hrd]

/-- `MLFQdequeue` on a non-empty level in order removes and returns the entry
at index 0. -/
theorem dequeue_head (c : Param) (s : Kernel) (L : Int) (i : Nat) (hlay : s.Layout c)
    (hq : s.QueueOk c) (h0 : 0 ≤ L) (h3 : L < 3) (hprio : 0 < c.MAXPRIORITY)
    (hhead : (s.level L).entries[0]? = some (some i)) :
    ∃ t, MLFQdequeue c s L = Outcome.ok (some i, t) ∧ t.Layout c ∧ t.QueueOk c ∧
      (t.level L).entries = (s.level L).entries.tail ∧
      (t.level L).rear = (s.level L).rear - 1 ∧
      (∀ M, 0 ≤ M → M < 3 → M ≠ L → t.level M = s.level M) ∧ t.ptable = s.ptable ∧
      t.ltable = s.ltable ∧ t.cproc = s.cproc ∧ t.sctx = s.sctx ∧ t.initproc = s.initproc ∧
      t.ticks = s.ticks ∧ t.nextpid = s.nextpid := by
  obtain ⟨R, hR, hRle, hlen, hva⟩ := levelOk_valid_at hlay h0 h3 (QueueOk_at hq h0 h3)
  have hpos : 0 < R := by
    have := getElem?_lt_of_some _ _ _ hhead
    simp [mlfQueue.entries, hR] at this
    omega
  obtain ⟨e, he, hdq⟩ := MLFQdequeue_front c s L R hlay h0 h3 hR hpos hRle hprio
    (QueueOk_at hq h0 h3).2.2
  rw [entries_getElem? _ R 0 hR hpos, he] at hhead
  simp only [Option.some.injEq] at hhead
  subst hhead
  obtain ⟨hl1, hq1, hent, hrear, hoth, hpt, hlt⟩ :=
    setLevel_closeGap c s hlay hq L h0 h3 R 0 hR hpos
  obtain ⟨t, ht⟩ : ∃ t : Kernel, t =
      s.setLevel L ⟨closeGap (s.level L).procsQueue 0 R, (R : Int) - 1⟩ := ⟨_, rfl⟩
  rw [← ht] at hdq hl1 hq1 hent hrear hoth hpt hlt
  refine ⟨t, hdq, hl1, hq1, by rw [hent]; simp, hrear, hoth, hpt, hlt,
    by rw [ht]; rfl, by rw [ht]; rfl, by rw [ht]; rfl, by rw [ht]; rfl, by rw [ht]; rfl⟩

/-- `MLFQenqueue` of a RUNNABLE process on a level in order that has room
appends the process and sets its `qLevel`. -/
theorem enqueue_tail (c : Param) (s : Kernel) (L : Int) (i : Nat) (x : proc)
    (hlay : s.Layout c) (hq : s.QueueOk c) (h0 : 0 ≤ L) (h3 : L < 3)
    (hroom : (s.level L).rear < c.NPROC) (hx : s.ptable[i]? = some x)
    (hrun : x.state = procstate.RUNNABLE) :
    ∃ t, MLFQenqueue c s (some i) L = Outcome.ok (0, t) ∧ t.Layout c ∧ t.QueueOk c ∧
      (t.level L).entries = (s.level L).entries ++ [some i] ∧
      (∀ M, 0 ≤ M → M < 3 → M ≠ L → t.level M = s.level M) ∧
      t.ptable = s.ptable.set i { x with qLevel := L } ∧
      t.ltable = s.ltable ∧ t.cproc = s.cproc ∧ t.sctx = s.sctx ∧ t.initproc = s.initproc ∧
      t.ticks = s.ticks ∧ t.nextpid = s.nextpid := by
  obtain ⟨R, hR, hRle, hlen, hva⟩ := levelOk_valid_at hlay h0 h3 (QueueOk_at hq h0 h3)
  have hil := getElem?_lt_of_some _ _ _ hx
  have hen := MLFQenqueue_ok c s i L x R hlay h0 h3 hR (by omega) hx hrun
  obtain ⟨z, hz⟩ : ∃ z : proc, z = { x with qLevel := L } := ⟨_, rfl⟩
  rw [← hz] at hen
  obtain ⟨t, ht⟩ : ∃ t : Kernel, t = (s.store i z).setLevel L
      ⟨(s.level L).procsQueue.set R (some i), (R : Int) + 1⟩ := ⟨_, rfl⟩
  rw [← ht] at hen
  have hqlen : L.toNat < (s.store i z).qtable.length := by
    have := hlay.2.1; have := level_toNat_lt h0 h3
    simp only [Kernel.store]; omega
  have hlev : t.level L = ⟨(s.level L).procsQueue.set R (some i), (R : Int) + 1⟩ := by
    rw [ht]; exact level_setLevel_same _ L _ hqlen
  have hoth : ∀ M, 0 ≤ M → M < 3 → M ≠ L → t.level M = s.level M := by
    intro M hM0 hM3 hML
    rw [ht, level_setLevel_ne _ L M _ (by omega), level_store]
  have hent : (t.level L).entries = (s.level L).entries ++ [some i] := by
    rw [hlev]
    simp only [mlfQueue.entries, hR]
    have : ((R : Int) + 1).toNat = R + 1 := by omega
    rw [this, Int.toNat_ofNat]
    exact take_set_succ _ R _ (by omega)
  have hlay' : t.Layout c := by
    rw [ht]
    exact (hlay.layout_store i z).layout_setLevel L _ (by simp [hlen])
  have hptl : t.ptable.length = s.ptable.length := by
    rw [ht]; simp [Kernel.setLevel, Kernel.store]
  have hval : ∀ e, t.validPtr e = s.validPtr e := by
    intro e
    cases e with
    | none => rfl
    | some j => simp [Kernel.validPtr, hptl]
  have hok : ∀ M, 0 ≤ M → M < 3 → t.levelOk c M := by
    intro M hM0 hM3
    by_cases hML : M = L
    · subst hML
      refine ⟨by rw [hlev]; show (0 : Int) ≤ (R : Int) + 1; omega,
        by rw [hlev]; show (R : Int) + 1 ≤ c.NPROC; omega, ?_⟩
      intro e he
      rw [hent, List.mem_append] at he
      rw [hval]
      rcases he with he | he
      · exact (QueueOk_at hq h0 h3).2.2 e he
      · rw [List.mem_singleton] at he
        subst he
        simp [Kernel.validPtr, hil]
    · have := QueueOk_at hq hM0 hM3
      unfold Kernel.levelOk at this ⊢
      rw [hoth M hM0 hM3 hML]
      simp only [hval]
      exact this
  refine ⟨t, hen, hlay', ⟨hok TOP (by decide) (by decide), hok MIDDLE (by decide) (by decide),
    hok BOTTOM (by decide) (by decide)⟩, hent, hoth, by rw [ht, hz]; rfl, by rw [ht]; rfl,
    by rw [ht]; rfl, by rw [ht]; rfl, by rw [ht]; rfl, by rw [ht]; rfl, by rw [ht]; rfl⟩

/-- Overwriting a process slot keeps a queue table in order. -/
theorem inv_store {c : Param} {s : Kernel} (hlay : s.Layout c) (hq : s.QueueOk c) (i : Nat)
    (x : proc) : (s.store i x).Layout c ∧ (s.store i x).QueueOk c :=
  ⟨hlay.layout_store i x,
    queueOk_congr (s := s) (t := s.store i x) rfl (by simp [Kernel.store]) hq⟩

/-- A round of the loop at a head that is not RUNNABLE or is killed: the
process is reset and its entry is removed from the level; nothing else
changes. -/
theorem purge_round (c : Param) (s : Kernel) (L : Int) (i : Nat) (x : proc)
    (hlay : s.Layout c) (hq : s.QueueOk c) (h0 : 0 ≤ L) (h3 : L < 3)
    (hprio : 0 < c.MAXPRIORITY) (hhead : (s.level L).entries[0]? = some (some i))
    (hx : s.ptable[i]? = some x) (hbad : x.state ≠ procstate.RUNNABLE ∨ x.killed = 1) :
    ∃ t, (∀ n, chooseLoop c L s (some i) (n + 1)
        = (MLFQfirstProc c t L >>= fun t2 => chooseLoop c L t t2 n)) ∧
      t.Layout c ∧ t.QueueOk c ∧
      (t.level L).entries = (s.level L).entries.tail ∧
      (∀ M, 0 ≤ M → M < 3 → M ≠ L → t.level M = s.level M) ∧
      t.ptable = s.ptable.set i { x with execTime := 0, priority := c.MAXPRIORITY - 1 } ∧
      t.ltable = s.ltable ∧ t.cproc = s.cproc ∧ t.sctx = s.sctx := by
  obtain ⟨x1, hx1⟩ : ∃ x1 : proc, x1 =
      { x with execTime := 0, priority := c.MAXPRIORITY - 1 } := ⟨_, rfl⟩
  obtain ⟨hl1, hq1⟩ := inv_store hlay hq i x1
  obtain ⟨t, hdq, hl2, hq2, hent, _, hoth, hpt, hlt, hcp, hsc, _⟩ :=
    dequeue_head c (s.store i x1) L i hl1 hq1 h0 h3 hprio (by rw [level_store]; exact hhead)
  refine ⟨t, ?_, hl2, hq2, by rw [hent, level_store], ?_, by rw [hpt, hx1]; rfl, hlt, hcp, hsc⟩
  · intro n
    simp only [chooseLoop, deref_ok s i x hx, Outcome.ok_bind]
    rw [if_pos hbad, ← hx1, hdq]
    rfl
  · intro M hM0 hM3 hML
    rw [hoth M hM0 hM3 hML, level_store]

/-- `MLFQenqueue` on a full level returns -2 and changes nothing. -/
theorem enqueue_full (c : Param) (s : Kernel) (L : Int) (p : Ptr) (h0 : 0 ≤ L) (h3 : L < 3)
    (hfull : (s.level L).rear ≥ c.NPROC) : MLFQenqueue c s p L = Outcome.ok (-2, s) := by
  have h1 : ¬ (L < 0 ∨ L ≥ MAXQLEVEL) := by simp only [MAXQLEVEL]; omega
  simp only [MLFQenqueue, h1, if_false, hfull, if_true]

/-- A round of the loop above the lowest level at a RUNNABLE, un-killed head
that has used up its quantum: the entry is removed from the level, `execTime`
is reset, and the process is appended to the next level when that level has
room; when it is full the process is in no level afterwards. -/
theorem demote_round_upper (c : Param) (s : Kernel) (L : Int) (i : Nat) (x : proc)
    (hlay : s.Layout c) (hq : s.QueueOk c) (h0 : 0 ≤ L) (h2 : L < BOTTOM)
    (hprio : 0 < c.MAXPRIORITY) (hhead : (s.level L).entries[0]? = some (some i))
    (hx : s.ptable[i]? = some x) (hrun : x.state = procstate.RUNNABLE) (hk : x.killed ≠ 1)
    (hexp : x.execTime ≥ c.TIME_QUANTUM L) :
    ∃ t, (∀ n, chooseLoop c L s (some i) (n + 1)
        = (MLFQfirstProc c t L >>= fun t2 => chooseLoop c L t t2 n)) ∧
      t.Layout c ∧ t.QueueOk c ∧
      (t.level L).entries = (s.level L).entries.tail ∧
      (∀ M, 0 ≤ M → M < 3 → M ≠ L → M ≠ L + 1 → t.level M = s.level M) ∧
      t.ltable = s.ltable ∧ t.cproc = s.cproc ∧ t.sctx = s.sctx ∧
      ((s.level (L + 1)).rear < c.NPROC →
        (t.level (L + 1)).entries = (s.level (L + 1)).entries ++ [some i] ∧
        t.ptable = s.ptable.set i { x with execTime := 0, qLevel := L + 1 }) ∧
      ((s.level (L + 1)).rear ≥ c.NPROC →
        t.level (L + 1) = s.level (L + 1) ∧
        t.ptable = s.ptable.set i { x with execTime := 0 }) := by
  have h3 : L < 3 := by simp only [BOTTOM] at h2; omega
  have h13 : L + 1 < 3 := by simp only [BOTTOM] at h2; omega
  have hil := getElem?_lt_of_some _ _ _ hx
  obtain ⟨s1, hdq, hl1, hq1, hent1, _, hoth1, hpt1, hlt1, hcp1, hsc1, _⟩ :=
    dequeue_head c s L i hlay hq h0 h3 hprio hhead
  have hx1 : s1.ptable[i]? = some x := by rw [hpt1]; exact hx
  obtain ⟨y1, hy1⟩ : ∃ y1 : proc, y1 = { x with execTime := 0 } := ⟨_, rfl⟩
  obtain ⟨hl2, hq2⟩ := inv_store hl1 hq1 i y1
  have hy2 : (s1.store i y1).ptable[i]? = some y1 := by
    simp [Kernel.store, hpt1, hil]
  have hgood : ¬ (x.state ≠ procstate.RUNNABLE ∨ x.killed = 1) := by
    intro h; rcases h with h | h
    · exact h hrun
    · exact hk h
  have hl1eq : (s1.level (L + 1)) = s.level (L + 1) := hoth1 (L + 1) (by omega) h13 (by omega)
  have hunfold : ∀ n, chooseLoop c L s (some i) (n + 1)
      = (MLFQenqueue c (s1.store i y1) (some i) (L + 1) >>= fun r =>
          MLFQfirstProc c r.2 L >>= fun t2 => chooseLoop c L r.2 t2 n) := by
    intro n
    simp only [chooseLoop, deref_ok s i x hx, Outcome.ok_bind]
    rw [if_neg hgood, if_pos hexp, hdq]
    simp only [Outcome.ok_bind, deref_ok s1 i x hx1]
    rw [← hy1, if_pos h2]
  by_cases hroom : (s.level (L + 1)).rear < c.NPROC
  · obtain ⟨t, hen, hl3, hq3, hent3, hoth3, hpt3, hlt3, hcp3, hsc3, _⟩ :=
      enqueue_tail c (s1.store i y1) (L + 1) i y1 hl2 hq2 (by omega) h13
        (by rw [level_store, hl1eq]; exact hroom) hy2 (by rw [hy1]; exact hrun)
    refine ⟨t, ?_, hl3, hq3, ?_, ?_, by rw [hlt3]; exact hlt1, by rw [hcp3]; exact hcp1,
      by rw [hsc3]; exact hsc1, ?_, ?_⟩
    · intro n
      rw [hunfold n, hen]
      rfl
    · rw [hoth3 L h0 h3 (by omega), level_store, hent1]
    · intro M hM0 hM3 hML hML1
      rw [hoth3 M hM0 hM3 hML1, level_store, hoth1 M hM0 hM3 hML]
    · intro _
      refine ⟨by rw [hent3, level_store, hl1eq], ?_⟩
      rw [hpt3, hy1]
      simp [Kernel.store, hpt1]
    · intro hfull
      omega
  · have hfull : ((s1.store i y1).level (L + 1)).rear ≥ c.NPROC := by
      rw [level_store, hl1eq]; omega
    have hen := enqueue_full c (s1.store i y1) (L + 1) (some i) (by omega) h13 hfull
    refine ⟨s1.store i y1, ?_, hl2, hq2, by rw [level_store, hent1], ?_, hlt1, hcp1, hsc1, ?_, ?_⟩
    · intro n
      rw [hunfold n, hen]
      rfl
    · intro M hM0 hM3 hML _
      rw [level_store, hoth1 M hM0 hM3 hML]
    · intro h
      omega
    · intro _
      refine ⟨by rw [level_store, hl1eq], ?_⟩
      simp [Kernel.store, hpt1, hy1]

/-- A round of the loop at the lowest level at a RUNNABLE, un-killed head that
has used up its quantum: the entry moves from the head to the tail of the
level, `execTime` is reset and a positive priority is decremented. -/
theorem demote_round_bottom (c : Param) (s : Kernel) (i : Nat) (x : proc)
    (hlay : s.Layout c) (hq : s.QueueOk c) (hprio : 0 < c.MAXPRIORITY)
    (hhead : (s.level BOTTOM).entries[0]? = some (some i))
    (hx : s.ptable[i]? = some x) (hrun : x.state = procstate.RUNNABLE) (hk : x.killed ≠ 1)
    (hexp : x.execTime ≥ c.TIME_QUANTUM BOTTOM) :
    ∃ t, (∀ n, chooseLoop c BOTTOM s (some i) (n + 1)
        = (MLFQfirstProc c t BOTTOM >>= fun t2 => chooseLoop c BOTTOM t t2 n)) ∧
      t.Layout c ∧ t.QueueOk c ∧
      (t.level BOTTOM).entries = (s.level BOTTOM).entries.tail ++ [some i] ∧
      (∀ M, 0 ≤ M → M < 3 → M ≠ BOTTOM → t.level M = s.level M) ∧
      t.ptable = s.ptable.set i
        { x with execTime := 0, qLevel := BOTTOM,
                 priority := if x.priority > 0 then x.priority - 1 else x.priority } ∧
      t.ltable = s.ltable ∧ t.cproc = s.cproc ∧ t.sctx = s.sctx := by
  have hil := getElem?_lt_of_some _ _ _ hx
  obtain ⟨s1, hdq, hl1, hq1, hent1, hrear1, hoth1, hpt1, hlt1, hcp1, hsc1, _⟩ :=
    dequeue_head c s BOTTOM i hlay hq (by decide) (by decide) hprio hhead
  have hx1 : s1.ptable[i]? = some x := by rw [hpt1]; exact hx
  obtain ⟨y1, hy1⟩ : ∃ y1 : proc, y1 = { x with execTime := 0 } := ⟨_, rfl⟩
  obtain ⟨hl2, hq2⟩ := inv_store hl1 hq1 i y1
  have hy2 : (s1.store i y1).ptable[i]? = some y1 := by
    simp [Kernel.store, hpt1, hil]
  obtain ⟨z1, hz1⟩ : ∃ z1 : proc, z1 = { y1 with priority := y1.priority - 1 } := ⟨_, rfl⟩
  obtain ⟨s3, hs3⟩ : ∃ s3 : Kernel, s3 =
      if y1.priority > 0 then (s1.store i y1).store i z1 else s1.store i y1 := ⟨_, rfl⟩
  obtain ⟨w, hw⟩ : ∃ w : proc, w = if y1.priority > 0 then z1 else y1 := ⟨_, rfl⟩
  have hs3eq : s3 = s1.store i w := by
    rw [hs3, hw]
    by_cases hp : y1.priority > 0
    · rw [if_pos hp, if_pos hp]
      simp [Kernel.store]
    · rw [if_neg hp, if_neg hp]
  obtain ⟨hl3, hq3⟩ := inv_store hl1 hq1 i w
  rw [← hs3eq] at hl3 hq3
  have hw3 : s3.ptable[i]? = some w := by
    rw [hs3eq]; simp [Kernel.store, hpt1, hil]
  have hwrun : w.state = procstate.RUNNABLE := by
    rw [hw]
    by_cases hp : y1.priority > 0
    · rw [if_pos hp, hz1, hy1]; exact hrun
    · rw [if_neg hp, hy1]; exact hrun
  have hgood : ¬ (x.state ≠ procstate.RUNNABLE ∨ x.killed = 1) := by
    intro h; rcases h with h | h
    · exact h hrun
    · exact hk h
  have hrear3 : (s3.level BOTTOM).rear < c.NPROC := by
    rw [hs3eq, level_store, hrear1]
    have := (QueueOk_at hq (show (0 : Int) ≤ BOTTOM by decide) (by decide)).2.1
    omega
  obtain ⟨t, hen, hl4, hq4, hent4, hoth4, hpt4, hlt4, hcp4, hsc4, _⟩ :=
    enqueue_tail c s3 BOTTOM i w hl3 hq3 (by decide) (by decide) hrear3 hw3 hwrun
  have hnb : ¬ (BOTTOM < BOTTOM) := by decide
  refine ⟨t, ?_, hl4, hq4, ?_, ?_, ?_, ?_, ?_, ?_⟩
  · intro n
    simp only [chooseLoop, deref_ok s i x hx, Outcome.ok_bind]
    rw [if_neg hgood, if_pos hexp, hdq]
    simp only [Outcome.ok_bind, deref_ok s1 i x hx1]
    rw [← hy1, if_neg hnb]
    simp only [deref_ok _ i y1 hy2, Outcome.ok_bind]
    rw [← hz1, ← hs3, hen]
    rfl
  · rw [hent4, hs3eq, level_store, hent1]
  · intro M hM0 hM3 hML
    rw [hoth4 M hM0 hM3 hML, hs3eq, level_store, hoth1 M hM0 hM3 hML]
  · rw [hpt4, hs3eq, hw]
    simp only [Kernel.store, hpt1, List.set_set]
    congr 1
    by_cases hp : x.priority > 0
    · have hp1 : y1.priority > 0 := by rw [hy1]; exact hp
      rw [if_pos hp1, if_pos hp, hz1, hy1]
    · have hp1 : ¬ (y1.priority > 0) := by rw [hy1]; exact hp
      rw [if_neg hp1, if_neg hp, hy1]
  · rw [hlt4, hs3eq]; exact hlt1
  · rw [hcp4, hs3eq]; exact hcp1
  · rw [hsc4, hs3eq]; exact hsc1

theorem stale_some (c : Param) (s : Kernel) (L : Int) (i : Nat) (x : proc)
    (hx : s.ptable[i]? = some x) :
    s.stale c L (some i) = decide (x.state ≠ procstate.RUNNABLE ∨ x.killed = 1 ∨
      x.execTime ≥ c.TIME_QUANTUM L) := by
  simp [Kernel.stale, hx]

/-- After a stale process is overwritten by one with the same state and killed
flag, an entry that is stale was stale before. -/
theorem stale_of_set (c : Param) (s t : Kernel) (L : Int) (i : Nat) (x y : proc)
    (hx : s.ptable[i]? = some x) (hst : s.stale c L (some i) = true)
    (hpt : t.ptable = s.ptable.set i y) (e : Ptr) (h : t.stale c L e = true) :
    s.stale c L e = true := by
  cases e with
  | none => rfl
  | some j =>
    by_cases hj : j = i
    · subst hj; exact hst
    · have : t.ptable[j]? = s.ptable[j]? := by
        rw [hpt, List.getElem?_set_ne (Ne.symm hj)]
      simp only [Kernel.stale, this] at h
      simpa [Kernel.stale] using h

theorem entries_head_tail (es : List Ptr) (e : Ptr) (h : es[0]? = some e) :
    es = e :: es.tail := by
  cases es with
  | nil => simp at h
  | cons a as =>
    simp only [List.getElem?_cons_zero, Option.some.injEq] at h
    rw [h]; rfl

/-- A round of the loop at a head the level would not dispatch, on a queue
table in order: the loop goes on from a state in order, in which the levels
above `L`, the lock slot, `c->proc` and the scheduler context are as before.
A purge, and a demotion above the lowest level, remove the head from the
level; a demotion at the lowest level moves the head behind the other entries.
When the quantum of the level is positive, fewer entries of the level are
stale afterwards, and an entry demoted at the lowest level is not stale. -/
theorem round_progress (c : Param) (s : Kernel) (L : Int) (i : Nat) (x : proc)
    (hlay : s.Layout c) (hq : s.QueueOk c) (h0 : 0 ≤ L) (h3 : L < 3)
    (hprio : 0 < c.MAXPRIORITY) (hhead : (s.level L).entries[0]? = some (some i))
    (hx : s.ptable[i]? = some x)
    (hstale : x.state ≠ procstate.RUNNABLE ∨ x.killed = 1 ∨ x.execTime ≥ c.TIME_QUANTUM L) :
    ∃ t, (∀ n, chooseLoop c L s (some i) (n + 1)
        = (MLFQfirstProc c t L >>= fun t2 => chooseLoop c L t t2 n)) ∧
      t.Layout c ∧ t.QueueOk c ∧
      (∀ M, 0 ≤ M → M < L → t.level M = s.level M) ∧
      t.ltable = s.ltable ∧ t.cproc = s.cproc ∧ t.sctx = s.sctx ∧
      (0 < c.TIME_QUANTUM L → t.staleCount c L < s.staleCount c L) ∧
      (x.state ≠ procstate.RUNNABLE ∨ x.killed = 1 ∨ L < BOTTOM →
        (t.level L).entries = (s.level L).entries.tail) ∧
      (x.state = procstate.RUNNABLE → x.killed ≠ 1 → L = BOTTOM →
        (t.level L).entries = (s.level L).entries.tail ++ [some i] ∧
        (0 < c.TIME_QUANTUM L → t.stale c L (some i) = false)) := by
  have hsti : s.stale c L (some i) = true := by
    rw [stale_some c s L i x hx]; exact decide_eq_true hstale
  have hes := entries_head_tail _ _ hhead
  have hcount : s.staleCount c L = ((s.level L).entries.tail.countP (s.stale c L)) + 1 := by
    unfold Kernel.staleCount
    conv_lhs => rw [hes]
    rw [List.countP_cons_of_pos _ _ hsti]
  have hdec : ∀ (t : Kernel) (y : proc), t.ptable = s.ptable.set i y →
      (s.level L).entries.tail.countP (t.stale c L)
        ≤ (s.level L).entries.tail.countP (s.stale c L) := by
    intro t y hpt
    exact List.countP_mono_left (fun e _ h => stale_of_set c s t L i x y hx hsti hpt e h)
  by_cases hbad : x.state ≠ procstate.RUNNABLE ∨ x.killed = 1
  · obtain ⟨t, hrd, hl, hqt, hent, hoth, hpt, hlt, hcp, hsc⟩ :=
      purge_round c s L i x hlay hq h0 h3 hprio hhead hx hbad
    refine ⟨t, hrd, hl, hqt, fun M hM0 hML => hoth M hM0 (by omega) (by omega), hlt, hcp, hsc,
      ?_, fun _ => hent, ?_⟩
    · intro _
      have := hdec t _ hpt
      unfold Kernel.staleCount at hcount ⊢
      rw [hent]
      omega
    · intro hrun hk _
      rcases hbad with h | h
      · exact absurd hrun h
      · exact absurd h hk
  · have hrun : x.state = procstate.RUNNABLE := by
      by_contra hc; exact hbad (Or.inl hc)
    have hk : x.killed ≠ 1 := fun hc => hbad (Or.inr hc)
    have hexp : x.execTime ≥ c.TIME_QUANTUM L := by
      rcases hstale with h | h | h
      · exact absurd hrun h
      · exact absurd h hk
      · exact h
    by_cases h2 : L < BOTTOM
    · obtain ⟨t, hrd, hl, hqt, hent, hoth, hlt, hcp, hsc, hroom, hfull⟩ :=
        demote_round_upper c s L i x hlay hq h0 h2 hprio hhead hx hrun hk hexp
      refine ⟨t, hrd, hl, hqt, fun M hM0 hML => hoth M hM0 (by omega) (by omega) (by omega),
        hlt, hcp, hsc, ?_, fun _ => hent, ?_⟩
      · intro _
        have hpt : ∃ y, t.ptable = s.ptable.set i y := by
          by_cases hr : (s.level (L + 1)).rear < c.NPROC
          · exact ⟨_, (hroom hr).2⟩
          · exact ⟨_, (hfull (by omega)).2⟩
        obtain ⟨y, hpt⟩ := hpt
        have := hdec t y hpt
        unfold Kernel.staleCount at hcount ⊢
        rw [hent]
        omega
      · intro _ _ hL
        rw [hL] at h2
        exact absurd h2 (by decide)
    · have hL : L = BOTTOM := by simp only [BOTTOM] at h2 ⊢; omega
      subst hL
      obtain ⟨t, hrd, hl, hqt, hent, hoth, hpt, hlt, hcp, hsc⟩ :=
        demote_round_bottom c s i x hlay hq hprio hhead hx hrun hk hexp
      have hil := getElem?_lt_of_some _ _ _ hx
      have hnew : 0 < c.TIME_QUANTUM BOTTOM → t.stale c BOTTOM (some i) = false := by
        intro hTQ
        have hti : t.ptable[i]? = some
            { x with execTime := 0, qLevel := BOTTOM,
                     priority := if x.priority > 0 then x.priority - 1 else x.priority } := by
          rw [hpt, List.getElem?_set_self hil]
        rw [stale_some c t BOTTOM i _ hti]
        apply decide_eq_false
        intro h
        rcases h with h | h | h
        · exact h hrun
        · exact hk h
        · have : (0 : Int) ≥ c.TIME_QUANTUM BOTTOM := h
          omega
      refine ⟨t, hrd, hl, hqt, fun M hM0 hML => hoth M hM0 (by omega) (by omega), hlt, hcp, hsc,
        ?_, ?_, fun _ _ _ => ⟨hent, hnew⟩⟩
      · intro hTQ
        have := hdec t _ hpt
        unfold Kernel.staleCount at hcount ⊢
        rw [hent, List.countP_append]
        have h1 : List.countP (t.stale c BOTTOM) [some i] = 0 := by
          simp [List.countP_cons, hnew hTQ]
        omega
      · intro h
        rcases h with h | h | h
        · exact absurd hrun h
        · exact absurd h hk
        · exact absurd h (by decide)

/-- A round of the loop at a head the level would not dispatch, on a queue
table in order: the loop goes on from a state in order, in which the levels
above `L`, the lock slot, `c->proc` and the scheduler context are as before,
and, when the quantum of the level is positive, fewer entries of the level are
stale. -/
theorem choose_round (c : Param) (s : Kernel) (L : Int) (i : Nat) (x : proc)
    (hlay : s.Layout c) (hq : s.QueueOk c) (h0 : 0 ≤ L) (h3 : L < 3)
    (hprio : 0 < c.MAXPRIORITY) (hhead : (s.level L).entries[0]? = some (some i))
    (hx : s.ptable[i]? = some x)
    (hstale : x.state ≠ procstate.RUNNABLE ∨ x.killed = 1 ∨ x.execTime ≥ c.TIME_QUANTUM L) :
    ∃ t, (∀ n, chooseLoop c L s (some i) (n + 1)
        = (MLFQfirstProc c t L >>= fun t2 => chooseLoop c L t t2 n)) ∧
      t.Layout c ∧ t.QueueOk c ∧
      (∀ M, 0 ≤ M → M < L → t.level M = s.level M) ∧
      t.ltable = s.ltable ∧ t.cproc = s.cproc ∧ t.sctx = s.sctx ∧
      (0 < c.TIME_QUANTUM L → t.staleCount c L < s.staleCount c L) := by
  obtain ⟨t, h1, h2, h3, h4, h5, h6, h7, h8, _⟩ :=
    round_progress c s L i x hlay hq h0 h3 hprio hhead hx hstale
  exact ⟨t, h1, h2, h3, h4, h5, h6, h7, h8⟩

/-- The loop of `schedulerChooseProcess` when its pointer is not stale: it
returns the pointer and the state. -/
theorem chooseLoop_fresh (c : Param) (s : Kernel) (L : Int) (i : Nat) (x : proc) (n : Nat)
    (hx : s.ptable[i]? = some x)
    (hfresh : ¬ (x.state ≠ procstate.RUNNABLE ∨ x.killed = 1 ∨
      x.execTime ≥ c.TIME_QUANTUM L)) :
    chooseLoop c L s (some i) (n + 1) = Outcome.ok (some i, s) := by
  have h1 : ¬ (x.state ≠ procstate.RUNNABLE ∨ x.killed = 1) := by
    intro h; rcases h with h | h
    · exact hfresh (Or.inl h)
    · exact hfresh (Or.inr (Or.inl h))
  have h2 : ¬ (x.execTime ≥ c.TIME_QUANTUM L) := fun h => hfresh (Or.inr (Or.inr h))
  simp only [chooseLoop, deref_ok s i x hx, Outcome.ok_bind]
  rw [if_neg h1, if_neg h2]

/-- The pointer `MLFQfirstProc` yields on a level in order, with the process it
points to. -/
theorem firstProc_cases (c : Param) (s : Kernel) (L : Int) (hlay : s.Layout c)
    (hq : s.QueueOk c) (h0 : 0 ≤ L) (h3 : L < 3) (hprio : 0 < c.MAXPRIORITY) (tp : Ptr)
    (h : MLFQfirstProc c s L = Outcome.ok tp) :
    (tp = none ∧ (s.level L).rear = 0) ∨
    (∃ i x, tp = some i ∧ (s.level L).entries[0]? = some (some i) ∧ s.ptable[i]? = some x) := by
  rcases firstProc_head c s L hlay hq h0 h3 hprio with ⟨hr, hf⟩ | ⟨i, x, hh, hx, hf⟩
  · rw [hf] at h
    simp only [Outcome.ok.injEq] at h
    exact Or.inl ⟨h.symm, hr⟩
  · rw [hf] at h
    simp only [Outcome.ok.injEq] at h
    exact Or.inr ⟨i, x, h.symm, hh, hx⟩

/-- The loop of `schedulerChooseProcess` on a queue table in order, whenever
it returns: the table is in order, the levels above `L`, the lock slot,
`c->proc` and the scheduler context are as before; a null result means that
the level is empty, and a process returned is at index 0 of the level,
RUNNABLE, not killed and below the quantum. -/
theorem chooseLoop_inv (c : Param) (L : Int) (h0 : 0 ≤ L) (h3 : L < 3)
    (hprio : 0 < c.MAXPRIORITY) :
    ∀ (n : Nat) (s : Kernel) (tp p : Ptr) (t : Kernel), s.Layout c → s.QueueOk c →
      MLFQfirstProc c s L = Outcome.ok tp →
      chooseLoop c L s tp n = Outcome.ok (p, t) →
      t.Layout c ∧ t.QueueOk c ∧ (∀ M, 0 ≤ M → M < L → t.level M = s.level M) ∧
      t.ltable = s.ltable ∧ t.cproc = s.cproc ∧ t.sctx = s.sctx ∧
      (p = none → (t.level L).rear = 0) ∧
      (∀ i, p = some i → (t.level L).entries[0]? = some (some i) ∧
        ∃ x, t.ptable[i]? = some x ∧ x.state = procstate.RUNNABLE ∧ x.killed ≠ 1 ∧
          x.execTime < c.TIME_QUANTUM L) := by
  intro n
  induction n with
  | zero =>
    intro s tp p t hlay hq hf h
    cases tp with
    | some i => simp [chooseLoop] at h
    | none =>
      simp only [chooseLoop, Outcome.ok.injEq, Prod.mk.injEq] at h
      rw [← h.1, ← h.2]
      rcases firstProc_cases c s L hlay hq h0 h3 hprio none hf with ⟨_, hr⟩ | ⟨i, x, hi, _⟩
      · exact ⟨hlay, hq, fun _ _ _ => rfl, rfl, rfl, rfl, fun _ => hr,
          fun i hi => nomatch hi⟩
      · exact nomatch hi
  | succ n ih =>
    intro s tp p t hlay hq hf h
    rcases firstProc_cases c s L hlay hq h0 h3 hprio tp hf with ⟨htp, hr⟩ | ⟨i, x, htp, hh, hx⟩
    · subst htp
      simp only [chooseLoop, Outcome.ok.injEq, Prod.mk.injEq] at h
      rw [← h.1, ← h.2]
      exact ⟨hlay, hq, fun _ _ _ => rfl, rfl, rfl, rfl, fun _ => hr, fun i hi => nomatch hi⟩
    · subst htp
      by_cases hst : x.state ≠ procstate.RUNNABLE ∨ x.killed = 1 ∨
          x.execTime ≥ c.TIME_QUANTUM L
      · obtain ⟨u, hrd, hlu, hqu, hup, hlt, hcp, hsc, _⟩ :=
          choose_round c s L i x hlay hq h0 h3 hprio hh hx hst
        rw [hrd n] at h
        cases hfu : MLFQfirstProc c u L with
        | fault f => rw [hfu] at h; simp at h
        | ok t2 =>
          rw [hfu] at h
          simp only [Outcome.ok_bind] at h
          obtain ⟨a1, a2, a3, a4, a5, a6, a7, a8⟩ := ih u t2 p t hlu hqu hfu h
          exact ⟨a1, a2, fun M hM0 hML => by rw [a3 M hM0 hML, hup M hM0 hML],
            by rw [a4, hlt], by rw [a5, hcp], by rw [a6, hsc], a7, a8⟩
      · rw [chooseLoop_fresh c s L i x n hx hst] at h
        simp only [Outcome.ok.injEq, Prod.mk.injEq] at h
        rw [← h.1, ← h.2]
        refine ⟨hlay, hq, fun _ _ _ => rfl, rfl, rfl, rfl, ?_, ?_⟩
        · intro hp
          exact absurd hp (by simp)
        intro k hk
        cases hk
        refine ⟨hh, x, hx, ?_, ?_, ?_⟩
        · by_contra hc; exact hst (Or.inl hc)
        · intro hc; exact hst (Or.inr (Or.inl hc))
        · by_contra hc; exact hst (Or.inr (Or.inr (by omega)))

/-- The loop of `schedulerChooseProcess` on a queue table in order returns
when its round bound is above the number of stale entries of the level and the
quantum of the level is positive. -/
theorem chooseLoop_returns (c : Param) (L : Int) (h0 : 0 ≤ L) (h3 : L < 3)
    (hprio : 0 < c.MAXPRIORITY) (hTQ : 0 < c.TIME_QUANTUM L) :
    ∀ (m : Nat) (s : Kernel) (tp : Ptr) (n : Nat), s.Layout c → s.QueueOk c →
      MLFQfirstProc c s L = Outcome.ok tp → s.staleCount c L ≤ m → m < n →
      ∃ p t, chooseLoop c L s tp n = Outcome.ok (p, t) := by
  intro m
  induction m with
  | zero =>
    intro s tp n hlay hq hf hm hn
    obtain ⟨n, rfl⟩ : ∃ k, n = k + 1 := ⟨n - 1, by omega⟩
    rcases firstProc_cases c s L hlay hq h0 h3 hprio tp hf with ⟨htp, _⟩ | ⟨i, x, htp, hh, hx⟩
    · subst htp
      exact ⟨none, s, by simp [chooseLoop]⟩
    · subst htp
      by_cases hst : x.state ≠ procstate.RUNNABLE ∨ x.killed = 1 ∨
          x.execTime ≥ c.TIME_QUANTUM L
      · obtain ⟨u, _, _, _, _, _, _, _, hdec⟩ :=
          choose_round c s L i x hlay hq h0 h3 hprio hh hx hst
        have := hdec hTQ
        omega
      · exact ⟨some i, s, chooseLoop_fresh c s L i x n hx hst⟩
  | succ m ih =>
    intro s tp n hlay hq hf hm hn
    obtain ⟨n, rfl⟩ : ∃ k, n = k + 1 := ⟨n - 1, by omega⟩
    rcases firstProc_cases c s L hlay hq h0 h3 hprio tp hf with ⟨htp, _⟩ | ⟨i, x, htp, hh, hx⟩
    · subst htp
      exact ⟨none, s, by simp [chooseLoop]⟩
    · subst htp
      by_cases hst : x.state ≠ procstate.RUNNABLE ∨ x.killed = 1 ∨
          x.execTime ≥ c.TIME_QUANTUM L
      · obtain ⟨u, hrd, hlu, hqu, _, _, _, _, hdec⟩ :=
          choose_round c s L i x hlay hq h0 h3 hprio hh hx hst
        have hlt := hdec hTQ
        rcases firstProc_head c u L hlu hqu h0 h3 hprio with ⟨_, hfu⟩ | ⟨j, y, _, _, hfu⟩
        · obtain ⟨p, t, ht⟩ := ih u none n hlu hqu hfu (by omega) (by omega)
          exact ⟨p, t, by rw [hrd n, hfu]; exact ht⟩
        · obtain ⟨p, t, ht⟩ := ih u (some j) n hlu hqu hfu (by omega) (by omega)
          exact ⟨p, t, by rw [hrd n, hfu]; exact ht⟩
      · exact ⟨some i, s, chooseLoop_fresh c s L i x n hx hst⟩

/-- The number of stale entries of a level is at most its counter. -/
theorem staleCount_le (c : Param) (s : Kernel) (L : Int) :
    s.staleCount c L ≤ (s.level L).rear.toNat := by
  unfold Kernel.staleCount
  have h1 := List.countP_le_length (s.stale c L) (l := (s.level L).entries)
  have h2 : (s.level L).entries.length ≤ (s.level L).rear.toNat := by
    simp [mlfQueue.entries]
  omega

/-! ## The MLFQ branch of the scheduler -/

/-- The MLFQ branch of the scheduler dispatches a process only when its
`execTime` is below the quantum of the level it is dispatched from; this is
the test the scheduler makes itself, and it holds in every state. -/
theorem mlfqLoop_guard (c : Param) (fuel : Nat) :
    ∀ (n : Nat) (s : Kernel) (q : Int) (t : Kernel), mlfqLoop c fuel s q n = Outcome.ok t →
      ∀ L, t.sctx = SchedCtx.inMlfq L → ∃ i x, t.cproc = some i ∧ t.ptable[i]? = some x ∧
        x.state = procstate.RUNNING ∧ x.execTime < c.TIME_QUANTUM L := by
  intro n
  induction n with
  | zero =>
    intro s q t h L hL
    unfold mlfqLoop at h
    split at h
    · simp at h
    · simp only [Outcome.ok.injEq] at h
      rw [← h] at hL
      simp at hL
  | succ n ih =>
    intro s q t h L hL
    unfold mlfqLoop at h
    split at h
    · cases hp : prevLoop c fuel s q 0 none (q + 1).toNat with
      | fault f => rw [hp] at h; simp at h
      | ok v =>
        obtain ⟨tp, q1, s1⟩ := v
        rw [hp] at h
        simp only [Outcome.ok_bind] at h
        cases hv : isValidProcess s1 tp with
        | fault f => rw [hv] at h; simp at h
        | ok v =>
          rw [hv] at h
          simp only [Outcome.ok_bind] at h
          split at h
          · exact ih s1 (q1 + 1) t h L hL
          · cases tp with
            | none => simp at h
            | some i =>
              simp only at h
              cases hd : s1.deref (some i) with
              | fault f => rw [hd] at h; simp at h
              | ok x =>
                rw [hd] at h
                simp only [Outcome.ok_bind] at h
                obtain ⟨i2, hi2, hx⟩ := deref_eq_ok hd
                cases hi2
                have hil := getElem?_lt_of_some _ _ _ hx
                split at h
                · exact ih s1 (q1 + 1) t h L hL
                · rename_i hlt
                  simp only [Outcome.ok.injEq] at h
                  rw [← h] at hL ⊢
                  simp only [SchedCtx.inMlfq.injEq] at hL
                  subst hL
                  exact ⟨i, { x with state := procstate.RUNNING }, rfl,
                    by simp [Kernel.store, hil], rfl, by show x.execTime < _; omega⟩
    · simp only [Outcome.ok.injEq] at h
      rw [← h] at hL
      simp at hL

theorem isValidProcess_none (s : Kernel) : isValidProcess s none = Outcome.ok 0 := rfl

theorem isValidProcess_runnable (s : Kernel) (i : Nat) (x : proc) (hx : s.ptable[i]? = some x)
    (hrun : x.state = procstate.RUNNABLE) : isValidProcess s (some i) = Outcome.ok 1 := by
  simp [isValidProcess, deref_ok s i x hx, hrun]

/-- `schedulerChooseProcess` on a queue table in order, whenever it returns:
see `chooseLoop_inv`. -/
theorem chooseProcess_inv (c : Param) (fuel : Nat) (s : Kernel) (L : Int) (h0 : 0 ≤ L)
    (h3 : L < 3) (hprio : 0 < c.MAXPRIORITY) (hlay : s.Layout c) (hq : s.QueueOk c)
    (p : Ptr) (t : Kernel) (h : schedulerChooseProcess c fuel s L = Outcome.ok (p, t)) :
    t.Layout c ∧ t.QueueOk c ∧ (∀ M, 0 ≤ M → M < L → t.level M = s.level M) ∧
    t.ltable = s.ltable ∧ t.cproc = s.cproc ∧ t.sctx = s.sctx ∧
    (p = none → (t.level L).rear = 0) ∧
    (∀ i, p = some i → (t.level L).entries[0]? = some (some i) ∧
      ∃ x, t.ptable[i]? = some x ∧ x.state = procstate.RUNNABLE ∧ x.killed ≠ 1 ∧
        x.execTime < c.TIME_QUANTUM L) := by
  unfold schedulerChooseProcess at h
  cases hf : MLFQfirstProc c s L with
  | fault f => rw [hf] at h; simp at h
  | ok tp =>
    rw [hf] at h
    simp only [Outcome.ok_bind] at h
    exact chooseLoop_inv c L h0 h3 hprio fuel s tp p t hlay hq hf h

/-- The loop over `prev` of the scheduler on a queue table in order, entered
at `prev` with the levels above `prev` empty: either it ends without a valid
process, or it breaks at a level `q1` with the levels above `q1` empty and a
RUNNABLE, un-killed process below the quantum of `q1` at index 0 of `q1`. -/
theorem prevLoop_inv (c : Param) (fuel : Nat) (hprio : 0 < c.MAXPRIORITY) :
    ∀ (n : Nat) (s : Kernel) (q prev : Int) (tp p : Ptr) (q1 : Int) (t : Kernel),
      s.Layout c → s.QueueOk c → 0 ≤ prev → q < 3 →
      (∀ M, 0 ≤ M → M < prev → (s.level M).rear = 0) →
      isValidProcess s tp = Outcome.ok 0 →
      prevLoop c fuel s q prev tp n = Outcome.ok (p, q1, t) →
      t.Layout c ∧ t.QueueOk c ∧ t.ltable = s.ltable ∧ t.cproc = s.cproc ∧ t.sctx = s.sctx ∧
      ((isValidProcess t p = Outcome.ok 0 ∧ q1 = q) ∨
       (∃ i x, p = some i ∧ 0 ≤ q1 ∧ q1 < 3 ∧ (∀ M, 0 ≤ M → M < q1 → (t.level M).rear = 0) ∧
          (t.level q1).entries[0]? = some (some i) ∧ t.ptable[i]? = some x ∧
          x.state = procstate.RUNNABLE ∧ x.killed ≠ 1 ∧ x.execTime < c.TIME_QUANTUM q1)) := by
  intro n
  induction n with
  | zero =>
    intro s q prev tp p q1 t hlay hq hp0 hq3 hemp hv h
    unfold prevLoop at h
    split at h
    · simp at h
    · simp only [Outcome.ok.injEq, Prod.mk.injEq] at h
      rw [← h.1, ← h.2.1, ← h.2.2]
      exact ⟨hlay, hq, rfl, rfl, rfl, Or.inl ⟨hv, rfl⟩⟩
  | succ n ih =>
    intro s q prev tp p q1 t hlay hq hp0 hq3 hemp hv h
    unfold prevLoop at h
    split at h
    · rename_i hle
      cases hc : schedulerChooseProcess c fuel s prev with
      | fault f => rw [hc] at h; simp at h
      | ok v =>
        obtain ⟨t', s1⟩ := v
        rw [hc] at h
        simp only [Outcome.ok_bind] at h
        obtain ⟨hl1, hq1, hup, hlt, hcp, hsc, hnone, hsome⟩ :=
          chooseProcess_inv c fuel s prev hp0 (by omega) hprio hlay hq t' s1 hc
        cases t' with
        | none =>
          simp only [isValidProcess_none, Outcome.ok_bind, ne_eq, not_true_eq_false,
            if_false] at h
          obtain ⟨a1, a2, a3, a4, a5, a6⟩ := ih s1 q (prev + 1) none p q1 t hl1 hq1 (by omega)
            hq3 (by
              intro M hM0 hM
              by_cases hMp : M = prev
              · subst hMp; exact hnone rfl
              · rw [hup M hM0 (by omega)]; exact hemp M hM0 (by omega))
            (isValidProcess_none s1) h
          exact ⟨a1, a2, by rw [a3, hlt], by rw [a4, hcp], by rw [a5, hsc], a6⟩
        | some i =>
          obtain ⟨hh, x, hx, hrun, hk, hlt2⟩ := hsome i rfl
          have h1 : ¬ ((1 : Int) = 0) := by decide
          simp only [isValidProcess_runnable s1 i x hx hrun, Outcome.ok_bind, ne_eq, h1,
            not_false_eq_true, if_true, Outcome.ok.injEq, Prod.mk.injEq] at h
          rw [← h.1, ← h.2.1, ← h.2.2]
          refine ⟨hl1, hq1, hlt, hcp, hsc, Or.inr ⟨i, x, rfl, hp0, by omega, ?_, hh, hx, hrun, hk,
            hlt2⟩⟩
          intro M hM0 hM
          rw [hup M hM0 hM]
          exact hemp M hM0 hM
    · simp only [Outcome.ok.injEq, Prod.mk.injEq] at h
      rw [← h.1, ← h.2.1, ← h.2.2]
      exact ⟨hlay, hq, rfl, rfl, rfl, Or.inl ⟨hv, rfl⟩⟩

/-- The MLFQ branch of the scheduler on a queue table in order: when it
dispatches a process from level `L`, every level above `L` is empty, and the
process was RUNNABLE, un-killed and below the quantum at index 0 of `L`. -/
theorem mlfqLoop_inv (c : Param) (fuel : Nat) (hprio : 0 < c.MAXPRIORITY) :
    ∀ (n : Nat) (s : Kernel) (q : Int) (t : Kernel), s.Layout c → s.QueueOk c → 0 ≤ q →
      mlfqLoop c fuel s q n = Outcome.ok t →
      ∀ L, t.sctx = SchedCtx.inMlfq L →
        0 ≤ L ∧ L < 3 ∧ (∀ M, 0 ≤ M → M < L → (t.level M).rear = 0) ∧
        ∃ i x, t.cproc = some i ∧ (t.level L).entries[0]? = some (some i) ∧
          t.ptable[i]? = some x ∧ x.state = procstate.RUNNING ∧ x.killed ≠ 1 ∧
          x.execTime < c.TIME_QUANTUM L := by
  intro n
  induction n with
  | zero =>
    intro s q t hlay hq hq0 h L hL
    unfold mlfqLoop at h
    split at h
    · simp at h
    · simp only [Outcome.ok.injEq] at h
      rw [← h] at hL
      simp at hL
  | succ n ih =>
    intro s q t hlay hq hq0 h L hL
    unfold mlfqLoop at h
    split at h
    · rename_i hq3
      have hq3' : q < 3 := by simpa [MAXQLEVEL] using hq3
      cases hp : prevLoop c fuel s q 0 none (q + 1).toNat with
      | fault f => rw [hp] at h; simp at h
      | ok v =>
        obtain ⟨tp, q1, s1⟩ := v
        rw [hp] at h
        simp only [Outcome.ok_bind] at h
        obtain ⟨hl1, hq1, _, _, _, hcase⟩ :=
          prevLoop_inv c fuel hprio (q + 1).toNat s q 0 none tp q1 s1 hlay hq (by omega) hq3'
            (fun M hM0 hM => by omega) (isValidProcess_none s) hp
        rcases hcase with ⟨hv, hq1e⟩ | ⟨i, x, htp, hq10, hq13, hemp, hh, hx, hrun, hk, hlt⟩
        · simp only [hv, Outcome.ok_bind, if_true] at h
          exact ih s1 (q1 + 1) t hl1 hq1 (by omega) h L hL
        · subst htp
          have h1 : ¬ ((1 : Int) = 0) := by decide
          have h2 : ¬ (x.execTime ≥ c.TIME_QUANTUM q1) := by omega
          have hil := getElem?_lt_of_some _ _ _ hx
          simp only [isValidProcess_runnable s1 i x hx hrun, Outcome.ok_bind, h1, if_false,
            deref_ok s1 i x hx, h2, Outcome.ok.injEq] at h
          rw [← h] at hL ⊢
          simp only [SchedCtx.inMlfq.injEq] at hL
          subst hL
          refine ⟨hq10, hq13, ?_, i, { x with state := procstate.RUNNING }, rfl, ?_,
            by simp [Kernel.store, hil], rfl, hk, hlt⟩
          · intro M hM0 hM
            exact hemp M hM0 hM
          · exact hh
    · simp only [Outcome.ok.injEq] at h
      rw [← h] at hL
      simp at hL

/-- A recorded transition is a transition of the system. -/
theorem Action.run_step (c : Param) (s t : Kernel) (a : Action)
    (h : a.run c s = Outcome.ok t) : Step c s t := by
  cases a with
  | pass fuel =>
    simp only [Action.run] at h
    split at h
    · rename_i hc
      exact Step.pass _ _ fuel hc.1 hc.2 h
    · simp at h
  | tick => exact Step.tick _ _ h
  | yields fuel =>
    simp only [Action.run] at h
    cases hy : yield c s with
    | fault f => rw [hy] at h; simp at h
    | ok s1 =>
      rw [hy] at h
      simp only [Outcome.ok_bind] at h
      exact Step.yield _ s1 _ fuel hy h
  | forks =>
    simp only [Action.run] at h
    split at h
    · rename_i hc
      cases hf : fork c s true true with
      | fault f => rw [hf] at h; simp at h
      | ok r =>
        obtain ⟨v, u⟩ := r
        rw [hf] at h
        simp only [Outcome.ok_bind, Outcome.ok.injEq] at h
        subst h
        exact Step.fork _ _ true true v hc hf
    · simp at h
  | kills pid =>
    simp only [Action.run] at h
    split at h
    · rename_i hc
      cases hf : kill c s pid with
      | fault f => rw [hf] at h; simp at h
      | ok r =>
        obtain ⟨v, u⟩ := r
        rw [hf] at h
        simp only [Outcome.ok_bind, Outcome.ok.injEq] at h
        subst h
        exact Step.kill _ _ pid v hc hf
    · simp at h
  | locks password fuel =>
    simp only [Action.run] at h
    cases hf : schedulerLock c s password with
    | fault f => rw [hf] at h; simp at h
    | ok r =>
      obtain ⟨s1, b⟩ := r
      rw [hf] at h
      simp only [Outcome.ok_bind] at h
      cases b with
      | false => simp at h
      | true =>
        simp only [if_true] at h
        exact Step.lockSched _ s1 _ password fuel hf h
  | unlocks password =>
    simp only [Action.run] at h
    split at h
    · rename_i hc
      exact Step.unlock _ _ password hc h
    · simp at h
  | boost => exact Step.boost _ _ h

/-- The state after a recorded run from a reachable state is reachable. -/
theorem runTrace_reachable (c : Param) :
    ∀ (as : List Action) (s t : Kernel), Reachable c s → runTrace c as s = Outcome.ok t →
      Reachable c t := by
  intro as
  induction as with
  | nil =>
    intro s t hs h
    simp only [runTrace, Outcome.ok.injEq] at h
    rw [← h]
    exact hs
  | cons a as ih =>
    intro s t hs h
    simp only [runTrace] at h
    cases ha : a.run c s with
    | fault f => rw [ha] at h; simp at h
    | ok u =>
      rw [ha] at h
      simp only [Outcome.ok_bind] at h
      exact ih u t (Reachable.step _ _ hs (Action.run_step c s u a ha)) h

set_option maxRecDepth 100000 in
/-- The state `nullHead` is reachable: it is the state after `starveTrace`. -/
theorem nullHead_reachable : Reachable demoParam nullHead :=
  runTrace_reachable demoParam starveTrace afterInit nullHead (Reachable.init _ (by decide))
    (by decide)

/-- What the selection guarantees in every state: for every valid level `L`
and every round bound, when `schedulerChooseProcess(L)` returns null the counter of `L` is 0
or, above the lowest level, the entry at index 0 of `L` is null (so `L` is
empty when its entries are non-null); when it returns a process, the counter
is not 0 and the process is the entry at index 0 of `L`, RUNNABLE, not killed
and with `execTime < TIME_QUANTUM(L)`.  And whenever the MLFQ branch of the
scheduler dispatches a process from a level, the `execTime` of that process is
below the quantum of that level. -/
theorem selection_postcondition (c : Param) (s : Kernel) (L : Int) (h0 : 0 ≤ L)
    (h3 : L < MAXQLEVEL) (hprio : 0 < c.MAXPRIORITY) :
    (∀ (fuel : Nat) (p : Ptr) (t : Kernel),
      schedulerChooseProcess c fuel s L = Outcome.ok (p, t) →
      (p = none → (t.level L).rear = 0 ∨
        (L < BOTTOM ∧ (t.level L).procsQueue[0]? = some none)) ∧
      (p = none → t.levelOk c L → (t.level L).rear = 0) ∧
      (∀ i, p = some i → (t.level L).rear ≠ 0 ∧
        (t.level L).procsQueue[0]? = some (some i) ∧
        ∃ x, t.ptable[i]? = some x ∧ x.state = procstate.RUNNABLE ∧ x.killed ≠ 1 ∧
          x.execTime < c.TIME_QUANTUM L)) ∧
    (∀ (fuel n : Nat) (q : Int) (t : Kernel) (M : Int),
      mlfqLoop c fuel s q n = Outcome.ok t → t.sctx = SchedCtx.inMlfq M →
      ∃ i x, t.cproc = some i ∧ t.ptable[i]? = some x ∧ x.state = procstate.RUNNING ∧
        x.execTime < c.TIME_QUANTUM M) := by
  refine ⟨?_, fun fuel n q t M h hM => mlfqLoop_guard c fuel n s q t h M hM⟩
  intro fuel p t h
  unfold schedulerChooseProcess at h
  cases hf : MLFQfirstProc c s L with
  | fault f => rw [hf] at h; simp at h
  | ok tp =>
    rw [hf] at h
    simp only [Outcome.ok_bind] at h
    obtain ⟨hfp, hgood⟩ := chooseLoop_post c L fuel s tp p t hf h
    obtain ⟨hn, hs⟩ := MLFQfirstProc_result c t L h0 h3 hprio p hfp
    refine ⟨hn, ?_, fun i hi => ⟨(hs i hi).1, (hs i hi).2, hgood i hi⟩⟩
    intro hp hok
    rcases hn hp with h | ⟨_, hnull⟩
    · exact h
    · obtain ⟨hr0, _, hv⟩ := hok
      by_contra hne
      have hpos : 0 < (t.level L).rear.toNat := by omega
      have hmem : (none : Ptr) ∈ (t.level L).entries := by
        rw [List.mem_iff_getElem?]
        refine ⟨0, ?_⟩
        rw [entries_getElem? _ (t.level L).rear.toNat 0 (by omega) hpos]
        exact hnull
      have := hv none hmem
      simp [Kernel.validPtr] at this

/-- C21: the state `nullHead` is reachable; its top level holds a null entry
at index 0 and behind it the RUNNABLE, un-killed process 3 with
`execTime = 0`, and `rear = 2`; `schedulerChooseProcess(TOP)` returns null and
leaves the state as it is, so it returns null for a level that is not empty. -/
theorem C21_null_head_hides_level :
    Reachable demoParam nullHead ∧
    schedulerChooseProcess demoParam 4 nullHead TOP = Outcome.ok (none, nullHead) ∧
    (nullHead.level TOP).rear = 2 ∧ (nullHead.level TOP).entries = [none, some 3] ∧
    (nullHead.ptable[3]?).map (fun x => (x.state, x.killed, x.execTime))
      = some (procstate.RUNNABLE, 0, 0) ∧
    (0 : Int) < demoParam.TIME_QUANTUM TOP :=
  ⟨nullHead_reachable, by decide, by decide, by decide, by decide, by decide⟩

/-- The selection at the top level of `threeQueued` returns the head. -/
theorem selection_postcondition_example :
    schedulerChooseProcess demoParam 4 threeQueued TOP = Outcome.ok (some 0, threeQueued) ∧
    (threeQueued.level TOP).rear ≠ 0 ∧
    (threeQueued.level TOP).procsQueue[0]? = some (some 0) ∧
    ∃ x, threeQueued.ptable[0]? = some x ∧ x.state = procstate.RUNNABLE ∧ x.killed ≠ 1 ∧
      x.execTime < demoParam.TIME_QUANTUM TOP :=
  have h : schedulerChooseProcess demoParam 4 threeQueued TOP
      = Outcome.ok (some 0, threeQueued) := by decide
  ⟨h, ((selection_postcondition demoParam threeQueued TOP (by decide) (by decide)
    (by decide)).1 4 (some 0) threeQueued h).2.2 0 rfl⟩

/-- Level order of dispatch on a queue table in order (counters within
`0 .. NPROC`, entries valid and not null), whenever a pass of the scheduler
with an empty lock slot, or the scheduler resumed by `sched()` after a
dispatch from level `q`, dispatches a process from level `L`, then `L` is one
of the three levels, every level above `L` is empty, and the process is the
entry at index 0 of `L`, RUNNING, not killed and with
`execTime < TIME_QUANTUM(L)`. -/
theorem level_order (c : Param) (s : Kernel) (hlay : s.Layout c) (hq : s.QueueOk c)
    (hprio : 0 < c.MAXPRIORITY) :
    (∀ (fuel : Nat) (t : Kernel) (L : Int), s.ltable = none →
      scheduler c fuel s = Outcome.ok t → t.sctx = SchedCtx.inMlfq L →
      0 ≤ L ∧ L < 3 ∧ (∀ M, 0 ≤ M → M < L → (t.level M).entries = []) ∧
      ∃ i x, t.cproc = some i ∧ (t.level L).entries[0]? = some (some i) ∧
        t.ptable[i]? = some x ∧ x.state = procstate.RUNNING ∧ x.killed ≠ 1 ∧
        x.execTime < c.TIME_QUANTUM L) ∧
    (∀ (fuel : Nat) (t : Kernel) (q L : Int), s.sctx = SchedCtx.inMlfq q → 0 ≤ q →
      sched c fuel s = Outcome.ok t → t.sctx = SchedCtx.inMlfq L →
      0 ≤ L ∧ L < 3 ∧ (∀ M, 0 ≤ M → M < L → (t.level M).entries = []) ∧
      ∃ i x, t.cproc = some i ∧ (t.level L).entries[0]? = some (some i) ∧
        t.ptable[i]? = some x ∧ x.state = procstate.RUNNING ∧ x.killed ≠ 1 ∧
        x.execTime < c.TIME_QUANTUM L) := by
  have key : ∀ (fuel : Nat) (u : Kernel) (q : Int) (t : Kernel) (L : Int), u.Layout c →
      u.QueueOk c → 0 ≤ q → mlfqLoop c fuel u q fuel = Outcome.ok t →
      t.sctx = SchedCtx.inMlfq L →
      0 ≤ L ∧ L < 3 ∧ (∀ M, 0 ≤ M → M < L → (t.level M).entries = []) ∧
      ∃ i x, t.cproc = some i ∧ (t.level L).entries[0]? = some (some i) ∧
        t.ptable[i]? = some x ∧ x.state = procstate.RUNNING ∧ x.killed ≠ 1 ∧
        x.execTime < c.TIME_QUANTUM L := by
    intro fuel u q t L hlu hqu hq0 h hL
    obtain ⟨a, b, hemp, hd⟩ := mlfqLoop_inv c fuel hprio fuel u q t hlu hqu hq0 h L hL
    refine ⟨a, b, ?_, hd⟩
    intro M hM0 hML
    simp [mlfQueue.entries, hemp M hM0 hML]
  refine ⟨?_, ?_⟩
  · intro fuel t L hslot h hL
    unfold scheduler at h
    rw [hslot] at h
    exact key fuel s 0 t L hlay hq (le_refl 0) h hL
  · intro fuel t q L hctx hq0 h hL
    unfold sched at h
    cases hd : s.deref s.cproc with
    | fault f => rw [hd] at h; simp at h
    | ok p =>
      rw [hd] at h
      simp only [Outcome.ok_bind] at h
      split at h
      · simp at h
      · rw [hctx] at h
        simp only at h
        obtain ⟨u, hu⟩ : ∃ u : Kernel, u = { s with cproc := none, sctx := SchedCtx.inMlfq q } :=
          ⟨_, rfl⟩
        rw [← hu] at h
        have hlu : u.Layout c := by rw [hu]; exact hlay
        have hqu : u.QueueOk c := by
          rw [hu]
          exact queueOk_congr (s := s) rfl rfl hq
        exact key fuel u (q + 1) t L hlu hqu (by omega) h hL

/-- C23: the state `nullHead` is reachable; its lock slot is empty and its
top level holds a null entry at index 0 and behind it the RUNNABLE, un-killed
process 3 with `execTime = 0 < TIME_QUANTUM(TOP)`; the pass of the scheduler
dispatches process 1 from the lowest level, and the top level still holds
process 3, RUNNABLE. -/
theorem C23_lower_level_runs_first :
    Reachable demoParam nullHead ∧ nullHead.ltable = none ∧
    scheduler demoParam 4 nullHead = Outcome.ok nullHeadRuns ∧
    nullHeadRuns.sctx = SchedCtx.inMlfq BOTTOM ∧ nullHeadRuns.cproc = some 1 ∧
    (nullHeadRuns.level TOP).entries = [none, some 3] ∧
    (nullHeadRuns.ptable[3]?).map (fun x => (x.state, x.killed, x.execTime))
      = some (procstate.RUNNABLE, 0, 0) ∧
    (0 : Int) < demoParam.TIME_QUANTUM TOP :=
  ⟨nullHead_reachable, by decide, by decide, by decide, by decide, by decide, by decide,
    by decide⟩

/-- The pass of the scheduler on `initWaits` dispatches the first process from
the middle level; the top level is empty. -/
theorem level_order_example :
    scheduler demoParam 4 initWaits = Outcome.ok initDemoted ∧
    (0 : Int) ≤ 1 ∧ (1 : Int) < 3 ∧
    (∀ M : Int, 0 ≤ M → M < 1 → (initDemoted.level M).entries = []) ∧
    ∃ i x, initDemoted.cproc = some i ∧ (initDemoted.level 1).entries[0]? = some (some i) ∧
      initDemoted.ptable[i]? = some x ∧ x.state = procstate.RUNNING ∧ x.killed ≠ 1 ∧
      x.execTime < demoParam.TIME_QUANTUM 1 :=
  have h : scheduler demoParam 4 initWaits = Outcome.ok initDemoted := by decide
  ⟨h, (level_order demoParam initWaits (by decide) (by decide) (by decide)).1
    4 initDemoted 1 rfl h rfl⟩

/-- C24: on a queue table in order (counters within `0 .. NPROC`, entries
valid and not null), for a valid level `L` with `TIME_QUANTUM(L) > 0`:
the number of entries of `L` that the selection does not accept (not RUNNABLE,
or killed, or with `execTime >= TIME_QUANTUM(L)`) is at most `NPROC`;
`schedulerChooseProcess(L)` returns for every round bound above that number,
with null and the level empty, or with the entry at index 0 of the level,
RUNNABLE, not killed and with `execTime < TIME_QUANTUM(L)`; at a head it
accepts it returns at once and changes nothing; and at a head it does not
accept, one round of its loop leads to a state in order with fewer such
entries, from which it goes on with one round less: a purge and a demotion
above the lowest level remove the head from `L`, and a demotion at the lowest
level moves the head behind the other entries, where the selection accepts
it. -/
theorem C24_selection_terminates (c : Param) (s : Kernel) (L : Int) (hlay : s.Layout c)
    (hq : s.QueueOk c) (h0 : 0 ≤ L) (h3 : L < 3) (hprio : 0 < c.MAXPRIORITY)
    (hTQ : 0 < c.TIME_QUANTUM L) :
    (s.staleCount c L : Int) ≤ c.NPROC ∧
    (∀ fuel, s.staleCount c L < fuel →
      ∃ p t, schedulerChooseProcess c fuel s L = Outcome.ok (p, t) ∧
        t.Layout c ∧ t.QueueOk c ∧
        (p = none → (t.level L).rear = 0) ∧
        (∀ i, p = some i → (t.level L).entries[0]? = some (some i) ∧
          ∃ x, t.ptable[i]? = some x ∧ x.state = procstate.RUNNABLE ∧ x.killed ≠ 1 ∧
            x.execTime < c.TIME_QUANTUM L)) ∧
    (∀ i x, (s.level L).entries[0]? = some (some i) → s.ptable[i]? = some x →
      (¬ (x.state ≠ procstate.RUNNABLE ∨ x.killed = 1 ∨ x.execTime ≥ c.TIME_QUANTUM L) →
        ∀ n, schedulerChooseProcess c (n + 1) s L = Outcome.ok (some i, s)) ∧
      (x.state ≠ procstate.RUNNABLE ∨ x.killed = 1 ∨ x.execTime ≥ c.TIME_QUANTUM L →
        ∃ u, (∀ n, schedulerChooseProcess c (n + 1) s L = schedulerChooseProcess c n u L) ∧
          u.Layout c ∧ u.QueueOk c ∧ u.staleCount c L < s.staleCount c L ∧
          (x.state ≠ procstate.RUNNABLE ∨ x.killed = 1 ∨ L < BOTTOM →
            (u.level L).entries = (s.level L).entries.tail) ∧
          (x.state = procstate.RUNNABLE → x.killed ≠ 1 → L = BOTTOM →
            (u.level L).entries = (s.level L).entries.tail ++ [some i] ∧
            u.stale c L (some i) = false))) := by
  refine ⟨?_, ?_, ?_⟩
  · have h1 := staleCount_le c s L
    obtain ⟨hr0, hr1, _⟩ := QueueOk_at hq h0 h3
    omega
  · intro fuel hfuel
    have hf : ∃ tp, MLFQfirstProc c s L = Outcome.ok tp := by
      rcases firstProc_head c s L hlay hq h0 h3 hprio with ⟨_, h⟩ | ⟨i, _, _, _, h⟩
      · exact ⟨_, h⟩
      · exact ⟨_, h⟩
    obtain ⟨tp, hf⟩ := hf
    obtain ⟨p, t, hpt⟩ := chooseLoop_returns c L h0 h3 hprio hTQ (s.staleCount c L) s tp fuel
      hlay hq hf (le_refl _) hfuel
    have hres : schedulerChooseProcess c fuel s L = Outcome.ok (p, t) := by
      unfold schedulerChooseProcess
      rw [hf]
      simp only [Outcome.ok_bind]
      exact hpt
    obtain ⟨hl, hqt, _, _, _, _, hnone, hsome⟩ :=
      chooseProcess_inv c fuel s L h0 h3 hprio hlay hq p t hres
    exact ⟨p, t, hres, hl, hqt, hnone, hsome⟩
  · intro i x hhead hx
    have hfirst : MLFQfirstProc c s L = Outcome.ok (some i) := by
      rcases firstProc_head c s L hlay hq h0 h3 hprio with ⟨hr, _⟩ | ⟨j, y, hj, _, hf⟩
      · have := getElem?_lt_of_some _ _ _ hhead
        simp [mlfQueue.entries, hr] at this
      · rw [hhead] at hj
        simp only [Option.some.injEq] at hj
        rw [hf, hj]
    refine ⟨?_, ?_⟩
    · intro hfresh n
      simp only [schedulerChooseProcess, hfirst, Outcome.ok_bind]
      exact chooseLoop_fresh c s L i x n hx hfresh
    · intro hstale
      obtain ⟨u, hrd, hl, hqu, _, _, _, _, hdec, hshrink, hback⟩ :=
        round_progress c s L i x hlay hq h0 h3 hprio hhead hx hstale
      refine ⟨u, ?_, hl, hqu, hdec hTQ, hshrink, ?_⟩
      · intro n
        simp only [schedulerChooseProcess, hfirst, Outcome.ok_bind]
        exact hrd n
      · intro hrun hk hL
        exact ⟨(hback hrun hk hL).1, (hback hrun hk hL).2 hTQ⟩

/-- C24 at a concrete state: the lowest level of `staleBottom` holds a
SLEEPING process, then a RUNNABLE process that has used up the quantum, then a
RUNNABLE process that has not.  The selection needs two rounds, a purge and a
demotion, before it returns the third entry; a bound of two rounds is
exhausted, a bound of three is not. -/
theorem C24_selection_terminates_witness :
    (staleBottom.level BOTTOM).entries = [some 1, some 2, some 3] ∧
    staleBottom.staleCount demoParam BOTTOM = 2 ∧
    schedulerChooseProcess demoParam 2 staleBottom BOTTOM = Outcome.fault Fault.outOfFuel ∧
    schedulerChooseProcess demoParam 3 staleBottom BOTTOM
      = Outcome.ok (some 3, staleBottomChosen) ∧
    (staleBottomChosen.level BOTTOM).entries = [some 3, some 2] ∧
    (∃ p t, schedulerChooseProcess demoParam 3 staleBottom BOTTOM = Outcome.ok (p, t) ∧
      t.Layout demoParam ∧ t.QueueOk demoParam ∧
      (p = none → (t.level BOTTOM).rear = 0) ∧
      (∀ i, p = some i → (t.level BOTTOM).entries[0]? = some (some i) ∧
        ∃ x, t.ptable[i]? = some x ∧ x.state = procstate.RUNNABLE ∧ x.killed ≠ 1 ∧
          x.execTime < demoParam.TIME_QUANTUM BOTTOM)) ∧
    ∃ u, (∀ n, schedulerChooseProcess demoParam (n + 1) staleBottom BOTTOM
        = schedulerChooseProcess demoParam n u BOTTOM) ∧
      u.staleCount demoParam BOTTOM < staleBottom.staleCount demoParam BOTTOM ∧
      (u.level BOTTOM).entries = (staleBottom.level BOTTOM).entries.tail :=
  have h := C24_selection_terminates demoParam staleBottom BOTTOM (by decide) (by decide)
    (by decide) (by decide) (by decide) (by decide)
  have hr := (h.2.2 1 { childP procstate.SLEEPING with qLevel := 2, chan := Chan.ticksAddr }
    (by decide) (by decide)).2 (Or.inl (by decide))
  ⟨by decide, by decide, by decide, by decide, by decide, h.2.1 3 (by decide),
    hr.imp (fun _ hu => ⟨hu.1, hu.2.2.2.1, hu.2.2.2.2.1 (Or.inl (by decide))⟩)⟩

/-- For every state in which the caller has `isLock == LOCKED` and the lock
slot is not empty, and for every lock `lk` the caller passes and holds,
`sleep(chan, lk)` acquires `ptable.lock` while it holds it. -/
theorem sleep_reacquires (c : Param) (s : Kernel) (chan : Chan) (lk : Lock) (i j : Nat)
    (x y : proc) (hc : s.cproc = some i) (hx : s.ptable[i]? = some x)
    (hl : x.isLock = lockstate.LOCKED) (hslot : s.ltable = some j)
    (hy : s.ptable[j]? = some y) (hlk : lk = Lock.tickslock ∨ lk = Lock.ptable) :
    ∃ ops, sleepLocks c s chan lk = Outcome.ok ops ∧
      firstReacquire [lk] ops = some Lock.ptable := by
  obtain ⟨x1, hx1⟩ : ∃ x1 : proc, x1 = { x with chan := chan, state := procstate.SLEEPING } :=
    ⟨_, rfl⟩
  have hd : ∃ z, (Kernel.deref { s.store i x1 with ltable := none } (some j)) = Outcome.ok z := by
    by_cases hij : j = i
    · subst hij
      exact ⟨x1, deref_ok _ _ _ (by
        simp only [Kernel.store]
        rw [List.getElem?_set_self (getElem?_lt_of_some _ _ _ hx)])⟩
    · exact ⟨y, deref_ok _ _ _ (by
        simp only [Kernel.store]
        rw [List.getElem?_set_ne (fun h => hij h.symm)]
        exact hy)⟩
  obtain ⟨z, hz⟩ := hd
  have hs : schedulerLockDoneLocks c (s.store i x1) 1 = Outcome.ok
      [LockOp.acquire Lock.ltable, LockOp.release Lock.ltable, LockOp.acquire Lock.ptable,
       LockOp.release Lock.ptable] := by
    have hsl : (s.store i x1).ltable = some j := hslot
    simp only [schedulerLockDoneLocks, hsl, hz, Outcome.ok_bind]
    simp
  rcases hlk with h | h
  · subst h
    refine ⟨[LockOp.acquire Lock.ptable, LockOp.release Lock.tickslock,
      LockOp.acquire Lock.ltable, LockOp.release Lock.ltable, LockOp.acquire Lock.ptable,
      LockOp.release Lock.ptable], ?_, by decide⟩
    simp only [sleepLocks, hc, deref_ok s i x hx, Outcome.ok_bind]
    rw [if_pos hl, ← hx1, hs]
    rfl
  · subst h
    refine ⟨[LockOp.acquire Lock.ltable, LockOp.release Lock.ltable, LockOp.acquire Lock.ptable,
      LockOp.release Lock.ptable], ?_, by decide⟩
    simp only [sleepLocks, hc, deref_ok s i x hx, Outcome.ok_bind]
    rw [if_pos hl, ← hx1, hs]
    rfl

/-- C25: the state `lockForked`, in which the lock holder (process 0) runs and
has a child, is reachable.  When the lock holder calls `sys_sleep`, `sleep`
acquires `ptable.lock`, releases `tickslock` and calls `schedulerLockDone(1)`,
which acquires `ptable.lock` a second time; when it calls `wait`, `sleep` is
entered with `ptable.lock` held and `schedulerLockDone(1)` acquires it again.
A call of `schedulerLockDone(1)` with no lock held, as `exit` makes it,
acquires no lock twice.  The other nested acquisitions of these paths are
`ptable.lock` inside `tickslock` and `ltable.lock` inside `ptable.lock`. -/
theorem C25_sleep_reacquires_ptable_lock :
    Reachable demoParam lockForked ∧
    lockForked.cproc = some 0 ∧ lockForked.ltable = some 0 ∧
    (lockForked.ptable[0]?).map (fun x => (x.state, x.isLock))
      = some (procstate.RUNNING, lockstate.LOCKED) ∧
    sys_sleepLocks demoParam lockForked = Outcome.ok
      [LockOp.acquire Lock.tickslock, LockOp.acquire Lock.ptable, LockOp.release Lock.tickslock,
       LockOp.acquire Lock.ltable, LockOp.release Lock.ltable, LockOp.acquire Lock.ptable,
       LockOp.release Lock.ptable] ∧
    firstReacquire []
      [LockOp.acquire Lock.tickslock, LockOp.acquire Lock.ptable, LockOp.release Lock.tickslock,
       LockOp.acquire Lock.ltable, LockOp.release Lock.ltable, LockOp.acquire Lock.ptable,
       LockOp.release Lock.ptable] = some Lock.ptable ∧
    waitLocks demoParam lockForked = Outcome.ok
      [LockOp.acquire Lock.ptable, LockOp.acquire Lock.ltable, LockOp.release Lock.ltable,
       LockOp.acquire Lock.ptable, LockOp.release Lock.ptable] ∧
    firstReacquire []
      [LockOp.acquire Lock.ptable, LockOp.acquire Lock.ltable, LockOp.release Lock.ltable,
       LockOp.acquire Lock.ptable, LockOp.release Lock.ptable] = some Lock.ptable ∧
    schedulerLockDoneLocks demoParam lockForked 1 = Outcome.ok
      [LockOp.acquire Lock.ltable, LockOp.release Lock.ltable, LockOp.acquire Lock.ptable,
       LockOp.release Lock.ptable] ∧
    firstReacquire []
      [LockOp.acquire Lock.ltable, LockOp.release Lock.ltable, LockOp.acquire Lock.ptable,
       LockOp.release Lock.ptable] = none ∧
    nestings []
      [LockOp.acquire Lock.tickslock, LockOp.acquire Lock.ptable, LockOp.release Lock.tickslock,
       LockOp.acquire Lock.ltable, LockOp.release Lock.ltable, LockOp.acquire Lock.ptable,
       LockOp.release Lock.ptable]
      = [(Lock.tickslock, Lock.ptable), (Lock.ptable, Lock.ltable), (Lock.ptable, Lock.ptable)] :=
  ⟨runTrace_reachable demoParam
      [Action.pass 4, Action.locks 2023 4, Action.pass 4, Action.forks] afterInit lockForked
      (Reachable.init _ (by decide)) (by decide),
    by decide, by decide, by decide, by decide, by decide, by decide, by decide, by decide,
    by decide, by decide⟩

/-- C26: on a lowest level that is not empty, with its counter within
`0 .. NPROC` and valid, non-null entries, and with `MAXPRIORITY > 0`, the
priority scan chooses index 0 whatever the priorities and arrival times, so
`MLFQfirstProc(BOTTOM)` and `MLFQdequeue(BOTTOM)` compute what the branch for
the other levels computes on that level: the same returned process and the
same resulting state; and they return the entry at index 0. -/
theorem C26_bottom_dequeue_is_head_dequeue (c : Param) (s : Kernel) (hlay : s.Layout c)
    (hok : s.levelOk c BOTTOM) (hne : (s.level BOTTOM).rear ≠ 0) (hprio : 0 < c.MAXPRIORITY) :
    scanPrior c s 0 (-1) c.MAXPRIORITY.toNat = Outcome.ok 0 ∧
    MLFQfirstProc c s BOTTOM = headFirstProc s BOTTOM ∧
    MLFQdequeue c s BOTTOM = headDequeue s BOTTOM ∧
    ∃ i t, (s.level BOTTOM).procsQueue[0]? = some (some i) ∧
      MLFQfirstProc c s BOTTOM = Outcome.ok (some i) ∧
      MLFQdequeue c s BOTTOM = Outcome.ok (some i, t) ∧
      (t.level BOTTOM).entries = (s.level BOTTOM).entries.tail := by
  obtain ⟨R, hR, hRle, hlen, hva⟩ :=
    levelOk_valid_at (L := BOTTOM) hlay (by decide) (by decide) hok
  have hpos : 0 < R := by
    rcases Nat.eq_zero_or_pos R with h | h
    · subst h
      exact absurd (by rw [hR]; rfl) hne
    · exact h
  have hscan := scanPrior_zero c s R hR hpos hprio hva
  have h1 : ¬ (BOTTOM < 0 ∨ BOTTOM ≥ MAXQLEVEL) := by decide
  have h2 : ¬ (BOTTOM < MAXQLEVEL - 1) := by decide
  have hF : MLFQfirstProc c s BOTTOM = headFirstProc s BOTTOM := by
    simp only [MLFQfirstProc, headFirstProc, h1, if_false, hne, h2, hscan, Outcome.ok_bind]
  have hD : MLFQdequeue c s BOTTOM = headDequeue s BOTTOM := by
    simp only [MLFQdequeue, headDequeue, h1, if_false, hne, h2, hscan, Outcome.ok_bind, sub_zero]
  refine ⟨hscan, hF, hD, ?_⟩
  obtain ⟨i, x, hi, hx⟩ := hva 0 hpos
  obtain ⟨e, he, hdq⟩ := MLFQdequeue_front c s BOTTOM R hlay (by decide) (by decide) hR hpos
    hRle hprio hok.2.2
  rw [hi] at he
  simp only [Option.some.injEq] at he
  subst he
  refine ⟨i, _, hi, ?_, hdq, ?_⟩
  · rw [hF]
    simp only [headFirstProc, h1, if_false, hne]
    exact rdQ_ok _ 0 _ hi
  · have hql : BOTTOM.toNat < s.qtable.length := by rw [hlay.2.1]; decide
    rw [level_setLevel_same _ _ _ hql]
    have hcast : ((R : Int) - 1).toNat = R - 1 := by omega
    simp only [mlfQueue.entries, hcast, hR, Int.toNat_ofNat]
    rw [closeGap_take _ 0 R hpos (by rw [hlen]; exact hRle)]
    simp

/-- C26 at a concrete state: in `bottomPair` the entry at index 1 arrived
before the entry at index 0, with the same priority. -/
theorem C26_bottom_dequeue_is_head_dequeue_witness :
    (bottomPair.level BOTTOM).entries = [some 0, some 1] ∧
    scanPrior demoParam bottomPair 0 (-1) demoParam.MAXPRIORITY.toNat = Outcome.ok 0 ∧
    MLFQfirstProc demoParam bottomPair BOTTOM = headFirstProc bottomPair BOTTOM ∧
    MLFQdequeue demoParam bottomPair BOTTOM = headDequeue bottomPair BOTTOM :=
  have h := C26_bottom_dequeue_is_head_dequeue demoParam bottomPair (by decide) (by decide)
    (by decide) (by decide)
  ⟨by decide, h.1, h.2.1, h.2.2.1⟩

/-- What `yield` does when the caller is at the head of its level: on a queue
table in order, for a RUNNING caller `i` with `isLock == UNLOCKED` that is the
entry at index 0 of the level `L = qLevel`, `yield` (up to `sched()`) makes
the caller RUNNABLE and moves it behind the other entries of `L`; the other
levels and the other process slots are unchanged. -/
theorem yield_rotates (c : Param) (s : Kernel) (i : Nat) (x : proc) (L : Int)
    (hlay : s.Layout c) (hq : s.QueueOk c) (hprio : 0 < c.MAXPRIORITY)
    (hc : s.cproc = some i) (hx : s.ptable[i]? = some x)
    (hun : x.isLock = lockstate.UNLOCKED) (hL : x.qLevel = L) (h0 : 0 ≤ L) (h3 : L < 3)
    (hhead : (s.level L).entries[0]? = some (some i)) :
    ∃ t, yield c s = Outcome.ok t ∧
      (t.level L).entries = (s.level L).entries.tail ++ [some i] ∧
      (∀ M, 0 ≤ M → M < 3 → M ≠ L → t.level M = s.level M) ∧
      t.ptable = s.ptable.set i { x with state := procstate.RUNNABLE } ∧
      t.ltable = s.ltable := by
  obtain ⟨x1, hx1⟩ : ∃ x1 : proc, x1 = { x with state := procstate.RUNNABLE } := ⟨_, rfl⟩
  have hil := getElem?_lt_of_some _ _ _ hx
  obtain ⟨hl1, hq1⟩ := inv_store hlay hq i x1
  have hlev1 : ∀ M, (s.store i x1).level M = s.level M := fun M => rfl
  have hhead1 : ((s.store i x1).level L).entries[0]? = some (some i) := by
    rw [hlev1]; exact hhead
  obtain ⟨s2, hdq, hl2, hq2, hent2, hrear2, hoth2, hpt2, hlt2, _⟩ :=
    dequeue_head c (s.store i x1) L i hl1 hq1 h0 h3 hprio hhead1
  have hx2 : s2.ptable[i]? = some x1 := by
    rw [hpt2]
    simp only [Kernel.store]
    rw [List.getElem?_set_self hil]
  have hroom : (s2.level L).rear < c.NPROC := by
    rw [hrear2, hlev1]
    have := (QueueOk_at hq h0 h3).2.1
    omega
  have hrun : x1.state = procstate.RUNNABLE := by rw [hx1]
  obtain ⟨t, hen, _, _, hent3, hoth3, hpt3, hlt3, _⟩ :=
    enqueue_tail c s2 L i x1 hl2 hq2 h0 h3 hroom hx2 hrun
  have hqL : x1.qLevel = L := by rw [hx1]; exact hL
  refine ⟨t, ?_, ?_, ?_, ?_, ?_⟩
  · simp only [yield, hc, deref_ok s i x hx, Outcome.ok_bind]
    rw [if_pos hun, ← hx1, hL, hdq]
    simp only [Outcome.ok_bind]
    rw [deref_ok s2 i x1 hx2]
    simp only [Outcome.ok_bind]
    rw [hqL, hen]
    rfl
  · rw [hent3, hent2, hlev1]
  · intro M hM0 hM3 hne
    rw [hoth3 M hM0 hM3 hne, hoth2 M hM0 hM3 hne, hlev1]
  · rw [hpt3, hpt2]
    have : ({ x1 with qLevel := L } : proc) = x1 := by rw [← hqL]
    rw [this]
    simp only [Kernel.store]
    rw [List.set_set, hx1]
  · rw [hlt3, hlt2]
    rfl

/-- C27: the state `unlockedRuns` is reachable (the lock holder, dispatched in
lock mode, forks a child and calls `schedulerUnlock` with the right password);
in it the caller, process 0, is RUNNING with `isLock = UNLOCKED` and
`qLevel = 0` and is in no level, and the RUNNABLE process 1 is alone in the
top level.  `yield` removes process 1 from the top level with
`MLFQdequeue(0)` and puts the caller there: process 1 is RUNNABLE and in no
level. -/
theorem C27_yield_drops_the_head :
    Reachable demoParam unlockedRuns ∧
    unlockedRuns.cproc = some 0 ∧
    (unlockedRuns.ptable[0]?).map (fun x => (x.state, x.isLock, x.qLevel))
      = some (procstate.RUNNING, lockstate.UNLOCKED, 0) ∧
    (unlockedRuns.level TOP).entries = [some 1] ∧
    (unlockedRuns.level MIDDLE).entries = [] ∧ (unlockedRuns.level BOTTOM).entries = [] ∧
    yield demoParam unlockedRuns = Outcome.ok yieldDropped ∧
    (yieldDropped.level TOP).entries = [some 0] ∧
    (yieldDropped.level MIDDLE).entries = [] ∧ (yieldDropped.level BOTTOM).entries = [] ∧
    (yieldDropped.ptable[0]?).map (fun x => (x.state, x.qLevel))
      = some (procstate.RUNNABLE, 0) ∧
    (yieldDropped.ptable[1]?).map (fun x => (x.state, x.killed, x.qLevel))
      = some (procstate.RUNNABLE, 0, 0) :=
  ⟨runTrace_reachable demoParam
      [Action.pass 4, Action.locks 2023 4, Action.pass 4, Action.forks, Action.unlocks 2023]
      afterInit unlockedRuns (Reachable.init _ (by decide)) (by decide),
    by decide, by decide, by decide, by decide, by decide, by decide, by decide, by decide,
    by decide, by decide, by decide⟩

/-- The rotation at a concrete state: process 0 runs at the head of the top
level of `boostSample`. -/
theorem yield_rotates_example :
    ∃ t, yield demoParam boostSample = Outcome.ok t ∧
      (t.level TOP).entries = (boostSample.level TOP).entries.tail ++ [some 0] :=
  have h := yield_rotates demoParam boostSample 0 (initP procstate.RUNNING 0 2) TOP
    (by decide) (by decide) (by decide) (by decide) (by decide) (by decide) (by decide)
    (by decide) (by decide) (by decide)
  h.imp (fun _ ht => ⟨ht.1, ht.2.1⟩)

/-! ## Failures on reachable states -/

/-- The state `nullHeadRuns` is reachable: it is the state after `starveTrace`
and one more pass of the scheduler. -/
theorem nullHeadRuns_reachable : Reachable demoParam nullHeadRuns :=
  Reachable.step _ _ nullHead_reachable
    (Step.pass _ _ 4 (by decide) (by decide) (by decide))

/-- C7: the state `initDemoted`, in which process 0 runs from the middle level
and is its only entry, is reachable (the process has used up the quantum of
the top level).  `priorityBoosting` removes the running process from the
middle level and does not put it into the top level, because `MLFQenqueue`
refuses a process that is not RUNNABLE: afterwards the process is in no level
and keeps `qLevel = 1`, and the `yield` that follows puts it back into the
middle level.  The process was in the middle level before the call and is not
in the top level after it. -/
theorem C7_boosting_drops_running :
    Reachable demoParam initDemoted ∧
    initDemoted.cproc = some 0 ∧ (initDemoted.level MIDDLE).entries = [some 0] ∧
    (initDemoted.ptable[0]?).map (fun x => (x.state, x.qLevel)) = some (procstate.RUNNING, 1) ∧
    priorityBoosting demoParam initDemoted = Outcome.ok boostedOut ∧
    (boostedOut.level TOP).entries = [] ∧ (boostedOut.level MIDDLE).entries = [] ∧
    (boostedOut.level BOTTOM).entries = [] ∧
    (boostedOut.ptable[0]?).map (fun x => (x.state, x.qLevel)) = some (procstate.RUNNING, 1) ∧
    yield demoParam boostedOut = Outcome.ok boostedBack ∧
    (boostedBack.level TOP).entries = [] ∧ (boostedBack.level MIDDLE).entries = [some 0] :=
  ⟨runTrace_reachable demoParam
      ([Action.pass 4] ++ timerTick ++ timerTick ++ timerTick ++ timerTick) afterInit
      initDemoted (Reachable.init _ (by decide)) (by decide),
    by decide, by decide, by decide, by decide, by decide, by decide, by decide, by decide,
    by decide, by decide, by decide⟩

/-- C11: the state `nullHeadRuns` is reachable; in it the lock slot is empty,
the caller (process 1) runs and is referenced exactly once in the queue table,
by the lowest level, and the top level holds a null entry at index 0.
`schedulerLock(SLPASSWORD)` does not take the lock: `MLFQdeleteByPid` searches
the top level first and `findFromQueueByPid` dereferences the null entry. -/
theorem C11_lock_dereferences_null :
    Reachable demoParam nullHeadRuns ∧
    nullHeadRuns.ltable = none ∧ nullHeadRuns.cproc = some 1 ∧
    nullHeadRuns.refs.count 1 = 1 ∧
    (nullHeadRuns.level TOP).entries = [none, some 3] ∧
    (nullHeadRuns.level MIDDLE).entries = [] ∧
    (nullHeadRuns.level BOTTOM).entries = [some 1] ∧
    schedulerLock demoParam nullHeadRuns demoParam.SLPASSWORD
      = Outcome.fault Fault.nullDeref :=
  ⟨nullHeadRuns_reachable, by decide, by decide, by decide, by decide, by decide, by decide,
    by decide⟩

/-- C12: the state `forkedTop`, in which process 0 runs from the top level and
process 1 waits behind it, is reachable.  Process 0 calls
`schedulerLock(SLPASSWORD)`: it is removed from the top level and put into the
lock slot, and calls `sched()`.  The scheduler resumes inside its loop over
the levels, which does not read the lock slot, and dispatches process 1 from
the top level: process 1 is RUNNING while the slot holds process 0, which is
RUNNABLE and not killed. -/
theorem C12_dispatch_while_slot_held :
    Reachable demoParam forkedTop ∧
    schedulerLock demoParam forkedTop demoParam.SLPASSWORD = Outcome.ok (lockTaken, true) ∧
    lockTaken.ltable = some 0 ∧
    sched demoParam 4 lockTaken = Outcome.ok lockedOut ∧
    Reachable demoParam lockedOut ∧
    lockedOut.ltable = some 0 ∧ lockedOut.cproc = some 1 ∧
    lockedOut.sctx = SchedCtx.inMlfq TOP ∧
    (lockedOut.ptable[0]?).map (fun x => (x.state, x.killed, x.isLock))
      = some (procstate.RUNNABLE, 0, lockstate.LOCKED) ∧
    (lockedOut.ptable[1]?).map (fun x => (x.state, x.pid)) = some (procstate.RUNNING, 2) :=
  ⟨runTrace_reachable demoParam [Action.pass 4, Action.forks] afterInit forkedTop
      (Reachable.init _ (by decide)) (by decide),
    by decide, by decide, by decide,
    runTrace_reachable demoParam [Action.pass 4, Action.forks, Action.locks 2023 4] afterInit
      lockedOut (Reachable.init _ (by decide)) (by decide),
    by decide, by decide, by decide, by decide, by decide⟩

/-- C18: the state `nullHeadRuns` is reachable; in it the caller (process 1,
not `initproc`) runs and is referenced exactly once in the queue table, by the
lowest level, and the top level holds a null entry at index 0.  `exit` does
not reach `sched()`: its `MLFQdeleteByPid` searches the top level first and
`findFromQueueByPid` dereferences the null entry. -/
theorem C18_exit_dereferences_null :
    Reachable demoParam nullHeadRuns ∧
    nullHeadRuns.cproc = some 1 ∧ nullHeadRuns.initproc = some 0 ∧
    nullHeadRuns.refs.count 1 = 1 ∧
    (nullHeadRuns.ptable[1]?).map (fun x => (x.state, x.isLock))
      = some (procstate.RUNNING, lockstate.UNLOCKED) ∧
    (nullHeadRuns.level TOP).entries = [none, some 3] ∧
    (nullHeadRuns.level BOTTOM).entries = [some 1] ∧
    exit demoParam nullHeadRuns = Outcome.fault Fault.nullDeref :=
  ⟨nullHeadRuns_reachable, by decide, by decide, by decide, by decide, by decide, by decide,
    by decide⟩

/-- C19: the state `lockRuns`, in which the lock slot holds the caller
(process 0, `isLock = LOCKED`) and the caller runs, is reachable.  When the
caller sleeps on `ticks` with `tickslock`, `sleep` acquires `ptable.lock`,
releases `tickslock` and calls `schedulerLockDone(1)`, which empties the slot
under `ltable.lock` and then acquires `ptable.lock`, the lock the caller
holds: the kernel stops there, before the process is reset and before
`sched()`, and nothing has been put into the top level. -/
theorem C19_sleep_by_holder_stops :
    Reachable demoParam lockRuns ∧
    lockRuns.ltable = some 0 ∧ lockRuns.cproc = some 0 ∧
    (lockRuns.ptable[0]?).map (fun x => (x.state, x.isLock))
      = some (procstate.RUNNING, lockstate.LOCKED) ∧
    (lockRuns.level TOP).rear = 0 ∧
    sleepLocks demoParam lockRuns Chan.ticksAddr Lock.tickslock = Outcome.ok
      [LockOp.acquire Lock.ptable, LockOp.release Lock.tickslock, LockOp.acquire Lock.ltable,
       LockOp.release Lock.ltable, LockOp.acquire Lock.ptable, LockOp.release Lock.ptable] ∧
    firstReacquire [Lock.tickslock]
      [LockOp.acquire Lock.ptable, LockOp.release Lock.tickslock, LockOp.acquire Lock.ltable,
       LockOp.release Lock.ltable, LockOp.acquire Lock.ptable, LockOp.release Lock.ptable]
      = some Lock.ptable ∧
    sleep demoParam lockRuns Chan.ticksAddr = Outcome.fault Fault.halt :=
  ⟨runTrace_reachable demoParam [Action.pass 4, Action.locks 2023 4, Action.pass 4] afterInit
      lockRuns (Reachable.init _ (by decide)) (by decide),
    by decide, by decide, by decide, by decide, by decide, by decide, by decide⟩

end Xv6
